import Mathlib

/-! # CCP option negotiation (src/src/ccp.cpp) and its MPPE binding (src/src/mppe.cpp)

A shallow embedding of the configure-request / ack / nak / reject handlers of
`ccp.cpp`, of `ccp_resetci`, of the reset handshake (`ccp_extcode`,
`ccp_reset_request`, `ccp_rack_timeout`) and of the MPPE state they initialise.

Conventions of the embedding

* A `std::vector<uint8_t>` is a `List Nat` (one element per byte).
* `pkt[i]` on a vector is not bounds checked in C++.  A read below the size
  yields the stored byte; what a read at or past the size yields is not fixed by
  the language, so it is the parameter `oob : Nat → Option Nat` of every function
  that reads a packet: `oob i = none` means the access traps, `oob i = some b`
  means it yields the byte `b`.  A write at or past the size has no result.
  Every handler therefore returns an `Option`; `none` is "no defined result".
* `size_t` arithmetic is on `Nat` with the wrap at `2^64` written out.
* `ccp.h` and `mppe.h` are not under `src/`.  The option type codes and lengths
  come from the wire-format section of the specification; the bodies of the
  function-like helpers (`DEFLATE_MAKE_OPT`, `MPPE_CI_TO_OPTS`, ...) are the
  fields of the parameter `H : CcpHeader`.
* `lcp_close(pcb, msg)` is recorded by appending `msg` to `PppPcb.lcp_closed`.
* `fsm_send_data2(pcb, f, code, id, data)` (`fsm.cpp`, not under `src/`) is
  recorded by appending `(code, id, data)` to `PppPcb.fsm_sent`.  Where the
  source tests what `fsm_send_data2` or `lcp_close` returns, that value is a
  parameter of the embedded function.
-/

/-! ## Data model -/

/-- MPPE option flags; the field names are the ones `ccp.cpp` reads and writes
(`mppe.opt_40`, `mppe.opt_128`, `mppe.opt_56`, `mppe.opt_mppc`, `mppe.opt_d`,
`mppe.stateful`, `mppe.unknown`). -/
structure MppeOptions where
  opt_40 : Bool := false
  opt_128 : Bool := false
  opt_56 : Bool := false
  opt_mppc : Bool := false
  opt_d : Bool := false
  stateful : Bool := false
  unknown : Bool := false
deriving DecidableEq, Repr

/-- The option set `CcpOptions` as `ccp.cpp` uses it. -/
structure CcpOptions where
  deflate : Bool := false
  deflate_correct : Bool := false
  deflate_draft : Bool := false
  bsd_compress : Bool := false
  predictor_1 : Bool := false
  predictor_2 : Bool := false
  deflate_size : Int := 0
  bsd_bits : Int := 0
  mppe : MppeOptions := {}
  method : Nat := 0
deriving DecidableEq, Repr

/-- Modelled from the spec: `ccp.h` is not under `src/`; type code of the MPPE
option (wire format: "MPPE (type=18, length=6)"). -/
def CI_MPPE : Nat := 18
/-- Modelled from the spec: type code of the Deflate-RFC option (type=26). -/
def CI_DEFLATE : Nat := 26
/-- Modelled from the spec: type code of the Deflate-draft option (type=21). -/
def CI_DEFLATE_DRAFT : Nat := 21
/-- Modelled from the spec: type code of the BSD-Compress option (type=17). -/
def CI_BSD_COMPRESS : Nat := 17
/-- Modelled from the spec: type code of the Predictor-1 option (type=23). -/
def CI_PREDICTOR_1 : Nat := 23
/-- Modelled from the spec: type code of the Predictor-2 option (type=24). -/
def CI_PREDICTOR_2 : Nat := 24
/-- Modelled from the spec: length of the MPPE option record (6). -/
def CILEN_MPPE : Nat := 6
/-- Modelled from the spec: length of either Deflate option record (4). -/
def CILEN_DEFLATE : Nat := 4
/-- Modelled from the spec: length of the BSD-Compress option record (3). -/
def CILEN_BSD_COMPRESS : Nat := 3
/-- Modelled from the spec: length of the Predictor-1 option record (2). -/
def CILEN_PREDICTOR_1 : Nat := 2
/-- Modelled from the spec: length of the Predictor-2 option record (2). -/
def CILEN_PREDICTOR_2 : Nat := 2

/-- The function-like helpers and constants of `ccp.h` / `mppe.h` / `auth.h`
whose bodies are not under `src/`.  The handlers are embedded over an arbitrary
`H`; the values are `int` expressions in C, hence `Int`; the flag masks are
`Nat`. -/
structure CcpHeader where
  DEFLATE_MAKE_OPT : Int → Int
  DEFLATE_SIZE : Nat → Int
  DEFLATE_METHOD : Nat → Int
  DEFLATE_METHOD_VAL : Int
  DEFLATE_CHK_SEQUENCE : Int
  DEFLATE_MIN_WORKS : Int
  BSD_MAKE_OPT : Int → Int → Int
  BSD_VERSION : Nat → Int
  BSD_NBITS : Nat → Int
  BSD_CURRENT_VERSION : Int
  BSD_MIN_BITS : Int
  MPPE_PAD : Int
  mppe_has_options : MppeOptions → Bool
  mppe_clear_options : MppeOptions → MppeOptions
  mppe_opts_to_ci : MppeOptions → Nat × Nat × Nat × Nat
  MPPE_CI_TO_OPTS : Nat → Nat → Nat → Nat → MppeOptions
  RESET_ACK_PENDING : Nat
  REPEAT_RESET_REQ : Nat
  CCP_RESETREQ : Int
  CCP_RESETACK : Int
  CHAP_MS_WITHPEER : Nat
  CHAP_MS_PEER : Nat
  CHAP_MS2_WITHPEER : Nat
  CHAP_MS2_PEER : Nat
  CHAP_MS_SHIFT : Nat

/-- The header as pppd defines it (the code base `ccp.cpp` was ported from):
`DEFLATE_MAKE_OPT(w) = ((w - 8) << 4) + 8`, `BSD_MAKE_OPT(v, n) = (v << 5) | n`
(the body `ccp_resetci` inlines as `((1) << 5) | bsd_bits`), and the MPPE
bitmap of RFC 3078: byte 0 bit `0x01` = stateless (H), byte 3 bits `0x01` = MPPC
(C), `0x10` = D, `0x20` = 40-bit (L), `0x40` = 128-bit (S), `0x80` = 56-bit (M);
the two `ccp_localstate` flags are bits 0 and 1, Reset-Request and Reset-Ack
are codes 14 and 15 (RFC 1962), and the four MS-CHAP bits of `auth_done` are
bits 8 to 11.  Used for concrete evaluations only. -/
def pppd_header : CcpHeader where
  DEFLATE_MAKE_OPT := fun w => (w - 8) * 16 + 8
  DEFLATE_SIZE := fun x => ((x / 16 + 8 : Nat) : Int)
  DEFLATE_METHOD := fun x => ((x % 16 : Nat) : Int)
  DEFLATE_METHOD_VAL := 8
  DEFLATE_CHK_SEQUENCE := 0
  DEFLATE_MIN_WORKS := 9
  BSD_MAKE_OPT := fun v n => Int.lor (v * 32) n
  BSD_VERSION := fun x => ((x / 32 : Nat) : Int)
  BSD_NBITS := fun x => ((x % 32 : Nat) : Int)
  BSD_CURRENT_VERSION := 1
  BSD_MIN_BITS := 9
  MPPE_PAD := 4
  mppe_has_options := fun o =>
    o.opt_40 || o.opt_128 || o.opt_56 || o.opt_mppc || o.opt_d || o.stateful || o.unknown
  mppe_clear_options := fun _ => {}
  mppe_opts_to_ci := fun o =>
    ((if o.stateful then 0 else 1), 0, 0,
      (if o.opt_128 then 64 else 0) + (if o.opt_40 then 32 else 0))
  MPPE_CI_TO_OPTS := fun b0 b1 b2 b3 =>
    { stateful := b0 % 2 == 0
      opt_128 := b3 / 64 % 2 == 1
      opt_40 := b3 / 32 % 2 == 1
      opt_56 := b3 / 128 % 2 == 1
      opt_d := b3 / 16 % 2 == 1
      opt_mppc := b3 % 2 == 1
      unknown := b0 / 2 != 0 || b1 != 0 || b2 != 0 || b3 / 2 % 8 != 0 }
  RESET_ACK_PENDING := 1
  REPEAT_RESET_REQ := 2
  CCP_RESETREQ := 14
  CCP_RESETACK := 15
  CHAP_MS_WITHPEER := 0x100
  CHAP_MS_PEER := 0x200
  CHAP_MS2_WITHPEER := 0x400
  CHAP_MS2_PEER := 0x800
  CHAP_MS_SHIFT := 8

/-! ## Machine-level helpers -/

/-- `a - b` on `size_t`: the difference when it does not wrap, `2^64 + a - b`
when it does. -/
def size_sub (a b : Nat) : Nat := if b ≤ a then a - b else a + 2 ^ 64 - b

/-- The value stored when an `int` is assigned to a `uint8_t`. -/
def to_u8 (x : Int) : Nat := (x % 256).toNat

/-- `pkt[i]` as a read. -/
def rd (oob : Nat → Option Nat) (pkt : List Nat) (i : Nat) : Option Nat :=
  if i < pkt.length then pkt[i]? else oob i

/-- `pkt[i] = v` as a write. -/
def wr (pkt : List Nat) (i : Nat) (v : Nat) : Option (List Nat) :=
  if i < pkt.length then some (pkt.set i v) else none

/-! ## ccp_cilen -/

/-- `ccp_cilen` (ccp.cpp 439-633) on the option set `go = pcb.ccp_gotoptions`;
`m` abbreviates `mppe_has_options(go.mppe)`.  The tree of `if`s is the
source's, branch by branch, the sums written as there. -/
def ccp_cilen (H : CcpHeader) (go : CcpOptions) : Nat :=
  let m := H.mppe_has_options go.mppe
  if go.bsd_compress then
    if go.deflate && go.deflate_correct then
      if go.deflate && go.deflate_draft then
        if go.predictor_1 then
          if go.predictor_2 then
            if m then
              0 + CILEN_BSD_COMPRESS + CILEN_DEFLATE + CILEN_DEFLATE + CILEN_PREDICTOR_1
                + CILEN_PREDICTOR_2 + CILEN_MPPE
            else
              0 + CILEN_BSD_COMPRESS + CILEN_DEFLATE + CILEN_DEFLATE + CILEN_PREDICTOR_1
                + CILEN_PREDICTOR_2 + 0
          else if m then
            0 + CILEN_BSD_COMPRESS + CILEN_DEFLATE + CILEN_DEFLATE + CILEN_PREDICTOR_1
              + 0 + CILEN_MPPE
          else
            0 + CILEN_BSD_COMPRESS + CILEN_DEFLATE + CILEN_DEFLATE + CILEN_PREDICTOR_1 + 0 + 0
        else if go.predictor_2 then
          if m then
            0 + CILEN_BSD_COMPRESS + CILEN_DEFLATE + CILEN_DEFLATE + 0 + CILEN_PREDICTOR_2
              + CILEN_MPPE
          else
            0 + CILEN_BSD_COMPRESS + CILEN_DEFLATE + CILEN_DEFLATE + 0 + CILEN_PREDICTOR_2 + 0
        else if m then
          0 + CILEN_BSD_COMPRESS + CILEN_DEFLATE + CILEN_DEFLATE + 0 + 0 + CILEN_MPPE
        else
          0 + CILEN_BSD_COMPRESS + CILEN_DEFLATE + CILEN_DEFLATE + 0 + 0 + 0
      else if go.predictor_1 then
        if go.predictor_2 then
          -- lines 478-481: the sum is the condition, CILEN_MPPE the result
          if 0 + CILEN_BSD_COMPRESS + CILEN_DEFLATE + 0 + CILEN_PREDICTOR_1 + CILEN_PREDICTOR_2
              + (if m then 1 else 0) ≠ 0 then
            CILEN_MPPE
          else
            0
        else if m then
          0 + CILEN_BSD_COMPRESS + CILEN_DEFLATE + 0 + CILEN_PREDICTOR_1 + 0 + CILEN_MPPE
        else
          0 + CILEN_BSD_COMPRESS + CILEN_DEFLATE + 0 + CILEN_PREDICTOR_1 + 0 + 0
      else if go.predictor_2 then
        if m then
          0 + CILEN_BSD_COMPRESS + CILEN_DEFLATE + 0 + 0 + CILEN_PREDICTOR_2 + CILEN_MPPE
        else
          0 + CILEN_BSD_COMPRESS + CILEN_DEFLATE + 0 + 0 + CILEN_PREDICTOR_2 + 0
      else if m then
        0 + CILEN_BSD_COMPRESS + CILEN_DEFLATE + 0 + 0 + 0 + CILEN_MPPE
      else
        0 + CILEN_BSD_COMPRESS + CILEN_DEFLATE + 0 + 0 + 0 + 0
    else if go.deflate && go.deflate_draft then
      if go.predictor_1 then
        if go.predictor_2 then
          if m then
            0 + CILEN_BSD_COMPRESS + 0 + CILEN_DEFLATE + CILEN_PREDICTOR_1 + CILEN_PREDICTOR_2
              + CILEN_MPPE
          else
            0 + CILEN_BSD_COMPRESS + 0 + CILEN_DEFLATE + CILEN_PREDICTOR_1 + CILEN_PREDICTOR_2 + 0
        else if m then
          0 + CILEN_BSD_COMPRESS + 0 + CILEN_DEFLATE + CILEN_PREDICTOR_1 + 0 + CILEN_MPPE
        else
          0 + CILEN_BSD_COMPRESS + 0 + CILEN_DEFLATE + CILEN_PREDICTOR_1 + 0 + 0
      else if go.predictor_2 then
        if m then
          0 + CILEN_BSD_COMPRESS + 0 + CILEN_DEFLATE + 0 + CILEN_PREDICTOR_2 + CILEN_MPPE
        else
          0 + CILEN_BSD_COMPRESS + 0 + CILEN_DEFLATE + 0 + CILEN_PREDICTOR_2 + 0
      else if m then
        0 + CILEN_BSD_COMPRESS + 0 + CILEN_DEFLATE + 0 + 0 + CILEN_MPPE
      else
        0 + CILEN_BSD_COMPRESS + 0 + CILEN_DEFLATE + 0 + 0 + 0
    else if go.predictor_1 then
      if go.predictor_2 then
        if m then
          0 + CILEN_BSD_COMPRESS + 0 + 0 + CILEN_PREDICTOR_1 + CILEN_PREDICTOR_2 + CILEN_MPPE
        else
          0 + CILEN_BSD_COMPRESS + 0 + 0 + CILEN_PREDICTOR_1 + CILEN_PREDICTOR_2 + 0
      else if m then
        0 + CILEN_BSD_COMPRESS + 0 + 0 + CILEN_PREDICTOR_1 + 0 + CILEN_MPPE
      else
        0 + CILEN_BSD_COMPRESS + 0 + 0 + CILEN_PREDICTOR_1 + 0 + 0
    else if go.predictor_2 then
      if m then
        0 + CILEN_BSD_COMPRESS + 0 + 0 + 0 + CILEN_PREDICTOR_2 + CILEN_MPPE
      else
        0 + CILEN_BSD_COMPRESS + 0 + 0 + 0 + CILEN_PREDICTOR_2 + 0
    else if m then
      0 + CILEN_BSD_COMPRESS + 0 + 0 + 0 + 0 + CILEN_MPPE
    else
      0 + CILEN_BSD_COMPRESS + 0 + 0 + 0 + 0 + 0
  else if go.deflate && go.deflate_correct then
    if go.deflate && go.deflate_draft then
      if go.predictor_1 then
        if go.predictor_2 then
          if m then
            0 + 0 + CILEN_DEFLATE + CILEN_DEFLATE + CILEN_PREDICTOR_1 + CILEN_PREDICTOR_2
              + CILEN_MPPE
          else
            0 + 0 + CILEN_DEFLATE + CILEN_DEFLATE + CILEN_PREDICTOR_1 + CILEN_PREDICTOR_2 + 0
        else if m then
          0 + 0 + CILEN_DEFLATE + CILEN_DEFLATE + CILEN_PREDICTOR_1 + 0 + CILEN_MPPE
        else
          0 + 0 + CILEN_DEFLATE + CILEN_DEFLATE + CILEN_PREDICTOR_1 + 0 + 0
      else if go.predictor_2 then
        if m then
          0 + 0 + CILEN_DEFLATE + CILEN_DEFLATE + 0 + CILEN_PREDICTOR_2 + CILEN_MPPE
        else
          0 + 0 + CILEN_DEFLATE + CILEN_DEFLATE + 0 + CILEN_PREDICTOR_2 + 0
      else if m then
        0 + 0 + CILEN_DEFLATE + CILEN_DEFLATE + 0 + 0 + CILEN_MPPE
      else
        0 + 0 + CILEN_DEFLATE + CILEN_DEFLATE + 0 + 0 + 0
    else if go.predictor_1 then
      if go.predictor_2 then
        if m then
          0 + 0 + CILEN_DEFLATE + 0 + CILEN_PREDICTOR_1 + CILEN_PREDICTOR_2 + CILEN_MPPE
        else
          0 + 0 + CILEN_DEFLATE + 0 + CILEN_PREDICTOR_1 + CILEN_PREDICTOR_2 + 0
      else if m then
        0 + 0 + CILEN_DEFLATE + 0 + CILEN_PREDICTOR_1 + 0 + CILEN_MPPE
      else
        0 + 0 + CILEN_DEFLATE + 0 + CILEN_PREDICTOR_1 + 0 + 0
    else if go.predictor_2 then
      if m then
        0 + 0 + CILEN_DEFLATE + 0 + 0 + CILEN_PREDICTOR_2 + CILEN_MPPE
      else
        0 + 0 + CILEN_DEFLATE + 0 + 0 + CILEN_PREDICTOR_2 + 0
    else if m then
      0 + 0 + CILEN_DEFLATE + 0 + 0 + 0 + CILEN_MPPE
    else
      0 + 0 + CILEN_DEFLATE + 0 + 0 + 0 + 0
  else if go.deflate && go.deflate_draft then
    if go.predictor_1 then
      if go.predictor_2 then
        if m then
          0 + 0 + 0 + CILEN_DEFLATE + CILEN_PREDICTOR_1 + CILEN_PREDICTOR_2 + CILEN_MPPE
        else
          0 + 0 + 0 + CILEN_DEFLATE + CILEN_PREDICTOR_1 + CILEN_PREDICTOR_2 + 0
      else if m then
        0 + 0 + 0 + CILEN_DEFLATE + CILEN_PREDICTOR_1 + 0 + CILEN_MPPE
      else
        0 + 0 + 0 + CILEN_DEFLATE + CILEN_PREDICTOR_1 + 0 + 0
    else if go.predictor_2 then
      if m then
        0 + 0 + 0 + CILEN_DEFLATE + 0 + CILEN_PREDICTOR_2 + CILEN_MPPE
      else
        0 + 0 + 0 + CILEN_DEFLATE + 0 + CILEN_PREDICTOR_2 + 0
    else if m then
      0 + 0 + 0 + CILEN_DEFLATE + 0 + 0 + CILEN_MPPE
    else
      0 + 0 + 0 + CILEN_DEFLATE + 0 + 0 + 0
  else if go.predictor_1 then
    if go.predictor_2 then
      if m then
        0 + 0 + 0 + 0 + CILEN_PREDICTOR_1 + CILEN_PREDICTOR_2 + CILEN_MPPE
      else
        0 + 0 + 0 + 0 + CILEN_PREDICTOR_1 + CILEN_PREDICTOR_2 + 0
    else if m then
      0 + 0 + 0 + 0 + CILEN_PREDICTOR_1 + 0 + CILEN_MPPE
    else
      0 + 0 + 0 + 0 + CILEN_PREDICTOR_1 + 0 + 0
  else if go.predictor_2 then
    if m then
      0 + 0 + 0 + 0 + 0 + CILEN_PREDICTOR_2 + CILEN_MPPE
    else
      0 + 0 + 0 + 0 + 0 + CILEN_PREDICTOR_2 + 0
  else if m then
    0 + 0 + 0 + 0 + 0 + 0 + CILEN_MPPE
  else
    0 + 0 + 0 + 0 + 0 + 0 + 0

/-- The sum the claim on `ccp_cilen` describes: the fixed length of each active
option and nothing else (written from the specification's words, to be compared
with `ccp_cilen`). -/
def cilen_sum (H : CcpHeader) (go : CcpOptions) : Nat :=
  (if H.mppe_has_options go.mppe then CILEN_MPPE else 0)
  + (if go.deflate && go.deflate_correct then CILEN_DEFLATE else 0)
  + (if go.deflate && go.deflate_draft then CILEN_DEFLATE else 0)
  + (if go.bsd_compress then CILEN_BSD_COMPRESS else 0)
  + (if go.predictor_1 then CILEN_PREDICTOR_1 else 0)
  + (if go.predictor_2 then CILEN_PREDICTOR_2 else 0)

/-! ## MPPE state (mppe.cpp) -/

/-- The cryptographic collaborators of `mppe.cpp` (`pppcrypt.h`, not under
`src/`): SHA-1 as a function of the bytes fed to it, the ARC4 context as a byte
list (`arc4_setup key` is `lwip_arc4_init` followed by `lwip_arc4_setup`,
`arc4_crypt ctx buf` returns the advanced context and the crypted buffer), and
the two `SHA1_PAD_SIZE`-byte pads. -/
structure MppeCrypto where
  sha1 : List Nat → List Nat
  arc4_setup : List Nat → List Nat
  arc4_crypt : List Nat → List Nat → List Nat × List Nat
  MPPE_SHA1_PAD1 : List Nat
  MPPE_SHA1_PAD2 : List Nat

/-- `PppMppeState`, with the fields `mppe.cpp` uses. -/
structure PppMppeState where
  arc4 : List Nat := []
  master_key : List Nat := []
  session_key : List Nat := []
  keylen : Nat := 0
  stateful : Bool := false
  discard : Bool := false
  ccount : Nat := 0
  bits : Nat := 0
  sanity_errors : Nat := 0
deriving DecidableEq, Repr

def MPPE_BIT_FLUSHED : Nat := 0x80
def MPPE_BIT_ENCRYPTED : Nat := 0x10
def MPPE_CCOUNT_SPACE : Nat := 0x1000

/-- `memcpy(dst, src, n)` on byte arrays: the first `n` bytes of `dst` become the
first `n` bytes of `src`. -/
def memcpy_into (dst src : List Nat) (n : Nat) : List Nat := src.take n ++ dst.drop n

/-- `mppe_rekey` (mppe.cpp 71-104). -/
def mppe_rekey (K : MppeCrypto) (state : PppMppeState) (initial_key : Bool) : PppMppeState :=
  let sha1_digest := K.sha1 (state.master_key.take state.keylen ++ K.MPPE_SHA1_PAD1
    ++ state.session_key.take state.keylen ++ K.MPPE_SHA1_PAD2)
  let state : PppMppeState := { state with session_key := memcpy_into state.session_key sha1_digest state.keylen }
  let state :=
    if !initial_key then
      let c := K.arc4_crypt (K.arc4_setup (sha1_digest.take state.keylen))
        (state.session_key.take state.keylen)
      { state with
        arc4 := c.1
        session_key := memcpy_into state.session_key c.2 state.keylen }
    else state
  let state :=
    if state.keylen = 8 then
      { state with session_key := ((state.session_key.set 0 0xd1).set 1 0x26).set 2 0x9e }
    else state
  { state with arc4 := K.arc4_setup (state.session_key.take state.keylen) }

/-- `mppe_init` (mppe.cpp 117-184), on the option struct `ccp.cpp` passes (the
bit tests `options & MPPE_OPT_128` etc. read the struct's flags).  The result
is `(ok, reasons, state)`.  The source's `return;` and its fall off the end
give no value; `ok` is what the callers test (`if (!mppe_init(..)) return
false;` in `ccp_addci`): false on the path that calls `lcp_close` and returns,
true at the end.  `reasons` is the `lcp_close` log. -/
def mppe_init (K : MppeCrypto) (closed : List String) (state : PppMppeState)
    (options : MppeOptions) : Bool × List String × PppMppeState :=
  let state : PppMppeState := { state with
    session_key := memcpy_into state.session_key state.master_key state.master_key.length }
  if options.opt_128 || options.opt_40 then
    let state : PppMppeState := if options.opt_128 then { state with keylen := 16 } else { state with keylen := 8 }
    let state : PppMppeState := if options.stateful then { state with stateful := true } else state
    let state : PppMppeState := mppe_rekey K state true
    let state : PppMppeState := { state with ccount := MPPE_CCOUNT_SPACE - 1 }
    (true, closed, { state with bits := MPPE_BIT_ENCRYPTED })
  else
    (false, closed ++ ["MPPE required but peer negotiation failed"], state)

/-! ## The link context -/

structure PppSettings where
  require_mppe : Bool := false
  refuse_mppe_40 : Bool := false
  refuse_mppe_128 : Bool := false
  refuse_mppe_stateful : Bool := false
deriving DecidableEq, Repr

/-- The part of `PppPcb` the CCP handlers touch.  `mtu` is what `netif_get_mtu`
returns and `netif_set_mtu` sets; `lcp_closed` is the log of `lcp_close`
reasons, oldest first; `fsm_sent` is the log of `fsm_send_data2` calls
`(code, id, data)`, oldest first. -/
structure PppPcb where
  settings : PppSettings := {}
  ccp_wantoptions : CcpOptions := {}
  ccp_gotoptions : CcpOptions := {}
  ccp_allowoptions : CcpOptions := {}
  ccp_hisoptions : CcpOptions := {}
  ccp_all_rejected : Bool := false
  ccp_localstate : Nat := 0
  mppe_comp : PppMppeState := {}
  mppe_decomp : PppMppeState := {}
  mtu : Int := 0
  lcp_closed : List String := []
  ccp_transmit_method : Nat := 0
  ccp_receive_method : Nat := 0
  auth_done : Nat := 0
  mppe_keys_set : Bool := false
  fsm_sent : List (Int × Int × List Nat) := []
deriving DecidableEq, Repr

/-- `lcp_close(pcb, msg)`. -/
def lcp_close (pcb : PppPcb) (msg : String) : PppPcb :=
  { pcb with lcp_closed := pcb.lcp_closed ++ [msg] }

/-! ## ccp_addci -/

/-- What `ccp_addci` leaves behind: its return value, the buffer, the link
context, and `len`, the final value of the local `ptr` (the offset just past
the last record written; the source no longer stores it, `*lenp = pkt - p0` is
commented out). -/
structure AddciResult where
  ok : Bool
  pkt : List Nat
  len : Nat
  pcb : PppPcb
deriving DecidableEq, Repr

/-- The Deflate block of `ccp_addci` (ccp.cpp 657-672) from offset `ptr`. -/
def addci_deflate (H : CcpHeader) (oob : Nat → Option Nat) (go : CcpOptions)
    (pkt : List Nat) (ptr : Nat) : Option (List Nat × Nat) :=
  if go.deflate then
    (if go.deflate_correct then
      (wr pkt ptr CI_DEFLATE).bind fun pkt =>
      (wr pkt (ptr + 1) CILEN_DEFLATE).bind fun pkt =>
      (wr pkt (ptr + 2) (to_u8 (H.DEFLATE_MAKE_OPT go.deflate_size))).bind fun pkt =>
      (wr pkt (ptr + 3) (to_u8 H.DEFLATE_CHK_SEQUENCE)).bind fun pkt =>
      some (pkt, ptr + CILEN_DEFLATE)
    else some (pkt, ptr)).bind fun (pkt, ptr) =>
    if go.deflate_draft then
      (wr pkt ptr CI_DEFLATE_DRAFT).bind fun pkt =>
      (wr pkt (ptr + 1) CILEN_DEFLATE).bind fun pkt =>
      (rd oob pkt (size_sub (ptr + 2) CILEN_DEFLATE)).bind fun b =>
      (wr pkt (ptr + 2) b).bind fun pkt =>
      (wr pkt (ptr + 3) (to_u8 H.DEFLATE_CHK_SEQUENCE)).bind fun pkt =>
      some (pkt, ptr + CILEN_DEFLATE)
    else some (pkt, ptr)
  else some (pkt, ptr)

/-- The BSD-Compress block of `ccp_addci` (ccp.cpp 673-678). -/
def addci_bsd (H : CcpHeader) (go : CcpOptions) (pkt : List Nat) (ptr : Nat) :
    Option (List Nat × Nat) :=
  if go.bsd_compress then
    (wr pkt (ptr + 0) CI_BSD_COMPRESS).bind fun pkt =>
    (wr pkt (ptr + 1) CILEN_BSD_COMPRESS).bind fun pkt =>
    (wr pkt (ptr + 2) (to_u8 (H.BSD_MAKE_OPT H.BSD_CURRENT_VERSION go.bsd_bits))).bind fun pkt =>
    some (pkt, ptr + CILEN_BSD_COMPRESS)
  else some (pkt, ptr)

/-- The two Predictor blocks of `ccp_addci` (ccp.cpp 681-690): the type byte
goes to `pkt[0]`, the length byte to `pkt[ptr + 1]`. -/
def addci_predictor (go : CcpOptions) (pkt : List Nat) (ptr : Nat) : Option (List Nat × Nat) :=
  (if go.predictor_1 then
    (wr pkt 0 CI_PREDICTOR_1).bind fun pkt =>
    (wr pkt (ptr + 1) CILEN_PREDICTOR_1).bind fun pkt =>
    some (pkt, ptr + CILEN_PREDICTOR_1)
  else some (pkt, ptr)).bind fun (pkt, ptr) =>
  if go.predictor_2 then
    (wr pkt 0 CI_PREDICTOR_2).bind fun pkt =>
    (wr pkt (ptr + 1) CILEN_PREDICTOR_2).bind fun pkt =>
    some (pkt, ptr + CILEN_PREDICTOR_2)
  else some (pkt, ptr)

/-- The tail of `ccp_addci` (ccp.cpp 692-696): `method` from comparing the bytes
`pkt[ptr]` and `pkt[0]`. -/
def addci_method (oob : Nat → Option Nat) (pcb : PppPcb) (pkt : List Nat) (ptr : Nat) :
    Option AddciResult :=
  (rd oob pkt ptr).bind fun a =>
  (rd oob pkt 0).bind fun b =>
  some { ok := true, pkt := pkt, len := ptr,
         pcb := { pcb with ccp_gotoptions :=
                    { pcb.ccp_gotoptions with method := if a > b then b else 0 } } }

/-- `ccp_addci` (ccp.cpp 640-697) on the buffer `pkt`. -/
def ccp_addci (H : CcpHeader) (K : MppeCrypto) (oob : Nat → Option Nat) (pcb : PppPcb)
    (pkt : List Nat) : Option AddciResult :=
  let go := pcb.ccp_gotoptions
  let ptr := 0
  (if H.mppe_has_options go.mppe then
    (wr pkt ptr CI_MPPE).bind fun pkt =>
    (wr pkt (ptr + 1) CILEN_MPPE).bind fun pkt =>
    (wr pkt 2 (H.mppe_opts_to_ci go.mppe).1).bind fun pkt =>
    (wr pkt 3 (H.mppe_opts_to_ci go.mppe).2.1).bind fun pkt =>
    (wr pkt 4 (H.mppe_opts_to_ci go.mppe).2.2.1).bind fun pkt =>
    (wr pkt 5 (H.mppe_opts_to_ci go.mppe).2.2.2).bind fun pkt =>
    let r := mppe_init K pcb.lcp_closed pcb.mppe_decomp go.mppe
    let pcb := { pcb with lcp_closed := r.2.1, mppe_decomp := r.2.2 }
    some (r.1, pcb, pkt, ptr + CILEN_MPPE)
  else some (true, pcb, pkt, ptr)).bind fun (ok, pcb, pkt, ptr) =>
  if !ok then some { ok := false, pkt := pkt, len := 0, pcb := pcb }
  else
    (addci_deflate H oob go pkt ptr).bind fun (pkt, ptr) =>
    (addci_bsd H go pkt ptr).bind fun (pkt, ptr) =>
    (addci_predictor go pkt ptr).bind fun (pkt, ptr) =>
    addci_method oob pcb pkt ptr

/-! ## Short-circuit conditions over reads -/

/-- `a || b`, the right operand evaluated only when the left one is false. -/
def por (a : Option Bool) (b : Option Bool) : Option Bool :=
  a.bind fun x => if x then some true else b

/-- `a && b`, the right operand evaluated only when the left one is true. -/
def pand (a : Option Bool) (b : Option Bool) : Option Bool :=
  a.bind fun x => if x then b else some false

/-- `pkt[i] != v` for an `int` value `v`. -/
def rd_ne (oob : Nat → Option Nat) (pkt : List Nat) (i : Nat) (v : Int) : Option Bool :=
  (rd oob pkt i).map fun b => decide ((b : Int) ≠ v)

/-- `pkt[i] == v` for an `int` value `v`. -/
def rd_eq (oob : Nat → Option Nat) (pkt : List Nat) (i : Nat) (v : Int) : Option Bool :=
  (rd oob pkt i).map fun b => decide ((b : Int) = v)

/-! ## ccp_proc_config_ack -/

/-- How a block of a handler ends: `ret r` is `return r`, `next ptr` falls
through to the next block with the cursor at `ptr`. -/
inductive AckStep where
  | ret (r : Bool)
  | next (ptr : Nat)
deriving DecidableEq, Repr

/-- The test `pkt[ptr] == pkt[0] && pkt.size() - ptr == 0` that follows the BSD
and Predictor blocks of `ccp_proc_config_ack`. -/
def ack_fast (oob : Nat → Option Nat) (pkt : List Nat) (ptr : Nat) : Option Bool :=
  (rd oob pkt ptr).bind fun a =>
  (rd oob pkt 0).bind fun b =>
  some (decide (a = b) && decide (size_sub pkt.length ptr = 0))

/-- MPPE block of `ccp_proc_config_ack` (ccp.cpp 709-720); `memcmp` over
`CILEN_MPPE` bytes is guarded by the size test. -/
def ack_mppe (H : CcpHeader) (go : CcpOptions) (pkt : List Nat) (ptr : Nat) : Option AckStep :=
  if H.mppe_has_options go.mppe then
    let c := H.mppe_opts_to_ci go.mppe
    let opt_buf := [CI_MPPE, CILEN_MPPE, c.1, c.2.1, c.2.2.1, c.2.2.2]
    if pkt.length < CILEN_MPPE || pkt.take CILEN_MPPE != opt_buf then some (.ret false)
    else if ptr + CILEN_MPPE = pkt.length then some (.ret true)
    else some (.next (ptr + CILEN_MPPE))
  else some (.next ptr)

/-- The second Deflate record of `ccp_proc_config_ack` (ccp.cpp 731-737), from
the cursor `ptr` just past the first one; the size test is
`ptr + pkt.size() < CILEN_DEFLATE`. -/
def ack_deflate_draft (H : CcpHeader) (oob : Nat → Option Nat) (go : CcpOptions)
    (pkt : List Nat) (ptr : Nat) : Option AckStep :=
  if go.deflate_correct && go.deflate_draft then
    (por (some (decide ((ptr + pkt.length) % 2 ^ 64 < CILEN_DEFLATE)))
      (por (rd_ne oob pkt (ptr + 0) CI_DEFLATE_DRAFT)
      (por (rd_ne oob pkt (ptr + 1) CILEN_DEFLATE)
      (por (rd_ne oob pkt (ptr + 2) (H.DEFLATE_MAKE_OPT go.deflate_size))
           (rd_ne oob pkt (ptr + 3) H.DEFLATE_CHK_SEQUENCE))))).bind fun bad =>
    if bad then some (.ret false) else some (.next (ptr + CILEN_DEFLATE))
  else some (.next ptr)

/-- Deflate block of `ccp_proc_config_ack` (ccp.cpp 721-738). -/
def ack_deflate (H : CcpHeader) (oob : Nat → Option Nat) (go : CcpOptions) (pkt : List Nat)
    (ptr : Nat) : Option AckStep :=
  if go.deflate then
    (por (some (decide (size_sub pkt.length ptr < CILEN_DEFLATE)))
      (por (rd_ne oob pkt (ptr + 0) (if go.deflate_correct then CI_DEFLATE else CI_DEFLATE_DRAFT))
      (por (rd_ne oob pkt (ptr + 1) CILEN_DEFLATE)
      (por (rd_ne oob pkt (ptr + 2) (H.DEFLATE_MAKE_OPT go.deflate_size))
           (rd_ne oob pkt (ptr + 3) H.DEFLATE_CHK_SEQUENCE))))).bind fun bad =>
    if bad then some (.ret false)
    else if ptr + CILEN_DEFLATE = pkt.length then some (.ret true)
    else ack_deflate_draft H oob go pkt (ptr + CILEN_DEFLATE)
  else some (.next ptr)

/-- BSD-Compress block of `ccp_proc_config_ack` (ccp.cpp 740-748); the
parameter byte is read at `pkt[2]`. -/
def ack_bsd (H : CcpHeader) (oob : Nat → Option Nat) (go : CcpOptions) (pkt : List Nat)
    (ptr : Nat) : Option AckStep :=
  if go.bsd_compress then
    (por (some (decide (size_sub pkt.length ptr < CILEN_BSD_COMPRESS)))
      (por (rd_ne oob pkt (ptr + 0) CI_BSD_COMPRESS)
      (por (rd_ne oob pkt (ptr + 1) CILEN_BSD_COMPRESS)
           (rd_ne oob pkt 2 (H.BSD_MAKE_OPT H.BSD_CURRENT_VERSION go.bsd_bits))))).bind fun bad =>
    if bad then some (.ret false)
    else
      (ack_fast oob pkt (ptr + CILEN_BSD_COMPRESS)).bind fun fast =>
      if fast then some (.ret true) else some (.next (ptr + CILEN_BSD_COMPRESS))
  else some (.next ptr)

/-- The Predictor-1 and Predictor-2 blocks of `ccp_proc_config_ack` (ccp.cpp
750-756 and 758-764) are the same statements for the option `active` with type
code `ci` and length `cilen`. -/
def ack_predictor (oob : Nat → Option Nat) (active : Bool) (ci cilen : Nat) (pkt : List Nat)
    (ptr : Nat) : Option AckStep :=
  if active then
    (por (some (decide (size_sub pkt.length ptr < cilen)))
      (por (rd_ne oob pkt (ptr + 0) ci)
           (rd_ne oob pkt (ptr + 1) cilen))).bind fun bad =>
    if bad then some (.ret false)
    else
      (ack_fast oob pkt (ptr + cilen)).bind fun fast =>
      if fast then some (.ret true) else some (.next (ptr + cilen))
  else some (.next ptr)

/-- Predictor-1 block of `ccp_proc_config_ack` (ccp.cpp 750-756). -/
def ack_predictor_1 (oob : Nat → Option Nat) (go : CcpOptions) (pkt : List Nat)
    (ptr : Nat) : Option AckStep :=
  ack_predictor oob go.predictor_1 CI_PREDICTOR_1 CILEN_PREDICTOR_1 pkt ptr

/-- Predictor-2 block of `ccp_proc_config_ack` (ccp.cpp 758-764). -/
def ack_predictor_2 (oob : Nat → Option Nat) (go : CcpOptions) (pkt : List Nat)
    (ptr : Nat) : Option AckStep :=
  ack_predictor oob go.predictor_2 CI_PREDICTOR_2 CILEN_PREDICTOR_2 pkt ptr

/-- Sequencing of blocks: a `return` ends the handler, otherwise the next block
runs from the new cursor. -/
def AckStep.andThen (s : Option AckStep) (f : Nat → Option AckStep) : Option AckStep :=
  s.bind fun
    | .ret r => some (.ret r)
    | .next ptr => f ptr

/-- `ccp_proc_config_ack` (ccp.cpp 702-772): `some r` is the value returned. -/
def ccp_proc_config_ack (H : CcpHeader) (oob : Nat → Option Nat) (go : CcpOptions)
    (pkt : List Nat) : Option Bool :=
  (AckStep.andThen (AckStep.andThen (AckStep.andThen (AckStep.andThen
      (ack_mppe H go pkt 0)
      (ack_deflate H oob go pkt))
      (ack_bsd H oob go pkt))
      (ack_predictor_1 oob go pkt))
      (ack_predictor_2 oob go pkt)).map fun
    | .ret r => r
    | .next ptr => if size_sub pkt.length ptr ≠ 0 then false else true

/-! ## ccp_nak_cfg_received -/

/-- MPPE block of `ccp_nak_cfg_received` (ccp.cpp 790-816); the cursor is not
advanced. -/
def nak_mppe (H : CcpHeader) (oob : Nat → Option Nat) (pcb : PppPcb) (pkt : List Nat) :
    Option PppPcb :=
  (pand (some (H.mppe_has_options pcb.ccp_gotoptions.mppe))
    (pand (some (decide (pkt.length ≥ CILEN_MPPE)))
    (pand (rd_eq oob pkt 0 CI_MPPE) (rd_eq oob pkt 1 CILEN_MPPE)))).bind fun c =>
  if c then
    (rd oob pkt 2).bind fun b0 =>
    (rd oob pkt 3).bind fun b1 =>
    (rd oob pkt 4).bind fun b2 =>
    (rd oob pkt 5).bind fun b3 =>
    let peer := H.MPPE_CI_TO_OPTS b0 b1 b2 b3
    let mppe := if peer.stateful && pcb.settings.refuse_mppe_stateful
      then H.mppe_clear_options peer else peer
    let pcb1 := { pcb with ccp_gotoptions := { pcb.ccp_gotoptions with mppe := mppe } }
    if !H.mppe_has_options mppe then
      some (lcp_close pcb1 "MPPE required but peer negotiation failed")
    else some pcb1
  else some pcb

/-- Deflate block of `ccp_nak_cfg_received` (ccp.cpp 818-840). -/
def nak_deflate (H : CcpHeader) (oob : Nat → Option Nat) (go : CcpOptions) (pkt : List Nat)
    (ptr : Nat) : Option (CcpOptions × Nat) :=
  (pand (some go.deflate)
    (pand (some (decide (pkt.length ≥ CILEN_DEFLATE)))
    (pand (rd_eq oob pkt (ptr + 0) (if go.deflate_correct then CI_DEFLATE else CI_DEFLATE_DRAFT))
          (rd_eq oob pkt (ptr + 1) CILEN_DEFLATE)))).bind fun c =>
  if c then
    (por ((rd oob pkt (ptr + 2)).map fun b => decide (H.DEFLATE_METHOD b ≠ H.DEFLATE_METHOD_VAL))
      (por ((rd oob pkt (ptr + 2)).map fun b => decide (H.DEFLATE_SIZE b < H.DEFLATE_MIN_WORKS))
           (rd_ne oob pkt (ptr + 3) H.DEFLATE_CHK_SEQUENCE))).bind fun bad =>
    (if bad then some { go with deflate := false }
     else (rd oob pkt (ptr + 2)).bind fun b =>
       if H.DEFLATE_SIZE b < go.deflate_size then some { go with deflate_size := H.DEFLATE_SIZE b }
       else some go).bind fun go1 =>
    (pand (some (go1.deflate_correct && go1.deflate_draft))
      (pand (some (decide (size_sub pkt.length (ptr + CILEN_DEFLATE) ≥ CILEN_DEFLATE)))
      (pand (rd_eq oob pkt (ptr + CILEN_DEFLATE + 0) CI_DEFLATE_DRAFT)
            (rd_eq oob pkt (ptr + CILEN_DEFLATE + 1) CILEN_DEFLATE)))).bind fun c2 =>
    if c2 then some (go1, ptr + CILEN_DEFLATE + CILEN_DEFLATE)
    else some (go1, ptr + CILEN_DEFLATE)
  else some (go, ptr)

/-- BSD-Compress block of `ccp_nak_cfg_received` (ccp.cpp 842-855). -/
def nak_bsd (H : CcpHeader) (oob : Nat → Option Nat) (go : CcpOptions) (pkt : List Nat)
    (ptr : Nat) : Option (CcpOptions × Nat) :=
  (pand (some go.bsd_compress)
    (pand (some (decide (size_sub pkt.length ptr ≥ CILEN_BSD_COMPRESS)))
    (pand (rd_eq oob pkt (ptr + 0) CI_BSD_COMPRESS)
          (rd_eq oob pkt (ptr + 1) CILEN_BSD_COMPRESS)))).bind fun c =>
  if c then
    (rd oob pkt (ptr + 2)).bind fun b =>
    if H.BSD_VERSION b ≠ H.BSD_CURRENT_VERSION then
      some ({ go with bsd_compress := false }, ptr + CILEN_BSD_COMPRESS)
    else if H.BSD_NBITS b < go.bsd_bits then
      some ({ go with bsd_bits := H.BSD_NBITS b }, ptr + CILEN_BSD_COMPRESS)
    else some (go, ptr + CILEN_BSD_COMPRESS)
  else some (go, ptr)

/-- `ccp_nak_cfg_received` (ccp.cpp 778-867): the value returned (always `true`)
and the link context it leaves.  `treat_as_reject` is not read by the body. -/
def ccp_nak_cfg_received (H : CcpHeader) (oob : Nat → Option Nat) (pcb : PppPcb)
    (pkt_data : List Nat) (treat_as_reject : Bool) : Option (Bool × PppPcb) :=
  let _ := treat_as_reject
  (nak_mppe H oob pcb pkt_data).bind fun pcb1 =>
  (nak_deflate H oob pcb1.ccp_gotoptions pkt_data 0).bind fun r1 =>
  (nak_bsd H oob r1.1 pkt_data r1.2).bind fun r2 =>
  some (true, { pcb1 with ccp_gotoptions := r2.1 })

/-! ## ccp_rejci -/

/-- How a block of `ccp_rejci` ends: `ret r pcb` is `return r` with the link
context as modified so far, `next pcb ptr` falls through. -/
inductive RejStep where
  | ret (r : Bool) (pcb : PppPcb)
  | next (pcb : PppPcb) (ptr : Nat)
deriving DecidableEq, Repr

/-- The guard every block of `ccp_rejci` shares: the option is still requested,
a record of `cilen` bytes fits in the rest, and its type and length bytes are
the option's. -/
def rej_guard (oob : Nat → Option Nat) (active : Bool) (pkt : List Nat) (ptr ci cilen : Nat) :
    Option Bool :=
  pand (some active)
    (pand (some (decide (size_sub pkt.length ptr ≥ cilen)))
    (pand (rd_eq oob pkt (ptr + 0) ci) (rd_eq oob pkt (ptr + 1) cilen)))

def with_go (pcb : PppPcb) (go : CcpOptions) : PppPcb := { pcb with ccp_gotoptions := go }

/-- MPPE block of `ccp_rejci` (ccp.cpp 887-893): the link is closed, the option
stays requested. -/
def rej_mppe (H : CcpHeader) (oob : Nat → Option Nat) (pcb : PppPcb) (pkt : List Nat)
    (ptr : Nat) : Option RejStep :=
  (rej_guard oob (H.mppe_has_options pcb.ccp_gotoptions.mppe) pkt ptr CI_MPPE CILEN_MPPE).bind
  fun c =>
  if c then some (.next (lcp_close pcb "MPPE required but peer refused") (ptr + CILEN_MPPE))
  else some (.next pcb ptr)

/-- Deflate-RFC block of `ccp_rejci` (ccp.cpp 894-903); the parameter bytes are
read at `pkt[2]` and `pkt[3]`. -/
def rej_deflate_correct (H : CcpHeader) (oob : Nat → Option Nat) (pcb : PppPcb)
    (pkt : List Nat) (ptr : Nat) : Option RejStep :=
  (rej_guard oob pcb.ccp_gotoptions.deflate_correct pkt ptr CI_DEFLATE CILEN_DEFLATE).bind fun c =>
  if c then
    (por (rd_ne oob pkt 2 (H.DEFLATE_MAKE_OPT pcb.ccp_gotoptions.deflate_size))
         (rd_ne oob pkt 3 H.DEFLATE_CHK_SEQUENCE)).bind fun bad =>
    if bad then some (.ret false pcb)
    else some (.next (with_go pcb { pcb.ccp_gotoptions with deflate_correct := false })
                (ptr + CILEN_DEFLATE))
  else some (.next pcb ptr)

/-- Deflate-draft block of `ccp_rejci` (ccp.cpp 904-914); the size byte is read
at `pkt[2]`, the check byte at `pkt[ptr + 3]`. -/
def rej_deflate_draft (H : CcpHeader) (oob : Nat → Option Nat) (pcb : PppPcb)
    (pkt : List Nat) (ptr : Nat) : Option RejStep :=
  (rej_guard oob pcb.ccp_gotoptions.deflate_draft pkt ptr CI_DEFLATE_DRAFT CILEN_DEFLATE).bind
  fun c =>
  if c then
    (por (rd_ne oob pkt 2 (H.DEFLATE_MAKE_OPT pcb.ccp_gotoptions.deflate_size))
         (rd_ne oob pkt (ptr + 3) H.DEFLATE_CHK_SEQUENCE)).bind fun bad =>
    if bad then some (.ret false pcb)
    else some (.next (with_go pcb { pcb.ccp_gotoptions with deflate_draft := false })
                (ptr + CILEN_DEFLATE))
  else some (.next pcb ptr)

/-- The statement of `ccp_rejci` at ccp.cpp 915-918. -/
def rej_deflate_off (pcb : PppPcb) (ptr : Nat) : Option RejStep :=
  if !pcb.ccp_gotoptions.deflate_correct && !pcb.ccp_gotoptions.deflate_draft then
    some (.next (with_go pcb { pcb.ccp_gotoptions with deflate := false }) ptr)
  else some (.next pcb ptr)

/-- BSD-Compress block of `ccp_rejci` (ccp.cpp 919-928). -/
def rej_bsd (H : CcpHeader) (oob : Nat → Option Nat) (pcb : PppPcb) (pkt : List Nat)
    (ptr : Nat) : Option RejStep :=
  (rej_guard oob pcb.ccp_gotoptions.bsd_compress pkt ptr CI_BSD_COMPRESS
    CILEN_BSD_COMPRESS).bind fun c =>
  if c then
    (rd_ne oob pkt (ptr + 2)
      (H.BSD_MAKE_OPT H.BSD_CURRENT_VERSION pcb.ccp_gotoptions.bsd_bits)).bind fun bad =>
    if bad then some (.ret false pcb)
    else some (.next (with_go pcb { pcb.ccp_gotoptions with bsd_compress := false })
                (ptr + CILEN_BSD_COMPRESS))
  else some (.next pcb ptr)

/-- Predictor-1 block of `ccp_rejci` (ccp.cpp 929-934). -/
def rej_predictor_1 (oob : Nat → Option Nat) (pcb : PppPcb) (pkt : List Nat) (ptr : Nat) :
    Option RejStep :=
  (rej_guard oob pcb.ccp_gotoptions.predictor_1 pkt ptr CI_PREDICTOR_1 CILEN_PREDICTOR_1).bind
  fun c =>
  if c then some (.next (with_go pcb { pcb.ccp_gotoptions with predictor_1 := false })
                   (ptr + CILEN_PREDICTOR_1))
  else some (.next pcb ptr)

/-- Predictor-2 block of `ccp_rejci` (ccp.cpp 935-940). -/
def rej_predictor_2 (oob : Nat → Option Nat) (pcb : PppPcb) (pkt : List Nat) (ptr : Nat) :
    Option RejStep :=
  (rej_guard oob pcb.ccp_gotoptions.predictor_2 pkt ptr CI_PREDICTOR_2 CILEN_PREDICTOR_2).bind
  fun c =>
  if c then some (.next (with_go pcb { pcb.ccp_gotoptions with predictor_2 := false })
                   (ptr + CILEN_PREDICTOR_2))
  else some (.next pcb ptr)

/-- Sequencing of the blocks of `ccp_rejci`. -/
def RejStep.andThen (s : Option RejStep) (f : PppPcb → Nat → Option RejStep) : Option RejStep :=
  s.bind fun
    | .ret r pcb => some (.ret r pcb)
    | .next pcb ptr => f pcb ptr

/-- The end of `ccp_rejci` (ccp.cpp 941-947): bytes left over make the reject
bad. -/
def rej_finish (pkt : List Nat) : RejStep → Bool × PppPcb
  | .ret r pcb => (r, pcb)
  | .next pcb ptr => if size_sub pkt.length ptr ≠ 0 then (false, pcb) else (true, pcb)

/-- `ccp_rejci` (ccp.cpp 872-948): the value returned and the link context it
leaves (the handler edits `pcb.ccp_gotoptions` in place, also on the paths that
return `false`). -/
def ccp_rejci (H : CcpHeader) (oob : Nat → Option Nat) (pcb : PppPcb) (pkt : List Nat) :
    Option (Bool × PppPcb) :=
  if pkt.isEmpty && pcb.ccp_all_rejected then some (false, pcb)
  else
    (RejStep.andThen (RejStep.andThen (RejStep.andThen (RejStep.andThen (RejStep.andThen
      (RejStep.andThen
        (rej_mppe H oob pcb pkt 0)
        (fun pcb ptr => rej_deflate_correct H oob pcb pkt ptr))
        (fun pcb ptr => rej_deflate_draft H oob pcb pkt ptr))
        (fun pcb ptr => rej_deflate_off pcb ptr))
        (fun pcb ptr => rej_bsd H oob pcb pkt ptr))
        (fun pcb ptr => rej_predictor_1 oob pcb pkt ptr))
        (fun pcb ptr => rej_predictor_2 oob pcb pkt ptr)).map (rej_finish pkt)

/-! ## ccp_proc_config_req

The body of `ccp_proc_config_req` still walks the request the way the pointer
version did (`pkt += clen; len -= clen; retp = p0; *lenp = retp - p0`) while
its signature already takes a vector.  The embedding reads `pkt` as the span of
the request not yet consumed: `buf` is the whole request buffer (edited in
place), `p` the offset of the span in it (`p0` is offset 0, so `pkt == p0` is
`p = 0`), `len` its size (`pkt.size()`, `pkt.empty()`), `retp` the offset at
which the next returned option is stored. -/

/-- `CpCodes` (fsm.h 63-79). -/
inductive CpCodes where
  | CONFREQ | CONFACK | CONFNAK | CONFREJ | TERMREQ | TERMACK | CODEREJ
deriving DecidableEq, Repr

open CpCodes

/-- `INT_MIN` for the 32-bit `int nb`. -/
def INT_MIN : Int := -(2 ^ 31)

/-- `memcpy(retp, pkt, clen)` inside one buffer: the `n` bytes at offset `src`
are stored at offset `dst`. -/
def memcpy_at (buf : List Nat) (dst src n : Nat) : List Nat :=
  buf.take dst ++ (buf.drop src).take n ++ buf.drop (dst + n)

/-- What handling one option leaves: `newret`, the link context, the buffer and
`rej_for_ci_mppe`. -/
structure ReqciOpt where
  newret : CpCodes
  pcb : PppPcb
  buf : List Nat
  rej_for_ci_mppe : Bool
deriving DecidableEq, Repr

def with_ho (pcb : PppPcb) (ho : CcpOptions) : PppPcb := { pcb with ccp_hisoptions := ho }

/-- The end of the `CI_MPPE` case (ccp.cpp 1066-1087), reached with the verdict
`newret` and the peer options `m` settled so far: the option bytes are rebuilt
from `m`; on `CONFACK` the compressor is initialised and the MTU lowered by
`MPPE_PAD`, or the verdict becomes `CONFREJ` when the MTU is 0. -/
def reqci_mppe_accept (H : CcpHeader) (K : MppeCrypto) (pcb : PppPcb) (buf : List Nat)
    (p : Nat) (newret : CpCodes) (m : MppeOptions) : Option ReqciOpt :=
  let pcb1 := with_ho pcb { pcb.ccp_hisoptions with mppe := m }
  (wr buf (p + 2) (H.mppe_opts_to_ci m).1).bind fun buf =>
  (wr buf (p + 3) (H.mppe_opts_to_ci m).2.1).bind fun buf =>
  (wr buf (p + 4) (H.mppe_opts_to_ci m).2.2.1).bind fun buf =>
  (wr buf (p + 5) (H.mppe_opts_to_ci m).2.2.2).bind fun buf =>
  if newret = CONFACK then
    let r := mppe_init K pcb1.lcp_closed pcb1.mppe_comp m
    let pcb2 : PppPcb := { pcb1 with lcp_closed := r.2.1, mppe_comp := r.2.2 }
    if pcb2.mtu ≠ 0 then
      some { newret := newret, pcb := { pcb2 with mtu := pcb2.mtu - H.MPPE_PAD }, buf := buf,
             rej_for_ci_mppe := false }
    else some { newret := CONFREJ, pcb := pcb2, buf := buf, rej_for_ci_mppe := false }
  else some { newret := newret, pcb := pcb1, buf := buf, rej_for_ci_mppe := false }

/-- The first checks of the `CI_MPPE` case (ccp.cpp 996-1007) on the decoded
peer options: unsupported bits (56-bit, MPPC, D) and unknown bits are cleared
and turn the verdict into a nak. -/
def reqci_mppe_clear (m0 : MppeOptions) : CpCodes × MppeOptions :=
  let unsupported := m0.opt_56 || m0.opt_mppc || m0.opt_d
  let m1 : MppeOptions :=
    if unsupported then { m0 with opt_56 := false, opt_mppc := false, opt_d := false } else m0
  let nr1 : CpCodes := if unsupported then CONFNAK else CONFACK
  if m1.unknown then (CONFNAK, { m1 with unknown := false }) else (nr1, m1)

/-- The state and strength checks of the `CI_MPPE` case (ccp.cpp 1009-1065)
with the verdict `newret` and the peer options `m` so far; `break` with
`CONFREJ` leaves `rej_for_ci_mppe` as it was. -/
def reqci_mppe_select (H : CcpHeader) (K : MppeCrypto) (pcb : PppPcb) (buf : List Nat)
    (p : Nat) (rfm : Bool) (newret : CpCodes) (m : MppeOptions) : Option ReqciOpt :=
  let ao := pcb.ccp_allowoptions
  let stop : ReqciOpt :=
    { newret := CONFREJ, pcb := with_ho pcb { pcb.ccp_hisoptions with mppe := m },
      buf := buf, rej_for_ci_mppe := rfm }
  if m.stateful && pcb.settings.refuse_mppe_stateful then some stop
  else if m.opt_128 && m.opt_40 then
    if ao.mppe.opt_128 then
      reqci_mppe_accept H K pcb buf p CONFNAK { m with opt_40 := false }
    else if ao.mppe.opt_40 then
      reqci_mppe_accept H K pcb buf p CONFNAK { m with opt_128 := false }
    else some stop
  else if m.opt_128 then
    if !ao.mppe.opt_128 then some stop else reqci_mppe_accept H K pcb buf p newret m
  else if m.opt_40 then
    if !ao.mppe.opt_40 then some stop else reqci_mppe_accept H K pcb buf p newret m
  else reqci_mppe_accept H K pcb buf p CONFNAK ao.mppe

/-- The `CI_MPPE` case of `ccp_proc_config_req` (ccp.cpp 990-1087). -/
def reqci_mppe (H : CcpHeader) (K : MppeCrypto) (oob : Nat → Option Nat) (pcb : PppPcb)
    (buf : List Nat) (p clen : Nat) (rfm : Bool) : Option ReqciOpt :=
  if !H.mppe_has_options pcb.ccp_allowoptions.mppe || clen != CILEN_MPPE then
    some { newret := CONFREJ, pcb := pcb, buf := buf, rej_for_ci_mppe := rfm }
  else
    (rd oob buf (p + 2)).bind fun b0 =>
    (rd oob buf (p + 3)).bind fun b1 =>
    (rd oob buf (p + 4)).bind fun b2 =>
    (rd oob buf (p + 5)).bind fun b3 =>
    reqci_mppe_select H K pcb buf p rfm (reqci_mppe_clear (H.MPPE_CI_TO_OPTS b0 b1 b2 b3)).1
      (reqci_mppe_clear (H.MPPE_CI_TO_OPTS b0 b1 b2 b3)).2

/-- The probe loop of the Deflate case (ccp.cpp 1120-1133): `ccp_test` is asked
about the option bytes; while it answers 0 the window `nb` is lowered by one.
`--nb` at `INT_MIN` has no result.  `fuel` bounds the number of rounds. -/
def reqci_deflate_probe (H : CcpHeader) (ccp_test : List Nat → Bool → Int) (dont_nak : Bool)
    (ho_deflate_size : Int) (p : Nat) :
    Nat → List Nat → CpCodes → Int → Option (List Nat × CpCodes)
  | 0, _, _, _ => none
  | fuel + 1, buf, newret, nb =>
    let res := ccp_test ((buf.drop p).take CILEN_DEFLATE) true
    if res > 0 then some (buf, newret)
    else if res < 0 || nb == H.DEFLATE_MIN_WORKS || dont_nak then
      (wr buf (p + 2) (to_u8 (H.DEFLATE_MAKE_OPT ho_deflate_size))).bind fun buf =>
      some (buf, CONFREJ)
    else if nb = INT_MIN then none
    else
      (wr buf (p + 2) (to_u8 (H.DEFLATE_MAKE_OPT (nb - 1)))).bind fun buf =>
      reqci_deflate_probe H ccp_test dont_nak ho_deflate_size p fuel buf CONFNAK (nb - 1)

/-- The `CI_DEFLATE` / `CI_DEFLATE_DRAFT` case of `ccp_proc_config_req`
(ccp.cpp 1088-1135). -/
def reqci_deflate (H : CcpHeader) (oob : Nat → Option Nat) (ccp_test : List Nat → Bool → Int)
    (dont_nak : Bool) (pcb : PppPcb) (buf : List Nat) (p clen type : Nat) (rfm : Bool) :
    Option ReqciOpt :=
  let ao := pcb.ccp_allowoptions
  if !ao.deflate || clen != CILEN_DEFLATE || (!ao.deflate_correct && type == CI_DEFLATE)
      || (!ao.deflate_draft && type == CI_DEFLATE_DRAFT) then
    some { newret := CONFREJ, pcb := pcb, buf := buf, rej_for_ci_mppe := rfm }
  else
    (rd oob buf (p + 2)).bind fun b2 =>
    let nb := H.DEFLATE_SIZE b2
    let pcb1 := with_ho pcb { pcb.ccp_hisoptions with deflate := true, deflate_size := nb }
    (por (some (decide (H.DEFLATE_METHOD b2 ≠ H.DEFLATE_METHOD_VAL)))
      (por (rd_ne oob buf (p + 3) H.DEFLATE_CHK_SEQUENCE)
           (some (decide (nb > ao.deflate_size) || decide (nb < H.DEFLATE_MIN_WORKS))))).bind
    fun bad =>
    if bad && dont_nak then
      some { newret := CONFNAK, pcb := pcb1, buf := buf, rej_for_ci_mppe := rfm }
    else
      (if bad then
        (wr buf (p + 2) (to_u8 (H.DEFLATE_MAKE_OPT ao.deflate_size))).bind fun buf =>
        (wr buf (p + 3) (to_u8 H.DEFLATE_CHK_SEQUENCE)).bind fun buf =>
        some (buf, CONFNAK)
      else some (buf, CONFACK)).bind fun s =>
      if p = 0 then
        (reqci_deflate_probe H ccp_test dont_nak nb p ((nb - INT_MIN).toNat + 1) s.1 s.2 nb).map
        fun t => { newret := t.2, pcb := pcb1, buf := t.1, rej_for_ci_mppe := rfm }
      else some { newret := s.2, pcb := pcb1, buf := s.1, rej_for_ci_mppe := rfm }

/-- The probe loop of the BSD-Compress case (ccp.cpp 1165-1181). -/
def reqci_bsd_probe (H : CcpHeader) (ccp_test : List Nat → Bool → Int) (dont_nak : Bool)
    (ho_bsd_bits : Int) (p : Nat) :
    Nat → List Nat → CpCodes → Int → Option (List Nat × CpCodes)
  | 0, _, _, _ => none
  | fuel + 1, buf, newret, nb =>
    let res := ccp_test ((buf.drop p).take CILEN_BSD_COMPRESS) true
    if res > 0 then some (buf, newret)
    else if res < 0 || nb == H.BSD_MIN_BITS || dont_nak then
      (wr buf (p + 2) (to_u8 (H.BSD_MAKE_OPT H.BSD_CURRENT_VERSION ho_bsd_bits))).bind fun buf =>
      some (buf, CONFREJ)
    else if nb = INT_MIN then none
    else
      (wr buf (p + 2) (to_u8 (H.BSD_MAKE_OPT H.BSD_CURRENT_VERSION (nb - 1)))).bind fun buf =>
      reqci_bsd_probe H ccp_test dont_nak ho_bsd_bits p fuel buf CONFNAK (nb - 1)

/-- The `CI_BSD_COMPRESS` case of `ccp_proc_config_req` (ccp.cpp 1136-1183). -/
def reqci_bsd (H : CcpHeader) (oob : Nat → Option Nat) (ccp_test : List Nat → Bool → Int)
    (dont_nak : Bool) (pcb : PppPcb) (buf : List Nat) (p clen : Nat) (rfm : Bool) :
    Option ReqciOpt :=
  let ao := pcb.ccp_allowoptions
  if !ao.bsd_compress || clen != CILEN_BSD_COMPRESS then
    some { newret := CONFREJ, pcb := pcb, buf := buf, rej_for_ci_mppe := rfm }
  else
    (rd oob buf (p + 2)).bind fun b2 =>
    let nb := H.BSD_NBITS b2
    let pcb1 := with_ho pcb { pcb.ccp_hisoptions with bsd_compress := true, bsd_bits := nb }
    let bad := decide (H.BSD_VERSION b2 ≠ H.BSD_CURRENT_VERSION) || decide (nb > ao.bsd_bits)
      || decide (nb < H.BSD_MIN_BITS)
    if bad && dont_nak then
      some { newret := CONFNAK, pcb := pcb1, buf := buf, rej_for_ci_mppe := rfm }
    else
      (if bad then
        (wr buf (p + 2) (to_u8 (H.BSD_MAKE_OPT H.BSD_CURRENT_VERSION ao.bsd_bits))).bind fun buf =>
        some (buf, CONFNAK)
      else some (buf, CONFACK)).bind fun s =>
      if p = 0 then
        (reqci_bsd_probe H ccp_test dont_nak nb p ((nb - INT_MIN).toNat + 1) s.1 s.2 nb).map
        fun t => { newret := t.2, pcb := pcb1, buf := t.1, rej_for_ci_mppe := rfm }
      else some { newret := s.2, pcb := pcb1, buf := s.1, rej_for_ci_mppe := rfm }

/-- The `CI_PREDICTOR_1` case (ccp.cpp 1184-1195). -/
def reqci_predictor_1 (ccp_test : List Nat → Bool → Int) (pcb : PppPcb) (buf : List Nat)
    (p clen : Nat) (rfm : Bool) : ReqciOpt :=
  if !pcb.ccp_allowoptions.predictor_1 || clen != CILEN_PREDICTOR_1 then
    { newret := CONFREJ, pcb := pcb, buf := buf, rej_for_ci_mppe := rfm }
  else
    let pcb1 := with_ho pcb { pcb.ccp_hisoptions with predictor_1 := true }
    if p = 0 && decide (ccp_test ((buf.drop p).take CILEN_PREDICTOR_1) true ≤ 0) then
      { newret := CONFREJ, pcb := pcb1, buf := buf, rej_for_ci_mppe := rfm }
    else { newret := CONFACK, pcb := pcb1, buf := buf, rej_for_ci_mppe := rfm }

/-- The `CI_PREDICTOR_2` case (ccp.cpp 1196-1207). -/
def reqci_predictor_2 (ccp_test : List Nat → Bool → Int) (pcb : PppPcb) (buf : List Nat)
    (p clen : Nat) (rfm : Bool) : ReqciOpt :=
  if !pcb.ccp_allowoptions.predictor_2 || clen != CILEN_PREDICTOR_2 then
    { newret := CONFREJ, pcb := pcb, buf := buf, rej_for_ci_mppe := rfm }
  else
    let pcb1 := with_ho pcb { pcb.ccp_hisoptions with predictor_2 := true }
    if p = 0 && decide (ccp_test ((buf.drop p).take CILEN_PREDICTOR_2) true ≤ 0) then
      { newret := CONFREJ, pcb := pcb1, buf := buf, rej_for_ci_mppe := rfm }
    else { newret := CONFACK, pcb := pcb1, buf := buf, rej_for_ci_mppe := rfm }

/-- The loop state of `ccp_proc_config_req`.  `verdicts` and `records` are not
variables of the source: they record, oldest first, the `newret` each option
ended with at ccp.cpp 1213 and the `clen` bytes at `pkt` at that point (the
option's record as its `case` left it), so that theorems can speak of the
per-option verdicts and records. -/
structure ReqciState where
  pcb : PppPcb
  buf : List Nat
  p : Nat
  len : Nat
  retp : Nat
  ret : CpCodes
  rej_for_ci_mppe : Bool
  verdicts : List CpCodes
  records : List (List Nat)
deriving DecidableEq, Repr

/-- One option of the request: the length check and the `switch` of
`ccp_proc_config_req` (ccp.cpp 977-1211); the result carries `clen`. -/
def reqci_option (H : CcpHeader) (K : MppeCrypto) (oob : Nat → Option Nat)
    (ccp_test : List Nat → Bool → Int) (dont_nak : Bool) (s : ReqciState) :
    Option (ReqciOpt × Nat) :=
  (por (some (decide (s.len < 2)))
    (por ((rd oob s.buf (s.p + 1)).map fun b => decide (b < 2))
         ((rd oob s.buf (s.p + 1)).map fun b => decide (b > s.len)))).bind fun bad =>
  if bad then
    some ({ newret := CONFREJ, pcb := s.pcb, buf := s.buf, rej_for_ci_mppe := s.rej_for_ci_mppe },
          s.len)
  else
    (rd oob s.buf (s.p + 0)).bind fun type =>
    (rd oob s.buf (s.p + 1)).bind fun clen =>
    (if type = CI_MPPE then reqci_mppe H K oob s.pcb s.buf s.p clen s.rej_for_ci_mppe
     else if type = CI_DEFLATE ∨ type = CI_DEFLATE_DRAFT then
       reqci_deflate H oob ccp_test dont_nak s.pcb s.buf s.p clen type s.rej_for_ci_mppe
     else if type = CI_BSD_COMPRESS then
       reqci_bsd H oob ccp_test dont_nak s.pcb s.buf s.p clen s.rej_for_ci_mppe
     else if type = CI_PREDICTOR_1 then
       some (reqci_predictor_1 ccp_test s.pcb s.buf s.p clen s.rej_for_ci_mppe)
     else if type = CI_PREDICTOR_2 then
       some (reqci_predictor_2 ccp_test s.pcb s.buf s.p clen s.rej_for_ci_mppe)
     else some { newret := CONFREJ, pcb := s.pcb, buf := s.buf,
                 rej_for_ci_mppe := s.rej_for_ci_mppe }).map fun o => (o, clen)

/-- The bookkeeping after the `switch` (ccp.cpp 1212-1228): `dont_nak` turns a
nak into a reject; an option that is not acked (and not a nak after a reject)
is returned: `retp` goes back to `p0` when the first reject follows naks, the
option is copied to `retp`; then the cursor moves on. -/
def reqci_merge (dont_nak : Bool) (s : ReqciState) (o : ReqciOpt) (clen : Nat) : ReqciState :=
  let newret := if o.newret = CONFNAK && dont_nak then CONFREJ else o.newret
  let s1 : ReqciState := { s with pcb := o.pcb, buf := o.buf, rej_for_ci_mppe := o.rej_for_ci_mppe,
                                  verdicts := s.verdicts ++ [newret]
                                  records := s.records ++ [(o.buf.drop s.p).take clen] }
  let s2 : ReqciState :=
    if !(newret = CONFACK || (newret = CONFNAK && s1.ret = CONFREJ)) then
      let retp := if newret = CONFREJ && s1.ret = CONFNAK then 0 else s1.retp
      { s1 with ret := newret
                buf := if s1.p ≠ retp then memcpy_at s1.buf retp s1.p clen else s1.buf
                retp := retp + clen }
    else s1
  { s2 with p := s2.p + clen, len := s2.len - clen }

/-- The `while` loop of `ccp_proc_config_req` (ccp.cpp 975-1229); `fuel` bounds
the number of options handled. -/
def reqci_loop (H : CcpHeader) (K : MppeCrypto) (oob : Nat → Option Nat)
    (ccp_test : List Nat → Bool → Int) (dont_nak : Bool) : Nat → ReqciState → Option ReqciState
  | 0, s => if s.len = 0 then some s else none
  | fuel + 1, s =>
    if s.len = 0 then some s
    else
      (reqci_option H K oob ccp_test dont_nak s).bind fun r =>
      reqci_loop H K oob ccp_test dont_nak fuel (reqci_merge dont_nak s r.1 r.2)

/-- What `ccp_proc_config_req` leaves: the verdict `ret`, the buffer, `*lenp`,
the link context and the per-option verdicts and records. -/
structure ReqciResult where
  ret : CpCodes
  buf : List Nat
  lenp : Nat
  pcb : PppPcb
  verdicts : List CpCodes
  records : List (List Nat)
deriving DecidableEq, Repr

/-- `ccp_proc_config_req` (ccp.cpp 955-1247) on the request `pkt`. -/
def ccp_proc_config_req (H : CcpHeader) (K : MppeCrypto) (oob : Nat → Option Nat)
    (ccp_test : List Nat → Bool → Int) (pcb : PppPcb) (pkt : List Nat) (dont_nak : Bool) :
    Option ReqciResult :=
  (if !pkt.isEmpty then rd oob pkt 0 else some 0).bind fun method =>
  let pcb0 := with_ho pcb { method := method }
  let s0 : ReqciState := { pcb := pcb0, buf := pkt, p := 0, len := pkt.length, retp := 0,
                           ret := CONFACK, rej_for_ci_mppe := true, verdicts := [],
                           records := [] }
  (reqci_loop H K oob ccp_test dont_nak pkt.length s0).bind fun s =>
  let lenp := pkt.length
  let pcb1 : PppPcb :=
    if s.ret ≠ CONFACK && (s.ret = CONFREJ && lenp = s.retp)
    then { s.pcb with ccp_all_rejected := true } else s.pcb
  let lenp1 := if s.ret ≠ CONFACK && !(s.ret = CONFREJ && lenp = s.retp) then s.retp else lenp
  let pcb2 :=
    if s.ret = CONFREJ && H.mppe_has_options pcb1.ccp_allowoptions.mppe && s.rej_for_ci_mppe
    then lcp_close pcb1 "MPPE required but peer negotiation failed" else pcb1
  some { ret := s.ret, buf := s.buf, lenp := lenp1, pcb := pcb2, verdicts := s.verdicts,
         records := s.records }

/-- The verdict the claim on `ccp_proc_config_req` describes, written from the
specification's words: reject if any option was rejected, otherwise nak if any
was nak'd, otherwise ack. -/
def worst_verdict (l : List CpCodes) : CpCodes :=
  if CONFREJ ∈ l then CONFREJ else if CONFNAK ∈ l then CONFNAK else CONFACK

/-! ## The reset handshake: ccp_extcode, ccp_reset_request, ccp_rack_timeout -/

/-- `PPP_FSM_OPENED` (fsm.h 152). -/
def PPP_FSM_OPENED : Nat := 9

/-- The fields of `Fsm` (fsm.h 86-106) the reset handshake reads and writes;
all three are `uint8_t`. -/
structure Fsm where
  state : Nat := 0
  id : Nat := 0
  reqid : Nat := 0
deriving DecidableEq, Repr

/-- `fsm_send_data2(pcb, f, code, id, data)`: the call is logged. -/
def fsm_send_data2 (pcb : PppPcb) (code id : Int) (data : List Nat) : PppPcb :=
  { pcb with fsm_sent := pcb.fsm_sent ++ [(code, id, data)] }

/-- `x & m` used as a condition, `x` a `uint8_t` flag byte. -/
def flag_set (x m : Nat) : Bool := x &&& m != 0

/-- `x &= ~m` on a `uint8_t` flag byte: the bits of the mask are cleared in the
low eight bits, which are all there is of `x`. -/
def flag_clear (x m : Nat) : Nat := x &&& (255 ^^^ (m % 256))

/-- `x |= m` on a `uint8_t` flag byte. -/
def flag_or (x m : Nat) : Nat := (x ||| m) % 256

/-- `mppe_comp_reset` (mppe.cpp 195-198). -/
def mppe_comp_reset (state : PppMppeState) : PppMppeState :=
  { state with bits := state.bits ||| MPPE_BIT_FLUSHED }

/-- `mppe_decomp_reset` (mppe.cpp 276-278): the body is empty. -/
def mppe_decomp_reset (state : PppMppeState) : PppMppeState := state

/-- `ccp_reset_comp` (ccp.cpp 51-61).  `mppe_comp_reset` is a `void` function,
so the MPPE branch has no value to hand back (`none`); the other branch
returns false. -/
def ccp_reset_comp (pcb : PppPcb) : Option Bool × PppPcb :=
  if pcb.ccp_transmit_method = CI_MPPE then
    (none, { pcb with mppe_comp := mppe_comp_reset pcb.mppe_comp })
  else (some false, pcb)

/-- `ccp_reset_decomp` (ccp.cpp 64-73); `mppe_decomp_reset` is `void` as well. -/
def ccp_reset_decomp (pcb : PppPcb) : Option Bool × PppPcb :=
  if pcb.ccp_receive_method = CI_MPPE then
    (none, { pcb with mppe_decomp := mppe_decomp_reset pcb.mppe_decomp })
  else (some true, pcb)

/-- `ccp_extcode` (ccp.cpp 174-198); `code` and `id` are `int`.  The values of
`ccp_reset_comp`, `fsm_send_data2` and `ccp_reset_decomp` are not looked at. -/
def ccp_extcode (H : CcpHeader) (pcb : PppPcb) (f : Fsm) (code id : Int) (data : List Nat) :
    Bool × PppPcb :=
  if code = H.CCP_RESETREQ then
    if f.state ≠ PPP_FSM_OPENED then (true, pcb)
    else (true, fsm_send_data2 (ccp_reset_comp pcb).2 H.CCP_RESETACK id data)
  else if code = H.CCP_RESETACK then
    if flag_set pcb.ccp_localstate H.RESET_ACK_PENDING && decide (id = (f.reqid : Int)) then
      let cleared := flag_clear pcb.ccp_localstate (H.RESET_ACK_PENDING ||| H.REPEAT_RESET_REQ)
      (true, (ccp_reset_decomp { pcb with ccp_localstate := cleared }).2)
    else (true, pcb)
  else (false, pcb)

/-- `ccp_reset_request` (ccp.cpp 1446-1474) on the flag byte it is handed by
reference, the FSM and the link context; `send_ok code id data` is what
`fsm_send_data2` returns.  The result is the return value and the three
objects as the call leaves them. -/
def ccp_reset_request (H : CcpHeader) (send_ok : Int → Int → List Nat → Bool)
    (ppp_pcb_ccp_local_state : Nat) (f : Fsm) (pcb : PppPcb) : Bool × Nat × Fsm × PppPcb :=
  if f.state ≠ PPP_FSM_OPENED then (false, ppp_pcb_ccp_local_state, f, pcb)
  else if !flag_set ppp_pcb_ccp_local_state H.RESET_ACK_PENDING then
    let id := (f.id + 1) % 256
    let f1 : Fsm := { f with id := id, reqid := id }
    let pcb1 := fsm_send_data2 pcb H.CCP_RESETREQ id []
    if !send_ok H.CCP_RESETREQ id [] then (false, ppp_pcb_ccp_local_state, f1, pcb1)
    else (true, flag_or ppp_pcb_ccp_local_state H.RESET_ACK_PENDING, f1, pcb1)
  else (true, flag_or ppp_pcb_ccp_local_state H.REPEAT_RESET_REQ, f, pcb)

/-- `ccp_rack_timeout` (ccp.cpp 1480-1491).  The source ends without a `return`,
so the embedding gives the link context only. -/
def ccp_rack_timeout (H : CcpHeader) (f : Fsm) (pcb : PppPcb) : PppPcb :=
  if f.state = PPP_FSM_OPENED && flag_set pcb.ccp_localstate H.REPEAT_RESET_REQ then
    let pcb1 := fsm_send_data2 pcb H.CCP_RESETREQ f.reqid []
    { pcb1 with ccp_localstate := flag_clear pcb1.ccp_localstate H.REPEAT_RESET_REQ }
  else { pcb with ccp_localstate := flag_clear pcb.ccp_localstate H.RESET_ACK_PENDING }

/-! ## ccp_resetci -/

/-- The `do ... while` of `ccp_resetci` (ccp.cpp 259-263) that counts the set
bits; `fuel` bounds the number of rounds. -/
def resetci_numbits : Nat → Nat → Nat → Option Nat
  | 0, _, _ => none
  | fuel + 1, auth_mschap_bits, numbits =>
    if auth_mschap_bits >>> 1 ≠ 0 then
      resetci_numbits fuel (auth_mschap_bits >>> 1) (numbits + (auth_mschap_bits &&& 1))
    else some (numbits + (auth_mschap_bits &&& 1))

/-- How a block of `ccp_resetci` ends: with a `return`, or by going on. -/
inductive ResetStep where
  | ret (r : Bool) (pcb : PppPcb)
  | next (pcb : PppPcb)
deriving DecidableEq, Repr

/-- The start of `ccp_resetci` (ccp.cpp 231-241): `require_mppe` forces the
strengths that are not refused into `want`, then `got` is a copy of `want`. -/
def resetci_force (pcb : PppPcb) : PppPcb :=
  let pcb1 : PppPcb :=
    if pcb.settings.require_mppe && (pcb.settings.refuse_mppe_40 == false) then
      { pcb with ccp_wantoptions :=
          { pcb.ccp_wantoptions with mppe := { pcb.ccp_wantoptions.mppe with opt_40 := true } } }
    else pcb
  let pcb2 : PppPcb :=
    if pcb1.settings.require_mppe && (pcb1.settings.refuse_mppe_128 == false) then
      { pcb1 with ccp_wantoptions :=
          { pcb1.ccp_wantoptions with mppe := { pcb1.ccp_wantoptions.mppe with opt_128 := true } } }
    else pcb1
  { pcb2 with ccp_gotoptions := pcb2.ccp_wantoptions, ccp_all_rejected := false }

/-- The four MS-CHAP bits of `auth_done` (ccp.cpp 254-255). -/
def mschap_mask (H : CcpHeader) : Nat :=
  H.CHAP_MS_WITHPEER ||| H.CHAP_MS_PEER ||| H.CHAP_MS2_WITHPEER ||| H.CHAP_MS2_PEER

/-- "LM auth not supported for MPPE" (ccp.cpp 288-297): after MS-CHAP (v1)
authentication in either direction a requested 40-bit strength is dropped
from `got` and from `want`. -/
def resetci_mppe_lm (H : CcpHeader) (pcb : PppPcb) : PppPcb :=
  if pcb.auth_done &&& (H.CHAP_MS_WITHPEER ||| H.CHAP_MS_PEER) != 0
      && pcb.ccp_gotoptions.mppe.opt_40 then
    { pcb with
      ccp_gotoptions :=
        { pcb.ccp_gotoptions with mppe := { pcb.ccp_gotoptions.mppe with opt_40 := false } }
      ccp_wantoptions :=
        { pcb.ccp_wantoptions with mppe := { pcb.ccp_wantoptions.mppe with opt_40 := false } } }
  else pcb

/-- The end of the MPPE block of `ccp_resetci` (ccp.cpp 288-314), after the
authentication and key checks: the LM step, then at least one strength must be
left, and every other compressor is switched off. -/
def resetci_mppe_sync (H : CcpHeader) (pcb : PppPcb) : ResetStep :=
  let pcb1 := resetci_mppe_lm H pcb
  if !(pcb1.ccp_gotoptions.mppe.opt_40 || pcb1.ccp_gotoptions.mppe.opt_128) then
    .ret false (lcp_close pcb1 "MPPE required, but both 40-bit and 128-bit disabled.")
  else
    .next { pcb1 with
      ccp_gotoptions := { pcb1.ccp_gotoptions with
        bsd_compress := false, predictor_1 := false, predictor_2 := false, deflate := false }
      ccp_allowoptions := { pcb1.ccp_allowoptions with
        bsd_compress := false, predictor_1 := false, predictor_2 := false, deflate := false,
        mppe := pcb1.ccp_gotoptions.mppe } }

/-- The MPPE block of `ccp_resetci` (ccp.cpp 242-316); `lcp_close_ret pcb msg` is
what `lcp_close` returns (it is tested at ccp.cpp 268). -/
def resetci_mppe (H : CcpHeader) (lcp_close_ret : PppPcb → String → Bool) (pcb : PppPcb) :
    Option ResetStep :=
  if H.mppe_has_options pcb.ccp_gotoptions.mppe then
    (resetci_numbits (((pcb.auth_done &&& mschap_mask H) >>> H.CHAP_MS_SHIFT) + 1)
      ((pcb.auth_done &&& mschap_mask H) >>> H.CHAP_MS_SHIFT) 0).bind fun numbits =>
    if numbits > 1 then
      if !lcp_close_ret pcb "MPPE required but not available" then
        some (.ret false (lcp_close pcb "MPPE required but not available"))
      else some (.ret true (lcp_close pcb "MPPE required but not available"))
    else if numbits = 0 then
      some (.ret false (lcp_close pcb "MPPE required, but MS-CHAP[v2] auth not performed."))
    else if !pcb.mppe_keys_set then
      some (.ret false (lcp_close pcb "MPPE required but not available"))
    else some (resetci_mppe_sync H pcb)
  else some (.next pcb)

/-- The BSD-Compress probe loop of `ccp_resetci` (ccp.cpp 328-347); `ccp_test`
is asked about the first three bytes of `opt_buf` for the receive direction. -/
def resetci_bsd_loop (H : CcpHeader) (ccp_test : List Nat → Bool → Int) :
    Nat → CcpOptions → List Nat → Option (CcpOptions × List Nat)
  | 0, _, _ => none
  | fuel + 1, go, opt_buf =>
    if go.bsd_bits < H.BSD_MIN_BITS then some ({ go with bsd_compress := false }, opt_buf)
    else
      (wr opt_buf 2 (to_u8 (Int.lor 32 go.bsd_bits))).bind fun opt_buf =>
      if ccp_test (opt_buf.take 3) false > 0 then some (go, opt_buf)
      else if ccp_test (opt_buf.take 3) false < 0 then
        some ({ go with bsd_compress := false }, opt_buf)
      else resetci_bsd_loop H ccp_test fuel { go with bsd_bits := go.bsd_bits - 1 } opt_buf

/-- The BSD-Compress block of `ccp_resetci` (ccp.cpp 324-348). -/
def resetci_bsd (H : CcpHeader) (ccp_test : List Nat → Bool → Int) (go : CcpOptions)
    (opt_buf : List Nat) : Option (CcpOptions × List Nat) :=
  if go.bsd_compress then
    (wr opt_buf 0 CI_BSD_COMPRESS).bind fun opt_buf =>
    (wr opt_buf 1 CILEN_BSD_COMPRESS).bind fun opt_buf =>
    resetci_bsd_loop H ccp_test ((go.bsd_bits - H.BSD_MIN_BITS).toNat + 2) go opt_buf
  else some (go, opt_buf)

/-- Either Deflate probe loop of `ccp_resetci` (ccp.cpp 360-379 for the RFC
code, 386-405 for the draft code): on failure `draft` says which of
`deflate_correct` / `deflate_draft` is switched off. -/
def resetci_deflate_loop (H : CcpHeader) (ccp_test : List Nat → Bool → Int) (draft : Bool) :
    Nat → CcpOptions → List Nat → Option (CcpOptions × List Nat)
  | 0, _, _ => none
  | fuel + 1, go, opt_buf =>
    if go.deflate_size < H.DEFLATE_MIN_WORKS then
      some (if draft then { go with deflate_draft := false }
            else { go with deflate_correct := false }, opt_buf)
    else
      (wr opt_buf 2 (to_u8 (H.DEFLATE_MAKE_OPT go.deflate_size))).bind fun opt_buf =>
      if ccp_test (opt_buf.take CILEN_DEFLATE) false > 0 then some (go, opt_buf)
      else if ccp_test (opt_buf.take CILEN_DEFLATE) false < 0 then
        some (if draft then { go with deflate_draft := false }
              else { go with deflate_correct := false }, opt_buf)
      else resetci_deflate_loop H ccp_test draft fuel
        { go with deflate_size := go.deflate_size - 1 } opt_buf

/-- One Deflate probe of `ccp_resetci` with its three header bytes
(ccp.cpp 355-380 and 381-406). -/
def resetci_deflate_probe (H : CcpHeader) (ccp_test : List Nat → Bool → Int) (draft : Bool)
    (go : CcpOptions) (opt_buf : List Nat) : Option (CcpOptions × List Nat) :=
  (wr opt_buf 0 (if draft then CI_DEFLATE_DRAFT else CI_DEFLATE)).bind fun opt_buf =>
  (wr opt_buf 1 CILEN_DEFLATE).bind fun opt_buf =>
  (wr opt_buf 3 (to_u8 H.DEFLATE_CHK_SEQUENCE)).bind fun opt_buf =>
  resetci_deflate_loop H ccp_test draft ((go.deflate_size - H.DEFLATE_MIN_WORKS).toNat + 2)
    go opt_buf

/-- The Deflate block of `ccp_resetci` (ccp.cpp 353-411). -/
def resetci_deflate (H : CcpHeader) (ccp_test : List Nat → Bool → Int) (go : CcpOptions)
    (opt_buf : List Nat) : Option (CcpOptions × List Nat) :=
  if go.deflate then
    (if go.deflate_correct then resetci_deflate_probe H ccp_test false go opt_buf
     else some (go, opt_buf)).bind fun r1 =>
    (if r1.1.deflate_draft then resetci_deflate_probe H ccp_test true r1.1 r1.2
     else some r1).bind fun r2 =>
    if !r2.1.deflate_correct && !r2.1.deflate_draft then
      some ({ r2.1 with deflate := false }, r2.2)
    else some r2
  else some (go, opt_buf)

/-- The two Predictor blocks of `ccp_resetci` (ccp.cpp 414-431). -/
def resetci_predictor (ccp_test : List Nat → Bool → Int) (go : CcpOptions)
    (opt_buf : List Nat) : Option (CcpOptions × List Nat) :=
  (if go.predictor_1 then
    (wr opt_buf 0 CI_PREDICTOR_1).bind fun opt_buf =>
    (wr opt_buf 1 CILEN_PREDICTOR_1).bind fun opt_buf =>
    if ccp_test (opt_buf.take CILEN_PREDICTOR_1) false ≤ 0 then
      some ({ go with predictor_1 := false }, opt_buf)
    else some (go, opt_buf)
  else some (go, opt_buf)).bind fun r1 =>
  if r1.1.predictor_2 then
    (wr r1.2 0 CI_PREDICTOR_2).bind fun opt_buf =>
    (wr opt_buf 1 CILEN_PREDICTOR_2).bind fun opt_buf =>
    if ccp_test (opt_buf.take CILEN_PREDICTOR_2) false ≤ 0 then
      some ({ r1.1 with predictor_2 := false }, opt_buf)
    else some (r1.1, opt_buf)
  else some r1

/-- What follows the MPPE block of `ccp_resetci` (ccp.cpp 318-433): the probes
of the other compressors on the scratch vector `opt_buf`, then `return true`. -/
def resetci_tail (H : CcpHeader) (ccp_test : List Nat → Bool → Int) (opt_buf : List Nat) :
    ResetStep → Option (Bool × PppPcb)
  | .ret r pcb => some (r, pcb)
  | .next pcb =>
    (resetci_bsd H ccp_test pcb.ccp_gotoptions opt_buf).bind fun r1 =>
    (resetci_deflate H ccp_test r1.1 r1.2).bind fun r2 =>
    (resetci_predictor ccp_test r2.1 r2.2).bind fun r3 =>
    some (true, { pcb with ccp_gotoptions := r3.1 })

/-- `ccp_resetci` (ccp.cpp 221-434).  `opt_buf` is declared as an empty vector
(ccp.cpp 229) and never resized. -/
def ccp_resetci (H : CcpHeader) (lcp_close_ret : PppPcb → String → Bool)
    (ccp_test : List Nat → Bool → Int) (pcb : PppPcb) : Option (Bool × PppPcb) :=
  (resetci_mppe H lcp_close_ret (resetci_force pcb)).bind (resetci_tail H ccp_test [])

/-! ## Definitions written from the specification, and concrete inputs -/

/-- The MPPE record the specification describes: type, length, 4 bitmap bytes. -/
def rec_mppe (H : CcpHeader) (go : CcpOptions) : List Nat :=
  [CI_MPPE, CILEN_MPPE, (H.mppe_opts_to_ci go.mppe).1, (H.mppe_opts_to_ci go.mppe).2.1,
    (H.mppe_opts_to_ci go.mppe).2.2.1, (H.mppe_opts_to_ci go.mppe).2.2.2]

/-- The Deflate-RFC record: type, length, `DEFLATE_MAKE_OPT(deflate_size)`,
`DEFLATE_CHK_SEQUENCE`. -/
def rec_deflate (H : CcpHeader) (go : CcpOptions) : List Nat :=
  [CI_DEFLATE, CILEN_DEFLATE, to_u8 (H.DEFLATE_MAKE_OPT go.deflate_size),
    to_u8 H.DEFLATE_CHK_SEQUENCE]

/-- The Deflate-draft record. -/
def rec_deflate_draft (H : CcpHeader) (go : CcpOptions) : List Nat :=
  [CI_DEFLATE_DRAFT, CILEN_DEFLATE, to_u8 (H.DEFLATE_MAKE_OPT go.deflate_size),
    to_u8 H.DEFLATE_CHK_SEQUENCE]

/-- The BSD-Compress record: type, length, `BSD_MAKE_OPT(version, bsd_bits)`. -/
def rec_bsd (H : CcpHeader) (go : CcpOptions) : List Nat :=
  [CI_BSD_COMPRESS, CILEN_BSD_COMPRESS, to_u8 (H.BSD_MAKE_OPT H.BSD_CURRENT_VERSION go.bsd_bits)]

def rec_predictor_1 : List Nat := [CI_PREDICTOR_1, CILEN_PREDICTOR_1]

def rec_predictor_2 : List Nat := [CI_PREDICTOR_2, CILEN_PREDICTOR_2]

/-- One record per active option, in the order the specification gives for
`add_ci`: MPPE, Deflate-RFC, Deflate-draft, BSD-Compress, Predictor-1,
Predictor-2. -/
def ci_records (H : CcpHeader) (go : CcpOptions) : List (List Nat) :=
  (if H.mppe_has_options go.mppe then [rec_mppe H go] else [])
  ++ (if go.deflate && go.deflate_correct then [rec_deflate H go] else [])
  ++ (if go.deflate && go.deflate_draft then [rec_deflate_draft H go] else [])
  ++ (if go.bsd_compress then [rec_bsd H go] else [])
  ++ (if go.predictor_1 then [rec_predictor_1] else [])
  ++ (if go.predictor_2 then [rec_predictor_2] else [])

/-- The serialization of an option set: its records with no gaps. -/
def ci_bytes (H : CcpHeader) (go : CcpOptions) : List Nat := (ci_records H go).flatten

/-- The parameter values of the Deflate and BSD-Compress records of `go` are
byte values (what `ccp_addci` stores is then what the handlers compare with). -/
def params_fit (H : CcpHeader) (go : CcpOptions) : Prop :=
  (go.deflate = true →
    0 ≤ H.DEFLATE_MAKE_OPT go.deflate_size ∧ H.DEFLATE_MAKE_OPT go.deflate_size < 256
    ∧ 0 ≤ H.DEFLATE_CHK_SEQUENCE ∧ H.DEFLATE_CHK_SEQUENCE < 256)
  ∧ (go.bsd_compress = true →
    0 ≤ H.BSD_MAKE_OPT H.BSD_CURRENT_VERSION go.bsd_bits
    ∧ H.BSD_MAKE_OPT H.BSD_CURRENT_VERSION go.bsd_bits < 256)

/-- The MPPE flags enabled in `a` are among those enabled in `b`. -/
def mppe_flags_subset (a b : MppeOptions) : Prop :=
  (a.opt_40 = true → b.opt_40 = true) ∧ (a.opt_128 = true → b.opt_128 = true)
  ∧ (a.opt_56 = true → b.opt_56 = true) ∧ (a.opt_mppc = true → b.opt_mppc = true)
  ∧ (a.opt_d = true → b.opt_d = true) ∧ (a.stateful = true → b.stateful = true)
  ∧ (a.unknown = true → b.unknown = true)

instance (a b : MppeOptions) : Decidable (mppe_flags_subset a b) := by
  unfold mppe_flags_subset; infer_instance

/-- Stand-in for the cryptographic collaborators in concrete evaluations: the
digest is the input, the cipher leaves the bytes as they are. -/
def plain_crypto : MppeCrypto where
  sha1 := id
  arc4_setup := id
  arc4_crypt := fun c b => (c, b)
  MPPE_SHA1_PAD1 := List.replicate 40 0
  MPPE_SHA1_PAD2 := List.replicate 40 0xf2

/-- The option set that reaches lines 478-481 of `ccp_cilen`: BSD-Compress,
Deflate-RFC (no draft), Predictor-1 and Predictor-2, no MPPE. -/
def go_slip : CcpOptions :=
  { bsd_compress := true, bsd_bits := 15, deflate := true, deflate_correct := true,
    deflate_size := 15, predictor_1 := true, predictor_2 := true }

/-- BSD-Compress and Predictor-1. -/
def go_bsd_p1 : CcpOptions := { bsd_compress := true, bsd_bits := 15, predictor_1 := true }

/-- Deflate-RFC and BSD-Compress. -/
def go_deflate_bsd : CcpOptions :=
  { deflate := true, deflate_correct := true, deflate_size := 15, bsd_compress := true,
    bsd_bits := 15 }

/-- Deflate-RFC, Deflate-draft and BSD-Compress. -/
def go_deflates_bsd : CcpOptions :=
  { deflate := true, deflate_correct := true, deflate_draft := true, deflate_size := 15,
    bsd_compress := true, bsd_bits := 15 }

/-- MPPE with 128-bit keys, stateless, and nothing else. -/
def go_mppe128 : CcpOptions := { mppe := { opt_128 := true } }

/-- A link context that allows Deflate-RFC up to window 15 and Predictor-1. -/
def pcb_allow_deflate_p1 : PppPcb :=
  { ccp_allowoptions := { deflate := true, deflate_correct := true, deflate_size := 15,
                          predictor_1 := true } }

/-- A request of Predictor-1, Deflate-RFC with window 16, and BSD-Compress. -/
def req_p1_deflate_bsd : List Nat := [23, 2, 26, 4, 0x88, 0, 17, 3, 47]

/-- What `ccp_proc_config_req` leaves for `req_p1_deflate_bsd` under
`pcb_allow_deflate_p1` when every probe succeeds: Predictor-1 is acked, Deflate
nak'd (window too large), BSD-Compress rejected; the response is the BSD
record alone. -/
def res_p1_deflate_bsd : ReqciResult :=
  { ret := CONFREJ, buf := [17, 3, 47, 0, 120, 0, 17, 3, 47], lenp := 3,
    pcb := { pcb_allow_deflate_p1 with
             ccp_hisoptions := { method := 23, predictor_1 := true, deflate := true,
                                 deflate_size := 16 } },
    verdicts := [CONFACK, CONFNAK, CONFREJ],
    records := [[23, 2], [26, 4, 120, 0], [17, 3, 47]] }

/-- The packet is made of a leading part of the record sequence `all`, cut
after a whole record, and holds at least the first record when there is one. -/
def leading_records (pkt : List Nat) (all : List (List Nat)) : Prop :=
  ∃ recs rest, all = recs ++ rest ∧ pkt = recs.flatten ∧ (recs = [] → rest = [])

/-- Where `ccp_proc_config_ack` stands between two blocks with its cursor at
`p`: either the bytes before `p` are exactly the records `done`, or the
second Deflate record was compared with bytes past the end of the packet and
the cursor is beyond the end by at most `slack`. -/
def ack_track (go : CcpOptions) (pkt : List Nat) (done : List (List Nat)) (slack p : Nat) :
    Prop :=
  (∃ suf, pkt = done.flatten ++ suf ∧ p = done.flatten.length)
  ∨ (go.deflate = true ∧ pkt.length < p ∧ p ≤ pkt.length + slack)

/-- What a block of `ccp_proc_config_ack` that is responsible for the records
`mine` establishes when it starts after the records `done`. -/
def ack_block_ok (go : CcpOptions) (pkt : List Nat) (done mine : List (List Nat))
    (slack : Nat) : AckStep → Prop
  | .ret false => True
  | .ret true => ∃ recs rest, mine = recs ++ rest ∧ recs ≠ [] ∧ pkt = (done ++ recs).flatten
  | .next p => ack_track go pkt (done ++ mine) slack p

/-- The option set once every serialized option has been rejected: the
compressors are off, a Deflate variant is off if it was serialized (Deflate
on), and the parameters, the MPPE flags and `method` are untouched. -/
def all_rejected_go (go : CcpOptions) : CcpOptions :=
  { go with
    deflate := false
    deflate_correct := go.deflate_correct && !go.deflate
    deflate_draft := go.deflate_draft && !go.deflate
    bsd_compress := false
    predictor_1 := false
    predictor_2 := false }

/-- Deflate-RFC, Deflate-draft and Predictor-1. -/
def go_deflates_p1 : CcpOptions :=
  { deflate := true, deflate_correct := true, deflate_draft := true, deflate_size := 15,
    predictor_1 := true }

/-- The link context whose requested options are `go`, everything else at its
default. -/
def pcb_with (go : CcpOptions) : PppPcb := { ccp_gotoptions := go }

/-- What `ccp_addci` leaves for Deflate-RFC, Deflate-draft and BSD-Compress on a
zeroed 12-byte buffer: three records in 11 bytes. -/
def res_deflates_bsd : AddciResult :=
  { ok := true, pkt := [26, 4, 120, 0, 21, 4, 120, 0, 17, 3, 47, 0], len := 11,
    pcb := pcb_with go_deflates_bsd }

/-- The flag byte, the FSM and the link context after `n` calls of
`ccp_reset_request` in a row. -/
def reset_burst (H : CcpHeader) (send_ok : Int → Int → List Nat → Bool) :
    Nat → Nat × Fsm × PppPcb → Nat × Fsm × PppPcb
  | 0, s => s
  | n + 1, s => reset_burst H send_ok n (ccp_reset_request H send_ok s.1 s.2.1 s.2.2).2

/-- An FSM in the OPENED state with current id 41 and outstanding request id 5. -/
def fsm_opened : Fsm := { state := PPP_FSM_OPENED, id := 41, reqid := 5 }

/-- An FSM in the REQSENT state (6) with outstanding request id 5. -/
def fsm_reqsent : Fsm := { state := 6, id := 41, reqid := 5 }

/-- A link context with both reset flags set and MPPE as transmit method. -/
def pcb_reset_pending : PppPcb := { ccp_localstate := 3, ccp_transmit_method := CI_MPPE }

/-- A link context that wants 128-bit MPPE and Deflate, has keys, and has
completed MS-CHAP in both directions (`auth_done` bits 8 and 9). -/
def pcb_two_mschap : PppPcb :=
  { ccp_wantoptions := { mppe := { opt_128 := true }, deflate := true, deflate_correct := true,
                         deflate_size := 15 },
    auth_done := 0x300, mppe_keys_set := true }

/-- The same link context with no MS-CHAP authentication done. -/
def pcb_no_mschap : PppPcb := { pcb_two_mschap with auth_done := 0 }

/-- The same link context with MS-CHAPv2 done in one direction (bit 10). -/
def pcb_one_mschap : PppPcb := { pcb_two_mschap with auth_done := 0x400 }

/-- The loop state of `ccp_proc_config_req` at the start of the request
18, 6, 1, 0, 0, 0x60 (an MPPE option asking for stateless mode with both the
40-bit and the 128-bit strength) when `allow` has 128-bit MPPE. -/
def reqci_state_mppe_both : ReqciState :=
  { pcb := { ccp_allowoptions := { mppe := { opt_128 := true } } },
    buf := [18, 6, 1, 0, 0, 0x60], p := 0, len := 6, retp := 0, ret := CONFACK,
    rej_for_ci_mppe := true, verdicts := [], records := [] }

/-- A link context that allows 128-bit MPPE, with MTU 1500 and a compressor
state left in stateful mode by an earlier negotiation. -/
def pcb_allow_mppe128_stateful : PppPcb :=
  { ccp_allowoptions := { mppe := { opt_128 := true } }, mtu := 1500,
    mppe_comp := { stateful := true } }

/-- The same link context with a fresh compressor state. -/
def pcb_allow_mppe128 : PppPcb :=
  { ccp_allowoptions := { mppe := { opt_128 := true } }, mtu := 1500 }

/-- Written from the specification's words (wire format: each option is
`type, length, data` and spans `length` bytes): the option records of a
request, in order.  A remainder whose length byte is missing, below 2 or
larger than what is left is one last (malformed) record.  `fuel` bounds the
number of records. -/
def split_options : Nat → List Nat → List (List Nat)
  | 0, _ => []
  | fuel + 1, l =>
    if l.isEmpty then []
    else if l.length < 2 ∨ l.getD 1 0 < 2 ∨ l.length < l.getD 1 0 then [l]
    else l.take (l.getD 1 0) :: split_options fuel (l.drop (l.getD 1 0))

/-- The option records of the request `pkt`. -/
def request_options (pkt : List Nat) : List (List Nat) := split_options pkt.length pkt

/-- Written from the specification's words: of the records, those whose
verdict is `v`, in request order. -/
def records_with (v : CpCodes) (verdicts : List CpCodes) (records : List (List Nat)) :
    List (List Nat) :=
  ((verdicts.zip records).filter fun x => decide (x.1 = v)).map Prod.snd

/-- The record `rec` is the record of the option `orig` of the request: same
length, same type and length bytes (the data bytes are what the handling of
the option left). -/
def same_frame (rec orig : List Nat) : Prop :=
  rec.length = orig.length ∧ rec.take 2 = orig.take 2

/-- The buffer `b` is `buf` with bytes changed only at the offsets from `lo`
up to, not including, `hi`. -/
def framed (buf b : List Nat) (lo hi : Nat) : Prop :=
  b.length = buf.length ∧ b.take lo = buf.take lo ∧ b.drop hi = buf.drop hi

/-- The loop invariant of `ccp_proc_config_req` on the request `pkt`: the
cursor and the response offset are in step with the buffer, the part of the
buffer not yet handled is still the request's, `ret` is the worst verdict so
far, the response built so far is the sequence of the records whose verdict
is `ret`, and the records handled so far are those of the first options of
the request. -/
def reqci_inv (pkt : List Nat) (s : ReqciState) : Prop :=
  s.p + s.len = pkt.length ∧ s.buf.length = pkt.length ∧ s.buf.drop s.p = pkt.drop s.p
  ∧ s.retp ≤ s.p ∧ s.records.length = s.verdicts.length ∧ s.ret = worst_verdict s.verdicts
  ∧ (s.ret = CONFACK → s.retp = 0)
  ∧ (s.ret ≠ CONFACK → s.buf.take s.retp = (records_with s.ret s.verdicts s.records).flatten)
  ∧ ∃ origs, request_options pkt = origs ++ request_options (pkt.drop s.p)
      ∧ List.Forall₂ same_frame s.records origs

/-! ## mppe_compress and mppe_decompress (mppe.cpp 52-65, 205-412) -/

/-- `MPPE_BITS(p)` (mppe.cpp 52-55): `p[0] & 0xf0`. -/
def MPPE_BITS (p : List Nat) : Nat := p.getD 0 0 &&& 0xf0

/-- `MPPE_CCOUNT(p)` (mppe.cpp 57-60): the expression
`((p[0] & 0x0f) << 8) + p[1]` handed back through the declared return type
`uint8_t`, hence reduced modulo 256. -/
def MPPE_CCOUNT (p : List Nat) : Nat := (((p.getD 0 0 &&& 0x0f) <<< 8) + p.getD 1 0) % 256

def MPPE_OVHD : Nat := 2
def SANITY_MAX : Nat := 1600

/-- The `LwipStatus` values `mppe.cpp` hands back; `other` stands for the
remaining codes `copy_pkt_buf` can return. -/
inductive LwipStatus where
  | STATUS_SUCCESS
  | ERR_MEM
  | ERR_BUF
  | other (code : Nat)
deriving DecidableEq, Repr

open LwipStatus

/-- What a call of `mppe_compress` leaves behind: the status, the state, and
`pb`, the packet the caller holds afterwards.  A packet is the bytes of one
buffer (`tot_len == len`, so the cipher loop runs once).  Two fields record
what happened on the way: `frame` is the copy `np` as it stands after the
header and protocol stores (lines 231-254), before the cipher pass, and
`rekeys` counts the calls of `mppe_rekey`. -/
structure MppeCompressed where
  status : LwipStatus
  state : PppMppeState
  pb : List Nat
  frame : List Nat
  rekeys : Nat
deriving DecidableEq, Repr

/-- Lines 231-235 of `mppe_compress`: the count is advanced and stored in
`pl[0]`, `pl[1]` (both `uint8_t`). -/
def mppe_compress_count (state : PppMppeState) (np : List Nat) :
    Option (PppMppeState × List Nat) :=
  let state : PppMppeState := { state with ccount := (state.ccount + 1) % MPPE_CCOUNT_SPACE }
  (wr np 0 ((state.ccount >>> 8) % 256)).bind fun np =>
  (wr np 1 (state.ccount % 256)).map fun np => (state, np)

/-- The condition of lines 237-239 of `mppe_compress`. -/
def mppe_compress_rekeys (state : PppMppeState) : Bool :=
  !state.stateful || (state.ccount &&& 0xff == 0xff) || flag_set state.bits MPPE_BIT_FLUSHED

/-- Lines 237-248 of `mppe_compress`: the rekey when due, the flag bits merged
into `pl[0]`, FLUSHED cleared in the state.  The third component is the number
of `mppe_rekey` calls. -/
def mppe_compress_flags (K : MppeCrypto) (state : PppMppeState) (np : List Nat) :
    Option (PppMppeState × List Nat × Nat) :=
  let rekey := mppe_compress_rekeys state
  let state : PppMppeState :=
    if rekey then
      let state := mppe_rekey K state false
      { state with bits := state.bits ||| MPPE_BIT_FLUSHED }
    else state
  (np[0]?).bind fun b0 =>
  (wr np 0 ((b0 ||| state.bits) % 256)).map fun np =>
    ({ state with bits := flag_clear state.bits MPPE_BIT_FLUSHED }, np, if rekey then 1 else 0)

/-- Lines 249-254 of `mppe_compress`: `pl += MPPE_OVHD`, then the protocol
(a `uint16_t`) is stored in `pl[0]`, `pl[1]`. -/
def mppe_compress_protocol (np : List Nat) (protocol : Nat) : Option (List Nat) :=
  (wr np (MPPE_OVHD + 0) ((protocol >>> 8) % 256)).bind fun np =>
  wr np (MPPE_OVHD + 1) (protocol % 256)

/-- `mppe_compress` (mppe.cpp 205-271).  The packet-buffer collaborators are
not under `src/`: `np_null` is the outcome of the test `!np` on the fresh
buffer, `copy_pkt_buf pb` is the status of `copy_pkt_buf(np, *pb)` together
with the bytes `np` holds afterwards.  The calls that make and reveal room
for the header (`pbuf_alloc`, `pbuf_remove_header`, `pbuf_add_header`) are
commented out in the source, so the header and the protocol are stored over
the first four bytes of `np`, and the cipher pass (lines 260-265) runs over
the whole of `np`.  A store past the end of `np` has no defined result. -/
def mppe_compress (K : MppeCrypto) (np_null : Bool)
    (copy_pkt_buf : List Nat → LwipStatus × List Nat) (state : PppMppeState)
    (pb : List Nat) (protocol : Nat) : Option MppeCompressed :=
  if np_null then some ⟨ERR_MEM, state, pb, [], 0⟩
  else if (copy_pkt_buf pb).1 ≠ STATUS_SUCCESS then
    some ⟨(copy_pkt_buf pb).1, state, pb, [], 0⟩
  else
    (mppe_compress_count state (copy_pkt_buf pb).2).bind fun a =>
    (mppe_compress_flags K a.1 a.2).bind fun b =>
    (mppe_compress_protocol b.2.1 protocol).map fun np =>
      let c := K.arc4_crypt b.1.arc4 np
      ⟨STATUS_SUCCESS, { b.1 with arc4 := c.1 }, c.2, np, b.2.2⟩

/-- Modelled from the spec: `copy_pkt_buf` as a plain copy ("copies first"):
it succeeds and `np` holds the bytes of the packet. -/
def plain_copy (pb : List Nat) : LwipStatus × List Nat := (STATUS_SUCCESS, pb)

/-- What a call of `mppe_decompress` leaves behind: the status, the state, the
`lcp_close` log, the packet, and two counts of what happened on the way: the
calls of `mppe_rekey` and the calls of `ccp_resetrequest`. -/
structure MppeDecompressed where
  status : LwipStatus
  state : PppMppeState
  closed : List String
  pkt : List Nat
  rekeys : Nat
  reset_requests : Nat
deriving DecidableEq, Repr

/-- The label `sanity_error` of `mppe_decompress` (mppe.cpp 402-411). -/
def mppe_sanity_error (closed : List String) (state : PppMppeState) (pkt : List Nat) :
    MppeDecompressed :=
  if state.sanity_errors ≥ SANITY_MAX then
    ⟨ERR_BUF, state, closed ++ ["Too many MPPE errors"], pkt, 0, 0⟩
  else ⟨ERR_BUF, state, closed, pkt, 0, 0⟩

/-- The test `(ccount - state->ccount) % MPPE_CCOUNT_SPACE >
MPPE_CCOUNT_SPACE / 2` (mppe.cpp 328).  `ccount` is a `uint16_t`; the field
`state->ccount` is declared in `mppe.h`, which is not under `src/`.  When the
field's type is signed or of lower rank than `int` (lwIP declares `u16_t`),
difference and remainder are computed in `int`, and the remainder has the sign
of the difference (`Int.tmod`).  When it is `unsigned int`
(`ccount_unsigned`), the difference wraps at `2^32`. -/
def ccount_late (ccount_unsigned : Bool) (ccount state_ccount : Nat) : Bool :=
  if ccount_unsigned then
    decide (((ccount + 2 ^ 32 - state_ccount % 2 ^ 32) % 2 ^ 32) % MPPE_CCOUNT_SPACE
      > MPPE_CCOUNT_SPACE / 2)
  else
    decide (Int.tmod ((ccount : Int) - (state_ccount : Int)) (MPPE_CCOUNT_SPACE : Nat)
      > ((MPPE_CCOUNT_SPACE / 2 : Nat) : Int))

/-- The loop of lines 334-337 of `mppe_decompress`, on fuel; `rekeys` counts
the calls of `mppe_rekey`. -/
def mppe_catchup (K : MppeCrypto) : Nat → PppMppeState → Nat → Nat → Option (PppMppeState × Nat)
  | 0, _, _, _ => none
  | fuel + 1, state, ccount, rekeys =>
    if state.ccount != ccount then
      mppe_catchup K fuel
        { mppe_rekey K state false with
          ccount := ((mppe_rekey K state false).ccount + 1) % MPPE_CCOUNT_SPACE }
        ccount (rekeys + 1)
    else some (state, rekeys)

/-- `x & ~0xff`. -/
def clear_low8 (x : Nat) : Nat := (x >>> 8) <<< 8

/-- The loop of lines 361-367 of `mppe_decompress`, on fuel. -/
def mppe_catchup_flag (K : MppeCrypto) :
    Nat → PppMppeState → Nat → Nat → Option (PppMppeState × Nat)
  | 0, _, _, _ => none
  | fuel + 1, state, ccount, rekeys =>
    if clear_low8 ccount != clear_low8 state.ccount then
      mppe_catchup_flag K fuel
        { mppe_rekey K state false with
          ccount := ((mppe_rekey K state false).ccount + 256) % MPPE_CCOUNT_SPACE }
        ccount (rekeys + 1)
    else some (state, rekeys)

/-- How the coherency check of `mppe_decompress` (lines 326-384) ends:
`sanity` is `goto sanity_error`, `ret` is `return ERR_BUF` (with the number of
`ccp_resetrequest` calls made), `go` falls through to the cipher pass (with
the number of rekeys). -/
inductive CountStep where
  | sanity (state : PppMppeState)
  | ret (state : PppMppeState) (reset_requests : Nat)
  | go (state : PppMppeState) (rekeys : Nat)
deriving DecidableEq, Repr

/-- Lines 326-338 of `mppe_decompress`: the stateless branch.  The fuel covers
a full turn of the count. -/
def mppe_decompress_stateless (K : MppeCrypto) (ccount_unsigned : Bool) (state : PppMppeState)
    (ccount : Nat) : Option CountStep :=
  if ccount_late ccount_unsigned ccount state.ccount then
    some (CountStep.sanity { state with sanity_errors := state.sanity_errors + 1 })
  else
    (mppe_catchup K (MPPE_CCOUNT_SPACE + 1) state ccount 0).map fun r => CountStep.go r.1 r.2

/-- Lines 340-378 of `mppe_decompress`: the stateful branch up to the final
rekey.  `ccp_resetrequest` is not defined in `src/` (`ccp.cpp` defines
`ccp_reset_request`, with other parameters); the call is counted. -/
def mppe_decompress_sync (K : MppeCrypto) (state : PppMppeState) (flushed ccount : Nat) :
    Option CountStep :=
  if !state.discard then
    let state : PppMppeState := { state with ccount := (state.ccount + 1) % MPPE_CCOUNT_SPACE }
    if ccount != state.ccount then
      some (CountStep.ret { state with discard := true } 1)
    else some (CountStep.go state 0)
  else if flushed == 0 then some (CountStep.ret state 0)
  else
    (mppe_catchup_flag K 18 state ccount 0).map fun r =>
      CountStep.go { r.1 with discard := false, ccount := ccount } r.2

/-- Lines 380-383 of `mppe_decompress`: `if (flushed) mppe_rekey(state, 0)`. -/
def mppe_decompress_flushed (K : MppeCrypto) (flushed : Nat) : CountStep → CountStep
  | CountStep.go state rekeys =>
    if flushed != 0 then CountStep.go (mppe_rekey K state false) (rekeys + 1)
    else CountStep.go state rekeys
  | s => s

/-- Lines 326-384 of `mppe_decompress`. -/
def mppe_decompress_count (K : MppeCrypto) (ccount_unsigned : Bool) (state : PppMppeState)
    (flushed ccount : Nat) : Option CountStep :=
  if !state.stateful then mppe_decompress_stateless K ccount_unsigned state ccount
  else (mppe_decompress_sync K state flushed ccount).map (mppe_decompress_flushed K flushed)

/-- Lines 386-400 of `mppe_decompress`: the cipher pass over the packet (the
call that hides the header is commented out, so the pass starts at the
header) and the good-packet credit. -/
def mppe_decompress_finish (K : MppeCrypto) (closed : List String) (state : PppMppeState)
    (pkt : List Nat) (rekeys : Nat) : MppeDecompressed :=
  let c := K.arc4_crypt state.arc4 pkt
  ⟨STATUS_SUCCESS, { state with arc4 := c.1, sanity_errors := state.sanity_errors >>> 1 },
    closed, c.2, rekeys, 0⟩

/-- The three ways out of `mppe_decompress` after the coherency check. -/
def mppe_decompress_end (K : MppeCrypto) (closed : List String) (pkt : List Nat) :
    CountStep → MppeDecompressed
  | CountStep.sanity state => mppe_sanity_error closed state pkt
  | CountStep.ret state reset_requests => ⟨ERR_BUF, state, closed, pkt, 0, reset_requests⟩
  | CountStep.go state rekeys => mppe_decompress_finish K closed state pkt rekeys

/-- `mppe_decompress` (mppe.cpp 283-412) on a packet of one buffer.  The state
is handed in by reference next to the link context; of the link context only
the `lcp_close` log `closed` is kept.  `sanity_errors` is a natural number (its
width is declared in `mppe.h`). -/
def mppe_decompress (K : MppeCrypto) (ccount_unsigned : Bool) (closed : List String)
    (state : PppMppeState) (pkt : List Nat) : Option MppeDecompressed :=
  if pkt.length < MPPE_OVHD then
    some (mppe_sanity_error closed { state with sanity_errors := state.sanity_errors + 100 } pkt)
  else
    let flushed := MPPE_BITS pkt &&& MPPE_BIT_FLUSHED
    let ccount := MPPE_CCOUNT pkt
    if MPPE_BITS pkt &&& MPPE_BIT_ENCRYPTED == 0 then
      some (mppe_sanity_error closed { state with sanity_errors := state.sanity_errors + 100 } pkt)
    else if !state.stateful && flushed == 0 then
      some (mppe_sanity_error closed { state with sanity_errors := state.sanity_errors + 100 } pkt)
    else if state.stateful && (ccount &&& 0xff == 0xff) && flushed == 0 then
      some (mppe_sanity_error closed { state with sanity_errors := state.sanity_errors + 100 } pkt)
    else
      (mppe_decompress_count K ccount_unsigned state flushed ccount).map
        (mppe_decompress_end K closed pkt)

/-- The calls of `mppe_decompress` made one after the other on the packets of
`pkts`, each on the state and the log the one before left; the results,
oldest first. -/
def decompress_feed (K : MppeCrypto) (ccount_unsigned : Bool) :
    List String → PppMppeState → List (List Nat) → Option (List MppeDecompressed)
  | _, _, [] => some []
  | closed, state, pkt :: rest =>
    (mppe_decompress K ccount_unsigned closed state pkt).bind fun r =>
    (decompress_feed K ccount_unsigned r.closed r.state rest).map fun rs => r :: rs

/-- The twelve-bit count of a header: the value of the expression
`((p[0] & 0x0f) << 8) + p[1]` before any narrowing. -/
def header_count (p : List Nat) : Nat := ((p.getD 0 0 &&& 0x0f) <<< 8) + p.getD 1 0

/-- Written from the specification's words: a well-formed packet with
coherency count `c`: the two header bytes, ENCRYPTED and FLUSHED set, then the
payload. -/
def mppe_packet (c : Nat) (payload : List Nat) : List Nat :=
  ((c >>> 8) ||| (MPPE_BIT_FLUSHED ||| MPPE_BIT_ENCRYPTED)) :: (c &&& 0xff) :: payload

/-- Stand-in cipher for concrete evaluations that changes what it crypts: every
byte is complemented. -/
def flip_crypto : MppeCrypto where
  sha1 := id
  arc4_setup := id
  arc4_crypt := fun c b => (c, b.map fun x => x ^^^ 0xff)
  MPPE_SHA1_PAD1 := List.replicate 40 0
  MPPE_SHA1_PAD2 := List.replicate 40 0xf2

/-- A compressor state for concrete evaluations: sixteen-byte keys, 40-bit
strength, stateful mode. -/
def mppe_example_state : PppMppeState :=
  { master_key := [1, 2, 3, 4, 5, 6, 7, 8, 9, 10, 11, 12, 13, 14, 15, 16]
    session_key := [21, 22, 23, 24, 25, 26, 27, 28, 29, 30, 31, 32, 33, 34, 35, 36]
    keylen := 8
    stateful := true }

/-- A freshly initialized stateless compressor state for concrete evaluations:
`mppe_init` with the 128-bit option on zeroed keys. -/
def mppe_fresh_stateless : PppMppeState :=
  (mppe_init plain_crypto []
    { master_key := List.replicate 16 0, session_key := List.replicate 16 0 }
    { opt_128 := true }).2.2

/-- The log and the state a run of `decompress_feed` ends with. -/
def feed_end : List String → PppMppeState → List MppeDecompressed → List String × PppMppeState
  | closed, state, [] => (closed, state)
  | _, _, r :: rs => feed_end r.closed r.state rs

/-! ## ccp_down and the reset handshake as a whole -/

/-- `ccp_set` (ccp.cpp 79-89): the two method bytes are stored in the link
context (the value returned is always true). -/
def ccp_set (pcb : PppPcb) (_isopen _isup : Bool) (receive_method transmit_method : Nat) :
    PppPcb :=
  { pcb with ccp_receive_method := receive_method, ccp_transmit_method := transmit_method }

/-- `ccp_down` (ccp.cpp 1371-1392).  `Untimeout` (the timer service, not under
`src/`) leaves the link context as it is; `if (go->mppe)` asks whether any
MPPE option is set, and `MPPE_OPT_NONE` is the empty option set. -/
def ccp_down (lcp_fsm : Fsm) (pcb : PppPcb) : PppPcb :=
  let pcb : PppPcb := { pcb with ccp_localstate := 0 }
  let pcb : PppPcb := ccp_set pcb true false 0 0
  if pcb.ccp_gotoptions.mppe != {} then
    let pcb : PppPcb := { pcb with ccp_gotoptions := { pcb.ccp_gotoptions with mppe := {} } }
    if lcp_fsm.state = PPP_FSM_OPENED then lcp_close pcb "MPPE disabled" else pcb
  else pcb

/-- One step of the reset handshake, with the FSM it runs on: a call of
`ccp_reset_request`, of `ccp_rack_timeout`, of `ccp_extcode`, or of `ccp_down`
(which is handed the LCP FSM). -/
inductive ResetEvent where
  | request (f : Fsm)
  | timeout (f : Fsm)
  | extcode (f : Fsm) (code id : Int) (data : List Nat)
  | down (lcp_fsm : Fsm)
deriving DecidableEq, Repr

/-- The link context after one step; `ccp_reset_request` is handed
`pcb.ccp_localstate` by reference. -/
def reset_event (H : CcpHeader) (send_ok : Int → Int → List Nat → Bool) (pcb : PppPcb) :
    ResetEvent → PppPcb
  | ResetEvent.request f =>
    { (ccp_reset_request H send_ok pcb.ccp_localstate f pcb).2.2.2 with
      ccp_localstate := (ccp_reset_request H send_ok pcb.ccp_localstate f pcb).2.1 }
  | ResetEvent.timeout f => ccp_rack_timeout H f pcb
  | ResetEvent.extcode f code id data => (ccp_extcode H pcb f code id data).2
  | ResetEvent.down lcp_fsm => ccp_down lcp_fsm pcb

/-- The link context after the steps of `es`, oldest first. -/
def reset_events (H : CcpHeader) (send_ok : Int → Int → List Nat → Bool) (pcb : PppPcb)
    (es : List ResetEvent) : PppPcb :=
  es.foldl (reset_event H send_ok) pcb

/-- Written from the specification's words: `REPEAT_RESET_REQ` is set only if
`RESET_ACK_PENDING` is also set. -/
def reset_inv (H : CcpHeader) (ccp_localstate : Nat) : Prop :=
  flag_set ccp_localstate H.REPEAT_RESET_REQ = true →
    flag_set ccp_localstate H.RESET_ACK_PENDING = true

instance (H : CcpHeader) (ls : Nat) : Decidable (reset_inv H ls) := by
  unfold reset_inv; infer_instance

/-- Written from the specification's words: the packet fails one of the four
sanity checks that cost 100: shorter than the header, ENCRYPTED absent,
stateless and FLUSHED absent, or stateful with low count byte `0xFF` and FLUSHED
absent. -/
def fails_sanity (stateful : Bool) (pkt : List Nat) : Prop :=
  pkt.length < 2
  ∨ flag_set (pkt.getD 0 0) MPPE_BIT_ENCRYPTED = false
  ∨ (stateful = false ∧ flag_set (pkt.getD 0 0) MPPE_BIT_FLUSHED = false)
  ∨ (stateful = true ∧ pkt.getD 1 0 % 256 = 0xff
      ∧ flag_set (pkt.getD 0 0) MPPE_BIT_FLUSHED = false)

instance (stateful : Bool) (pkt : List Nat) : Decidable (fails_sanity stateful pkt) := by
  unfold fails_sanity; infer_instance

/-- A capability probe for concrete evaluations: the Deflate-RFC record is
supported at every size, every other record is answered with 0. -/
def probe_rfc_only (opt : List Nat) (_for_transmit : Bool) : Int :=
  if opt.getD 0 0 = CI_DEFLATE then 1 else 0

/-- A link context that wants both Deflate variants at window size 10. -/
def pcb_want_deflate_both : PppPcb :=
  { ccp_wantoptions :=
      { deflate := true, deflate_correct := true, deflate_draft := true, deflate_size := 10 } }

/-- A link context that wants BSD-Compress at 12 bits and Deflate-RFC at
window size 11. -/
def pcb_want_bsd_deflate : PppPcb :=
  { ccp_wantoptions :=
      { bsd_compress := true, bsd_bits := 12, deflate := true, deflate_correct := true,
        deflate_size := 11 } }

/-! # Theorems -/

/-! ## ccp_cilen and ccp_addci -/

theorem ccp_cilen_eq_sum_off_slip (H : CcpHeader) (go : CcpOptions)
    (h : ¬ (go.bsd_compress = true ∧ go.deflate = true ∧ go.deflate_correct = true
          ∧ go.deflate_draft = false ∧ go.predictor_1 = true ∧ go.predictor_2 = true)) :
    ccp_cilen H go = cilen_sum H go := by
  unfold ccp_cilen cilen_sum
  cases hb : go.bsd_compress <;> cases hd : go.deflate <;> cases hc : go.deflate_correct <;>
    cases hdr : go.deflate_draft <;> cases h1 : go.predictor_1 <;> cases h2 : go.predictor_2 <;>
    cases hm : H.mppe_has_options go.mppe <;> simp_all <;> decide

theorem addci_method_some {oob : Nat → Option Nat} {pcb : PppPcb} {pkt : List Nat} {ptr : Nat}
    {r : AddciResult} (h : addci_method oob pcb pkt ptr = some r) :
    r.ok = true ∧ r.pkt = pkt ∧ r.len = ptr ∧
      ∃ m, r.pcb = { pcb with ccp_gotoptions := { pcb.ccp_gotoptions with method := m } } := by
  unfold addci_method at h
  cases ha : rd oob pkt ptr with
  | none => simp [ha] at h
  | some a =>
    cases hb : rd oob pkt 0 with
    | none => simp [ha, hb] at h
    | some b =>
      simp only [ha, hb, Option.bind] at h
      cases h
      exact ⟨rfl, rfl, rfl, _, rfl⟩

/-- C1, evaluated at the option set that reaches ccp.cpp 478-481 (BSD-Compress,
Deflate-RFC without draft, Predictor-1 and Predictor-2): `ccp_cilen` returns 6
under every header, while `ccp_addci` ends with its cursor at offset 11. -/
theorem ccp_cilen_ne_addci_len :
    (∀ H : CcpHeader, ccp_cilen H go_slip = 6) ∧
    (ccp_addci pppd_header plain_crypto (fun _ => none) (pcb_with go_slip)
      (List.replicate 12 0)).map (fun r => (r.ok, r.len)) = some (true, 11) := by
  refine ⟨fun H => ?_, by decide⟩
  unfold ccp_cilen
  cases H.mppe_has_options go_slip.mppe <;> decide

/-- C2, evaluated at the same option set: `ccp_cilen` returns 6 under every
header, while the fixed lengths of the active options (BSD-Compress 3,
Deflate 4, Predictor-1 2, Predictor-2 2) add up to at least 11. -/
theorem ccp_cilen_ne_sum (H : CcpHeader) :
    ccp_cilen H go_slip = 6 ∧ 11 ≤ cilen_sum H go_slip := by
  unfold ccp_cilen cilen_sum
  cases H.mppe_has_options go_slip.mppe <;> decide

/-- C3, evaluated for BSD-Compress plus Predictor-1 on a zeroed buffer of
`ccp_cilen` = 5 bytes: whatever the read past the buffer at the end of
`ccp_addci` yields, `ccp_proc_config_ack` on the bytes produced does not return
true (the buffer starts with the Predictor-1 type byte, not BSD-Compress). -/
theorem addci_then_ack_not_true (oob : Nat → Option Nat) :
    (ccp_addci pppd_header plain_crypto oob (pcb_with go_bsd_p1) (List.replicate 5 0)).bind
      (fun r => ccp_proc_config_ack pppd_header oob r.pcb.ccp_gotoptions r.pkt) ≠ some true := by
  have h1 : ccp_addci pppd_header plain_crypto oob (pcb_with go_bsd_p1) (List.replicate 5 0)
      = addci_method oob (pcb_with go_bsd_p1) [23, 3, 47, 0, 2] 5 := rfl
  have h2 : ∀ m, ccp_proc_config_ack pppd_header oob { go_bsd_p1 with method := m }
      [23, 3, 47, 0, 2] = some false := fun _ => rfl
  cases h : ccp_addci pppd_header plain_crypto oob (pcb_with go_bsd_p1) (List.replicate 5 0) with
  | none => simp
  | some r =>
    obtain ⟨-, hp, -, m, hm⟩ := addci_method_some (h1 ▸ h)
    have h3 : ccp_proc_config_ack pppd_header oob r.pcb.ccp_gotoptions r.pkt = some false := by
      rw [hp, hm]; exact h2 m
    simp [h3]

/-- C4, evaluated for BSD-Compress plus Predictor-1 on a zeroed 5-byte buffer:
the bytes `ccp_addci` leaves are 23, 3, 47, 0, 2 (the Predictor-1 type byte at
offset 0, offset 3 never written), not the two records 17, 3, 47, 23, 2. -/
theorem addci_bytes_not_records (oob : Nat → Option Nat) :
    ci_bytes pppd_header go_bsd_p1 = [17, 3, 47, 23, 2] ∧
    (ccp_addci pppd_header plain_crypto oob (pcb_with go_bsd_p1) (List.replicate 5 0)).map
      (fun r => r.pkt) ≠ some (ci_bytes pppd_header go_bsd_p1) := by
  have h1 : ccp_addci pppd_header plain_crypto oob (pcb_with go_bsd_p1) (List.replicate 5 0)
      = addci_method oob (pcb_with go_bsd_p1) [23, 3, 47, 0, 2] 5 := rfl
  refine ⟨by decide, ?_⟩
  cases h : ccp_addci pppd_header plain_crypto oob (pcb_with go_bsd_p1) (List.replicate 5 0) with
  | none => simp
  | some r =>
    obtain ⟨-, hp, -, -⟩ := addci_method_some (h1 ▸ h)
    rw [Option.map_some', hp]
    decide

/-! ## ccp_rejci and ccp_nak_cfg_received -/

/-- C7: when `ccp_all_rejected` is set, `ccp_rejci` on an empty packet returns
false and leaves the link context (hence `got`) as it was; the result does not
depend on what a read of the empty packet would yield, not even on whether it
traps, so no byte is read. -/
theorem rejci_empty_all_rejected (H : CcpHeader) (oob : Nat → Option Nat) (pcb : PppPcb)
    (h : pcb.ccp_all_rejected = true) : ccp_rejci H oob pcb [] = some (false, pcb) := by
  simp [ccp_rejci, h]

theorem rejci_empty_all_rejected_witness :
    ({ ccp_gotoptions := go_deflate_bsd, ccp_all_rejected := true } : PppPcb).ccp_all_rejected = true
    ∧ ccp_rejci pppd_header (fun _ => none)
        { ccp_gotoptions := go_deflate_bsd, ccp_all_rejected := true } []
      = some (false, { ccp_gotoptions := go_deflate_bsd, ccp_all_rejected := true }) :=
  ⟨rfl, rejci_empty_all_rejected pppd_header (fun _ => none)
    { ccp_gotoptions := go_deflate_bsd, ccp_all_rejected := true } rfl⟩

/-- C8, evaluated for a request of 128-bit stateless MPPE and a configure-nak
whose MPPE record suggests 40-bit stateless (bitmap 01 00 00 20): afterwards
`got` asks for 40-bit, a strength that was not requested. -/
theorem nak_mppe_adds_strength :
    (ccp_nak_cfg_received pppd_header (fun _ => none) (pcb_with go_mppe128)
      [18, 6, 1, 0, 0, 32] false).map (fun r => r.2.ccp_gotoptions.mppe)
      = some { opt_40 := true }
    ∧ ¬ mppe_flags_subset { opt_40 := true } go_mppe128.mppe := by
  decide

/-- C9, evaluated for BSD-Compress with 15 bits and a configure-nak whose BSD
record suggests version 1 with 0 bits (byte 0x20): afterwards BSD-Compress is
still enabled with `bsd_bits` = 0, below `BSD_MIN_BITS` = 9. -/
theorem nak_bsd_below_minimum :
    (ccp_nak_cfg_received pppd_header (fun _ => none)
      (pcb_with { bsd_compress := true, bsd_bits := 15, deflate_size := 15 })
      [17, 3, 32] false).map (fun r => (r.2.ccp_gotoptions.bsd_compress, r.2.ccp_gotoptions.bsd_bits))
      = some (true, 0)
    ∧ (0 : Int) < pppd_header.BSD_MIN_BITS := by
  decide

/-! ## ccp_proc_config_req -/

theorem reqci_deflate_probe_newret (H : CcpHeader) (ccp_test : List Nat → Bool → Int)
    (dont_nak : Bool) (hs : Int) (p : Nat) :
    ∀ (fuel : Nat) (buf : List Nat) (newret : CpCodes) (nb : Int) (t : List Nat × CpCodes),
      reqci_deflate_probe H ccp_test dont_nak hs p fuel buf newret nb = some t →
      t.2 = newret ∨ t.2 = CONFNAK ∨ t.2 = CONFREJ := by
  intro fuel
  induction fuel with
  | zero => intro buf newret nb t h; simp [reqci_deflate_probe] at h
  | succ n ih =>
    intro buf newret nb t h
    unfold reqci_deflate_probe at h
    simp only at h
    split at h
    · cases h; exact Or.inl rfl
    · split at h
      · cases hw : wr buf (p + 2) (to_u8 (H.DEFLATE_MAKE_OPT hs)) with
        | none => simp [hw] at h
        | some b => simp [hw] at h; subst h; exact Or.inr (Or.inr rfl)
      · split at h
        · cases h
        · cases hw : wr buf (p + 2) (to_u8 (H.DEFLATE_MAKE_OPT (nb - 1))) with
          | none => simp [hw] at h
          | some b =>
            simp only [hw, Option.bind] at h
            rcases ih _ _ _ _ h with h1 | h1 | h1
            · exact Or.inr (Or.inl h1)
            · exact Or.inr (Or.inl h1)
            · exact Or.inr (Or.inr h1)

theorem reqci_bsd_probe_newret (H : CcpHeader) (ccp_test : List Nat → Bool → Int)
    (dont_nak : Bool) (hs : Int) (p : Nat) :
    ∀ (fuel : Nat) (buf : List Nat) (newret : CpCodes) (nb : Int) (t : List Nat × CpCodes),
      reqci_bsd_probe H ccp_test dont_nak hs p fuel buf newret nb = some t →
      t.2 = newret ∨ t.2 = CONFNAK ∨ t.2 = CONFREJ := by
  intro fuel
  induction fuel with
  | zero => intro buf newret nb t h; simp [reqci_bsd_probe] at h
  | succ n ih =>
    intro buf newret nb t h
    unfold reqci_bsd_probe at h
    simp only at h
    split at h
    · cases h; exact Or.inl rfl
    · split at h
      · cases hw : wr buf (p + 2) (to_u8 (H.BSD_MAKE_OPT H.BSD_CURRENT_VERSION hs)) with
        | none => simp [hw] at h
        | some b => simp [hw] at h; subst h; exact Or.inr (Or.inr rfl)
      · split at h
        · cases h
        · cases hw : wr buf (p + 2) (to_u8 (H.BSD_MAKE_OPT H.BSD_CURRENT_VERSION (nb - 1))) with
          | none => simp [hw] at h
          | some b =>
            simp only [hw, Option.bind] at h
            rcases ih _ _ _ _ h with h1 | h1 | h1
            · exact Or.inr (Or.inl h1)
            · exact Or.inr (Or.inl h1)
            · exact Or.inr (Or.inr h1)

/-- A verdict is one of ack, nak, reject. -/
theorem reqci_mppe_accept_newret {H : CcpHeader} {K : MppeCrypto} {pcb : PppPcb}
    {buf : List Nat} {p : Nat} {newret : CpCodes} {m : MppeOptions} {o : ReqciOpt}
    (hn : newret = CONFACK ∨ newret = CONFNAK ∨ newret = CONFREJ)
    (h : reqci_mppe_accept H K pcb buf p newret m = some o) :
    o.newret = CONFACK ∨ o.newret = CONFNAK ∨ o.newret = CONFREJ := by
  unfold reqci_mppe_accept at h
  simp only [Option.bind_eq_some] at h
  obtain ⟨b1, -, b2, -, b3, -, b4, -, h⟩ := h
  split at h
  · split at h <;> cases h <;> simp_all
  · cases h; exact hn

theorem reqci_mppe_clear_newret (m0 : MppeOptions) :
    (reqci_mppe_clear m0).1 = CONFACK ∨ (reqci_mppe_clear m0).1 = CONFNAK := by
  rcases m0 with ⟨a, b, c, d, e, f, g⟩
  cases c <;> cases d <;> cases e <;> cases g <;> simp [reqci_mppe_clear]

theorem reqci_mppe_select_newret {H : CcpHeader} {K : MppeCrypto} {pcb : PppPcb}
    {buf : List Nat} {p : Nat} {rfm : Bool} {newret : CpCodes} {m : MppeOptions} {o : ReqciOpt}
    (hn : newret = CONFACK ∨ newret = CONFNAK ∨ newret = CONFREJ)
    (h : reqci_mppe_select H K pcb buf p rfm newret m = some o) :
    o.newret = CONFACK ∨ o.newret = CONFNAK ∨ o.newret = CONFREJ := by
  unfold reqci_mppe_select at h
  simp only at h
  repeat' split at h
  all_goals first
    | (cases h; simp)
    | exact reqci_mppe_accept_newret hn h
    | exact reqci_mppe_accept_newret (by simp) h

theorem reqci_mppe_newret {H : CcpHeader} {K : MppeCrypto} {oob : Nat → Option Nat}
    {pcb : PppPcb} {buf : List Nat} {p clen : Nat} {rfm : Bool} {o : ReqciOpt}
    (h : reqci_mppe H K oob pcb buf p clen rfm = some o) :
    o.newret = CONFACK ∨ o.newret = CONFNAK ∨ o.newret = CONFREJ := by
  unfold reqci_mppe at h
  split at h
  · cases h; simp
  · simp only [Option.bind_eq_some] at h
    obtain ⟨b0, -, b1, -, b2, -, b3, -, h⟩ := h
    refine reqci_mppe_select_newret ?_ h
    rcases reqci_mppe_clear_newret (H.MPPE_CI_TO_OPTS b0 b1 b2 b3) with h1 | h1
    · exact Or.inl h1
    · exact Or.inr (Or.inl h1)

theorem reqci_deflate_newret {H : CcpHeader} {oob : Nat → Option Nat}
    {ccp_test : List Nat → Bool → Int} {dont_nak : Bool} {pcb : PppPcb} {buf : List Nat}
    {p clen type : Nat} {rfm : Bool} {o : ReqciOpt}
    (h : reqci_deflate H oob ccp_test dont_nak pcb buf p clen type rfm = some o) :
    o.newret = CONFACK ∨ o.newret = CONFNAK ∨ o.newret = CONFREJ := by
  unfold reqci_deflate at h
  simp only at h
  split at h
  · cases h; simp
  · simp only [Option.bind_eq_some] at h
    obtain ⟨b2, -, bad, -, h⟩ := h
    split at h
    · cases h; simp
    · simp only [Option.bind_eq_some] at h
      obtain ⟨s, hs, h⟩ := h
      have hs2 : s.2 = CONFACK ∨ s.2 = CONFNAK := by
        split at hs
        · simp only [Option.bind_eq_some] at hs
          obtain ⟨_, -, _, -, hs⟩ := hs
          cases hs; simp
        · cases hs; simp
      split at h
      · simp only [Option.map_eq_some'] at h
        obtain ⟨t, ht, rfl⟩ := h
        have := reqci_deflate_probe_newret _ _ _ _ _ _ _ _ _ _ ht
        rcases hs2 with hs2 | hs2 <;> simp_all
      · cases h
        rcases hs2 with hs2 | hs2 <;> simp_all

theorem reqci_bsd_newret {H : CcpHeader} {oob : Nat → Option Nat}
    {ccp_test : List Nat → Bool → Int} {dont_nak : Bool} {pcb : PppPcb} {buf : List Nat}
    {p clen : Nat} {rfm : Bool} {o : ReqciOpt}
    (h : reqci_bsd H oob ccp_test dont_nak pcb buf p clen rfm = some o) :
    o.newret = CONFACK ∨ o.newret = CONFNAK ∨ o.newret = CONFREJ := by
  unfold reqci_bsd at h
  simp only at h
  split at h
  · cases h; simp
  · simp only [Option.bind_eq_some] at h
    obtain ⟨b2, -, h⟩ := h
    split at h
    · cases h; simp
    · simp only [Option.bind_eq_some] at h
      obtain ⟨s, hs, h⟩ := h
      have hs2 : s.2 = CONFACK ∨ s.2 = CONFNAK := by
        split at hs
        · simp only [Option.bind_eq_some] at hs
          obtain ⟨_, -, hs⟩ := hs
          cases hs; simp
        · cases hs; simp
      split at h
      · simp only [Option.map_eq_some'] at h
        obtain ⟨t, ht, rfl⟩ := h
        have := reqci_bsd_probe_newret _ _ _ _ _ _ _ _ _ _ ht
        rcases hs2 with hs2 | hs2 <;> simp_all
      · cases h
        rcases hs2 with hs2 | hs2 <;> simp_all

theorem reqci_option_newret {H : CcpHeader} {K : MppeCrypto} {oob : Nat → Option Nat}
    {ccp_test : List Nat → Bool → Int} {dont_nak : Bool} {s : ReqciState} {r : ReqciOpt × Nat}
    (h : reqci_option H K oob ccp_test dont_nak s = some r) :
    r.1.newret = CONFACK ∨ r.1.newret = CONFNAK ∨ r.1.newret = CONFREJ := by
  unfold reqci_option at h
  simp only [Option.bind_eq_some] at h
  obtain ⟨bad, -, h⟩ := h
  split at h
  · cases h; simp
  · simp only [Option.bind_eq_some, Option.map_eq_some'] at h
    obtain ⟨type, -, clen, -, o, ho, rfl⟩ := h
    simp only
    split at ho
    · exact reqci_mppe_newret ho
    · split at ho
      · exact reqci_deflate_newret ho
      · split at ho
        · exact reqci_bsd_newret ho
        · split at ho
          · cases ho; unfold reqci_predictor_1; repeat' split <;> simp
          · split at ho
            · cases ho; unfold reqci_predictor_2; repeat' split <;> simp
            · cases ho; simp

theorem worst_verdict_snoc (l : List CpCodes) (x : CpCodes) :
    worst_verdict (l ++ [x]) =
      if x = CONFREJ then CONFREJ
      else if worst_verdict l = CONFREJ then CONFREJ
      else if x = CONFNAK then CONFNAK
      else worst_verdict l := by
  unfold worst_verdict
  by_cases h1 : CONFREJ ∈ l <;> by_cases h2 : CONFNAK ∈ l <;> cases x <;>
    simp [h1, h2, List.mem_append]

theorem reqci_merge_verdict (dont_nak : Bool) (s : ReqciState) (o : ReqciOpt) (clen : Nat)
    (ho : o.newret = CONFACK ∨ o.newret = CONFNAK ∨ o.newret = CONFREJ)
    (hs : s.ret = worst_verdict s.verdicts) :
    (reqci_merge dont_nak s o clen).ret = worst_verdict (reqci_merge dont_nak s o clen).verdicts := by
  have hw : worst_verdict s.verdicts = CONFACK ∨ worst_verdict s.verdicts = CONFNAK
      ∨ worst_verdict s.verdicts = CONFREJ := by
    unfold worst_verdict
    by_cases h1 : CONFREJ ∈ s.verdicts <;> by_cases h2 : CONFNAK ∈ s.verdicts <;> simp [h1, h2]
  unfold reqci_merge
  rcases ho with ho | ho | ho <;> rcases hw with hw | hw | hw <;> cases dont_nak <;>
    simp [ho, hw, hs, worst_verdict_snoc]

theorem reqci_loop_verdict (H : CcpHeader) (K : MppeCrypto) (oob : Nat → Option Nat)
    (ccp_test : List Nat → Bool → Int) (dont_nak : Bool) :
    ∀ (fuel : Nat) (s t : ReqciState), s.ret = worst_verdict s.verdicts →
      reqci_loop H K oob ccp_test dont_nak fuel s = some t → t.ret = worst_verdict t.verdicts := by
  intro fuel
  induction fuel with
  | zero =>
    intro s t hs h
    unfold reqci_loop at h
    split at h
    · cases h; exact hs
    · cases h
  | succ n ih =>
    intro s t hs h
    unfold reqci_loop at h
    split at h
    · cases h; exact hs
    · simp only [Option.bind_eq_some] at h
      obtain ⟨r, hr, h⟩ := h
      exact ih _ _ (reqci_merge_verdict dont_nak s r.1 r.2 (reqci_option_newret hr) hs) h

/-- C10: whenever `ccp_proc_config_req` returns, its verdict is the worst of the
per-option verdicts: CONFREJ if some option ended with reject, otherwise
CONFNAK if some option ended with nak, otherwise CONFACK. -/
theorem proc_config_req_verdict (H : CcpHeader) (K : MppeCrypto) (oob : Nat → Option Nat)
    (ccp_test : List Nat → Bool → Int) (pcb : PppPcb) (pkt : List Nat) (dont_nak : Bool)
    (r : ReqciResult) (h : ccp_proc_config_req H K oob ccp_test pcb pkt dont_nak = some r) :
    r.ret = worst_verdict r.verdicts := by
  unfold ccp_proc_config_req at h
  simp only [Option.bind_eq_some] at h
  obtain ⟨method, -, s, hs, h⟩ := h
  cases h
  exact reqci_loop_verdict H K oob ccp_test dont_nak _ _ s rfl hs

theorem proc_config_req_verdict_witness :
    ccp_proc_config_req pppd_header plain_crypto (fun _ => none) (fun _ _ => 1)
        pcb_allow_deflate_p1 req_p1_deflate_bsd false = some res_p1_deflate_bsd
    ∧ res_p1_deflate_bsd.ret = worst_verdict res_p1_deflate_bsd.verdicts :=
  ⟨by decide, proc_config_req_verdict pppd_header plain_crypto (fun _ => none) (fun _ _ => 1)
    pcb_allow_deflate_p1 req_p1_deflate_bsd false res_p1_deflate_bsd (by decide)⟩

/-! ### ccp_proc_config_req returns -/

theorem wr_some {pkt : List Nat} {i : Nat} (v : Nat) (h : i < pkt.length) :
    wr pkt i v = some (pkt.set i v) := by
  unfold wr; rw [if_pos h]

theorem rd_some (oob : Nat → Option Nat) {pkt : List Nat} {i : Nat} (h : i < pkt.length) :
    rd oob pkt i = some (pkt[i]) := by
  unfold rd; rw [if_pos h]; simp [h]

theorem reqci_mppe_accept_some (H : CcpHeader) (K : MppeCrypto) (pcb : PppPcb) (buf : List Nat)
    (p : Nat) (newret : CpCodes) (m : MppeOptions) (hb : p + 6 ≤ buf.length) :
    ∃ o, reqci_mppe_accept H K pcb buf p newret m = some o ∧ o.buf.length = buf.length := by
  unfold reqci_mppe_accept
  rw [wr_some _ (by omega)]
  simp only [Option.some_bind]
  rw [wr_some _ (by simp; omega)]
  simp only [Option.some_bind]
  rw [wr_some _ (by simp; omega)]
  simp only [Option.some_bind]
  rw [wr_some _ (by simp; omega)]
  simp only [Option.some_bind]
  split
  · split <;> exact ⟨_, rfl, by simp⟩
  · exact ⟨_, rfl, by simp⟩

theorem reqci_mppe_some (H : CcpHeader) (K : MppeCrypto) (oob : Nat → Option Nat) (pcb : PppPcb)
    (buf : List Nat) (p clen : Nat) (rfm : Bool) (hb : p + clen ≤ buf.length) :
    ∃ o, reqci_mppe H K oob pcb buf p clen rfm = some o ∧ o.buf.length = buf.length := by
  unfold reqci_mppe
  split
  · exact ⟨_, rfl, rfl⟩
  · rename_i hc
    have hclen : clen = 6 := by
      simp only [Bool.or_eq_true, Bool.not_eq_true', bne_iff_ne, ne_eq, not_or,
        Decidable.not_not] at hc
      exact hc.2
    subst hclen
    rw [rd_some oob (by omega), rd_some oob (by omega), rd_some oob (by omega),
      rd_some oob (by omega)]
    simp only [Option.some_bind]
    unfold reqci_mppe_select
    simp only
    repeat' split
    all_goals first
      | exact reqci_mppe_accept_some H K pcb buf p _ _ hb
      | exact ⟨_, rfl, rfl⟩

theorem reqci_deflate_probe_some (H : CcpHeader) (ccp_test : List Nat → Bool → Int)
    (hprobe : ∀ b f, ccp_test b f ≠ 0) (dont_nak : Bool) (hs : Int) (p : Nat) (fuel : Nat)
    (buf : List Nat) (newret : CpCodes) (nb : Int) (hb : p + 4 ≤ buf.length) :
    ∃ t, reqci_deflate_probe H ccp_test dont_nak hs p (fuel + 1) buf newret nb = some t
      ∧ t.1.length = buf.length := by
  unfold reqci_deflate_probe
  simp only
  split
  · exact ⟨_, rfl, rfl⟩
  · rename_i hpos
    have hneg : ccp_test (List.take CILEN_DEFLATE (List.drop p buf)) true < 0 := by
      have := hprobe (List.take CILEN_DEFLATE (List.drop p buf)) true
      omega
    simp only [hneg, decide_True, Bool.true_or, if_true]
    rw [wr_some _ (by omega)]
    exact ⟨_, rfl, by simp⟩

theorem reqci_bsd_probe_some (H : CcpHeader) (ccp_test : List Nat → Bool → Int)
    (hprobe : ∀ b f, ccp_test b f ≠ 0) (dont_nak : Bool) (hs : Int) (p : Nat) (fuel : Nat)
    (buf : List Nat) (newret : CpCodes) (nb : Int) (hb : p + 3 ≤ buf.length) :
    ∃ t, reqci_bsd_probe H ccp_test dont_nak hs p (fuel + 1) buf newret nb = some t
      ∧ t.1.length = buf.length := by
  unfold reqci_bsd_probe
  simp only
  split
  · exact ⟨_, rfl, rfl⟩
  · rename_i hpos
    have hneg : ccp_test (List.take CILEN_BSD_COMPRESS (List.drop p buf)) true < 0 := by
      have := hprobe (List.take CILEN_BSD_COMPRESS (List.drop p buf)) true
      omega
    simp only [hneg, decide_True, Bool.true_or, if_true]
    rw [wr_some _ (by omega)]
    exact ⟨_, rfl, by simp⟩

theorem por_some_of_some {a b : Option Bool} (ha : ∃ x, a = some x) (hb : ∃ y, b = some y) :
    ∃ z, por a b = some z := by
  obtain ⟨x, rfl⟩ := ha
  obtain ⟨y, rfl⟩ := hb
  cases x <;> simp [por]

theorem rd_ne_some (oob : Nat → Option Nat) {pkt : List Nat} {i : Nat} (v : Int)
    (h : i < pkt.length) : ∃ x, rd_ne oob pkt i v = some x := by
  unfold rd_ne; rw [rd_some oob h]; exact ⟨_, rfl⟩

theorem reqci_deflate_some (H : CcpHeader) (oob : Nat → Option Nat)
    (ccp_test : List Nat → Bool → Int) (hprobe : ∀ b f, ccp_test b f ≠ 0) (dont_nak : Bool)
    (pcb : PppPcb) (buf : List Nat) (p clen type : Nat) (rfm : Bool)
    (hb : p + clen ≤ buf.length) :
    ∃ o, reqci_deflate H oob ccp_test dont_nak pcb buf p clen type rfm = some o
      ∧ o.buf.length = buf.length := by
  unfold reqci_deflate
  simp only
  split
  · exact ⟨_, rfl, rfl⟩
  · rename_i hc
    have hclen : clen = 4 := by
      simp only [Bool.or_eq_true, Bool.not_eq_true', bne_iff_ne, ne_eq, not_or,
        Decidable.not_not] at hc
      exact hc.1.1.2
    subst hclen
    rw [rd_some oob (by omega)]
    simp only [Option.some_bind]
    obtain ⟨bad, hbad⟩ := por_some_of_some
      (a := some (decide (H.DEFLATE_METHOD buf[p + 2] ≠ H.DEFLATE_METHOD_VAL)))
      (b := por (rd_ne oob buf (p + 3) H.DEFLATE_CHK_SEQUENCE)
        (some (decide (H.DEFLATE_SIZE buf[p + 2] > pcb.ccp_allowoptions.deflate_size)
          || decide (H.DEFLATE_SIZE buf[p + 2] < H.DEFLATE_MIN_WORKS))))
      ⟨_, rfl⟩ (por_some_of_some (rd_ne_some oob _ (by omega)) ⟨_, rfl⟩)
    rw [hbad]
    simp only [Option.some_bind]
    split
    · exact ⟨_, rfl, rfl⟩
    · split
      · rw [wr_some _ (by omega)]
        simp only [Option.some_bind]
        rw [wr_some _ (by simp; omega)]
        simp only [Option.some_bind]
        split
        · obtain ⟨t, ht, hl⟩ := reqci_deflate_probe_some H ccp_test hprobe dont_nak
            (H.DEFLATE_SIZE buf[p + 2]) p (H.DEFLATE_SIZE buf[p + 2] - INT_MIN).toNat
            ((buf.set (p + 2) (to_u8 (H.DEFLATE_MAKE_OPT pcb.ccp_allowoptions.deflate_size))).set
              (p + 3) (to_u8 H.DEFLATE_CHK_SEQUENCE)) CONFNAK (H.DEFLATE_SIZE buf[p + 2])
            (by simp; omega)
          rw [ht]
          exact ⟨_, rfl, by simpa using hl⟩
        · exact ⟨_, rfl, by simp⟩
      · simp only [Option.some_bind]
        split
        · obtain ⟨t, ht, hl⟩ := reqci_deflate_probe_some H ccp_test hprobe dont_nak
            (H.DEFLATE_SIZE buf[p + 2]) p (H.DEFLATE_SIZE buf[p + 2] - INT_MIN).toNat
            buf CONFACK (H.DEFLATE_SIZE buf[p + 2]) (by omega)
          rw [ht]
          exact ⟨_, rfl, by simpa using hl⟩
        · exact ⟨_, rfl, rfl⟩

theorem reqci_bsd_some (H : CcpHeader) (oob : Nat → Option Nat)
    (ccp_test : List Nat → Bool → Int) (hprobe : ∀ b f, ccp_test b f ≠ 0) (dont_nak : Bool)
    (pcb : PppPcb) (buf : List Nat) (p clen : Nat) (rfm : Bool)
    (hb : p + clen ≤ buf.length) :
    ∃ o, reqci_bsd H oob ccp_test dont_nak pcb buf p clen rfm = some o
      ∧ o.buf.length = buf.length := by
  unfold reqci_bsd
  simp only
  split
  · exact ⟨_, rfl, rfl⟩
  · rename_i hc
    have hclen : clen = 3 := by
      simp only [Bool.or_eq_true, Bool.not_eq_true', bne_iff_ne, ne_eq, not_or,
        Decidable.not_not] at hc
      exact hc.2
    subst hclen
    rw [rd_some oob (by omega)]
    simp only [Option.some_bind]
    split
    · exact ⟨_, rfl, rfl⟩
    · split
      · rw [wr_some _ (by omega)]
        simp only [Option.some_bind]
        split
        · obtain ⟨t, ht, hl⟩ := reqci_bsd_probe_some H ccp_test hprobe dont_nak
            (H.BSD_NBITS buf[p + 2]) p (H.BSD_NBITS buf[p + 2] - INT_MIN).toNat
            (buf.set (p + 2) (to_u8 (H.BSD_MAKE_OPT H.BSD_CURRENT_VERSION
              pcb.ccp_allowoptions.bsd_bits))) CONFNAK (H.BSD_NBITS buf[p + 2])
            (by simp; omega)
          rw [ht]
          exact ⟨_, rfl, by simpa using hl⟩
        · exact ⟨_, rfl, by simp⟩
      · simp only [Option.some_bind]
        split
        · obtain ⟨t, ht, hl⟩ := reqci_bsd_probe_some H ccp_test hprobe dont_nak
            (H.BSD_NBITS buf[p + 2]) p (H.BSD_NBITS buf[p + 2] - INT_MIN).toNat
            buf CONFACK (H.BSD_NBITS buf[p + 2]) (by omega)
          rw [ht]
          exact ⟨_, rfl, by simpa using hl⟩
        · exact ⟨_, rfl, rfl⟩

theorem reqci_predictor_1_buf (ccp_test : List Nat → Bool → Int) (pcb : PppPcb)
    (buf : List Nat) (p clen : Nat) (rfm : Bool) :
    (reqci_predictor_1 ccp_test pcb buf p clen rfm).buf = buf := by
  unfold reqci_predictor_1
  split
  · rfl
  · simp only
    split <;> rfl

theorem reqci_predictor_2_buf (ccp_test : List Nat → Bool → Int) (pcb : PppPcb)
    (buf : List Nat) (p clen : Nat) (rfm : Bool) :
    (reqci_predictor_2 ccp_test pcb buf p clen rfm).buf = buf := by
  unfold reqci_predictor_2
  split
  · rfl
  · simp only
    split <;> rfl

theorem por_some_some (x y : Bool) : por (some x) (some y) = some (x || y) := by
  cases x <;> rfl

theorem reqci_option_some (H : CcpHeader) (K : MppeCrypto) (oob : Nat → Option Nat)
    (ccp_test : List Nat → Bool → Int) (hprobe : ∀ b f, ccp_test b f ≠ 0) (dont_nak : Bool)
    (s : ReqciState) (hinv : s.p + s.len = s.buf.length) (hlen : s.len ≠ 0) :
    ∃ r, reqci_option H K oob ccp_test dont_nak s = some r
      ∧ r.1.buf.length = s.buf.length ∧ 1 ≤ r.2 ∧ r.2 ≤ s.len := by
  unfold reqci_option
  by_cases h2 : s.len < 2
  · simp only [h2, decide_True, por, Option.some_bind, if_true]
    exact ⟨_, rfl, rfl, by simp only; omega, le_refl _⟩
  · have hi1 : s.p + 1 < s.buf.length := by omega
    have hi0 : s.p + 0 < s.buf.length := by omega
    have hr1 : rd oob s.buf (s.p + 1) = some (s.buf[s.p + 1]) := rd_some oob hi1
    have hr0 : rd oob s.buf (s.p + 0) = some (s.buf[s.p + 0]) := rd_some oob hi0
    rw [hr1, hr0]
    simp only [Option.map_some', por_some_some, Option.some_bind]
    split
    · exact ⟨_, rfl, rfl, by simp only; omega, le_refl _⟩
    · rename_i hbad
      simp only [h2, decide_False, Bool.false_or, Bool.or_eq_true, decide_eq_true_eq, not_or,
        not_lt] at hbad
      obtain ⟨hc1, hc2⟩ := hbad
      have hb : s.p + s.buf[s.p + 1] ≤ s.buf.length := by omega
      split
      · obtain ⟨o, ho, hl⟩ := reqci_mppe_some H K oob s.pcb s.buf s.p _ s.rej_for_ci_mppe hb
        rw [ho]
        exact ⟨_, rfl, hl, by simp only [Option.map_some']; omega, hc2⟩
      · split
        · obtain ⟨o, ho, hl⟩ := reqci_deflate_some H oob ccp_test hprobe dont_nak s.pcb s.buf
            s.p _ (s.buf[s.p + 0]) s.rej_for_ci_mppe hb
          rw [ho]
          exact ⟨_, rfl, hl, by simp only [Option.map_some']; omega, hc2⟩
        · split
          · obtain ⟨o, ho, hl⟩ := reqci_bsd_some H oob ccp_test hprobe dont_nak s.pcb s.buf
              s.p _ s.rej_for_ci_mppe hb
            rw [ho]
            exact ⟨_, rfl, hl, by simp only [Option.map_some']; omega, hc2⟩
          · split
            · exact ⟨_, rfl, by simp [reqci_predictor_1_buf],
                by simp only [Option.map_some']; omega, hc2⟩
            · split
              · exact ⟨_, rfl, by simp [reqci_predictor_2_buf],
                  by simp only [Option.map_some']; omega, hc2⟩
              · exact ⟨_, rfl, rfl, by simp only [Option.map_some']; omega, hc2⟩

theorem memcpy_at_length (buf : List Nat) (dst src n : Nat) (h1 : dst ≤ src)
    (h2 : src + n ≤ buf.length) : (memcpy_at buf dst src n).length = buf.length := by
  unfold memcpy_at
  simp only [List.length_append, List.length_take, List.length_drop]
  omega

theorem reqci_merge_inv (dont_nak : Bool) (s : ReqciState) (o : ReqciOpt) (clen : Nat)
    (hinv : s.p + s.len = s.buf.length) (hret : s.retp ≤ s.p)
    (hl : o.buf.length = s.buf.length) (hc : clen ≤ s.len) :
    (reqci_merge dont_nak s o clen).p + (reqci_merge dont_nak s o clen).len
        = (reqci_merge dont_nak s o clen).buf.length
    ∧ (reqci_merge dont_nak s o clen).retp ≤ (reqci_merge dont_nak s o clen).p
    ∧ (reqci_merge dont_nak s o clen).len = s.len - clen := by
  have hcopy : ∀ dst, dst ≤ s.p → (memcpy_at o.buf dst s.p clen).length = s.buf.length := by
    intro dst hd
    rw [memcpy_at_length _ _ _ _ hd (by omega)]
    exact hl
  unfold reqci_merge
  simp only
  generalize (if (decide (o.newret = CONFNAK) && dont_nak) = true then CONFREJ else o.newret)
    = newret
  by_cases hc1 : (!(decide (newret = CONFACK) || decide (newret = CONFNAK) && decide (s.ret = CONFREJ)))
      = true
  · rw [if_pos hc1]
    simp only
    by_cases hc2 : (decide (newret = CONFREJ) && decide (s.ret = CONFNAK)) = true
    · rw [if_pos hc2]
      refine ⟨?_, by omega, trivial⟩
      by_cases hc3 : s.p ≠ 0
      · rw [if_pos hc3, hcopy 0 (by omega)]
        omega
      · rw [if_neg hc3]
        omega
    · rw [if_neg hc2]
      refine ⟨?_, by omega, trivial⟩
      by_cases hc3 : s.p ≠ s.retp
      · rw [if_pos hc3, hcopy _ hret]
        omega
      · rw [if_neg hc3]
        omega
  · rw [if_neg hc1]
    simp only
    exact ⟨by omega, by omega, trivial⟩

theorem reqci_loop_some (H : CcpHeader) (K : MppeCrypto) (oob : Nat → Option Nat)
    (ccp_test : List Nat → Bool → Int) (hprobe : ∀ b f, ccp_test b f ≠ 0) (dont_nak : Bool) :
    ∀ (fuel : Nat) (s : ReqciState), s.len ≤ fuel → s.p + s.len = s.buf.length → s.retp ≤ s.p →
      ∃ t, reqci_loop H K oob ccp_test dont_nak fuel s = some t := by
  intro fuel
  induction fuel with
  | zero =>
    intro s hf _ _
    unfold reqci_loop
    rw [if_pos (by omega)]
    exact ⟨_, rfl⟩
  | succ n ih =>
    intro s hf hinv hret
    unfold reqci_loop
    split
    · exact ⟨_, rfl⟩
    · rename_i hlen
      obtain ⟨r, hr, hl, h1, h2⟩ := reqci_option_some H K oob ccp_test hprobe dont_nak s hinv hlen
      rw [hr]
      simp only [Option.some_bind]
      obtain ⟨i1, i2, i3⟩ := reqci_merge_inv dont_nak s r.1 r.2 hinv hret hl h2
      exact ih _ (by rw [i3]; omega) i1 i2

/-- `ccp_proc_config_req` returns on every request, whatever its bytes, when the
capability probe never answers 0 ("unsupported"): no read or write leaves the
buffer and the loop ends within `pkt.size()` rounds.  (When the probe answers
0 the probe loops of the Deflate and BSD cases lower `nb` one step at a time
and may run until `--nb` overflows.) -/
theorem proc_config_req_returns (H : CcpHeader) (K : MppeCrypto) (oob : Nat → Option Nat)
    (ccp_test : List Nat → Bool → Int) (hprobe : ∀ b f, ccp_test b f ≠ 0) (pcb : PppPcb)
    (pkt : List Nat) (dont_nak : Bool) :
    ∃ r, ccp_proc_config_req H K oob ccp_test pcb pkt dont_nak = some r := by
  unfold ccp_proc_config_req
  have hm : ∃ m, (if !pkt.isEmpty then rd oob pkt 0 else some 0) = some m := by
    cases pkt with
    | nil => exact ⟨0, rfl⟩
    | cons a l => exact ⟨a, by simp [rd]⟩
  obtain ⟨m, hm⟩ := hm
  rw [hm]
  simp only [Option.some_bind]
  obtain ⟨t, ht⟩ := reqci_loop_some H K oob ccp_test hprobe dont_nak pkt.length
    { pcb := with_ho pcb { method := m }, buf := pkt, p := 0, len := pkt.length, retp := 0,
      ret := CONFACK, rej_for_ci_mppe := true, verdicts := [], records := [] }
      (le_refl _) (by simp) (le_refl _)
  rw [ht]
  exact ⟨_, rfl⟩

/-! ## ccp_proc_config_ack -/

theorem size_sub_append (pre suf : List Nat) :
    size_sub (pre ++ suf).length pre.length = suf.length := by
  simp [size_sub]

theorem size_sub_eq_mod (a b : Nat) (ha : a < 2 ^ 64) (hb : b < 2 ^ 64) :
    size_sub a b = (a + 2 ^ 64 - b) % 2 ^ 64 := by
  unfold size_sub
  split
  · have : a + 2 ^ 64 - b = (a - b) + 2 ^ 64 := by omega
    rw [this, Nat.add_mod_right, Nat.mod_eq_of_lt (by omega)]
  · rw [Nat.mod_eq_of_lt (by omega)]

theorem rd_append_lt (oob : Nat → Option Nat) (pre suf : List Nat) (i : Nat)
    (h : i < suf.length) : rd oob (pre ++ suf) (pre.length + i) = suf[i]? := by
  unfold rd
  rw [if_pos (by simp; omega), List.getElem?_append_right (by omega)]
  simp

theorem rd_append_ge (oob : Nat → Option Nat) (pre suf : List Nat) (i : Nat)
    (h : suf.length ≤ i) : rd oob (pre ++ suf) (pre.length + i) = oob (pre.length + i) := by
  unfold rd
  rw [if_neg (by simp; omega)]

theorem por_eq_some_false {a b : Option Bool} :
    por a b = some false ↔ a = some false ∧ b = some false := by
  unfold por
  cases a with
  | none => simp
  | some x => cases x <;> simp

theorem rd_ne_eq_some_false {oob : Nat → Option Nat} {pkt : List Nat} {i : Nat} {v : Int} :
    rd_ne oob pkt i v = some false ↔ ∃ b, rd oob pkt i = some b ∧ (b : Int) = v := by
  unfold rd_ne
  cases rd oob pkt i with
  | none => simp
  | some x => simp

theorem ack_fast_true {oob : Nat → Option Nat} {pkt : List Nat} {ptr : Nat}
    (h : ack_fast oob pkt ptr = some true) : size_sub pkt.length ptr = 0 := by
  unfold ack_fast at h
  simp only [Option.bind_eq_some] at h
  obtain ⟨a, -, b, -, h⟩ := h
  simp at h
  exact h.2

theorem to_u8_of_byte {b : Nat} {v : Int} (h : (b : Int) = v) (hb : b < 256) : to_u8 v = b := by
  subst h
  unfold to_u8
  omega

theorem ack_track_mono {go : CcpOptions} {pkt : List Nat} {done : List (List Nat)}
    {slack slack2 p : Nat} (h : ack_track go pkt done slack p) (hs : slack ≤ slack2) :
    ack_track go pkt done slack2 p := by
  rcases h with h | ⟨h1, h2, h3⟩
  · exact Or.inl h
  · exact Or.inr ⟨h1, h2, by omega⟩

theorem ack_predictor_ok (oob : Nat → Option Nat) (go : CcpOptions) (pkt : List Nat)
    (done : List (List Nat)) (active : Bool) (ci : Nat) (slack p : Nat) (st : AckStep)
    (hs : slack + 2 < 2 ^ 64) (ht : ack_track go pkt done slack p)
    (h : ack_predictor oob active ci 2 pkt p = some st) :
    ack_block_ok go pkt done (if active then [[ci, 2]] else []) (slack + 2) st := by
  unfold ack_predictor at h
  cases active with
  | false =>
    simp only [Bool.false_eq_true, if_false, Option.some.injEq] at h
    subst h
    simpa [ack_block_ok] using ack_track_mono ht (Nat.le_add_right _ _)
  | true =>
    simp only [if_true, Option.bind_eq_some] at h
    obtain ⟨bad, hbad, h⟩ := h
    cases bad with
    | true => simp at h; subst h; trivial
    | false =>
      simp only [Bool.false_eq_true, if_false, Option.bind_eq_some] at h
      obtain ⟨fast, hfast, h⟩ := h
      rw [por_eq_some_false, por_eq_some_false, rd_ne_eq_some_false, rd_ne_eq_some_false] at hbad
      obtain ⟨hsz, ⟨a, ha, ha2⟩, ⟨b, hb, hb2⟩⟩ := hbad
      simp only [Option.some.injEq, decide_eq_false_iff_not, not_lt] at hsz
      rcases ht with ⟨suf, rfl, rfl⟩ | ⟨hdf, hlt, hle⟩
      · rw [size_sub_append] at hsz
        match suf, hsz with
        | x :: y :: suf2, _ =>
          rw [rd_append_lt _ _ _ _ (by simp)] at ha hb
          simp only [List.getElem?_cons_zero, List.getElem?_cons_succ, Option.some.injEq] at ha hb
          subst ha hb
          have hx : x = ci := by exact_mod_cast ha2
          have hy : y = 2 := by exact_mod_cast hb2
          subst hx hy
          cases fast with
          | true =>
            simp only [if_true, Option.some.injEq] at h
            subst h
            have h0 := ack_fast_true hfast
            have : suf2 = [] := by
              have e : size_sub (done.flatten ++ x :: 2 :: suf2).length (done.flatten.length + 2)
                  = suf2.length := by
                unfold size_sub
                simp only [List.length_append, List.length_cons]
                split <;> omega
              rw [e] at h0
              exact List.length_eq_zero.mp h0
            subst this
            exact ⟨[[x, 2]], [], by simp, by simp, by simp⟩
          | false =>
            simp only [Bool.false_eq_true, if_false, Option.some.injEq] at h
            subst h
            exact Or.inl ⟨suf2, by simp, by simp⟩
      · cases fast with
        | true =>
          have h0 := ack_fast_true hfast
          unfold size_sub at h0
          split at h0 <;> omega
        | false =>
          simp only [Bool.false_eq_true, if_false, Option.some.injEq] at h
          subst h
          exact Or.inr ⟨hdf, by omega, by omega⟩

theorem ack_mppe_ok (H : CcpHeader) (go : CcpOptions) (pkt : List Nat) (st : AckStep)
    (h : ack_mppe H go pkt 0 = some st) :
    ack_block_ok go pkt [] (if H.mppe_has_options go.mppe then [rec_mppe H go] else []) 0 st := by
  unfold ack_mppe at h
  cases hm : H.mppe_has_options go.mppe with
  | false =>
    simp only [hm, Bool.false_eq_true, if_false, Option.some.injEq] at h
    subst h
    exact Or.inl ⟨pkt, by simp, by simp⟩
  | true =>
    simp only [hm, if_true] at h
    split at h
    · cases h; trivial
    · rename_i hbad
      simp only [Bool.or_eq_true, decide_eq_true_eq, bne_iff_ne, ne_eq, not_or, not_lt,
        Decidable.not_not] at hbad
      obtain ⟨hlen, htake⟩ := hbad
      have hp : pkt = rec_mppe H go ++ pkt.drop CILEN_MPPE := by
        conv_lhs => rw [← List.take_append_drop CILEN_MPPE pkt]
        rw [htake]; rfl
      split at h
      · rename_i hend
        cases h
        have hd : pkt.drop CILEN_MPPE = [] := by
          apply List.drop_eq_nil_of_le; omega
        rw [hd, List.append_nil] at hp
        exact ⟨[rec_mppe H go], [], by simp, by simp, by simpa using hp⟩
      · cases h
        refine Or.inl ⟨pkt.drop CILEN_MPPE, by simpa using hp, ?_⟩
        simp [rec_mppe, CILEN_MPPE]

theorem ack_bsd_ok (H : CcpHeader) (oob : Nat → Option Nat) (go : CcpOptions) (pkt : List Nat)
    (done : List (List Nat)) (slack p : Nat) (st : AckStep)
    (hbytes : ∀ b ∈ pkt, b < 256)
    (hfirst : go.bsd_compress = true → done.flatten = [] ∧ go.deflate = false)
    (ht : ack_track go pkt done slack p)
    (h : ack_bsd H oob go pkt p = some st) :
    ack_block_ok go pkt done (if go.bsd_compress then [rec_bsd H go] else []) (slack + 3) st := by
  unfold ack_bsd at h
  cases hb : go.bsd_compress with
  | false =>
    simp only [hb, Bool.false_eq_true, if_false, Option.some.injEq] at h
    subst h
    simpa [ack_block_ok] using ack_track_mono ht (Nat.le_add_right _ _)
  | true =>
    obtain ⟨hdone, hdef⟩ := hfirst hb
    simp only [hb, if_true, Option.bind_eq_some] at h
    obtain ⟨bad, hbad, h⟩ := h
    cases bad with
    | true => simp at h; subst h; trivial
    | false =>
      simp only [Bool.false_eq_true, if_false, Option.bind_eq_some] at h
      obtain ⟨fast, hfast, h⟩ := h
      rw [por_eq_some_false, por_eq_some_false, por_eq_some_false, rd_ne_eq_some_false,
        rd_ne_eq_some_false, rd_ne_eq_some_false] at hbad
      obtain ⟨hsz, ⟨a, ha, ha2⟩, ⟨b, hb1, hb2⟩, ⟨c, hc, hc2⟩⟩ := hbad
      simp only [Option.some.injEq, decide_eq_false_iff_not, not_lt] at hsz
      rcases ht with ⟨suf, hpkt, hp⟩ | ⟨hdf, -, -⟩
      · rw [hdone] at hpkt hp
        simp only [List.nil_append, List.length_nil] at hpkt hp
        subst hpkt hp
        simp only [size_sub, Nat.zero_le, if_true, Nat.sub_zero, CILEN_BSD_COMPRESS] at hsz
        match pkt, hsz with
        | x :: y :: z :: suf3, _ =>
          simp [rd] at ha hb1 hc
          subst ha hb1 hc
          have hx : x = CI_BSD_COMPRESS := by exact_mod_cast ha2
          have hy : y = CILEN_BSD_COMPRESS := by exact_mod_cast hb2
          have hz : to_u8 (H.BSD_MAKE_OPT H.BSD_CURRENT_VERSION go.bsd_bits) = z :=
            to_u8_of_byte hc2 (hbytes z (by simp))
          subst hx hy
          cases fast with
          | true =>
            simp only [if_true, Option.some.injEq] at h
            subst h
            have h0 := ack_fast_true hfast
            have : suf3 = [] := by
              simp [size_sub, CILEN_BSD_COMPRESS] at h0
              exact h0
            subst this
            refine ⟨[rec_bsd H go], [], by simp, by simp, ?_⟩
            simp [rec_bsd, hz, List.flatten_append, hdone]
          | false =>
            simp only [Bool.false_eq_true, if_false, Option.some.injEq] at h
            subst h
            refine Or.inl ⟨suf3, ?_, ?_⟩
            · simp [rec_bsd, hz, List.flatten_append, hdone]
            · simp [rec_bsd, List.flatten_append, hdone, CILEN_BSD_COMPRESS]
      · rw [hdef] at hdf; cases hdf

theorem four_reads {oob : Nat → Option Nat} {pre suf : List Nat} {v0 v1 v2 v3 : Int}
    (hsz : 4 ≤ suf.length) (hbytes : ∀ b ∈ suf, b < 256)
    (h0 : rd_ne oob (pre ++ suf) (pre.length + 0) v0 = some false)
    (h1 : rd_ne oob (pre ++ suf) (pre.length + 1) v1 = some false)
    (h2 : rd_ne oob (pre ++ suf) (pre.length + 2) v2 = some false)
    (h3 : rd_ne oob (pre ++ suf) (pre.length + 3) v3 = some false) :
    ∃ t l suf1, suf = t :: l :: to_u8 v2 :: to_u8 v3 :: suf1 ∧ (t : Int) = v0 ∧ (l : Int) = v1 := by
  rw [rd_ne_eq_some_false] at h0 h1 h2 h3
  obtain ⟨a, ha, ha2⟩ := h0
  obtain ⟨b, hb, hb2⟩ := h1
  obtain ⟨c, hc, hc2⟩ := h2
  obtain ⟨d, hd, hd2⟩ := h3
  match suf, hsz, hbytes with
  | x :: y :: z :: w :: suf1, _, hbytes =>
    rw [rd_append_lt _ _ _ _ (by simp)] at ha hb hc hd
    simp only [List.getElem?_cons_zero, List.getElem?_cons_succ, Option.some.injEq] at ha hb hc hd
    subst ha hb hc hd
    refine ⟨x, y, suf1, ?_, ha2, hb2⟩
    rw [to_u8_of_byte hc2 (hbytes z (by simp)), to_u8_of_byte hd2 (hbytes w (by simp))]

theorem ack_deflate_ok (H : CcpHeader) (oob : Nat → Option Nat) (go : CcpOptions)
    (pkt : List Nat) (done : List (List Nat)) (suf : List Nat) (p : Nat) (st : AckStep)
    (hbytes : ∀ b ∈ pkt, b < 256)
    (hd : go.deflate = true → go.deflate_correct = true ∨ go.deflate_draft = true)
    (hpkt : pkt = done.flatten ++ suf) (hp : p = done.flatten.length)
    (h : ack_deflate H oob go pkt p = some st) :
    ack_block_ok go pkt done
      ((if go.deflate && go.deflate_correct then [rec_deflate H go] else [])
        ++ (if go.deflate && go.deflate_draft then [rec_deflate_draft H go] else [])) 4 st := by
  subst hp
  unfold ack_deflate at h
  by_cases hdf : go.deflate = true
  case neg =>
    simp only [hdf, Bool.false_eq_true, if_false, Option.some.injEq] at h
    subst h
    exact Or.inl ⟨suf, by simpa [hdf] using hpkt, by simp [hdf]⟩
  case pos =>
    simp only [hdf, if_true, Option.bind_eq_some] at h
    obtain ⟨bad, hbad, h⟩ := h
    cases bad with
    | true => simp at h; subst h; trivial
    | false =>
      simp only [Bool.false_eq_true, if_false] at h
      rw [por_eq_some_false, por_eq_some_false, por_eq_some_false, por_eq_some_false] at hbad
      obtain ⟨hsz, h0, h1, h2, h3⟩ := hbad
      subst hpkt
      simp only [Option.some.injEq, decide_eq_false_iff_not, not_lt, size_sub_append,
        CILEN_DEFLATE] at hsz
      obtain ⟨t, l, suf1, rfl, ht, hl⟩ := four_reads hsz
        (fun b hb => hbytes b (List.mem_append_right _ hb)) h0 h1 h2 h3
      have hl2 : l = CILEN_DEFLATE := by exact_mod_cast hl
      subst hl2
      -- the first record is the one the option set serializes first
      have hfirst : ∃ rest, ((if go.deflate && go.deflate_correct then [rec_deflate H go] else [])
          ++ (if go.deflate && go.deflate_draft then [rec_deflate_draft H go] else []))
          = [[t, CILEN_DEFLATE, to_u8 (H.DEFLATE_MAKE_OPT go.deflate_size),
              to_u8 H.DEFLATE_CHK_SEQUENCE]] ++ rest
          ∧ (¬ (go.deflate_correct = true ∧ go.deflate_draft = true) → rest = [])
          ∧ (go.deflate_correct = true ∧ go.deflate_draft = true →
              rest = [rec_deflate_draft H go]) := by
        rcases hd hdf with hc | hc
        · simp only [hc, if_true] at ht
          have : t = CI_DEFLATE := by exact_mod_cast ht
          subst this
          cases hdr : go.deflate_draft <;> simp [hdf, hc, hdr, rec_deflate]
        · cases hc2 : go.deflate_correct with
          | true =>
            simp only [hc2, if_true] at ht
            have : t = CI_DEFLATE := by exact_mod_cast ht
            subst this
            simp [hdf, hc, hc2, rec_deflate]
          | false =>
            simp only [hc2, Bool.false_eq_true, if_false] at ht
            have : t = CI_DEFLATE_DRAFT := by exact_mod_cast ht
            subst this
            simp [hdf, hc, hc2, rec_deflate_draft]
      obtain ⟨rest, hmine, hrest1, hrest2⟩ := hfirst
      rw [hmine]
      split at h
      · rename_i hend
        cases h
        have : suf1 = [] := by
          simp [CILEN_DEFLATE] at hend
          exact hend
        subst this
        exact ⟨_, rest, rfl, by simp, by simp⟩
      · unfold ack_deflate_draft at h
        split at h
        · rename_i hboth
          simp only [Bool.and_eq_true] at hboth
          rw [hrest2 hboth]
          simp only [Option.bind_eq_some] at h
          obtain ⟨bad2, hbad2, h⟩ := h
          cases bad2 with
          | true => simp at h; subst h; trivial
          | false =>
            simp only [Bool.false_eq_true, if_false, Option.some.injEq] at h
            subst h
            rw [por_eq_some_false, por_eq_some_false, por_eq_some_false, por_eq_some_false] at hbad2
            obtain ⟨-, g0, g1, g2, g3⟩ := hbad2
            by_cases hlen : 4 ≤ suf1.length
            · have e : done.flatten ++ t :: CILEN_DEFLATE ::
                  to_u8 (H.DEFLATE_MAKE_OPT go.deflate_size) :: to_u8 H.DEFLATE_CHK_SEQUENCE :: suf1
                  = (done.flatten ++ [t, CILEN_DEFLATE,
                  to_u8 (H.DEFLATE_MAKE_OPT go.deflate_size), to_u8 H.DEFLATE_CHK_SEQUENCE]) ++ suf1 := by
                simp
              have el : done.flatten.length + CILEN_DEFLATE = (done.flatten ++ [t, CILEN_DEFLATE,
                  to_u8 (H.DEFLATE_MAKE_OPT go.deflate_size), to_u8 H.DEFLATE_CHK_SEQUENCE]).length := by
                simp [CILEN_DEFLATE]
              rw [e, el] at g0 g1 g2 g3
              obtain ⟨t2, l2, suf2, rfl, ht2, hl2⟩ := four_reads hlen
                (fun b hb => hbytes b (by simp at hb ⊢; tauto)) g0 g1 g2 g3
              have : t2 = CI_DEFLATE_DRAFT := by exact_mod_cast ht2
              subst this
              have : l2 = CILEN_DEFLATE := by exact_mod_cast hl2
              subst this
              refine Or.inl ⟨suf2, ?_, ?_⟩
              · simp [rec_deflate_draft]
              · simp [rec_deflate_draft, CILEN_DEFLATE]
            · refine Or.inr ⟨hdf, ?_, ?_⟩
              · simp [CILEN_DEFLATE]
                omega
              · simp [CILEN_DEFLATE]
        · rename_i hboth
          simp only [Bool.and_eq_true] at hboth
          cases h
          rw [hrest1 hboth]
          refine Or.inl ⟨suf1, by simp, ?_⟩
          simp [CILEN_DEFLATE]

theorem andThen_ret (r : Bool) (f : Nat → Option AckStep) :
    AckStep.andThen (some (.ret r)) f = some (.ret r) := rfl

theorem andThen_next (p : Nat) (f : Nat → Option AckStep) :
    AckStep.andThen (some (.next p)) f = f p := rfl

theorem andThen_none (f : Nat → Option AckStep) : AckStep.andThen none f = none := rfl

theorem lead_block {pkt : List Nat} {done mine : List (List Nat)}
    (h : ∃ recs rest, mine = recs ++ rest ∧ recs ≠ [] ∧ pkt = (done ++ recs).flatten) :
    ∃ recs rest, done ++ mine = recs ++ rest ∧ recs ≠ [] ∧ pkt = recs.flatten := by
  obtain ⟨recs, rest, hm, hne, hp⟩ := h
  exact ⟨done ++ recs, rest, by rw [hm, List.append_assoc], by simp [hne], hp⟩

theorem lead_append {pkt : List Nat} {all : List (List Nat)} (later : List (List Nat))
    (h : ∃ recs rest, all = recs ++ rest ∧ recs ≠ [] ∧ pkt = recs.flatten) :
    ∃ recs rest, all ++ later = recs ++ rest ∧ recs ≠ [] ∧ pkt = recs.flatten := by
  obtain ⟨recs, rest, hm, hne, hp⟩ := h
  exact ⟨recs, rest ++ later, by rw [hm, List.append_assoc], hne, hp⟩

theorem lead_done {pkt : List Nat} {all : List (List Nat)}
    (h : ∃ recs rest, all = recs ++ rest ∧ recs ≠ [] ∧ pkt = recs.flatten) :
    leading_records pkt all := by
  obtain ⟨recs, rest, hm, hne, hp⟩ := h
  exact ⟨recs, rest, hm, hp, fun h0 => absurd h0 hne⟩

theorem ack_track_on {go : CcpOptions} {pkt : List Nat} {done : List (List Nat)} {p : Nat}
    (h : ack_track go pkt done 0 p) : ∃ suf, pkt = done.flatten ++ suf ∧ p = done.flatten.length := by
  rcases h with h | ⟨-, h1, h2⟩
  · exact h
  · omega

theorem ack_final {go : CcpOptions} {pkt : List Nat} {all : List (List Nat)} {slack p : Nat}
    (hs : slack < 2 ^ 64) (ht : ack_track go pkt all slack p)
    (hfin : (if size_sub pkt.length p ≠ 0 then false else true) = true) :
    leading_records pkt all := by
  have h0 : size_sub pkt.length p = 0 := by
    by_contra hne
    rw [if_pos hne] at hfin
    cases hfin
  rcases ht with ⟨suf, hpkt, hp⟩ | ⟨-, hlt, hle⟩
  · subst hpkt hp
    rw [size_sub_append] at h0
    have : suf = [] := List.length_eq_zero.mp h0
    subst this
    exact ⟨all, [], by simp, by simp, fun _ => rfl⟩
  · unfold size_sub at h0
    split at h0 <;> omega

/-- C5 as amended: for a packet of bytes, an option set in which Deflate is on
only with one of its variants and BSD-Compress, when on, is the first option
(no MPPE, no Deflate): if `ccp_proc_config_ack` returns true, the packet is
byte for byte a leading part of the record sequence of `got`, cut after a whole
record, with at least the first record and nothing after the last one it
holds.  (It may stop before options still expected: the fast ack.) -/
theorem ack_true_leading_records (H : CcpHeader) (oob : Nat → Option Nat) (go : CcpOptions)
    (pkt : List Nat) (hbytes : ∀ b ∈ pkt, b < 256)
    (hd : go.deflate = true → go.deflate_correct = true ∨ go.deflate_draft = true)
    (hb : go.bsd_compress = true → H.mppe_has_options go.mppe = false ∧ go.deflate = false)
    (h : ccp_proc_config_ack H oob go pkt = some true) :
    leading_records pkt (ci_records H go) := by
  unfold ccp_proc_config_ack at h
  simp only [Option.map_eq_some'] at h
  obtain ⟨st, h, hfin⟩ := h
  have hall : ci_records H go =
      [] ++ (if H.mppe_has_options go.mppe then [rec_mppe H go] else [])
      ++ ((if go.deflate && go.deflate_correct then [rec_deflate H go] else [])
          ++ (if go.deflate && go.deflate_draft then [rec_deflate_draft H go] else []))
      ++ (if go.bsd_compress then [rec_bsd H go] else [])
      ++ (if go.predictor_1 then [[CI_PREDICTOR_1, 2]] else [])
      ++ (if go.predictor_2 then [[CI_PREDICTOR_2, 2]] else []) := by
    simp [ci_records, rec_predictor_1, rec_predictor_2, CILEN_PREDICTOR_1, CILEN_PREDICTOR_2]
  rw [hall]
  -- MPPE block
  cases h1 : ack_mppe H go pkt 0 with
  | none => rw [h1] at h; cases h
  | some st1 =>
    have ok1 := ack_mppe_ok H go pkt st1 h1
    rw [h1] at h
    cases st1 with
    | ret r =>
      cases h
      simp only at hfin
      subst hfin
      exact lead_done (lead_append _ (lead_append _ (lead_append _ (lead_append _ (lead_block ok1)))))
    | next p1 =>
      rw [andThen_next] at h
      obtain ⟨suf1, hp1, hq1⟩ := ack_track_on ok1
      -- Deflate block
      cases h2 : ack_deflate H oob go pkt p1 with
      | none => rw [h2] at h; cases h
      | some st2 =>
        have ok2 := ack_deflate_ok H oob go pkt _ suf1 p1 st2 hbytes hd hp1 hq1 h2
        rw [h2] at h
        cases st2 with
        | ret r =>
          cases h
          simp only at hfin
          subst hfin
          exact lead_done (lead_append _ (lead_append _ (lead_append _ (lead_block ok2))))
        | next p2 =>
          rw [andThen_next] at h
          -- BSD-Compress block
          cases h3 : ack_bsd H oob go pkt p2 with
          | none => rw [h3] at h; cases h
          | some st3 =>
            have ok3 := ack_bsd_ok H oob go pkt _ 4 p2 st3 hbytes
              (fun hbsd => by
                obtain ⟨hm, hdf⟩ := hb hbsd
                simp [hm, hdf]) ok2 h3
            rw [h3] at h
            cases st3 with
            | ret r =>
              cases h
              simp only at hfin
              subst hfin
              exact lead_done (lead_append _ (lead_append _ (lead_block ok3)))
            | next p3 =>
              rw [andThen_next] at h
              -- Predictor-1 block
              cases h4 : ack_predictor_1 oob go pkt p3 with
              | none => rw [h4] at h; cases h
              | some st4 =>
                have ok4 := ack_predictor_ok oob go pkt _ go.predictor_1 CI_PREDICTOR_1 (4 + 3)
                  p3 st4 (by norm_num) ok3 h4
                rw [h4] at h
                cases st4 with
                | ret r =>
                  cases h
                  simp only at hfin
                  subst hfin
                  exact lead_done (lead_append _ (lead_block ok4))
                | next p4 =>
                  rw [andThen_next] at h
                  -- Predictor-2 block
                  have ok5 := ack_predictor_ok oob go pkt _ go.predictor_2 CI_PREDICTOR_2
                    (4 + 3 + 2) p4 st (by norm_num) ok4 h
                  cases st with
                  | ret r =>
                    simp only at hfin
                    subst hfin
                    exact lead_done (lead_block ok5)
                  | next p5 => exact ack_final (by norm_num) ok5 hfin

theorem ack_true_leading_records_witness :
    (∀ b ∈ [26, 4, 120, 0], b < 256)
    ∧ ccp_proc_config_ack pppd_header (fun _ => none) go_deflates_p1 [26, 4, 120, 0] = some true
    ∧ leading_records [26, 4, 120, 0] (ci_records pppd_header go_deflates_p1) :=
  ⟨by decide, by decide,
    ack_true_leading_records pppd_header (fun _ => none) go_deflates_p1 [26, 4, 120, 0]
      (by decide) (by decide) (by decide) (by decide)⟩

/-- C5 fails as stated: with Deflate-RFC, Deflate-draft and Predictor-1
requested, the packet that holds the Deflate-RFC record alone is acked (fast
ack, ccp.cpp 729-730, no byte read past the packet), yet it is not the
serialization of the option set, which has two more records. -/
theorem ack_fast_ack_counterexample :
    ccp_proc_config_ack pppd_header (fun _ => none) go_deflates_p1 [26, 4, 120, 0] = some true
    ∧ ci_bytes pppd_header go_deflates_p1 = [26, 4, 120, 0, 21, 4, 120, 0, 23, 2]
    ∧ [26, 4, 120, 0] ≠ ci_bytes pppd_header go_deflates_p1 := by
  decide

/-! ## ccp_rejci on the bytes of ccp_addci -/

theorem to_u8_cast {v : Int} (h0 : 0 ≤ v) (h1 : v < 256) : ((to_u8 v : Nat) : Int) = v := by
  unfold to_u8
  omega

theorem rej_andThen_next (pcb : PppPcb) (p : Nat) (f : PppPcb → Nat → Option RejStep) :
    RejStep.andThen (some (.next pcb p)) f = f pcb p := rfl

theorem rej_guard_inactive (oob : Nat → Option Nat) (pkt : List Nat) (ptr ci cilen : Nat) :
    rej_guard oob false pkt ptr ci cilen = some false := rfl

theorem rej_guard_hit (oob : Nat → Option Nat) (pre rest later : List Nat) (ci cilen : Nat)
    (hl : cilen = rest.length + 2) :
    rej_guard oob true (pre ++ (ci :: cilen :: rest) ++ later) pre.length ci cilen = some true := by
  have e : pre ++ (ci :: cilen :: rest) ++ later = pre ++ (ci :: cilen :: (rest ++ later)) := by simp
  have hs : size_sub (pre ++ (ci :: cilen :: (rest ++ later))).length pre.length ≥ cilen := by
    rw [size_sub_append]; simp; omega
  have hs2 : decide (size_sub (pre ++ (ci :: cilen :: (rest ++ later))).length pre.length ≥ cilen)
      = true := decide_eq_true hs
  rw [e]
  unfold rej_guard pand rd_eq
  rw [rd_append_lt _ _ _ _ (by simp), rd_append_lt _ _ _ _ (by simp), hs2]
  simp

theorem rej_guard_other (oob : Nat → Option Nat) (a : Bool) (suf : List Nat) (ci cilen : Nat)
    (hc : 0 < cilen) (h : suf = [] ∨ ∃ t rest, suf = t :: rest ∧ t ≠ ci) :
    rej_guard oob a suf 0 ci cilen = some false := by
  unfold rej_guard pand rd_eq rd
  cases a with
  | false => rfl
  | true =>
    rcases h with rfl | ⟨t, rest, rfl, hne⟩
    · have : ¬ (size_sub 0 0 ≥ cilen) := by simp [size_sub]; omega
      simp [this]
    · by_cases hs : cilen ≤ size_sub (rest.length + 1) 0
      · simp [hs, hne]
      · simp [hs]

theorem rej_bsd_serialized (H : CcpHeader) (oob : Nat → Option Nat) (pcb : PppPcb)
    (pre later : List Nat) (hfit : params_fit H pcb.ccp_gotoptions) :
    rej_bsd H oob pcb
        (pre ++ (if pcb.ccp_gotoptions.bsd_compress then rec_bsd H pcb.ccp_gotoptions else [])
          ++ later) pre.length
      = some (.next (with_go pcb { pcb.ccp_gotoptions with bsd_compress := false })
          (pre ++ (if pcb.ccp_gotoptions.bsd_compress then rec_bsd H pcb.ccp_gotoptions
            else [])).length) := by
  unfold rej_bsd
  by_cases hb : pcb.ccp_gotoptions.bsd_compress = true
  · have hv := to_u8_cast (hfit.2 hb).1 (hfit.2 hb).2
    simp only [hb, if_true, rec_bsd]
    rw [rej_guard_hit oob pre _ later CI_BSD_COMPRESS CILEN_BSD_COMPRESS (by simp [CILEN_BSD_COMPRESS])]
    have e : pre ++ [CI_BSD_COMPRESS, CILEN_BSD_COMPRESS,
        to_u8 (H.BSD_MAKE_OPT H.BSD_CURRENT_VERSION pcb.ccp_gotoptions.bsd_bits)] ++ later
        = pre ++ (CI_BSD_COMPRESS :: CILEN_BSD_COMPRESS ::
          to_u8 (H.BSD_MAKE_OPT H.BSD_CURRENT_VERSION pcb.ccp_gotoptions.bsd_bits) :: later) := by
      simp
    rw [e]
    unfold rd_ne
    rw [rd_append_lt _ _ _ _ (by simp)]
    simp [hv, CILEN_BSD_COMPRESS]
  · have hb' : pcb.ccp_gotoptions.bsd_compress = false := by simpa using hb
    simp only [hb', rej_guard_inactive, Bool.false_eq_true, if_false, List.append_nil,
      Option.some_bind, Option.some.injEq, RejStep.next.injEq, and_true]
    rcases pcb with ⟨st, wo, go, ao, ho, ar, ls, mc, md, mtu, lc⟩
    rcases go with ⟨d, dc, dd, b, p1, p2, ds, bb, mp, me⟩
    simp only at hb'
    subst hb'
    rfl

theorem rej_predictor_1_serialized (oob : Nat → Option Nat) (pcb : PppPcb) (pre later : List Nat) :
    rej_predictor_1 oob pcb
        (pre ++ (if pcb.ccp_gotoptions.predictor_1 then rec_predictor_1 else []) ++ later)
        pre.length
      = some (.next (with_go pcb { pcb.ccp_gotoptions with predictor_1 := false })
          (pre ++ (if pcb.ccp_gotoptions.predictor_1 then rec_predictor_1 else [])).length) := by
  unfold rej_predictor_1
  by_cases hb : pcb.ccp_gotoptions.predictor_1 = true
  · simp only [hb, if_true, rec_predictor_1]
    rw [rej_guard_hit oob pre _ later CI_PREDICTOR_1 CILEN_PREDICTOR_1 (by simp [CILEN_PREDICTOR_1])]
    simp [CILEN_PREDICTOR_1]
  · have hb' : pcb.ccp_gotoptions.predictor_1 = false := by simpa using hb
    simp only [hb', rej_guard_inactive, Bool.false_eq_true, if_false, List.append_nil,
      Option.some_bind, Option.some.injEq, RejStep.next.injEq, and_true]
    rcases pcb with ⟨st, wo, go, ao, ho, ar, ls, mc, md, mtu, lc⟩
    rcases go with ⟨d, dc, dd, b, p1, p2, ds, bb, mp, me⟩
    simp only at hb'
    subst hb'
    rfl

theorem rej_predictor_2_serialized (oob : Nat → Option Nat) (pcb : PppPcb) (pre later : List Nat) :
    rej_predictor_2 oob pcb
        (pre ++ (if pcb.ccp_gotoptions.predictor_2 then rec_predictor_2 else []) ++ later)
        pre.length
      = some (.next (with_go pcb { pcb.ccp_gotoptions with predictor_2 := false })
          (pre ++ (if pcb.ccp_gotoptions.predictor_2 then rec_predictor_2 else [])).length) := by
  unfold rej_predictor_2
  by_cases hb : pcb.ccp_gotoptions.predictor_2 = true
  · simp only [hb, if_true, rec_predictor_2]
    rw [rej_guard_hit oob pre _ later CI_PREDICTOR_2 CILEN_PREDICTOR_2 (by simp [CILEN_PREDICTOR_2])]
    simp [CILEN_PREDICTOR_2]
  · have hb' : pcb.ccp_gotoptions.predictor_2 = false := by simpa using hb
    simp only [hb', rej_guard_inactive, Bool.false_eq_true, if_false, List.append_nil,
      Option.some_bind, Option.some.injEq, RejStep.next.injEq, and_true]
    rcases pcb with ⟨st, wo, go, ao, ho, ar, ls, mc, md, mtu, lc⟩
    rcases go with ⟨d, dc, dd, b, p1, p2, ds, bb, mp, me⟩
    simp only at hb'
    subst hb'
    rfl

theorem rej_deflate_front (H : CcpHeader) (oob : Nat → Option Nat) (pcb : PppPcb) (T : List Nat)
    (hm : H.mppe_has_options pcb.ccp_gotoptions.mppe = false)
    (hfit : params_fit H pcb.ccp_gotoptions)
    (hT : T = [] ∨ ∃ t rest, T = t :: rest ∧ t ≠ CI_DEFLATE ∧ t ≠ CI_DEFLATE_DRAFT) :
    RejStep.andThen (RejStep.andThen (RejStep.andThen
        (rej_mppe H oob pcb
          ((if pcb.ccp_gotoptions.deflate && pcb.ccp_gotoptions.deflate_correct
              then rec_deflate H pcb.ccp_gotoptions else [])
            ++ (if pcb.ccp_gotoptions.deflate && pcb.ccp_gotoptions.deflate_draft
              then rec_deflate_draft H pcb.ccp_gotoptions else []) ++ T) 0)
        (fun pcb1 ptr => rej_deflate_correct H oob pcb1
          ((if pcb.ccp_gotoptions.deflate && pcb.ccp_gotoptions.deflate_correct
              then rec_deflate H pcb.ccp_gotoptions else [])
            ++ (if pcb.ccp_gotoptions.deflate && pcb.ccp_gotoptions.deflate_draft
              then rec_deflate_draft H pcb.ccp_gotoptions else []) ++ T) ptr))
        (fun pcb1 ptr => rej_deflate_draft H oob pcb1
          ((if pcb.ccp_gotoptions.deflate && pcb.ccp_gotoptions.deflate_correct
              then rec_deflate H pcb.ccp_gotoptions else [])
            ++ (if pcb.ccp_gotoptions.deflate && pcb.ccp_gotoptions.deflate_draft
              then rec_deflate_draft H pcb.ccp_gotoptions else []) ++ T) ptr))
        (fun pcb1 ptr => rej_deflate_off pcb1 ptr)
      = some (.next (with_go pcb { pcb.ccp_gotoptions with
            deflate := false
            deflate_correct := pcb.ccp_gotoptions.deflate_correct && !pcb.ccp_gotoptions.deflate
            deflate_draft := pcb.ccp_gotoptions.deflate_draft && !pcb.ccp_gotoptions.deflate })
          ((if pcb.ccp_gotoptions.deflate && pcb.ccp_gotoptions.deflate_correct
              then rec_deflate H pcb.ccp_gotoptions else [])
            ++ (if pcb.ccp_gotoptions.deflate && pcb.ccp_gotoptions.deflate_draft
              then rec_deflate_draft H pcb.ccp_gotoptions else [])).length) := by
  obtain ⟨hD, -⟩ := hfit
  rcases pcb with ⟨st, wo, go, ao, ho, ar, ls, mc, md, mtu, lc⟩
  rcases go with ⟨d, dc, dd, b, p1, p2, ds, bb, mp, me⟩
  simp only at hm hD ⊢
  cases d with
  | false =>
    have hT1 : T = [] ∨ ∃ t rest, T = t :: rest ∧ t ≠ CI_DEFLATE := by
      rcases hT with h | ⟨t, rest, h1, h2, -⟩
      · exact Or.inl h
      · exact Or.inr ⟨t, rest, h1, h2⟩
    have hT2 : T = [] ∨ ∃ t rest, T = t :: rest ∧ t ≠ CI_DEFLATE_DRAFT := by
      rcases hT with h | ⟨t, rest, h1, -, h2⟩
      · exact Or.inl h
      · exact Or.inr ⟨t, rest, h1, h2⟩
    simp only [Bool.false_and, Bool.false_eq_true, if_false, List.nil_append, rej_mppe, hm,
      rej_guard_inactive, Option.some_bind, rej_andThen_next, rej_deflate_correct,
      rej_deflate_draft, rej_guard_other oob _ T CI_DEFLATE CILEN_DEFLATE (by decide) hT1,
      rej_guard_other oob _ T CI_DEFLATE_DRAFT CILEN_DEFLATE (by decide) hT2]
    cases dc <;> cases dd <;> rfl
  | true =>
    have hv := to_u8_cast (hD rfl).1 (hD rfl).2.1
    have hc := to_u8_cast (hD rfl).2.2.1 (hD rfl).2.2.2
    cases dc <;> cases dd <;>
      simp [rej_mppe, hm, rej_guard, rej_andThen_next, rej_deflate_correct, rej_deflate_draft,
        rej_deflate_off, pand, por, rd_eq, rd_ne, rd, size_sub, with_go, rec_deflate,
        rec_deflate_draft, hv, hc, CILEN_DEFLATE, CILEN_MPPE, CI_MPPE, CI_DEFLATE,
        CI_DEFLATE_DRAFT]

theorem rej_tail (H : CcpHeader) (oob : Nat → Option Nat) (pcb : PppPcb) (pre pkt : List Nat)
    (p : Nat) (hfit : params_fit H pcb.ccp_gotoptions) (hp : p = pre.length)
    (hpkt : pkt = pre
      ++ (if pcb.ccp_gotoptions.bsd_compress then rec_bsd H pcb.ccp_gotoptions else [])
      ++ (if pcb.ccp_gotoptions.predictor_1 then rec_predictor_1 else [])
      ++ (if pcb.ccp_gotoptions.predictor_2 then rec_predictor_2 else [])) :
    (RejStep.andThen (RejStep.andThen (rej_bsd H oob pcb pkt p)
        (fun pcb1 ptr => rej_predictor_1 oob pcb1 pkt ptr))
        (fun pcb1 ptr => rej_predictor_2 oob pcb1 pkt ptr)).map (rej_finish pkt)
      = some (true, with_go pcb { pcb.ccp_gotoptions with
          bsd_compress := false, predictor_1 := false, predictor_2 := false }) := by
  subst hp
  have e1 : pkt = pre
      ++ (if pcb.ccp_gotoptions.bsd_compress then rec_bsd H pcb.ccp_gotoptions else [])
      ++ ((if pcb.ccp_gotoptions.predictor_1 then rec_predictor_1 else [])
        ++ (if pcb.ccp_gotoptions.predictor_2 then rec_predictor_2 else [])) := by
    rw [hpkt]; simp only [List.append_assoc]
  have s1 := rej_bsd_serialized H oob pcb pre
    ((if pcb.ccp_gotoptions.predictor_1 then rec_predictor_1 else [])
        ++ (if pcb.ccp_gotoptions.predictor_2 then rec_predictor_2 else [])) hfit
  rw [← e1] at s1
  rw [s1, rej_andThen_next]
  have s2 := rej_predictor_1_serialized oob
    (with_go pcb { pcb.ccp_gotoptions with bsd_compress := false })
    (pre ++ (if pcb.ccp_gotoptions.bsd_compress then rec_bsd H pcb.ccp_gotoptions else []))
    (if pcb.ccp_gotoptions.predictor_2 then rec_predictor_2 else [])
  simp only [with_go] at s2
  rw [← hpkt] at s2
  rw [with_go, s2, rej_andThen_next]
  have s3 := rej_predictor_2_serialized oob
    (with_go (with_go pcb { pcb.ccp_gotoptions with bsd_compress := false })
      { pcb.ccp_gotoptions with bsd_compress := false, predictor_1 := false })
    (pre ++ (if pcb.ccp_gotoptions.bsd_compress then rec_bsd H pcb.ccp_gotoptions else [])
      ++ (if pcb.ccp_gotoptions.predictor_1 then rec_predictor_1 else [])) []
  simp only [with_go, List.append_nil] at s3
  rw [← hpkt] at s3
  rw [s3]
  simp [rej_finish, size_sub, with_go]

theorem tail_bytes_head (H : CcpHeader) (go : CcpOptions) :
    let T := (if go.bsd_compress then rec_bsd H go else [])
      ++ (if go.predictor_1 then rec_predictor_1 else [])
      ++ (if go.predictor_2 then rec_predictor_2 else [])
    T = [] ∨ ∃ t rest, T = t :: rest ∧ t ≠ CI_DEFLATE ∧ t ≠ CI_DEFLATE_DRAFT := by
  cases go.bsd_compress <;> cases go.predictor_1 <;> cases go.predictor_2 <;>
    simp [rec_bsd, rec_predictor_1, rec_predictor_2, CI_BSD_COMPRESS, CI_PREDICTOR_1,
      CI_PREDICTOR_2, CI_DEFLATE, CI_DEFLATE_DRAFT]

theorem ci_bytes_no_mppe (H : CcpHeader) (go : CcpOptions)
    (hm : H.mppe_has_options go.mppe = false) :
    ci_bytes H go =
      (if go.deflate && go.deflate_correct then rec_deflate H go else [])
      ++ (if go.deflate && go.deflate_draft then rec_deflate_draft H go else [])
      ++ ((if go.bsd_compress then rec_bsd H go else [])
          ++ (if go.predictor_1 then rec_predictor_1 else [])
          ++ (if go.predictor_2 then rec_predictor_2 else [])) := by
  unfold ci_bytes ci_records
  cases go.deflate <;> cases go.deflate_correct <;> cases go.deflate_draft <;>
    cases go.bsd_compress <;> cases go.predictor_1 <;> cases go.predictor_2 <;> simp [hm]

theorem rejci_ci_bytes (H : CcpHeader) (oob : Nat → Option Nat) (pcb : PppPcb)
    (hm : H.mppe_has_options pcb.ccp_gotoptions.mppe = false)
    (hfit : params_fit H pcb.ccp_gotoptions)
    (hne : ci_bytes H pcb.ccp_gotoptions ≠ [] ∨ pcb.ccp_all_rejected = false) :
    ccp_rejci H oob pcb (ci_bytes H pcb.ccp_gotoptions)
      = some (true, with_go pcb (all_rejected_go pcb.ccp_gotoptions)) := by
  have hfirst : ((ci_bytes H pcb.ccp_gotoptions).isEmpty && pcb.ccp_all_rejected) = false := by
    rcases hne with h | h
    · cases hc : ci_bytes H pcb.ccp_gotoptions with
      | nil => exact absurd hc h
      | cons a l => rfl
    · rw [h]; simp
  unfold ccp_rejci
  rw [hfirst]
  simp only [Bool.false_eq_true, if_false]
  have hb := ci_bytes_no_mppe H pcb.ccp_gotoptions hm
  generalize ci_bytes H pcb.ccp_gotoptions = pkt at hb ⊢
  have hfront := rej_deflate_front H oob pcb _ hm hfit (tail_bytes_head H pcb.ccp_gotoptions)
  rw [← hb] at hfront
  rw [hfront, rej_andThen_next]
  have htail := rej_tail H oob
    (with_go pcb { pcb.ccp_gotoptions with
      deflate := false
      deflate_correct := pcb.ccp_gotoptions.deflate_correct && !pcb.ccp_gotoptions.deflate
      deflate_draft := pcb.ccp_gotoptions.deflate_draft && !pcb.ccp_gotoptions.deflate })
    ((if pcb.ccp_gotoptions.deflate && pcb.ccp_gotoptions.deflate_correct
        then rec_deflate H pcb.ccp_gotoptions else [])
      ++ (if pcb.ccp_gotoptions.deflate && pcb.ccp_gotoptions.deflate_draft
        then rec_deflate_draft H pcb.ccp_gotoptions else [])) pkt _
    (by
      obtain ⟨h1, h2⟩ := hfit
      exact ⟨fun h => by simp [with_go] at h, fun h => by simpa [with_go] using h2 h⟩)
    rfl (by rw [hb]; simp only [with_go, rec_bsd, List.append_assoc])
  rw [htail]
  simp [with_go, all_rejected_go]

theorem addci_no_mppe_pcb (H : CcpHeader) (K : MppeCrypto) (oob : Nat → Option Nat)
    (pcb : PppPcb) (pkt0 : List Nat) (r : AddciResult)
    (hm : H.mppe_has_options pcb.ccp_gotoptions.mppe = false)
    (ha : ccp_addci H K oob pcb pkt0 = some r) :
    ∃ m, r.pcb = { pcb with ccp_gotoptions := { pcb.ccp_gotoptions with method := m } } := by
  unfold ccp_addci at ha
  simp only [hm, Bool.false_eq_true, if_false, Option.some_bind, Bool.not_true,
    Option.bind_eq_some] at ha
  obtain ⟨_, -, _, -, _, -, ha⟩ := ha
  exact (addci_method_some ha).2.2.2

theorem addci_nothing (H : CcpHeader) (K : MppeCrypto) (oob : Nat → Option Nat)
    (pcb : PppPcb) (pkt : List Nat) (r : AddciResult)
    (h0 : ci_records H pcb.ccp_gotoptions = [])
    (ha : ccp_addci H K oob pcb pkt = some r) : r.len = 0 ∧ r.pkt = pkt := by
  rcases pcb with ⟨st, wo, go, ao, ho, ar, ls, mc, md, mtu, lc⟩
  rcases go with ⟨d, dc, dd, b, p1, p2, ds, bb, mp, me⟩
  have hm : H.mppe_has_options mp = false := by
    cases hmm : H.mppe_has_options mp with
    | false => rfl
    | true => simp [ci_records, hmm] at h0
  have hb : b = false := by
    cases b with
    | false => rfl
    | true => simp [ci_records] at h0
  have h1 : p1 = false := by
    cases p1 with
    | false => rfl
    | true => simp [ci_records] at h0
  have h2 : p2 = false := by
    cases p2 with
    | false => rfl
    | true => simp [ci_records] at h0
  have hdc : (d && dc) = false := by
    cases hx : (d && dc) with
    | false => rfl
    | true => simp [ci_records, hx] at h0
  have hdd : (d && dd) = false := by
    cases hx : (d && dd) with
    | false => rfl
    | true => simp [ci_records, hx] at h0
  subst hb h1 h2
  have hdef : addci_deflate H oob
      { deflate := d, deflate_correct := dc, deflate_draft := dd, bsd_compress := false,
        predictor_1 := false, predictor_2 := false, deflate_size := ds, bsd_bits := bb,
        mppe := mp, method := me } pkt 0 = some (pkt, 0) := by
    unfold addci_deflate
    cases d <;> cases dc <;> cases dd <;> simp_all
  unfold ccp_addci at ha
  simp only [hm, Bool.false_eq_true, if_false, Option.some_bind, Bool.not_true, hdef,
    addci_bsd, addci_predictor] at ha
  obtain ⟨-, h3, h4, -⟩ := addci_method_some ha
  exact ⟨h4, h3⟩

theorem ci_records_all_rejected (H : CcpHeader) (go : CcpOptions)
    (hm : H.mppe_has_options go.mppe = false) : ci_records H (all_rejected_go go) = [] := by
  simp [ci_records, all_rejected_go, hm]

/-- C6 as amended: for an option set without MPPE whose parameter values are
byte values, when `ccp_addci` has left the record sequence of `got` in the
buffer, and unless nothing was serialized while `ccp_all_rejected` is set:
`ccp_rejci` on exactly those bytes returns true; it leaves every serialized
option off (Deflate, BSD-Compress, the Predictors; a Deflate variant if it was
serialized) and changes nothing else, neither in `got` nor in the rest of the
link context; the resulting option set has no record left, and a later
`ccp_addci` writes none. -/
theorem rejci_after_addci (H : CcpHeader) (K : MppeCrypto) (oob : Nat → Option Nat)
    (pcb : PppPcb) (pkt0 : List Nat) (r : AddciResult)
    (hm : H.mppe_has_options pcb.ccp_gotoptions.mppe = false)
    (hfit : params_fit H pcb.ccp_gotoptions)
    (ha : ccp_addci H K oob pcb pkt0 = some r)
    (hs : r.pkt.take r.len = ci_bytes H pcb.ccp_gotoptions)
    (hne : ci_bytes H pcb.ccp_gotoptions ≠ [] ∨ pcb.ccp_all_rejected = false) :
    ccp_rejci H oob r.pcb (r.pkt.take r.len)
        = some (true, with_go r.pcb (all_rejected_go r.pcb.ccp_gotoptions))
    ∧ ci_records H (all_rejected_go r.pcb.ccp_gotoptions) = []
    ∧ ∀ (oob2 : Nat → Option Nat) (pkt2 : List Nat) (r2 : AddciResult),
        ccp_addci H K oob2 (with_go r.pcb (all_rejected_go r.pcb.ccp_gotoptions)) pkt2 = some r2 →
        r2.len = 0 ∧ r2.pkt = pkt2 := by
  obtain ⟨m, hr⟩ := addci_no_mppe_pcb H K oob pcb pkt0 r hm ha
  have hm2 : H.mppe_has_options r.pcb.ccp_gotoptions.mppe = false := by rw [hr]; exact hm
  have hb2 : ci_bytes H r.pcb.ccp_gotoptions = ci_bytes H pcb.ccp_gotoptions := by rw [hr]; rfl
  have hfit2 : params_fit H r.pcb.ccp_gotoptions := by rw [hr]; exact hfit
  have hne2 : ci_bytes H r.pcb.ccp_gotoptions ≠ [] ∨ r.pcb.ccp_all_rejected = false := by
    rw [hb2]
    rcases hne with h | h
    · exact Or.inl h
    · exact Or.inr (by rw [hr]; exact h)
  refine ⟨?_, ci_records_all_rejected H _ hm2, fun oob2 pkt2 r2 h2 => ?_⟩
  · rw [hs, ← hb2]
    exact rejci_ci_bytes H oob r.pcb hm2 hfit2 hne2
  · exact addci_nothing H K oob2 _ pkt2 r2 (ci_records_all_rejected H _ hm2) h2

theorem rejci_after_addci_witness :
    pppd_header.mppe_has_options (pcb_with go_deflates_bsd).ccp_gotoptions.mppe = false
    ∧ ccp_addci pppd_header plain_crypto (fun _ => none) (pcb_with go_deflates_bsd)
        (List.replicate 12 0) = some res_deflates_bsd
    ∧ res_deflates_bsd.pkt.take res_deflates_bsd.len
        = ci_bytes pppd_header (pcb_with go_deflates_bsd).ccp_gotoptions
    ∧ ccp_rejci pppd_header (fun _ => none) res_deflates_bsd.pcb
        (res_deflates_bsd.pkt.take res_deflates_bsd.len)
        = some (true, with_go res_deflates_bsd.pcb
            (all_rejected_go res_deflates_bsd.pcb.ccp_gotoptions)) :=
  ⟨by decide, by decide, by decide,
    (rejci_after_addci pppd_header plain_crypto (fun _ => none) (pcb_with go_deflates_bsd)
      (List.replicate 12 0) res_deflates_bsd (by decide) (by unfold params_fit; decide)
      (by decide) (by decide) (Or.inl (by decide))).1⟩

/-- C6 fails as stated: with 128-bit MPPE requested, `ccp_addci` writes the
MPPE record 18, 6, 1, 0, 0, 64; `ccp_rejci` on those bytes returns true and
closes the link ("MPPE required but peer refused") but leaves the MPPE option
requested, and the next `ccp_addci` writes the same MPPE record again. -/
theorem rejci_mppe_counterexample :
    (ccp_addci pppd_header plain_crypto (fun _ => none) (pcb_with go_mppe128)
        (List.replicate 7 0)).bind (fun r =>
      (ccp_rejci pppd_header (fun _ => none) r.pcb (r.pkt.take r.len)).bind (fun q =>
        (ccp_addci pppd_header plain_crypto (fun _ => none) q.2 (List.replicate 7 0)).map
          (fun r2 => (r.pkt.take r.len, q.1, q.2.ccp_gotoptions.mppe, q.2.lcp_closed,
                      r2.pkt.take r2.len))))
      = some ([18, 6, 1, 0, 0, 64], true, { opt_128 := true },
              ["MPPE required but peer refused"], [18, 6, 1, 0, 0, 64]) := by
  decide

/-! ## ccp_nak_cfg_received: the parameters never grow -/

theorem nak_deflate_params (H : CcpHeader) (oob : Nat → Option Nat) (go : CcpOptions)
    (pkt : List Nat) (ptr : Nat) (r : CcpOptions × Nat)
    (h : nak_deflate H oob go pkt ptr = some r) :
    r.1.deflate_size ≤ go.deflate_size ∧ r.1.bsd_bits = go.bsd_bits
    ∧ r.1.bsd_compress = go.bsd_compress
    ∧ (r.1.deflate = true → H.DEFLATE_MIN_WORKS ≤ go.deflate_size →
        H.DEFLATE_MIN_WORKS ≤ r.1.deflate_size) := by
  unfold nak_deflate at h
  simp only [Option.bind_eq_some] at h
  obtain ⟨c, -, h⟩ := h
  split at h
  · simp only [Option.bind_eq_some] at h
    obtain ⟨bad, hbad, go1, hgo1, c2, -, h⟩ := h
    have hres : r.1 = go1 := by split at h <;> cases h <;> rfl
    rw [hres]
    split at hgo1
    · cases hgo1
      exact ⟨le_refl _, rfl, rfl, fun hd => by simp at hd⟩
    · simp only [Option.bind_eq_some] at hgo1
      obtain ⟨b, hb, hgo1⟩ := hgo1
      split at hgo1
      · rename_i hlt
        cases hgo1
        refine ⟨le_of_lt hlt, rfl, rfl, fun _ _ => ?_⟩
        -- the suggestion passed the `DEFLATE_MIN_WORKS` test
        have hbad' : bad = false := by simpa using ‹¬bad = true›
        subst hbad'
        rw [por_eq_some_false, por_eq_some_false] at hbad
        obtain ⟨-, h2, -⟩ := hbad
        rw [hb] at h2
        simp only [Option.map_some', Option.some.injEq, decide_eq_false_iff_not, not_lt] at h2
        exact h2
      · cases hgo1
        exact ⟨le_refl _, rfl, rfl, fun _ hm => hm⟩
  · cases h
    exact ⟨le_refl _, rfl, rfl, fun _ hm => hm⟩

theorem nak_bsd_params (H : CcpHeader) (oob : Nat → Option Nat) (go : CcpOptions)
    (pkt : List Nat) (ptr : Nat) (r : CcpOptions × Nat)
    (h : nak_bsd H oob go pkt ptr = some r) :
    r.1.bsd_bits ≤ go.bsd_bits ∧ r.1.deflate_size = go.deflate_size
    ∧ r.1.deflate = go.deflate := by
  unfold nak_bsd at h
  simp only [Option.bind_eq_some] at h
  obtain ⟨c, -, h⟩ := h
  split at h
  · simp only [Option.bind_eq_some] at h
    obtain ⟨b, -, h⟩ := h
    split at h
    · cases h; exact ⟨le_refl _, rfl, rfl⟩
    · split at h
      · rename_i hlt
        cases h; exact ⟨le_of_lt hlt, rfl, rfl⟩
      · cases h; exact ⟨le_refl _, rfl, rfl⟩
  · cases h; exact ⟨le_refl _, rfl, rfl⟩

theorem nak_mppe_keeps (H : CcpHeader) (oob : Nat → Option Nat) (pcb pcb1 : PppPcb)
    (pkt : List Nat) (h : nak_mppe H oob pcb pkt = some pcb1) :
    pcb1.ccp_gotoptions.deflate_size = pcb.ccp_gotoptions.deflate_size
    ∧ pcb1.ccp_gotoptions.bsd_bits = pcb.ccp_gotoptions.bsd_bits
    ∧ pcb1.ccp_gotoptions.deflate = pcb.ccp_gotoptions.deflate
    ∧ pcb1.ccp_gotoptions.bsd_compress = pcb.ccp_gotoptions.bsd_compress := by
  unfold nak_mppe at h
  simp only [Option.bind_eq_some] at h
  obtain ⟨c, -, h⟩ := h
  split at h
  · simp only [Option.bind_eq_some] at h
    obtain ⟨b0, -, b1, -, b2, -, b3, -, h⟩ := h
    split at h <;> split at h <;>
      (simp only [Option.some.injEq] at h; subst h; exact ⟨rfl, rfl, rfl, rfl⟩)
  · cases h; exact ⟨rfl, rfl, rfl, rfl⟩

/-- What does hold of the parameters after `ccp_nak_cfg_received`: neither grows, and a
Deflate option still on keeps `deflate_size` at or above `DEFLATE_MIN_WORKS`. -/
theorem nak_params_monotone (H : CcpHeader) (oob : Nat → Option Nat) (pcb : PppPcb)
    (pkt : List Nat) (tr : Bool) (r : Bool × PppPcb)
    (h : ccp_nak_cfg_received H oob pcb pkt tr = some r) :
    r.2.ccp_gotoptions.deflate_size ≤ pcb.ccp_gotoptions.deflate_size
    ∧ r.2.ccp_gotoptions.bsd_bits ≤ pcb.ccp_gotoptions.bsd_bits
    ∧ (r.2.ccp_gotoptions.deflate = true →
        H.DEFLATE_MIN_WORKS ≤ pcb.ccp_gotoptions.deflate_size →
        H.DEFLATE_MIN_WORKS ≤ r.2.ccp_gotoptions.deflate_size) := by
  unfold ccp_nak_cfg_received at h
  simp only [Option.bind_eq_some] at h
  obtain ⟨pcb1, h1, r1, h2, r2, h3, h⟩ := h
  cases h
  obtain ⟨a1, a2, a3, a4⟩ := nak_mppe_keeps H oob pcb pcb1 pkt h1
  obtain ⟨b1, b2, b3, b4⟩ := nak_deflate_params H oob _ pkt 0 r1 h2
  obtain ⟨c1, c2, c3⟩ := nak_bsd_params H oob _ pkt _ r2 h3
  simp only
  refine ⟨by omega, by omega, fun hd hm => ?_⟩
  rw [c2]
  exact b4 (by rw [← c3]; exact hd) (by rw [a1]; exact hm)

/-! ## ccp_addci: the reported length -/

theorem addci_deflate_len (H : CcpHeader) (oob : Nat → Option Nat) (go : CcpOptions)
    (pkt : List Nat) (ptr : Nat) (r : List Nat × Nat)
    (h : addci_deflate H oob go pkt ptr = some r) :
    r.2 = ptr + (if go.deflate && go.deflate_correct then CILEN_DEFLATE else 0)
              + (if go.deflate && go.deflate_draft then CILEN_DEFLATE else 0) := by
  unfold addci_deflate at h
  by_cases hd : go.deflate = true
  · rw [if_pos hd, Option.bind_eq_some] at h
    obtain ⟨⟨p1, q1⟩, hA, hB⟩ := h
    have hq : q1 = ptr + (if go.deflate_correct then CILEN_DEFLATE else 0) := by
      by_cases hc : go.deflate_correct = true
      · rw [if_pos hc] at hA
        simp only [Option.bind_eq_some] at hA
        obtain ⟨_, _, _, _, _, _, _, _, hA⟩ := hA
        cases hA
        simp [hc]
      · rw [if_neg hc] at hA
        cases hA
        simp [hc]
    have hr : r.2 = q1 + (if go.deflate_draft then CILEN_DEFLATE else 0) := by
      by_cases hc : go.deflate_draft = true
      · simp only [hc, if_true, Option.bind_eq_some] at hB
        obtain ⟨_, _, _, _, _, _, _, _, _, _, hB⟩ := hB
        cases hB
        simp [hc]
      · simp only [hc, Bool.false_eq_true, if_false] at hB
        cases hB
        simp [hc]
    rw [hr, hq]
    simp [hd]
  · rw [if_neg hd] at h
    cases h
    simp [hd]

theorem addci_bsd_len (H : CcpHeader) (go : CcpOptions)
    (pkt : List Nat) (ptr : Nat) (r : List Nat × Nat)
    (h : addci_bsd H go pkt ptr = some r) :
    r.2 = ptr + (if go.bsd_compress then CILEN_BSD_COMPRESS else 0) := by
  unfold addci_bsd at h
  cases hb : go.bsd_compress <;>
    simp only [hb, Bool.false_eq_true, if_false, if_true, Option.bind_eq_some,
      Option.some.injEq] at h ⊢
  · subst h; rfl
  · obtain ⟨_, _, _, _, _, _, h⟩ := h; subst h; rfl

theorem addci_predictor_len (go : CcpOptions)
    (pkt : List Nat) (ptr : Nat) (r : List Nat × Nat)
    (h : addci_predictor go pkt ptr = some r) :
    r.2 = ptr + (if go.predictor_1 then CILEN_PREDICTOR_1 else 0)
              + (if go.predictor_2 then CILEN_PREDICTOR_2 else 0) := by
  unfold addci_predictor at h
  rw [Option.bind_eq_some] at h
  obtain ⟨⟨p1, q1⟩, hA, hB⟩ := h
  have hq : q1 = ptr + (if go.predictor_1 then CILEN_PREDICTOR_1 else 0) := by
    by_cases hc : go.predictor_1 = true
    · rw [if_pos hc] at hA
      simp only [Option.bind_eq_some] at hA
      obtain ⟨_, _, _, _, hA⟩ := hA
      cases hA
      simp [hc]
    · rw [if_neg hc] at hA
      cases hA
      simp [hc]
  have hr : r.2 = q1 + (if go.predictor_2 then CILEN_PREDICTOR_2 else 0) := by
    by_cases hc : go.predictor_2 = true
    · simp only [hc, if_true, Option.bind_eq_some] at hB
      obtain ⟨_, _, _, _, hB⟩ := hB
      cases hB
      simp [hc]
    · simp only [hc, Bool.false_eq_true, if_false] at hB
      cases hB
      simp [hc]
  rw [hr, hq]

/-- The length `ccp_addci` reports on success is the sum of the fixed lengths of the
active options. -/
theorem addci_len_eq_sum (H : CcpHeader) (K : MppeCrypto) (oob : Nat → Option Nat)
    (pcb : PppPcb) (pkt : List Nat) (r : AddciResult)
    (h : ccp_addci H K oob pcb pkt = some r) (hok : r.ok = true) :
    r.len = cilen_sum H pcb.ccp_gotoptions := by
  unfold ccp_addci at h
  simp only [Option.bind_eq_some] at h
  obtain ⟨⟨ok, pcb1, pkt1, ptr1⟩, h0, h⟩ := h
  have hp : ptr1 = if H.mppe_has_options pcb.ccp_gotoptions.mppe then CILEN_MPPE else 0 := by
    by_cases hm : H.mppe_has_options pcb.ccp_gotoptions.mppe = true
    · rw [if_pos hm] at h0
      simp only [Option.bind_eq_some] at h0
      obtain ⟨_, _, _, _, _, _, _, _, _, _, _, _, h0⟩ := h0
      simp only [Option.some.injEq, Prod.mk.injEq] at h0
      rw [← h0.2.2.2, if_pos hm]; rfl
    · rw [if_neg hm] at h0
      simp only [Option.some.injEq, Prod.mk.injEq] at h0
      rw [← h0.2.2.2, if_neg hm]
  simp only at h
  split at h
  · cases h; simp at hok
  · simp only [Option.bind_eq_some] at h
    obtain ⟨r1, h1, r2, h2, r3, h3, h4⟩ := h
    have e1 := addci_deflate_len H oob _ _ _ _ h1
    have e2 := addci_bsd_len H _ _ _ _ h2
    have e3 := addci_predictor_len _ _ _ _ h3
    obtain ⟨-, -, e4, -⟩ := addci_method_some h4
    rw [e4, e3, e2, e1, hp]
    unfold cilen_sum
    rfl

/-! ## Flag bytes -/

theorem testBit_255 (i : Nat) : Nat.testBit 255 i = decide (i < 8) := by
  have h : (255 : Nat) = 2 ^ 8 - 1 := by norm_num
  rw [h, Nat.testBit_two_pow_sub_one]

theorem flag_clear_testBit (x m i : Nat) :
    (flag_clear x m).testBit i = (x.testBit i && decide (i < 8) && !m.testBit i) := by
  unfold flag_clear
  have h256 : (256 : Nat) = 2 ^ 8 := by norm_num
  rw [Nat.testBit_and, Nat.testBit_xor, testBit_255, h256, Nat.testBit_mod_two_pow]
  by_cases h : i < 8 <;> simp [h]

theorem flag_or_testBit (x m i : Nat) :
    (flag_or x m).testBit i = (decide (i < 8) && (x.testBit i || m.testBit i)) := by
  unfold flag_or
  have h256 : (256 : Nat) = 2 ^ 8 := by norm_num
  rw [h256, Nat.testBit_mod_two_pow, Nat.testBit_or]

theorem flag_set_iff (x m : Nat) :
    flag_set x m = true ↔ ∃ i, x.testBit i = true ∧ m.testBit i = true := by
  unfold flag_set
  constructor
  · intro h
    have hne : x &&& m ≠ 0 := by simpa using h
    obtain ⟨i, hi⟩ := Nat.ne_zero_implies_bit_true hne
    rw [Nat.testBit_and] at hi
    exact ⟨i, by simpa using hi⟩
  · rintro ⟨i, h1, h2⟩
    have : (x &&& m).testBit i = true := by rw [Nat.testBit_and, h1, h2]; rfl
    have hne : x &&& m ≠ 0 := by
      intro h0
      rw [h0] at this
      simp at this
    simpa using hne

theorem flag_set_eq_false_iff (x m : Nat) :
    flag_set x m = false ↔ ∀ i, x.testBit i = true → m.testBit i = false := by
  rw [← Bool.not_eq_true, flag_set_iff]
  constructor
  · intro h i hi
    by_contra hm
    exact h ⟨i, hi, by simpa using hm⟩
  · rintro h ⟨i, h1, h2⟩
    rw [h i h1] at h2
    cases h2

theorem lt_256_testBit {x i : Nat} (hx : x < 256) (h : x.testBit i = true) : i < 8 := by
  by_contra hi
  have : x < 2 ^ i := lt_of_lt_of_le hx (by
    have : (256 : Nat) = 2 ^ 8 := by norm_num
    rw [this]
    exact Nat.pow_le_pow_right (by norm_num) (by omega))
  rw [Nat.testBit_lt_two_pow this] at h
  cases h

theorem flag_clear_lt (x m : Nat) : flag_clear x m < 256 := by
  unfold flag_clear
  exact lt_of_le_of_lt Nat.and_le_right (by
    have : 255 ^^^ m % 256 < 2 ^ 8 := Nat.xor_lt_two_pow (by norm_num) (by
      have := Nat.mod_lt m (show 256 > 0 by norm_num); norm_num; omega)
    norm_num at this; exact this)

theorem flag_or_lt (x m : Nat) : flag_or x m < 256 := by
  unfold flag_or
  exact Nat.mod_lt _ (by norm_num)

/-- Clearing a mask clears every flag inside it. -/
theorem flag_clear_unset (x m a : Nat) (h : ∀ i, a.testBit i = true → m.testBit i = true) :
    flag_set (flag_clear x m) a = false := by
  rw [flag_set_eq_false_iff]
  intro i hi
  rw [flag_clear_testBit] at hi
  by_contra ha
  have ha : a.testBit i = true := by simpa using ha
  rw [h i ha] at hi
  simp at hi

theorem flag_clear_self (x m : Nat) : flag_set (flag_clear x m) m = false :=
  flag_clear_unset x m m (fun _ h => h)

theorem flag_clear_or_left (x a b : Nat) : flag_set (flag_clear x (a ||| b)) a = false :=
  flag_clear_unset x _ a (fun i h => by rw [Nat.testBit_or, h]; rfl)

theorem flag_clear_or_right (x a b : Nat) : flag_set (flag_clear x (a ||| b)) b = false :=
  flag_clear_unset x _ b (fun i h => by rw [Nat.testBit_or, h]; simp)

/-- Clearing one flag leaves a flag disjoint from it as it was. -/
theorem flag_clear_other (x m a : Nat) (hx : x < 256) (hd : a &&& m = 0) :
    flag_set (flag_clear x m) a = flag_set x a := by
  have hdis : ∀ i, a.testBit i = true → m.testBit i = false := by
    intro i hi
    have : (a &&& m).testBit i = false := by rw [hd]; simp
    rw [Nat.testBit_and, hi] at this
    simpa using this
  rw [Bool.eq_iff_iff, flag_set_iff, flag_set_iff]
  constructor
  · rintro ⟨i, h1, h2⟩
    rw [flag_clear_testBit] at h1
    exact ⟨i, by simp at h1; exact h1.1.1, h2⟩
  · rintro ⟨i, h1, h2⟩
    refine ⟨i, ?_, h2⟩
    rw [flag_clear_testBit, h1, hdis i h2]
    simp [lt_256_testBit hx h1]

/-- Setting a flag that has a bit inside the byte makes it set. -/
theorem flag_or_set (x m : Nat) (hm : m % 256 ≠ 0) : flag_set (flag_or x m) m = true := by
  obtain ⟨i, hi⟩ := Nat.ne_zero_implies_bit_true hm
  have h256 : (256 : Nat) = 2 ^ 8 := by norm_num
  rw [h256, Nat.testBit_mod_two_pow] at hi
  simp only [Bool.and_eq_true, decide_eq_true_eq] at hi
  rw [flag_set_iff]
  exact ⟨i, by rw [flag_or_testBit]; simp [hi.1, hi.2], hi.2⟩

/-- Setting a flag keeps a flag that was set. -/
theorem flag_or_keeps (x m a : Nat) (hx : x < 256) (h : flag_set x a = true) :
    flag_set (flag_or x m) a = true := by
  rw [flag_set_iff] at h ⊢
  obtain ⟨i, h1, h2⟩ := h
  exact ⟨i, by rw [flag_or_testBit]; simp [lt_256_testBit hx h1, h1], h2⟩

/-! ## The reset handshake -/

/-- C17: `ccp_extcode` with code `CCP_RESETACK` returns true; when
`RESET_ACK_PENDING` is set and the id is `f.reqid`, both `RESET_ACK_PENDING`
and `REPEAT_RESET_REQ` are cleared and nothing else changes; when nothing is
pending or the id differs, the link context (so `ccp_localstate`) is left as
it was. -/
theorem extcode_resetack (H : CcpHeader) (pcb : PppPcb) (f : Fsm) (id : Int) (data : List Nat)
    (hcodes : H.CCP_RESETACK ≠ H.CCP_RESETREQ) :
    (ccp_extcode H pcb f H.CCP_RESETACK id data).1 = true
    ∧ (flag_set pcb.ccp_localstate H.RESET_ACK_PENDING = true → id = (f.reqid : Int) →
        (ccp_extcode H pcb f H.CCP_RESETACK id data).2
          = { pcb with ccp_localstate :=
                flag_clear pcb.ccp_localstate (H.RESET_ACK_PENDING ||| H.REPEAT_RESET_REQ) }
        ∧ flag_set (ccp_extcode H pcb f H.CCP_RESETACK id data).2.ccp_localstate
            H.RESET_ACK_PENDING = false
        ∧ flag_set (ccp_extcode H pcb f H.CCP_RESETACK id data).2.ccp_localstate
            H.REPEAT_RESET_REQ = false)
    ∧ ((flag_set pcb.ccp_localstate H.RESET_ACK_PENDING = false ∨ id ≠ (f.reqid : Int)) →
        (ccp_extcode H pcb f H.CCP_RESETACK id data).2 = pcb) := by
  have hdecomp : ∀ q : PppPcb, (ccp_reset_decomp q).2 = q := by
    intro q
    unfold ccp_reset_decomp mppe_decomp_reset
    split <;> rfl
  unfold ccp_extcode
  rw [if_neg hcodes, if_pos rfl]
  refine ⟨by split <;> rfl, ?_, ?_⟩
  · intro hp hid
    have hc : (flag_set pcb.ccp_localstate H.RESET_ACK_PENDING
        && decide (id = (f.reqid : Int))) = true := by simp [hp, hid]
    rw [if_pos hc]
    simp only [hdecomp]
    exact ⟨trivial, flag_clear_or_left _ _ _, flag_clear_or_right _ _ _⟩
  · intro h
    have hc : ¬ (flag_set pcb.ccp_localstate H.RESET_ACK_PENDING
        && decide (id = (f.reqid : Int))) = true := by
      rcases h with h | h <;> simp [h]
    rw [if_neg hc]

theorem extcode_resetack_witness :
    pppd_header.CCP_RESETACK ≠ pppd_header.CCP_RESETREQ
    ∧ (ccp_extcode pppd_header pcb_reset_pending fsm_opened pppd_header.CCP_RESETACK 5 []).1 = true
    ∧ (ccp_extcode pppd_header pcb_reset_pending fsm_opened pppd_header.CCP_RESETACK 5 []).2
        = { pcb_reset_pending with ccp_localstate := 0 }
    ∧ (ccp_extcode pppd_header pcb_reset_pending fsm_opened pppd_header.CCP_RESETACK 6 []).2
        = pcb_reset_pending :=
  ⟨by decide,
   (extcode_resetack pppd_header pcb_reset_pending fsm_opened 5 [] (by decide)).1,
   ((extcode_resetack pppd_header pcb_reset_pending fsm_opened 5 [] (by decide)).2.1
      (by decide) (by decide)).1,
   (extcode_resetack pppd_header pcb_reset_pending fsm_opened 6 [] (by decide)).2.2
      (Or.inr (by decide))⟩

/-- C18, amended: `ccp_extcode` with code `CCP_RESETREQ` always returns true.
With the FSM in the OPENED state it sends back one `CCP_RESETACK` with the
same id and data, and sets the FLUSHED flag of the compressor state when the
transmit method is MPPE (for another transmit method no compressor state
changes); in every other FSM state nothing is sent and nothing changes. -/
theorem extcode_resetreq (H : CcpHeader) (pcb : PppPcb) (f : Fsm) (id : Int) (data : List Nat) :
    (ccp_extcode H pcb f H.CCP_RESETREQ id data).1 = true
    ∧ (f.state = PPP_FSM_OPENED →
        (ccp_extcode H pcb f H.CCP_RESETREQ id data).2.fsm_sent
          = pcb.fsm_sent ++ [(H.CCP_RESETACK, id, data)]
        ∧ (pcb.ccp_transmit_method = CI_MPPE →
            (ccp_extcode H pcb f H.CCP_RESETREQ id data).2
              = fsm_send_data2 { pcb with mppe_comp := mppe_comp_reset pcb.mppe_comp }
                  H.CCP_RESETACK id data
            ∧ flag_set (ccp_extcode H pcb f H.CCP_RESETREQ id data).2.mppe_comp.bits
                MPPE_BIT_FLUSHED = true)
        ∧ (pcb.ccp_transmit_method ≠ CI_MPPE →
            (ccp_extcode H pcb f H.CCP_RESETREQ id data).2
              = fsm_send_data2 pcb H.CCP_RESETACK id data))
    ∧ (f.state ≠ PPP_FSM_OPENED → (ccp_extcode H pcb f H.CCP_RESETREQ id data).2 = pcb) := by
  unfold ccp_extcode
  rw [if_pos rfl]
  refine ⟨by split <;> rfl, ?_, ?_⟩
  · intro ho
    rw [if_neg (by simpa using ho)]
    refine ⟨?_, ?_, ?_⟩
    · unfold ccp_reset_comp fsm_send_data2
      split <;> rfl
    · intro hm
      unfold ccp_reset_comp
      rw [if_pos hm]
      refine ⟨rfl, ?_⟩
      rw [flag_set_iff]
      refine ⟨7, ?_, by decide⟩
      show (pcb.mppe_comp.bits ||| MPPE_BIT_FLUSHED).testBit 7 = true
      rw [Nat.testBit_or]
      have : MPPE_BIT_FLUSHED.testBit 7 = true := by decide
      rw [this]; simp
    · intro hm
      unfold ccp_reset_comp
      rw [if_neg hm]
  · intro ho
    rw [if_pos ho]

/-- C18 fails as stated: with the FSM in the REQSENT state a Reset-Request
with id 7 is answered by nothing (no packet is sent) and the compressor state
keeps its `bits`, although the transmit method is MPPE. -/
theorem extcode_resetreq_counterexample :
    ccp_extcode pppd_header pcb_reset_pending fsm_reqsent pppd_header.CCP_RESETREQ 7 []
      = (true, pcb_reset_pending)
    ∧ pcb_reset_pending.fsm_sent = []
    ∧ flag_set pcb_reset_pending.mppe_comp.bits MPPE_BIT_FLUSHED = false := by
  decide

theorem reset_burst_pending (H : CcpHeader) (send_ok : Int → Int → List Nat → Bool) (f : Fsm)
    (pcb : PppPcb) (ho : f.state = PPP_FSM_OPENED) :
    ∀ (n x : Nat), x < 256 → flag_set x H.RESET_ACK_PENDING = true →
      (reset_burst H send_ok n (x, f, pcb)).2 = (f, pcb) := by
  intro n
  induction n with
  | zero => intro x _ _; rfl
  | succ n ih =>
    intro x hx hp
    have hstep : ccp_reset_request H send_ok x f pcb
        = (true, flag_or x H.REPEAT_RESET_REQ, f, pcb) := by
      unfold ccp_reset_request
      rw [if_neg (by simpa using ho), if_neg (by simp [hp])]
    show (reset_burst H send_ok n (ccp_reset_request H send_ok x f pcb).2).2 = (f, pcb)
    rw [hstep]
    exact ih _ (flag_or_lt _ _) (flag_or_keeps _ _ _ hx hp)

/-- C19, amended: `ccp_reset_request` with the FSM not OPENED sends nothing,
changes nothing and returns false.  OPENED with `RESET_ACK_PENDING` clear:
`fsm_send_data2` is called once with a `CCP_RESETREQ` whose id is the previous
`f.id` plus one (mod 256), and `f.id` and `f.reqid` become that id; when the
send reports success `RESET_ACK_PENDING` becomes set and the call returns
true, when it reports failure the flag byte is unchanged and the call returns
false.  OPENED with `RESET_ACK_PENDING` set: nothing is sent, the FSM is
unchanged and `REPEAT_RESET_REQ` becomes set.  Hence `n >= 1` calls in a row
from an OPENED state with `RESET_ACK_PENDING` clear, the first send
succeeding, send exactly one `CCP_RESETREQ`. -/
theorem reset_request_cases (H : CcpHeader) (send_ok : Int → Int → List Nat → Bool)
    (ls : Nat) (f : Fsm) (pcb : PppPcb)
    (hA : H.RESET_ACK_PENDING % 256 ≠ 0) (hB : H.REPEAT_RESET_REQ % 256 ≠ 0) :
    (f.state ≠ PPP_FSM_OPENED → ccp_reset_request H send_ok ls f pcb = (false, ls, f, pcb))
    ∧ (f.state = PPP_FSM_OPENED → flag_set ls H.RESET_ACK_PENDING = false →
        (ccp_reset_request H send_ok ls f pcb).2.2.1
            = { f with id := (f.id + 1) % 256, reqid := (f.id + 1) % 256 }
        ∧ (ccp_reset_request H send_ok ls f pcb).2.2.2
            = fsm_send_data2 pcb H.CCP_RESETREQ ((f.id + 1) % 256 : Nat) []
        ∧ (send_ok H.CCP_RESETREQ ((f.id + 1) % 256 : Nat) [] = true →
            (ccp_reset_request H send_ok ls f pcb).1 = true
            ∧ (ccp_reset_request H send_ok ls f pcb).2.1 = flag_or ls H.RESET_ACK_PENDING
            ∧ flag_set (ccp_reset_request H send_ok ls f pcb).2.1 H.RESET_ACK_PENDING = true)
        ∧ (send_ok H.CCP_RESETREQ ((f.id + 1) % 256 : Nat) [] = false →
            (ccp_reset_request H send_ok ls f pcb).1 = false
            ∧ (ccp_reset_request H send_ok ls f pcb).2.1 = ls))
    ∧ (f.state = PPP_FSM_OPENED → flag_set ls H.RESET_ACK_PENDING = true →
        ccp_reset_request H send_ok ls f pcb = (true, flag_or ls H.REPEAT_RESET_REQ, f, pcb)
        ∧ flag_set (flag_or ls H.REPEAT_RESET_REQ) H.REPEAT_RESET_REQ = true)
    ∧ (∀ n, 1 ≤ n → f.state = PPP_FSM_OPENED → flag_set ls H.RESET_ACK_PENDING = false →
        send_ok H.CCP_RESETREQ ((f.id + 1) % 256 : Nat) [] = true →
        (reset_burst H send_ok n (ls, f, pcb)).2.2.fsm_sent
          = pcb.fsm_sent ++ [(H.CCP_RESETREQ, (((f.id + 1) % 256 : Nat) : Int), [])]) := by
  have hfirst : f.state = PPP_FSM_OPENED → flag_set ls H.RESET_ACK_PENDING = false →
      send_ok H.CCP_RESETREQ ((f.id + 1) % 256 : Nat) [] = true →
      ccp_reset_request H send_ok ls f pcb
        = (true, flag_or ls H.RESET_ACK_PENDING,
            { f with id := (f.id + 1) % 256, reqid := (f.id + 1) % 256 },
            fsm_send_data2 pcb H.CCP_RESETREQ ((f.id + 1) % 256 : Nat) []) := by
    intro ho hp hs
    unfold ccp_reset_request
    rw [if_neg (by simpa using ho), if_pos (by simp [hp])]
    simp only [hs, Bool.not_true, Bool.false_eq_true, if_false]
  refine ⟨?_, ?_, ?_, ?_⟩
  · intro ho
    unfold ccp_reset_request
    rw [if_pos ho]
  · intro ho hp
    refine ⟨?_, ?_, ?_, ?_⟩
    · unfold ccp_reset_request
      rw [if_neg (by simpa using ho), if_pos (by simp [hp])]
      dsimp only
      split <;> rfl
    · unfold ccp_reset_request
      rw [if_neg (by simpa using ho), if_pos (by simp [hp])]
      dsimp only
      split <;> rfl
    · intro hs
      rw [hfirst ho hp hs]
      exact ⟨rfl, rfl, flag_or_set _ _ hA⟩
    · intro hs
      unfold ccp_reset_request
      rw [if_neg (by simpa using ho), if_pos (by simp [hp])]
      simp only [hs, Bool.not_false, if_true]
      exact ⟨trivial, trivial⟩
  · intro ho hp
    refine ⟨?_, flag_or_set _ _ hB⟩
    unfold ccp_reset_request
    rw [if_neg (by simpa using ho), if_neg (by simp [hp])]
  · intro n hn ho hp hs
    obtain ⟨m, rfl⟩ : ∃ m, n = m + 1 := ⟨n - 1, by omega⟩
    show (reset_burst H send_ok m (ccp_reset_request H send_ok ls f pcb).2).2.2.fsm_sent = _
    rw [hfirst ho hp hs]
    have hb := reset_burst_pending H send_ok
      { f with id := (f.id + 1) % 256, reqid := (f.id + 1) % 256 }
      (fsm_send_data2 pcb H.CCP_RESETREQ ((f.id + 1) % 256 : Nat) []) ho m
      (flag_or ls H.RESET_ACK_PENDING) (flag_or_lt _ _) (flag_or_set _ _ hA)
    simp only [] at hb ⊢
    rw [hb]
    rfl

theorem reset_request_cases_witness :
    pppd_header.RESET_ACK_PENDING % 256 ≠ 0 ∧ pppd_header.REPEAT_RESET_REQ % 256 ≠ 0
    ∧ ccp_reset_request pppd_header (fun _ _ _ => true) 1 fsm_opened {}
        = (true, 3, fsm_opened, {})
    ∧ (reset_burst pppd_header (fun _ _ _ => true) 5 (0, fsm_opened, {})).2.2.fsm_sent
        = [(14, 42, [])] :=
  ⟨by decide, by decide,
   ((reset_request_cases pppd_header (fun _ _ _ => true) 1 fsm_opened {} (by decide)
      (by decide)).2.2.1 (by decide) (by decide)).1,
   (reset_request_cases pppd_header (fun _ _ _ => true) 0 fsm_opened {} (by decide)
      (by decide)).2.2.2 5 (by decide) (by decide) (by decide) (by decide)⟩

/-- C19 fails as stated: when `fsm_send_data2` reports failure, the call on an
OPENED FSM with `RESET_ACK_PENDING` clear returns false and leaves the flag
clear, so the next call tries to send again: two calls in a row make two
`CCP_RESETREQ` sends, with ids 42 and 43. -/
theorem reset_request_counterexample :
    ccp_reset_request pppd_header (fun _ _ _ => false) 0 fsm_opened {}
      = (false, 0, { fsm_opened with id := 42, reqid := 42 },
          { fsm_sent := [(pppd_header.CCP_RESETREQ, 42, [])] })
    ∧ (reset_burst pppd_header (fun _ _ _ => false) 2 (0, fsm_opened, {})).2.2.fsm_sent
        = [(pppd_header.CCP_RESETREQ, 42, []), (pppd_header.CCP_RESETREQ, 43, [])] := by
  decide

/-- C20, amended: `ccp_rack_timeout` with the FSM OPENED and
`REPEAT_RESET_REQ` set resends one `CCP_RESETREQ` with the id `f.reqid`,
clears `REPEAT_RESET_REQ` and leaves `RESET_ACK_PENDING` as it was; otherwise
(FSM not OPENED, or `REPEAT_RESET_REQ` clear) nothing is sent,
`RESET_ACK_PENDING` is cleared and `REPEAT_RESET_REQ` is left as it was. -/
theorem rack_timeout_cases (H : CcpHeader) (f : Fsm) (pcb : PppPcb)
    (hx : pcb.ccp_localstate < 256)
    (hd : H.RESET_ACK_PENDING &&& H.REPEAT_RESET_REQ = 0) :
    (f.state = PPP_FSM_OPENED → flag_set pcb.ccp_localstate H.REPEAT_RESET_REQ = true →
        ccp_rack_timeout H f pcb
          = { fsm_send_data2 pcb H.CCP_RESETREQ f.reqid [] with
              ccp_localstate := flag_clear pcb.ccp_localstate H.REPEAT_RESET_REQ }
        ∧ flag_set (ccp_rack_timeout H f pcb).ccp_localstate H.REPEAT_RESET_REQ = false
        ∧ flag_set (ccp_rack_timeout H f pcb).ccp_localstate H.RESET_ACK_PENDING
            = flag_set pcb.ccp_localstate H.RESET_ACK_PENDING)
    ∧ ((f.state ≠ PPP_FSM_OPENED ∨ flag_set pcb.ccp_localstate H.REPEAT_RESET_REQ = false) →
        ccp_rack_timeout H f pcb
          = { pcb with ccp_localstate := flag_clear pcb.ccp_localstate H.RESET_ACK_PENDING }
        ∧ flag_set (ccp_rack_timeout H f pcb).ccp_localstate H.RESET_ACK_PENDING = false
        ∧ flag_set (ccp_rack_timeout H f pcb).ccp_localstate H.REPEAT_RESET_REQ
            = flag_set pcb.ccp_localstate H.REPEAT_RESET_REQ) := by
  constructor
  · intro ho hr
    have he : ccp_rack_timeout H f pcb
        = { fsm_send_data2 pcb H.CCP_RESETREQ f.reqid [] with
            ccp_localstate := flag_clear pcb.ccp_localstate H.REPEAT_RESET_REQ } := by
      unfold ccp_rack_timeout
      rw [if_pos (by simp [ho, hr])]
      rfl
    rw [he]
    exact ⟨rfl, flag_clear_self _ _, flag_clear_other _ _ _ hx hd⟩
  · intro h
    have he : ccp_rack_timeout H f pcb
        = { pcb with ccp_localstate := flag_clear pcb.ccp_localstate H.RESET_ACK_PENDING } := by
      unfold ccp_rack_timeout
      rw [if_neg (by rcases h with h | h <;> simp [h])]
    rw [he]
    exact ⟨rfl, flag_clear_self _ _,
      flag_clear_other _ _ _ hx (by rw [Nat.land_comm]; exact hd)⟩

theorem rack_timeout_cases_witness :
    pcb_reset_pending.ccp_localstate < 256
    ∧ pppd_header.RESET_ACK_PENDING &&& pppd_header.REPEAT_RESET_REQ = 0
    ∧ ccp_rack_timeout pppd_header fsm_opened pcb_reset_pending
        = { pcb_reset_pending with
            ccp_localstate := 1, fsm_sent := [(pppd_header.CCP_RESETREQ, 5, [])] } :=
  ⟨by decide, by decide,
   ((rack_timeout_cases pppd_header fsm_opened pcb_reset_pending (by decide) (by decide)).1
      (by decide) (by decide)).1⟩

/-- C20 fails as stated: with `REPEAT_RESET_REQ` set but the FSM in the
REQSENT state, the timeout sends nothing, clears `RESET_ACK_PENDING` and
leaves `REPEAT_RESET_REQ` set (flag byte 3 becomes 2). -/
theorem rack_timeout_counterexample :
    flag_set pcb_reset_pending.ccp_localstate pppd_header.REPEAT_RESET_REQ = true
    ∧ ccp_rack_timeout pppd_header fsm_reqsent pcb_reset_pending
        = { pcb_reset_pending with ccp_localstate := 2 }
    ∧ (ccp_rack_timeout pppd_header fsm_reqsent pcb_reset_pending).fsm_sent = [] := by
  decide

/-! ## ccp_resetci -/

theorem resetci_force_auth (pcb : PppPcb) :
    (resetci_force pcb).auth_done = pcb.auth_done
    ∧ (resetci_force pcb).lcp_closed = pcb.lcp_closed
    ∧ (resetci_force pcb).mppe_keys_set = pcb.mppe_keys_set := by
  unfold resetci_force
  dsimp only
  split <;> split <;> exact ⟨rfl, rfl, rfl⟩

/-- C14: when the option set copied from `want` (after the `require_mppe`
forcing) has MPPE options and none of the four MS-CHAP bits is set in
`auth_done`, `ccp_resetci` returns false, and what it has done besides the
copy is one `lcp_close` with the reason "MPPE required, but MS-CHAP[v2] auth
not performed." -/
theorem resetci_no_mschap (H : CcpHeader) (lcp_close_ret : PppPcb → String → Bool)
    (ccp_test : List Nat → Bool → Int) (pcb : PppPcb)
    (hm : H.mppe_has_options (resetci_force pcb).ccp_gotoptions.mppe = true)
    (ha : pcb.auth_done &&& mschap_mask H = 0) :
    ccp_resetci H lcp_close_ret ccp_test pcb
      = some (false, lcp_close (resetci_force pcb)
          "MPPE required, but MS-CHAP[v2] auth not performed.")
    ∧ (lcp_close (resetci_force pcb)
          "MPPE required, but MS-CHAP[v2] auth not performed.").lcp_closed
        = pcb.lcp_closed ++ ["MPPE required, but MS-CHAP[v2] auth not performed."] := by
  constructor
  · unfold ccp_resetci resetci_mppe
    rw [if_pos hm, (resetci_force_auth pcb).1, ha, Nat.zero_shiftRight]
    rfl
  · unfold lcp_close
    rw [(resetci_force_auth pcb).2.1]

theorem resetci_no_mschap_witness :
    pppd_header.mppe_has_options (resetci_force pcb_no_mschap).ccp_gotoptions.mppe = true
    ∧ pcb_no_mschap.auth_done &&& mschap_mask pppd_header = 0
    ∧ ccp_resetci pppd_header (fun _ _ => true) (fun _ _ => 1) pcb_no_mschap
        = some (false, lcp_close (resetci_force pcb_no_mschap)
            "MPPE required, but MS-CHAP[v2] auth not performed.") :=
  ⟨by decide, by decide,
   (resetci_no_mschap pppd_header (fun _ _ => true) (fun _ _ => 1) pcb_no_mschap
      (by decide) (by decide)).1⟩

/-- With more than one MS-CHAP bit counted, `ccp_resetci` closes the link and
returns what `lcp_close` returned. -/
theorem resetci_many_mschap (H : CcpHeader) (lcp_close_ret : PppPcb → String → Bool)
    (ccp_test : List Nat → Bool → Int) (pcb : PppPcb) (numbits : Nat)
    (hm : H.mppe_has_options (resetci_force pcb).ccp_gotoptions.mppe = true)
    (hn : resetci_numbits (((pcb.auth_done &&& mschap_mask H) >>> H.CHAP_MS_SHIFT) + 1)
      ((pcb.auth_done &&& mschap_mask H) >>> H.CHAP_MS_SHIFT) 0 = some numbits)
    (h2 : 1 < numbits) :
    ccp_resetci H lcp_close_ret ccp_test pcb
      = some (lcp_close_ret (resetci_force pcb) "MPPE required but not available",
              lcp_close (resetci_force pcb) "MPPE required but not available") := by
  unfold ccp_resetci resetci_mppe
  rw [if_pos hm, (resetci_force_auth pcb).1, hn]
  simp only [Option.some_bind, gt_iff_lt, h2, if_true]
  cases hr : lcp_close_ret (resetci_force pcb) "MPPE required but not available" <;> rfl

/-- C15 fails in the code: with 128-bit MPPE wanted and MS-CHAP done in both
directions (two bits), `ccp_resetci` closes the link ("MPPE required but not
available") and, `lcp_close` having succeeded, returns true; with no MS-CHAP
bit it closes the link and returns false. -/
theorem resetci_two_mschap_returns_true :
    ccp_resetci pppd_header (fun _ _ => true) (fun _ _ => 1) pcb_two_mschap
      = some (true, lcp_close (resetci_force pcb_two_mschap) "MPPE required but not available")
    ∧ ccp_resetci pppd_header (fun _ _ => true) (fun _ _ => 1) pcb_no_mschap
      = some (false, lcp_close (resetci_force pcb_no_mschap)
          "MPPE required, but MS-CHAP[v2] auth not performed.") := by
  decide

/-- C16 fails in the code, on the same path: with MS-CHAP done in both
directions `ccp_resetci` returns true and leaves in `got` both the MPPE
options and Deflate. -/
theorem resetci_true_with_mppe_and_deflate :
    (ccp_resetci pppd_header (fun _ _ => true) (fun _ _ => 1) pcb_two_mschap).map
        (fun r => (r.1, pppd_header.mppe_has_options r.2.ccp_gotoptions.mppe,
                   r.2.ccp_gotoptions.deflate, r.2.lcp_closed))
      = some (true, true, true, ["MPPE required but not available"]) := by
  decide

theorem wr_nil (i v : Nat) : wr [] i v = none := by
  unfold wr; simp

theorem resetci_bsd_nil (H : CcpHeader) (ccp_test : List Nat → Bool → Int) (go : CcpOptions)
    (r : CcpOptions × List Nat) (h : resetci_bsd H ccp_test go [] = some r) :
    r = (go, []) ∧ go.bsd_compress = false := by
  unfold resetci_bsd at h
  by_cases hb : go.bsd_compress = true
  · rw [if_pos hb, wr_nil] at h; cases h
  · rw [if_neg hb] at h; cases h; exact ⟨rfl, by simpa using hb⟩

theorem resetci_deflate_nil (H : CcpHeader) (ccp_test : List Nat → Bool → Int)
    (go : CcpOptions) (r : CcpOptions × List Nat)
    (h : resetci_deflate H ccp_test go [] = some r) :
    r = ({ go with deflate := false }, []) := by
  unfold resetci_deflate at h
  by_cases hd : go.deflate = true
  · rw [if_pos hd] at h
    by_cases hc : go.deflate_correct = true
    · rw [if_pos hc] at h
      unfold resetci_deflate_probe at h
      rw [wr_nil] at h; cases h
    · rw [if_neg hc] at h
      simp only [Option.some_bind] at h
      by_cases hdr : go.deflate_draft = true
      · rw [if_pos hdr] at h
        unfold resetci_deflate_probe at h
        rw [wr_nil] at h; cases h
      · rw [if_neg hdr] at h
        simp only [Option.some_bind] at h
        rw [if_pos (by simp [hc, hdr])] at h
        cases h; rfl
  · rw [if_neg hd] at h
    cases h
    have : go.deflate = false := by simpa using hd
    rcases go with ⟨d, a, b, c, e, f, g, i, j, k⟩
    simp only at this
    subst this
    rfl

theorem resetci_predictor_nil (ccp_test : List Nat → Bool → Int) (go : CcpOptions)
    (r : CcpOptions × List Nat) (h : resetci_predictor ccp_test go [] = some r) :
    r = (go, []) ∧ go.predictor_1 = false ∧ go.predictor_2 = false := by
  unfold resetci_predictor at h
  by_cases h1 : go.predictor_1 = true
  · rw [if_pos h1, wr_nil] at h; cases h
  · rw [if_neg h1] at h
    simp only [Option.some_bind] at h
    by_cases h2 : go.predictor_2 = true
    · rw [if_pos h2, wr_nil] at h; cases h
    · rw [if_neg h2] at h
      cases h
      exact ⟨rfl, by simpa using h1, by simpa using h2⟩

theorem resetci_tail_nil (H : CcpHeader) (ccp_test : List Nat → Bool → Int) (p : PppPcb)
    (r : Bool × PppPcb) (h : resetci_tail H ccp_test [] (.next p) = some r) :
    r = (true, { p with ccp_gotoptions := { p.ccp_gotoptions with deflate := false } })
    ∧ p.ccp_gotoptions.bsd_compress = false ∧ p.ccp_gotoptions.predictor_1 = false
    ∧ p.ccp_gotoptions.predictor_2 = false := by
  unfold resetci_tail at h
  simp only [Option.bind_eq_some] at h
  obtain ⟨r1, h1, r2, h2, r3, h3, h⟩ := h
  obtain ⟨e1, hb⟩ := resetci_bsd_nil H ccp_test _ _ h1
  subst e1
  have e2 := resetci_deflate_nil H ccp_test _ _ h2
  subst e2
  obtain ⟨e3, hp1, hp2⟩ := resetci_predictor_nil ccp_test _ _ h3
  subst e3
  cases h
  exact ⟨rfl, hb, hp1, hp2⟩

theorem resetci_mppe_sync_cases (H : CcpHeader) (p : PppPcb) :
    (∃ p1, resetci_mppe_sync H p = .ret false p1) ∨ (∃ p1, resetci_mppe_sync H p = .next p1) := by
  unfold resetci_mppe_sync
  dsimp only
  split
  · exact Or.inl ⟨_, rfl⟩
  · exact Or.inr ⟨_, rfl⟩

/-- Off the path of C15: when `ccp_resetci` returns true without having closed
the link and leaves MPPE options in `got`, every other compressor is off in
`got`. -/
theorem resetci_mppe_excludes_others (H : CcpHeader) (lcp_close_ret : PppPcb → String → Bool)
    (ccp_test : List Nat → Bool → Int) (pcb q : PppPcb)
    (h : ccp_resetci H lcp_close_ret ccp_test pcb = some (true, q))
    (hm : H.mppe_has_options q.ccp_gotoptions.mppe = true)
    (hopen : q.lcp_closed = pcb.lcp_closed) :
    q.ccp_gotoptions.deflate = false ∧ q.ccp_gotoptions.bsd_compress = false
    ∧ q.ccp_gotoptions.predictor_1 = false ∧ q.ccp_gotoptions.predictor_2 = false := by
  have hclosed : ∀ msg, (lcp_close (resetci_force pcb) msg).lcp_closed ≠ pcb.lcp_closed := by
    intro msg e
    unfold lcp_close at e
    rw [(resetci_force_auth pcb).2.1] at e
    have := congrArg List.length e
    simp at this
  unfold ccp_resetci at h
  rw [Option.bind_eq_some] at h
  obtain ⟨st, hst, ht⟩ := h
  unfold resetci_mppe at hst
  by_cases hp : H.mppe_has_options (resetci_force pcb).ccp_gotoptions.mppe = true
  · rw [if_pos hp, Option.bind_eq_some] at hst
    obtain ⟨n, -, hst⟩ := hst
    by_cases hn : n > 1
    · rw [if_pos hn] at hst
      split at hst <;> cases hst
      · cases ht
      · unfold resetci_tail at ht
        cases ht
        exact absurd hopen (hclosed _)
    · rw [if_neg hn] at hst
      by_cases h0 : n = 0
      · rw [if_pos h0] at hst; cases hst; cases ht
      · rw [if_neg h0] at hst
        split at hst
        · cases hst; cases ht
        · cases hst
          rcases resetci_mppe_sync_cases H (resetci_force pcb) with ⟨p1, e⟩ | ⟨p1, e⟩
          · rw [e] at ht; cases ht
          · rw [e] at ht
            obtain ⟨e2, hb, hp1, hp2⟩ := resetci_tail_nil H ccp_test _ _ ht
            cases e2
            exact ⟨rfl, hb, hp1, hp2⟩
  · rw [if_neg hp] at hst
    cases hst
    obtain ⟨e, -, -, -⟩ := resetci_tail_nil H ccp_test _ _ ht
    cases e
    exact absurd hm hp

theorem resetci_mppe_excludes_others_example :
    ccp_resetci pppd_header (fun _ _ => true) (fun _ _ => 1) pcb_one_mschap
      = some (true, { resetci_force pcb_one_mschap with
          ccp_gotoptions := { mppe := { opt_128 := true }, deflate_correct := true,
                              deflate_size := 15 },
          ccp_allowoptions := { mppe := { opt_128 := true } } }) := by
  decide

/-! ## ccp_proc_config_req: the MPPE option -/

theorem wr_mid (pre suf : List Nat) (i v : Nat) (h : i < suf.length) :
    wr (pre ++ suf) (pre.length + i) v = some (pre ++ suf.set i v) := by
  unfold wr
  rw [if_pos (by simp; omega), List.set_append]
  simp

theorem split_at_record (buf : List Nat) (p : Nat) (rec : List Nat)
    (h : (buf.drop p).take rec.length = rec) (hne : rec ≠ []) :
    ∃ pre post, buf = pre ++ (rec ++ post) ∧ p = pre.length := by
  have hlen : p < buf.length := by
    by_contra hc
    rw [List.drop_eq_nil_of_le (by omega)] at h
    simp at h
    exact hne h
  refine ⟨buf.take p, (buf.drop p).drop rec.length, ?_, ?_⟩
  · conv_lhs => rw [← List.take_append_drop p buf]
    congr 1
    conv_lhs => rw [← List.take_append_drop rec.length (buf.drop p)]
    rw [h]
  · rw [List.length_take]; omega

theorem reqci_mppe_clear_strength (m0 : MppeOptions) :
    (reqci_mppe_clear m0).2.opt_128 = m0.opt_128 ∧ (reqci_mppe_clear m0).2.opt_40 = m0.opt_40
    ∧ (reqci_mppe_clear m0).2.stateful = m0.stateful := by
  rcases m0 with ⟨a, b, c, d, e, f, g⟩
  cases c <;> cases d <;> cases e <;> cases g <;> simp [reqci_mppe_clear]

/-- The end of the `CI_MPPE` case on a buffer that holds a six-byte record at
`pre.length`: the four option bytes are rewritten in place. -/
theorem reqci_mppe_accept_mid (H : CcpHeader) (K : MppeCrypto) (pcb : PppPcb)
    (pre post : List Nat) (t l a b c d : Nat) (newret : CpCodes) (m : MppeOptions) :
    ∃ o, reqci_mppe_accept H K pcb (pre ++ (t :: l :: a :: b :: c :: d :: post)) pre.length
        newret m = some o
      ∧ o.buf = pre ++ (t :: l :: (H.mppe_opts_to_ci m).1 :: (H.mppe_opts_to_ci m).2.1
                  :: (H.mppe_opts_to_ci m).2.2.1 :: (H.mppe_opts_to_ci m).2.2.2 :: post)
      ∧ o.rej_for_ci_mppe = false
      ∧ (newret ≠ CONFACK → o.newret = newret
          ∧ o.pcb = with_ho pcb { pcb.ccp_hisoptions with mppe := m })
      ∧ (newret = CONFACK → pcb.mtu ≠ 0 → o.newret = CONFACK
          ∧ o.pcb = { with_ho pcb { pcb.ccp_hisoptions with mppe := m } with
                lcp_closed := (mppe_init K pcb.lcp_closed pcb.mppe_comp m).2.1
                mppe_comp := (mppe_init K pcb.lcp_closed pcb.mppe_comp m).2.2
                mtu := pcb.mtu - H.MPPE_PAD }) := by
  unfold reqci_mppe_accept
  rw [wr_mid _ _ 2 _ (by simp)]
  simp only [Option.some_bind]
  rw [wr_mid _ _ 3 _ (by simp)]
  simp only [Option.some_bind]
  rw [wr_mid _ _ 4 _ (by simp)]
  simp only [Option.some_bind]
  rw [wr_mid _ _ 5 _ (by simp)]
  simp only [Option.some_bind]
  by_cases hn : newret = CONFACK
  · rw [if_pos hn]
    by_cases hmtu : pcb.mtu = 0
    · refine ⟨_, by rw [show (with_ho pcb { pcb.ccp_hisoptions with mppe := m }).mtu = pcb.mtu
          from rfl]; simp only [hmtu, ne_eq, not_true_eq_false, if_false]; rfl, ?_, ?_, ?_, ?_⟩
      · rfl
      · rfl
      · intro h; exact absurd hn h
      · intro _ h; exact absurd hmtu h
    · refine ⟨_, by rw [show (with_ho pcb { pcb.ccp_hisoptions with mppe := m }).mtu = pcb.mtu
          from rfl]; simp only [hmtu, ne_eq, not_false_eq_true, if_true]; rfl, ?_, ?_, ?_, ?_⟩
      · rfl
      · rfl
      · intro h; exact absurd hn h
      · intro _ _; exact ⟨hn, rfl⟩
  · rw [if_neg hn]
    refine ⟨_, rfl, rfl, rfl, fun _ => ⟨rfl, rfl⟩, fun h => absurd h hn⟩


theorem reqci_merge_ghost (dont_nak : Bool) (s : ReqciState) (o : ReqciOpt) (clen : Nat) :
    (reqci_merge dont_nak s o clen).verdicts
        = s.verdicts ++ [if o.newret = CONFNAK && dont_nak then CONFREJ else o.newret]
    ∧ (reqci_merge dont_nak s o clen).records = s.records ++ [(o.buf.drop s.p).take clen]
    ∧ (reqci_merge dont_nak s o clen).pcb = o.pcb
    ∧ (reqci_merge dont_nak s o clen).p = s.p + clen
    ∧ (reqci_merge dont_nak s o clen).len = s.len - clen
    ∧ (reqci_merge dont_nak s o clen).rej_for_ci_mppe = o.rej_for_ci_mppe := by
  unfold reqci_merge
  dsimp only
  split_ifs <;> exact ⟨rfl, rfl, rfl, rfl, rfl, rfl⟩

/-- The `CI_MPPE` case on a well-formed MPPE record at `pre.length` when MPPE is
allowed: the option bytes are decoded and handed to `reqci_mppe_select`. -/
theorem reqci_option_mppe_mid (H : CcpHeader) (K : MppeCrypto) (oob : Nat → Option Nat)
    (ccp_test : List Nat → Bool → Int) (dont_nak : Bool) (s : ReqciState)
    (pre post : List Nat) (b0 b1 b2 b3 : Nat)
    (hbuf : s.buf = pre ++ (CI_MPPE :: CILEN_MPPE :: b0 :: b1 :: b2 :: b3 :: post))
    (hp : s.p = pre.length) (hlen : 6 ≤ s.len)
    (hallow : H.mppe_has_options s.pcb.ccp_allowoptions.mppe = true) :
    reqci_option H K oob ccp_test dont_nak s
      = (reqci_mppe_select H K s.pcb s.buf s.p s.rej_for_ci_mppe
          (reqci_mppe_clear (H.MPPE_CI_TO_OPTS b0 b1 b2 b3)).1
          (reqci_mppe_clear (H.MPPE_CI_TO_OPTS b0 b1 b2 b3)).2).map fun o => (o, CILEN_MPPE) := by
  unfold reqci_option
  have r0 : rd oob s.buf (s.p + 0) = some CI_MPPE := by
    rw [hbuf, hp, rd_append_lt oob _ _ 0 (by simp)]; simp
  have r1 : rd oob s.buf (s.p + 1) = some CILEN_MPPE := by
    rw [hbuf, hp, rd_append_lt oob _ _ 1 (by simp)]; simp
  have r2 : rd oob s.buf (s.p + 2) = some b0 := by
    rw [hbuf, hp, rd_append_lt oob _ _ 2 (by simp)]; simp
  have r3 : rd oob s.buf (s.p + 3) = some b1 := by
    rw [hbuf, hp, rd_append_lt oob _ _ 3 (by simp)]; simp
  have r4 : rd oob s.buf (s.p + 4) = some b2 := by
    rw [hbuf, hp, rd_append_lt oob _ _ 4 (by simp)]; simp
  have r5 : rd oob s.buf (s.p + 5) = some b3 := by
    rw [hbuf, hp, rd_append_lt oob _ _ 5 (by simp)]; simp
  rw [r0, r1]
  have hbad : por (some (decide (s.len < 2)))
      (por ((some CILEN_MPPE).map fun b => decide (b < 2))
           ((some CILEN_MPPE).map fun b => decide (b > s.len))) = some false := by
    rw [por_eq_some_false, por_eq_some_false]
    refine ⟨by simp; omega, by simp [CILEN_MPPE], by simp [CILEN_MPPE]; omega⟩
  rw [hbad]
  simp only [Option.some_bind, Bool.false_eq_true, if_false, if_true]
  unfold reqci_mppe
  rw [if_neg (by simp [hallow]), r2, r3, r4, r5]
  rfl

theorem reqci_mppe_select_both (H : CcpHeader) (K : MppeCrypto) (pcb : PppPcb) (buf : List Nat)
    (p : Nat) (rfm : Bool) (newret : CpCodes) (m : MppeOptions)
    (hs : pcb.settings.refuse_mppe_stateful = false) (h1 : m.opt_128 = true)
    (h2 : m.opt_40 = true) :
    reqci_mppe_select H K pcb buf p rfm newret m
      = if pcb.ccp_allowoptions.mppe.opt_128 then
          reqci_mppe_accept H K pcb buf p CONFNAK { m with opt_40 := false }
        else if pcb.ccp_allowoptions.mppe.opt_40 then
          reqci_mppe_accept H K pcb buf p CONFNAK { m with opt_128 := false }
        else some { newret := CONFREJ, pcb := with_ho pcb { pcb.ccp_hisoptions with mppe := m },
                    buf := buf, rej_for_ci_mppe := rfm } := by
  unfold reqci_mppe_select
  simp only [hs, h1, h2, Bool.and_false, Bool.false_eq_true, if_false, Bool.and_self, if_true]

/-- C12: a well-formed MPPE option of a configure-request whose bitmap has both
the 40-bit and the 128-bit bit, with MPPE allowed, stateful mode not refused
and `dont_nak` false: if `allow` has 128-bit the option is nak'd, the peer
options being left with 40-bit cleared and 128-bit kept and the record
rewritten from them; otherwise if `allow` has 40-bit it is nak'd with 128-bit
cleared and 40-bit kept; otherwise it is rejected, the record left as it
was. -/
theorem reqci_mppe_both_strengths (H : CcpHeader) (K : MppeCrypto) (oob : Nat → Option Nat)
    (ccp_test : List Nat → Bool → Int) (s : ReqciState) (b0 b1 b2 b3 : Nat)
    (hrec : (s.buf.drop s.p).take 6 = [CI_MPPE, CILEN_MPPE, b0, b1, b2, b3])
    (hlen : 6 ≤ s.len)
    (hallow : H.mppe_has_options s.pcb.ccp_allowoptions.mppe = true)
    (hstate : s.pcb.settings.refuse_mppe_stateful = false)
    (h128 : (H.MPPE_CI_TO_OPTS b0 b1 b2 b3).opt_128 = true)
    (h40 : (H.MPPE_CI_TO_OPTS b0 b1 b2 b3).opt_40 = true) :
    ∃ o, reqci_option H K oob ccp_test false s = some (o, CILEN_MPPE)
      ∧ (s.pcb.ccp_allowoptions.mppe.opt_128 = true →
          o.newret = CONFNAK
          ∧ o.pcb.ccp_hisoptions.mppe
              = { (reqci_mppe_clear (H.MPPE_CI_TO_OPTS b0 b1 b2 b3)).2 with opt_40 := false }
          ∧ o.pcb.ccp_hisoptions.mppe.opt_40 = false
          ∧ o.pcb.ccp_hisoptions.mppe.opt_128 = true
          ∧ (o.buf.drop s.p).take 6 = rec_mppe H o.pcb.ccp_hisoptions
          ∧ (reqci_merge false s o CILEN_MPPE).verdicts = s.verdicts ++ [CONFNAK])
      ∧ (s.pcb.ccp_allowoptions.mppe.opt_128 = false →
          s.pcb.ccp_allowoptions.mppe.opt_40 = true →
          o.newret = CONFNAK
          ∧ o.pcb.ccp_hisoptions.mppe
              = { (reqci_mppe_clear (H.MPPE_CI_TO_OPTS b0 b1 b2 b3)).2 with opt_128 := false }
          ∧ o.pcb.ccp_hisoptions.mppe.opt_128 = false
          ∧ o.pcb.ccp_hisoptions.mppe.opt_40 = true
          ∧ (o.buf.drop s.p).take 6 = rec_mppe H o.pcb.ccp_hisoptions
          ∧ (reqci_merge false s o CILEN_MPPE).verdicts = s.verdicts ++ [CONFNAK])
      ∧ (s.pcb.ccp_allowoptions.mppe.opt_128 = false →
          s.pcb.ccp_allowoptions.mppe.opt_40 = false →
          o.newret = CONFREJ ∧ o.buf = s.buf
          ∧ (reqci_merge false s o CILEN_MPPE).verdicts = s.verdicts ++ [CONFREJ]) := by
  obtain ⟨pre, post, hbuf, hp⟩ := split_at_record s.buf s.p
    [CI_MPPE, CILEN_MPPE, b0, b1, b2, b3] hrec (by simp)
  have hbuf2 : s.buf = pre ++ (CI_MPPE :: CILEN_MPPE :: b0 :: b1 :: b2 :: b3 :: post) := hbuf
  rw [reqci_option_mppe_mid H K oob ccp_test false s pre post b0 b1 b2 b3 hbuf2 hp hlen hallow]
  obtain ⟨c128, c40, -⟩ := reqci_mppe_clear_strength (H.MPPE_CI_TO_OPTS b0 b1 b2 b3)
  rw [h128] at c128
  rw [h40] at c40
  have hverd : ∀ (o : ReqciOpt) (v : CpCodes), o.newret = v →
      (reqci_merge false s o CILEN_MPPE).verdicts = s.verdicts ++ [v] := by
    intro o v hv
    rw [(reqci_merge_ghost false s o CILEN_MPPE).1, hv]
    simp
  have hslice : ∀ (x y z w : Nat),
      ((pre ++ (CI_MPPE :: CILEN_MPPE :: x :: y :: z :: w :: post)).drop pre.length).take 6
        = [CI_MPPE, CILEN_MPPE, x, y, z, w] := by
    intro x y z w
    rw [List.drop_left]
    rfl
  rw [reqci_mppe_select_both H K s.pcb s.buf s.p s.rej_for_ci_mppe _ _ hstate c128 c40]
  by_cases ha128 : s.pcb.ccp_allowoptions.mppe.opt_128 = true
  · rw [if_pos ha128, hbuf2, hp]
    obtain ⟨o, ho, hb, -, hnak, -⟩ := reqci_mppe_accept_mid H K s.pcb pre post CI_MPPE CILEN_MPPE
      b0 b1 b2 b3 CONFNAK { (reqci_mppe_clear (H.MPPE_CI_TO_OPTS b0 b1 b2 b3)).2 with
        opt_40 := false }
    obtain ⟨hn, hpcb⟩ := hnak (by decide)
    rw [ho]
    refine ⟨o, rfl, ?_, ?_, ?_⟩
    · intro _
      refine ⟨hn, by rw [hpcb]; rfl, by rw [hpcb]; rfl, by rw [hpcb]; exact c128, ?_,
        hverd o _ hn⟩
      rw [hb, hslice, hpcb]
      rfl
    · intro h; rw [h] at ha128; cases ha128
    · intro h; rw [h] at ha128; cases ha128
  · rw [if_neg ha128]
    have ha128f : s.pcb.ccp_allowoptions.mppe.opt_128 = false := by simpa using ha128
    by_cases ha40 : s.pcb.ccp_allowoptions.mppe.opt_40 = true
    · rw [if_pos ha40, hbuf2, hp]
      obtain ⟨o, ho, hb, -, hnak, -⟩ := reqci_mppe_accept_mid H K s.pcb pre post CI_MPPE
        CILEN_MPPE b0 b1 b2 b3 CONFNAK { (reqci_mppe_clear (H.MPPE_CI_TO_OPTS b0 b1 b2 b3)).2 with
          opt_128 := false }
      obtain ⟨hn, hpcb⟩ := hnak (by decide)
      rw [ho]
      refine ⟨o, rfl, ?_, ?_, ?_⟩
      · intro h; rw [h] at ha128; exact absurd rfl ha128
      · intro _ _
        refine ⟨hn, by rw [hpcb]; rfl, by rw [hpcb]; rfl, by rw [hpcb]; exact c40, ?_,
          hverd o _ hn⟩
        rw [hb, hslice, hpcb]
        rfl
      · intro _ h; rw [h] at ha40; cases ha40
    · rw [if_neg ha40]
      refine ⟨_, rfl, ?_, ?_, ?_⟩
      · intro h; exact absurd h ha128
      · intro _ h; exact absurd h ha40
      · intro _ _
        exact ⟨rfl, rfl, hverd _ _ rfl⟩

theorem reqci_mppe_both_strengths_witness :
    (reqci_state_mppe_both.buf.drop reqci_state_mppe_both.p).take 6
        = [CI_MPPE, CILEN_MPPE, 1, 0, 0, 0x60]
    ∧ 6 ≤ reqci_state_mppe_both.len
    ∧ ∃ o, reqci_option pppd_header plain_crypto (fun _ => none) (fun _ _ => 1) false
          reqci_state_mppe_both = some (o, CILEN_MPPE)
        ∧ o.newret = CONFNAK
        ∧ (o.buf.drop reqci_state_mppe_both.p).take 6 = rec_mppe pppd_header o.pcb.ccp_hisoptions :=
  ⟨by decide, by decide,
   (reqci_mppe_both_strengths pppd_header plain_crypto (fun _ => none) (fun _ _ => 1)
      reqci_state_mppe_both 1 0 0 0x60 (by decide) (by decide) (by decide) (by decide)
      (by decide) (by decide)).imp
      (fun _ h => ⟨h.1, (h.2.1 (by decide)).1, (h.2.1 (by decide)).2.2.2.2.1⟩)⟩

theorem mppe_rekey_keeps (K : MppeCrypto) (state : PppMppeState) (initial_key : Bool) :
    (mppe_rekey K state initial_key).keylen = state.keylen
    ∧ (mppe_rekey K state initial_key).stateful = state.stateful
    ∧ (mppe_rekey K state initial_key).ccount = state.ccount
    ∧ (mppe_rekey K state initial_key).bits = state.bits := by
  unfold mppe_rekey
  dsimp only
  split_ifs <;> exact ⟨rfl, rfl, rfl, rfl⟩

/-- What `mppe_init` leaves for options with the 128-bit bit: success, key
length 16, and the `stateful` flag set by the options or else left as it was. -/
theorem mppe_init_128 (K : MppeCrypto) (closed : List String) (state : PppMppeState)
    (options : MppeOptions) (h : options.opt_128 = true) :
    (mppe_init K closed state options).1 = true
    ∧ (mppe_init K closed state options).2.1 = closed
    ∧ (mppe_init K closed state options).2.2.keylen = 16
    ∧ (mppe_init K closed state options).2.2.stateful = (options.stateful || state.stateful)
    ∧ (mppe_init K closed state options).2.2.ccount = MPPE_CCOUNT_SPACE - 1
    ∧ (mppe_init K closed state options).2.2.bits = MPPE_BIT_ENCRYPTED := by
  unfold mppe_init
  dsimp only
  rw [if_pos (by simp [h])]
  refine ⟨rfl, rfl, ?_, ?_, rfl, rfl⟩
  · show (mppe_rekey K _ true).keylen = 16
    rw [(mppe_rekey_keeps K _ true).1, if_pos h]
    split <;> rfl
  · show (mppe_rekey K _ true).stateful = _
    rw [(mppe_rekey_keeps K _ true).2.1, if_pos h]
    cases options.stateful <;> simp

theorem reqci_loop_one (H : CcpHeader) (K : MppeCrypto) (oob : Nat → Option Nat)
    (ccp_test : List Nat → Bool → Int) (dont_nak : Bool) (fuel : Nat) (s : ReqciState)
    (o : ReqciOpt) (clen : Nat) (hl : s.len ≠ 0)
    (ho : reqci_option H K oob ccp_test dont_nak s = some (o, clen))
    (h0 : (reqci_merge dont_nak s o clen).len = 0) :
    reqci_loop H K oob ccp_test dont_nak (fuel + 1) s = some (reqci_merge dont_nak s o clen) := by
  rw [reqci_loop, if_neg hl, ho]
  simp only [Option.some_bind]
  cases fuel with
  | zero => rw [reqci_loop, if_pos h0]
  | succ n => rw [reqci_loop, if_pos h0]

/-- What `ccp_proc_config_req` does with a request of one well-formed MPPE
record whose bitmap asks for 128-bit stateless only, when `allow.mppe` has
`opt_128` set and the interface MTU is non-zero, for every header, cipher and
probe: it returns CONFACK, the compressor state is the one `mppe_init` leaves,
with `keylen = 16`, `ccount = 4095` and `bits` = ENCRYPTED, the MTU is lowered
by exactly `MPPE_PAD`, and the `stateful` flag of the compressor state is what
it was before the call. -/
theorem proc_config_req_mppe128 (H : CcpHeader) (K : MppeCrypto) (oob : Nat → Option Nat)
    (ccp_test : List Nat → Bool → Int) (pcb : PppPcb) (b0 b1 b2 b3 : Nat) (dont_nak : Bool)
    (hallow : H.mppe_has_options pcb.ccp_allowoptions.mppe = true)
    (h128 : pcb.ccp_allowoptions.mppe.opt_128 = true)
    (hmtu : pcb.mtu ≠ 0)
    (hreq : H.MPPE_CI_TO_OPTS b0 b1 b2 b3 = { opt_128 := true }) :
    ∃ r, ccp_proc_config_req H K oob ccp_test pcb [CI_MPPE, CILEN_MPPE, b0, b1, b2, b3] dont_nak
        = some r
      ∧ r.ret = CONFACK
      ∧ r.pcb.mppe_comp = (mppe_init K pcb.lcp_closed pcb.mppe_comp { opt_128 := true }).2.2
      ∧ r.pcb.mppe_comp.keylen = 16
      ∧ r.pcb.mppe_comp.stateful = pcb.mppe_comp.stateful
      ∧ r.pcb.mppe_comp.ccount = 4095
      ∧ r.pcb.mppe_comp.bits = MPPE_BIT_ENCRYPTED
      ∧ r.pcb.mtu = pcb.mtu - H.MPPE_PAD := by
  have hclear : reqci_mppe_clear ({ opt_128 := true } : MppeOptions)
      = (CONFACK, { opt_128 := true }) := by decide
  obtain ⟨i1, i2, i3, i4, i5, i6⟩ := mppe_init_128 K pcb.lcp_closed pcb.mppe_comp
    { opt_128 := true } rfl
  -- the one option of the request
  obtain ⟨o, ho, hb, hrfm, -, hack⟩ := reqci_mppe_accept_mid H K
    (with_ho pcb { method := CI_MPPE }) [] [] CI_MPPE CILEN_MPPE b0 b1 b2 b3 CONFACK
    { opt_128 := true }
  obtain ⟨hn, hpcb⟩ := hack rfl hmtu
  obtain ⟨s0, hs0⟩ : ∃ s0 : ReqciState, s0 =
      { pcb := with_ho pcb { method := CI_MPPE },
        buf := [CI_MPPE, CILEN_MPPE, b0, b1, b2, b3], p := 0, len := 6, retp := 0,
        ret := CONFACK, rej_for_ci_mppe := true, verdicts := [], records := [] } := ⟨_, rfl⟩
  have hopt : reqci_option H K oob ccp_test dont_nak s0 = some (o, CILEN_MPPE) := by
    rw [reqci_option_mppe_mid H K oob ccp_test dont_nak s0 [] [] b0 b1 b2 b3 (by rw [hs0]; rfl)
      (by rw [hs0]; rfl) (by rw [hs0]) (by rw [hs0]; exact hallow), hreq, hclear]
    unfold reqci_mppe_select
    have e1 : s0.pcb.ccp_allowoptions.mppe.opt_128 = true := by rw [hs0]; exact h128
    simp only [Bool.false_and, Bool.and_false, Bool.false_eq_true, if_false, if_true, e1,
      Bool.not_true]
    rw [hs0]
    exact congrArg (Option.map fun o => (o, CILEN_MPPE)) ho
  have hloop : reqci_loop H K oob ccp_test dont_nak 6 s0
      = some (reqci_merge dont_nak s0 o CILEN_MPPE) :=
    reqci_loop_one H K oob ccp_test dont_nak 5 s0 o CILEN_MPPE (by rw [hs0]; simp) hopt
      (by rw [(reqci_merge_ghost _ _ _ _).2.2.2.2.1, hs0]; rfl)
  have hmerge_ret : (reqci_merge dont_nak s0 o CILEN_MPPE).ret = CONFACK := by
    unfold reqci_merge
    simp [hn, hs0]
  have hrd : rd oob [CI_MPPE, CILEN_MPPE, b0, b1, b2, b3] 0 = some CI_MPPE := by
    simp [rd]
  have hfun : ccp_proc_config_req H K oob ccp_test pcb [CI_MPPE, CILEN_MPPE, b0, b1, b2, b3]
      dont_nak = some { ret := CONFACK, buf := (reqci_merge dont_nak s0 o CILEN_MPPE).buf,
                        lenp := 6, pcb := o.pcb,
                        verdicts := (reqci_merge dont_nak s0 o CILEN_MPPE).verdicts,
                        records := (reqci_merge dont_nak s0 o CILEN_MPPE).records } := by
    unfold ccp_proc_config_req
    rw [if_pos (show (!([CI_MPPE, CILEN_MPPE, b0, b1, b2, b3] : List Nat).isEmpty) = true from rfl),
      hrd]
    simp only [Option.some_bind]
    have hl6 : [CI_MPPE, CILEN_MPPE, b0, b1, b2, b3].length = 6 := rfl
    rw [hl6, ← hs0, hloop]
    simp only [Option.some_bind, hmerge_ret, (reqci_merge_ghost _ _ _ _).2.2.1]
    simp
  refine ⟨_, hfun, rfl, ?_⟩
  show o.pcb.mppe_comp = _ ∧ o.pcb.mppe_comp.keylen = 16
    ∧ o.pcb.mppe_comp.stateful = pcb.mppe_comp.stateful
    ∧ o.pcb.mppe_comp.ccount = 4095 ∧ o.pcb.mppe_comp.bits = MPPE_BIT_ENCRYPTED
    ∧ o.pcb.mtu = pcb.mtu - H.MPPE_PAD
  rw [hpcb]
  refine ⟨rfl, i3, ?_, i5, i6, rfl⟩
  show (mppe_init K pcb.lcp_closed pcb.mppe_comp { opt_128 := true }).2.2.stateful
    = pcb.mppe_comp.stateful
  rw [i4]; rfl

theorem proc_config_req_mppe128_witness :
    pppd_header.mppe_has_options pcb_allow_mppe128.ccp_allowoptions.mppe = true
    ∧ pcb_allow_mppe128.mtu ≠ 0
    ∧ pppd_header.MPPE_CI_TO_OPTS 1 0 0 64 = { opt_128 := true }
    ∧ ∃ r, ccp_proc_config_req pppd_header plain_crypto (fun _ => none) (fun _ _ => 1)
          pcb_allow_mppe128 [CI_MPPE, CILEN_MPPE, 1, 0, 0, 64] false = some r
        ∧ r.ret = CONFACK ∧ r.pcb.mppe_comp.keylen = 16
        ∧ r.pcb.mppe_comp.stateful = pcb_allow_mppe128.mppe_comp.stateful
        ∧ r.pcb.mtu = 1500 - pppd_header.MPPE_PAD :=
  ⟨by decide, by decide, by decide,
   (proc_config_req_mppe128 pppd_header plain_crypto (fun _ => none) (fun _ _ => 1)
      pcb_allow_mppe128 1 0 0 64 false (by decide) (by decide) (by decide)
      (by decide)).imp
      (fun _ h => ⟨h.1, h.2.1, h.2.2.2.1, h.2.2.2.2.1, h.2.2.2.2.2.2.2⟩)⟩

/-- C13, where the code departs from it: the link context allows 128-bit MPPE
and has MTU 1500 and a fresh compressor state.  The request 18, 6, 0, 0, 0, 0x40
(128-bit, stateful) is acked and leaves the compressor state stateful.  The
request 18, 6, 1, 0, 0, 0x40 (128-bit, stateless only) on the link context
the first call left is acked, the key length is 16 and the MTU is lowered by
`MPPE_PAD` = 4 once more, but the compressor state is still stateful:
`mppe_init` has no branch that clears the flag (mppe.cpp 144-147).  The same
holds on any link context whose compressor state is stateful before the
call. -/
theorem proc_config_req_mppe128_stays_stateful :
    pcb_allow_mppe128.ccp_allowoptions.mppe.opt_128 = true
    ∧ pcb_allow_mppe128.mppe_comp.stateful = false
    ∧ pppd_header.MPPE_CI_TO_OPTS 0 0 0 0x40 = { opt_128 := true, stateful := true }
    ∧ pppd_header.MPPE_CI_TO_OPTS 1 0 0 0x40 = { opt_128 := true }
    ∧ (ccp_proc_config_req pppd_header plain_crypto (fun _ => none) (fun _ _ => 1)
          pcb_allow_mppe128 [18, 6, 0, 0, 0, 0x40] false).map
        (fun r => (r.ret, r.pcb.ccp_allowoptions.mppe.opt_128, r.pcb.mppe_comp.stateful,
          r.pcb.mtu))
        = some (CONFACK, true, true, 1496)
    ∧ ((ccp_proc_config_req pppd_header plain_crypto (fun _ => none) (fun _ _ => 1)
          pcb_allow_mppe128 [18, 6, 0, 0, 0, 0x40] false).bind fun r1 =>
        (ccp_proc_config_req pppd_header plain_crypto (fun _ => none) (fun _ _ => 1)
          r1.pcb [18, 6, 1, 0, 0, 0x40] false).map fun r =>
          (r.ret, r.pcb.mppe_comp.keylen, r.pcb.mppe_comp.stateful, r.pcb.mtu))
        = some (CONFACK, 16, true, 1492)
    ∧ (ccp_proc_config_req pppd_header plain_crypto (fun _ => none) (fun _ _ => 1)
          pcb_allow_mppe128_stateful [18, 6, 1, 0, 0, 0x40] false).map
        (fun r => (r.ret, r.pcb.mppe_comp.keylen, r.pcb.mppe_comp.stateful, r.pcb.mtu))
        = some (CONFACK, 16, true, 1496) := by
  refine ⟨by decide, by decide, by decide, by decide, by decide, by decide, by decide⟩

/-! ## ccp_proc_config_req: the response -/

theorem framed_refl (buf : List Nat) (lo hi : Nat) : framed buf buf lo hi := ⟨rfl, rfl, rfl⟩

theorem framed_trans {a b c : List Nat} {lo hi : Nat} (h1 : framed a b lo hi)
    (h2 : framed b c lo hi) : framed a c lo hi :=
  ⟨h2.1.trans h1.1, h2.2.1.trans h1.2.1, h2.2.2.trans h1.2.2⟩

theorem framed_wr {buf b : List Nat} {i v lo hi : Nat} (h : wr buf i v = some b)
    (hlo : lo ≤ i) (hhi : i < hi) : framed buf b lo hi := by
  unfold wr at h
  split at h
  · cases h
    refine ⟨by simp, ?_, ?_⟩
    · rw [List.set_take]
      exact List.set_eq_of_length_le (by rw [List.length_take]; omega)
    · exact List.drop_set_of_lt _ _ hhi
  · cases h

theorem framed_mono {a b : List Nat} {lo hi lo2 hi2 : Nat} (h : framed a b lo hi)
    (hlo : lo2 ≤ lo) (hhi : hi ≤ hi2) : framed a b lo2 hi2 := by
  obtain ⟨h1, h2, h3⟩ := h
  refine ⟨h1, ?_, ?_⟩
  · have := congrArg (List.take lo2) h2
    rwa [List.take_take, List.take_take, Nat.min_eq_left hlo] at this
  · have := congrArg (List.drop (hi2 - hi)) h3
    rwa [List.drop_drop, List.drop_drop, show hi + (hi2 - hi) = hi2 by omega] at this

theorem reqci_deflate_probe_frame (H : CcpHeader) (ccp_test : List Nat → Bool → Int)
    (dont_nak : Bool) (hs : Int) (p : Nat) :
    ∀ (fuel : Nat) (buf : List Nat) (newret : CpCodes) (nb : Int) (t : List Nat × CpCodes),
      reqci_deflate_probe H ccp_test dont_nak hs p fuel buf newret nb = some t →
      framed buf t.1 (p + 2) (p + 3) := by
  intro fuel
  induction fuel with
  | zero => intro buf newret nb t h; simp [reqci_deflate_probe] at h
  | succ n ih =>
    intro buf newret nb t h
    unfold reqci_deflate_probe at h
    simp only at h
    split at h
    · cases h; exact framed_refl _ _ _
    · split at h
      · rw [Option.bind_eq_some] at h
        obtain ⟨b, hw, h⟩ := h
        cases h
        exact framed_wr hw (le_refl _) (by omega)
      · split at h
        · cases h
        · rw [Option.bind_eq_some] at h
          obtain ⟨b, hw, h⟩ := h
          exact framed_trans (framed_wr hw (le_refl _) (by omega)) (ih _ _ _ _ h)

theorem reqci_bsd_probe_frame (H : CcpHeader) (ccp_test : List Nat → Bool → Int)
    (dont_nak : Bool) (hs : Int) (p : Nat) :
    ∀ (fuel : Nat) (buf : List Nat) (newret : CpCodes) (nb : Int) (t : List Nat × CpCodes),
      reqci_bsd_probe H ccp_test dont_nak hs p fuel buf newret nb = some t →
      framed buf t.1 (p + 2) (p + 3) := by
  intro fuel
  induction fuel with
  | zero => intro buf newret nb t h; simp [reqci_bsd_probe] at h
  | succ n ih =>
    intro buf newret nb t h
    unfold reqci_bsd_probe at h
    simp only at h
    split at h
    · cases h; exact framed_refl _ _ _
    · split at h
      · rw [Option.bind_eq_some] at h
        obtain ⟨b, hw, h⟩ := h
        cases h
        exact framed_wr hw (le_refl _) (by omega)
      · split at h
        · cases h
        · rw [Option.bind_eq_some] at h
          obtain ⟨b, hw, h⟩ := h
          exact framed_trans (framed_wr hw (le_refl _) (by omega)) (ih _ _ _ _ h)

theorem reqci_mppe_accept_frame {H : CcpHeader} {K : MppeCrypto} {pcb : PppPcb}
    {buf : List Nat} {p : Nat} {newret : CpCodes} {m : MppeOptions} {o : ReqciOpt}
    (h : reqci_mppe_accept H K pcb buf p newret m = some o) :
    framed buf o.buf (p + 2) (p + 6) := by
  unfold reqci_mppe_accept at h
  simp only [Option.bind_eq_some] at h
  obtain ⟨b1, h1, b2, h2, b3, h3, b4, h4, h⟩ := h
  have hf : framed buf b4 (p + 2) (p + 6) :=
    framed_trans (framed_trans (framed_trans (framed_wr h1 (le_refl _) (by omega))
      (framed_wr h2 (by omega) (by omega))) (framed_wr h3 (by omega) (by omega)))
      (framed_wr h4 (by omega) (by omega))
  split at h
  · split at h <;> cases h <;> exact hf
  · cases h; exact hf

theorem reqci_mppe_select_frame {H : CcpHeader} {K : MppeCrypto} {pcb : PppPcb}
    {buf : List Nat} {p : Nat} {rfm : Bool} {newret : CpCodes} {m : MppeOptions} {o : ReqciOpt}
    (h : reqci_mppe_select H K pcb buf p rfm newret m = some o) :
    framed buf o.buf (p + 2) (p + 6) := by
  unfold reqci_mppe_select at h
  simp only at h
  repeat' split at h
  all_goals first
    | (cases h; exact framed_refl _ _ _)
    | exact reqci_mppe_accept_frame h

theorem reqci_mppe_frame {H : CcpHeader} {K : MppeCrypto} {oob : Nat → Option Nat}
    {pcb : PppPcb} {buf : List Nat} {p clen : Nat} {rfm : Bool} {o : ReqciOpt}
    (h : reqci_mppe H K oob pcb buf p clen rfm = some o) :
    framed buf o.buf (p + 2) (p + clen) := by
  unfold reqci_mppe at h
  split at h
  · cases h; exact framed_refl _ _ _
  · rename_i hc
    have hcl : clen = 6 := by
      simp only [Bool.or_eq_true, Bool.not_eq_true', bne_iff_ne, ne_eq, not_or, not_not] at hc
      exact hc.2
    simp only [Option.bind_eq_some] at h
    obtain ⟨b0, -, b1, -, b2, -, b3, -, h⟩ := h
    rw [hcl]
    exact reqci_mppe_select_frame h

theorem reqci_deflate_frame {H : CcpHeader} {oob : Nat → Option Nat}
    {ccp_test : List Nat → Bool → Int} {dont_nak : Bool} {pcb : PppPcb} {buf : List Nat}
    {p clen type : Nat} {rfm : Bool} {o : ReqciOpt}
    (h : reqci_deflate H oob ccp_test dont_nak pcb buf p clen type rfm = some o) :
    framed buf o.buf (p + 2) (p + clen) := by
  unfold reqci_deflate at h
  simp only at h
  split at h
  · cases h; exact framed_refl _ _ _
  · rename_i hc
    have hcl : clen = 4 := by
      simp only [Bool.or_eq_true, Bool.not_eq_true', bne_iff_ne, ne_eq, not_or, not_not] at hc
      exact hc.1.1.2
    simp only [Option.bind_eq_some] at h
    obtain ⟨b2, -, bad, -, h⟩ := h
    split at h
    · cases h; exact framed_refl _ _ _
    · simp only [Option.bind_eq_some] at h
      obtain ⟨s, hs, h⟩ := h
      have hs2 : framed buf s.1 (p + 2) (p + clen) := by
        split at hs
        · simp only [Option.bind_eq_some] at hs
          obtain ⟨c1, hw1, c2, hw2, hs⟩ := hs
          cases hs
          exact framed_trans (framed_wr hw1 (le_refl _) (by omega))
            (framed_wr hw2 (by omega) (by omega))
        · cases hs; exact framed_refl _ _ _
      split at h
      · simp only [Option.map_eq_some'] at h
        obtain ⟨t, ht, rfl⟩ := h
        exact framed_trans hs2
          (framed_mono (reqci_deflate_probe_frame _ _ _ _ _ _ _ _ _ _ ht) (le_refl _) (by omega))
      · cases h
        exact hs2

theorem reqci_bsd_frame {H : CcpHeader} {oob : Nat → Option Nat}
    {ccp_test : List Nat → Bool → Int} {dont_nak : Bool} {pcb : PppPcb} {buf : List Nat}
    {p clen : Nat} {rfm : Bool} {o : ReqciOpt}
    (h : reqci_bsd H oob ccp_test dont_nak pcb buf p clen rfm = some o) :
    framed buf o.buf (p + 2) (p + clen) := by
  unfold reqci_bsd at h
  simp only at h
  split at h
  · cases h; exact framed_refl _ _ _
  · rename_i hc
    have hcl : clen = 3 := by
      simp only [Bool.or_eq_true, Bool.not_eq_true', bne_iff_ne, ne_eq, not_or, not_not] at hc
      exact hc.2
    simp only [Option.bind_eq_some] at h
    obtain ⟨b2, -, h⟩ := h
    split at h
    · cases h; exact framed_refl _ _ _
    · simp only [Option.bind_eq_some] at h
      obtain ⟨s, hs, h⟩ := h
      have hs2 : framed buf s.1 (p + 2) (p + clen) := by
        split at hs
        · simp only [Option.bind_eq_some] at hs
          obtain ⟨c1, hw1, hs⟩ := hs
          cases hs
          exact framed_wr hw1 (le_refl _) (by omega)
        · cases hs; exact framed_refl _ _ _
      split at h
      · simp only [Option.map_eq_some'] at h
        obtain ⟨t, ht, rfl⟩ := h
        exact framed_trans hs2
          (framed_mono (reqci_bsd_probe_frame _ _ _ _ _ _ _ _ _ _ ht) (le_refl _) (by omega))
      · cases h
        exact hs2

/-- The length byte of the option at the cursor, as the request parser reads
it. -/
theorem rd_len_byte (oob : Nat → Option Nat) (buf : List Nat) (p : Nat)
    (h : p + 1 < buf.length) : rd oob buf (p + 1) = some ((buf.drop p).getD 1 0) := by
  rw [rd_some oob h, List.getD_eq_getElem?_getD, List.getElem?_drop,
    List.getElem?_eq_getElem h]
  rfl

/-- What `reqci_option` leaves of the buffer, and the length it consumes: it
changes at most the data bytes of the option at the cursor, and the option
ends where the request's framing says. -/
theorem reqci_option_frame {H : CcpHeader} {K : MppeCrypto} {oob : Nat → Option Nat}
    {ccp_test : List Nat → Bool → Int} {dont_nak : Bool} {s : ReqciState} {r : ReqciOpt × Nat}
    (h : reqci_option H K oob ccp_test dont_nak s = some r)
    (hinv : s.p + s.len = s.buf.length) :
    framed s.buf r.1.buf (s.p + 2) (s.p + r.2)
    ∧ (((s.len < 2 ∨ (s.buf.drop s.p).getD 1 0 < 2 ∨ s.len < (s.buf.drop s.p).getD 1 0)
          ∧ r.2 = s.len ∧ r.1.buf = s.buf)
      ∨ (¬ (s.len < 2 ∨ (s.buf.drop s.p).getD 1 0 < 2 ∨ s.len < (s.buf.drop s.p).getD 1 0)
          ∧ r.2 = (s.buf.drop s.p).getD 1 0)) := by
  unfold reqci_option at h
  by_cases h2 : s.len < 2
  · simp only [h2, decide_True, por, Option.some_bind, if_true] at h
    cases h
    exact ⟨framed_refl _ _ _, Or.inl ⟨Or.inl h2, rfl, rfl⟩⟩
  · have hr1 := rd_len_byte oob s.buf s.p (by omega)
    rw [hr1] at h
    simp only [Option.map_some', por_some_some, Option.some_bind] at h
    split at h
    · rename_i hbad
      cases h
      simp only [h2, decide_False, Bool.false_or, Bool.or_eq_true, decide_eq_true_eq] at hbad
      refine ⟨framed_refl _ _ _, Or.inl ⟨Or.inr ?_, rfl, rfl⟩⟩
      rcases hbad with hb | hb
      · exact Or.inl hb
      · exact Or.inr hb
    · rename_i hbad
      simp only [h2, decide_False, Bool.false_or, Bool.or_eq_true, decide_eq_true_eq, not_or,
        not_lt] at hbad
      simp only [Option.bind_eq_some, Option.map_eq_some'] at h
      obtain ⟨type, -, o, ho, rfl⟩ := h
      refine ⟨?_, Or.inr ⟨by omega, rfl⟩⟩
      simp only
      split at ho
      · exact reqci_mppe_frame ho
      · split at ho
        · exact reqci_deflate_frame ho
        · split at ho
          · exact reqci_bsd_frame ho
          · split at ho
            · cases ho; rw [reqci_predictor_1_buf]; exact framed_refl _ _ _
            · split at ho
              · cases ho; rw [reqci_predictor_2_buf]; exact framed_refl _ _ _
              · cases ho; exact framed_refl _ _ _

theorem split_options_fuel : ∀ (f1 f2 : Nat) (l : List Nat), l.length ≤ f1 → l.length ≤ f2 →
    split_options f1 l = split_options f2 l := by
  intro f1
  induction f1 with
  | zero =>
    intro f2 l h1 _
    have hl : l = [] := List.eq_nil_of_length_eq_zero (by omega)
    subst hl
    cases f2 <;> simp [split_options]
  | succ n ih =>
    intro f2 l h1 h2
    cases f2 with
    | zero =>
      have hl : l = [] := List.eq_nil_of_length_eq_zero (by omega)
      subst hl
      simp [split_options]
    | succ m =>
      unfold split_options
      by_cases he : l.isEmpty = true
      · rw [if_pos he, if_pos he]
      · rw [if_neg he, if_neg he]
        by_cases hb : l.length < 2 ∨ l.getD 1 0 < 2 ∨ l.length < l.getD 1 0
        · rw [if_pos hb, if_pos hb]
        · rw [if_neg hb, if_neg hb]
          have hd : (l.drop (l.getD 1 0)).length ≤ l.length - 2 := by
            rw [List.length_drop]; omega
          rw [ih m _ (by omega) (by omega)]

theorem request_options_step (l : List Nat) (hne : l ≠ []) :
    request_options l
      = if l.length < 2 ∨ l.getD 1 0 < 2 ∨ l.length < l.getD 1 0 then [l]
        else l.take (l.getD 1 0) :: request_options (l.drop (l.getD 1 0)) := by
  cases l with
  | nil => exact absurd rfl hne
  | cons a t =>
    rw [show request_options (a :: t) = split_options (t.length + 1) (a :: t) from rfl,
      split_options, if_neg (by simp)]
    by_cases hb : (a :: t).length < 2 ∨ (a :: t).getD 1 0 < 2
        ∨ (a :: t).length < (a :: t).getD 1 0
    · rw [if_pos hb, if_pos hb]
    · rw [if_neg hb, if_neg hb]
      unfold request_options
      rw [split_options_fuel t.length ((a :: t).drop ((a :: t).getD 1 0)).length _
        (by rw [List.length_drop, List.length_cons]; omega) (le_refl _)]

theorem records_with_snoc (v c : CpCodes) (vs : List CpCodes) (rs : List (List Nat))
    (r : List Nat) (hl : rs.length = vs.length) :
    records_with v (vs ++ [c]) (rs ++ [r])
      = records_with v vs rs ++ (if c = v then [r] else []) := by
  unfold records_with
  rw [List.zip_append hl.symm, List.filter_append, List.map_append]
  congr 1
  by_cases h : c = v <;> simp [h]

theorem records_with_not_mem (v : CpCodes) (vs : List CpCodes) (rs : List (List Nat))
    (h : v ∉ vs) : records_with v vs rs = [] := by
  unfold records_with
  rw [List.map_eq_nil_iff, List.filter_eq_nil_iff]
  intro x hx
  have := (List.of_mem_zip hx).1
  simp only [decide_eq_true_eq]
  intro e
  exact h (e ▸ this)

theorem worst_verdict_ack {l : List CpCodes} (h : worst_verdict l = CONFACK) :
    CONFNAK ∉ l ∧ CONFREJ ∉ l := by
  unfold worst_verdict at h
  by_cases h1 : CONFREJ ∈ l <;> by_cases h2 : CONFNAK ∈ l <;> simp_all

theorem worst_verdict_nak {l : List CpCodes} (h : worst_verdict l = CONFNAK) : CONFREJ ∉ l := by
  unfold worst_verdict at h
  by_cases h1 : CONFREJ ∈ l <;> by_cases h2 : CONFNAK ∈ l <;> simp_all

/-- The option stored at the response offset `dst` (ccp.cpp 1220-1224): the
response then ends with the option's record, and the request past the option
is untouched. -/
theorem stored_record (b : List Nat) (dst p clen : Nat) (hd : dst ≤ p)
    (hp : p + clen ≤ b.length) :
    (if p ≠ dst then memcpy_at b dst p clen else b).length = b.length
    ∧ (if p ≠ dst then memcpy_at b dst p clen else b).take (dst + clen)
        = b.take dst ++ (b.drop p).take clen
    ∧ (if p ≠ dst then memcpy_at b dst p clen else b).drop (p + clen) = b.drop (p + clen) := by
  by_cases h : p ≠ dst
  · rw [if_pos h]
    refine ⟨memcpy_at_length _ _ _ _ hd hp, ?_, ?_⟩
    · unfold memcpy_at
      have hl : (b.take dst ++ (b.drop p).take clen).length = dst + clen := by
        simp only [List.length_append, List.length_take, List.length_drop]; omega
      rw [List.take_append_eq_append_take, hl]
      simp [List.take_of_length_le (le_of_eq hl)]
    · unfold memcpy_at
      have hl : (b.take dst ++ (b.drop p).take clen).length = dst + clen := by
        simp only [List.length_append, List.length_take, List.length_drop]; omega
      rw [List.drop_append_eq_append_drop, hl,
        List.drop_of_length_le (by rw [hl]; omega), List.nil_append, List.drop_drop]
      congr 1
      omega
  · have e : p = dst := by simpa using h
    rw [if_neg h, e]
    refine ⟨rfl, ?_, rfl⟩
    rw [List.take_add]

theorem reqci_merge_cases (dont_nak : Bool) (s : ReqciState) (o : ReqciOpt) (clen : Nat)
    (v : CpCodes)
    (hv : v = if o.newret = CONFNAK && dont_nak then CONFREJ else o.newret) :
    ((v = CONFACK ∨ (v = CONFNAK ∧ s.ret = CONFREJ)) →
        (reqci_merge dont_nak s o clen).ret = s.ret
        ∧ (reqci_merge dont_nak s o clen).buf = o.buf
        ∧ (reqci_merge dont_nak s o clen).retp = s.retp)
    ∧ (¬ (v = CONFACK ∨ (v = CONFNAK ∧ s.ret = CONFREJ)) → (v = CONFREJ ∧ s.ret = CONFNAK) →
        (reqci_merge dont_nak s o clen).ret = v
        ∧ (reqci_merge dont_nak s o clen).buf
            = (if s.p ≠ 0 then memcpy_at o.buf 0 s.p clen else o.buf)
        ∧ (reqci_merge dont_nak s o clen).retp = 0 + clen)
    ∧ (¬ (v = CONFACK ∨ (v = CONFNAK ∧ s.ret = CONFREJ)) → ¬ (v = CONFREJ ∧ s.ret = CONFNAK) →
        (reqci_merge dont_nak s o clen).ret = v
        ∧ (reqci_merge dont_nak s o clen).buf
            = (if s.p ≠ s.retp then memcpy_at o.buf s.retp s.p clen else o.buf)
        ∧ (reqci_merge dont_nak s o clen).retp = s.retp + clen) := by
  rcases s with ⟨pcb, buf, p, len, retp, ret, rfm, vs, rs⟩
  unfold reqci_merge
  simp only
  rw [← hv]
  refine ⟨?_, ?_, ?_⟩
  · intro h
    rcases h with h | ⟨h, h2⟩
    · subst h; simp
    · subst h; subst h2; simp
  · intro h ⟨h2, h3⟩
    subst h2; subst h3
    simp
  · intro h h2
    cases v <;> cases ret <;> simp at h h2 ⊢

theorem drop_add_eq (l : List Nat) (a b : Nat) : (l.drop a).drop b = l.drop (a + b) := by
  rw [List.drop_drop]

theorem take_two_drop (l : List Nat) (p : Nat) : (l.drop p).take 2 = (l.take (p + 2)).drop p := by
  rw [List.drop_take]
  simp

/-- A record left by `reqci_option` frames the request's option it came from. -/
theorem record_same_frame (a b : List Nat) (p clen : Nat) (hf : framed a b (p + 2) (p + clen)) :
    same_frame ((b.drop p).take clen) ((a.drop p).take clen) := by
  obtain ⟨h1, h2, -⟩ := hf
  refine ⟨by simp only [List.length_take, List.length_drop, h1], ?_⟩
  have key : (b.drop p).take 2 = (a.drop p).take 2 := by
    rw [take_two_drop, take_two_drop, h2]
  have hmin : ∀ l : List Nat, l.take (min 2 clen) = (l.take 2).take clen := by
    intro l; rw [List.take_take, Nat.min_comm]
  rw [List.take_take, List.take_take, hmin, hmin, key]

/-- One round of the loop of `ccp_proc_config_req` keeps the invariant. -/
theorem reqci_step_inv (H : CcpHeader) (K : MppeCrypto) (oob : Nat → Option Nat)
    (ccp_test : List Nat → Bool → Int) (dont_nak : Bool) (pkt : List Nat) (s : ReqciState)
    (r : ReqciOpt × Nat) (hinv : reqci_inv pkt s) (hl : s.len ≠ 0)
    (h : reqci_option H K oob ccp_test dont_nak s = some r) :
    reqci_inv pkt (reqci_merge dont_nak s r.1 r.2) := by
  obtain ⟨h1, h2, h3, h4, h5, h6, h7, h8, origs, h9, h10⟩ := hinv
  obtain ⟨hfr, hparse⟩ := reqci_option_frame h (by omega)
  have hnew := reqci_option_newret h
  obtain ⟨o, clen⟩ := r
  simp only at hfr hparse hnew ⊢
  -- the option ends inside the request
  have hclen : 1 ≤ clen ∧ clen ≤ s.len := by
    rcases hparse with ⟨-, e, -⟩ | ⟨hg, e⟩
    · omega
    · omega
  obtain ⟨g1, g2, -, g4, g5, -⟩ := reqci_merge_ghost dont_nak s o clen
  obtain ⟨m1, m2, -⟩ := reqci_merge_inv dont_nak s o clen (by omega) h4 hfr.1 hclen.2
  have hverd := reqci_merge_verdict dont_nak s o clen hnew h6
  obtain ⟨c1, c2, c3⟩ := reqci_merge_cases dont_nak s o clen _ rfl
  -- the verdict of this option
  generalize hv : (if o.newret = CONFNAK && dont_nak then CONFREJ else o.newret) = v
    at g1 c1 c2 c3
  have hv3 : v = CONFACK ∨ v = CONFNAK ∨ v = CONFREJ := by
    rw [← hv]
    split
    · exact Or.inr (Or.inr rfl)
    · exact hnew
  have hpl : s.p + clen ≤ o.buf.length := by rw [hfr.1]; omega
  have hrest : o.buf.drop (s.p + clen) = pkt.drop (s.p + clen) := by
    rw [hfr.2.2, ← drop_add_eq, h3, drop_add_eq]
  have hpre : ∀ n, n ≤ s.p → o.buf.take n = s.buf.take n := fun n hn =>
    (framed_mono hfr (show n ≤ s.p + 2 by omega) (le_refl _)).2.1
  -- the buffer after the round: its length, its unhandled part
  have hbuf : (reqci_merge dont_nak s o clen).buf.length = pkt.length
      ∧ (reqci_merge dont_nak s o clen).buf.drop (s.p + clen) = pkt.drop (s.p + clen) := by
    by_cases hret : v = CONFACK ∨ (v = CONFNAK ∧ s.ret = CONFREJ)
    · rw [(c1 hret).2.1]
      exact ⟨by rw [hfr.1, h2], hrest⟩
    · by_cases hz : v = CONFREJ ∧ s.ret = CONFNAK
      · rw [(c2 hret hz).2.1]
        obtain ⟨s1, -, s3⟩ := stored_record o.buf 0 s.p clen (Nat.zero_le _) hpl
        exact ⟨by rw [s1, hfr.1, h2], by rw [s3, hrest]⟩
      · rw [(c3 hret hz).2.1]
        obtain ⟨s1, -, s3⟩ := stored_record o.buf s.retp s.p clen h4 hpl
        exact ⟨by rw [s1, hfr.1, h2], by rw [s3, hrest]⟩
  refine ⟨?_, hbuf.1, ?_, m2, ?_, hverd, ?_, ?_, ?_⟩
  · rw [g4, g5]; omega
  · rw [g4]; exact hbuf.2
  · rw [g1, g2, List.length_append, List.length_append, h5]; rfl
  · -- a verdict of ack so far means nothing has been stored
    intro hack
    by_cases hret : v = CONFACK ∨ (v = CONFNAK ∧ s.ret = CONFREJ)
    · obtain ⟨e1, -, e3⟩ := c1 hret
      rw [e3]
      exact h7 (e1 ▸ hack)
    · by_cases hz : v = CONFREJ ∧ s.ret = CONFNAK
      · rw [(c2 hret hz).1] at hack; exact absurd (Or.inl hack) hret
      · rw [(c3 hret hz).1] at hack; exact absurd (Or.inl hack) hret
  · -- the response so far
    intro hne
    rw [g1, g2, records_with_snoc _ _ _ _ _ h5, List.flatten_append]
    by_cases hret : v = CONFACK ∨ (v = CONFNAK ∧ s.ret = CONFREJ)
    · obtain ⟨e1, e2, e3⟩ := c1 hret
      rw [e1, e2, e3]
      rw [e1] at hne
      have hvne : v ≠ s.ret := by
        rcases hret with hv1 | ⟨hv1, hv2⟩
        · rw [hv1]; exact fun e => hne e.symm
        · rw [hv1, hv2]; decide
      rw [if_neg hvne, List.flatten_nil, List.append_nil, hpre _ h4]
      exact h8 hne
    · by_cases hz : v = CONFREJ ∧ s.ret = CONFNAK
      · obtain ⟨e1, e2, e3⟩ := c2 hret hz
        rw [e1, e2, e3, if_pos rfl, (stored_record o.buf 0 s.p clen (Nat.zero_le _) hpl).2.1]
        have hno : CONFREJ ∉ s.verdicts := worst_verdict_nak (h6 ▸ hz.2)
        rw [hz.1, records_with_not_mem _ _ _ hno]
        simp
      · obtain ⟨e1, e2, e3⟩ := c3 hret hz
        rw [e1, e2, e3, if_pos rfl, (stored_record o.buf s.retp s.p clen h4 hpl).2.1,
          hpre _ h4]
        simp only [List.flatten_cons, List.flatten_nil, List.append_nil]
        congr 1
        by_cases hsame : s.ret = v
        · rw [← hsame]
          exact h8 (by
            intro e
            rw [← hsame, e] at hret
            exact hret (Or.inl rfl))
        · -- the verdict so far was ack: nothing stored, nothing to show for `v`
          have hsack : s.ret = CONFACK := by
            have hw : s.ret = CONFACK ∨ s.ret = CONFNAK ∨ s.ret = CONFREJ := by
              rw [h6]; unfold worst_verdict
              by_cases a1 : CONFREJ ∈ s.verdicts <;> by_cases a2 : CONFNAK ∈ s.verdicts <;>
                simp [a1, a2]
            rcases hw with hw | hw | hw
            · exact hw
            · exfalso
              rcases hv3 with v1 | v1 | v1
              · exact hret (Or.inl v1)
              · exact hsame (hw.trans v1.symm)
              · exact hz ⟨v1, hw⟩
            · exfalso
              rcases hv3 with v1 | v1 | v1
              · exact hret (Or.inl v1)
              · exact hret (Or.inr ⟨v1, hw⟩)
              · exact hsame (hw.trans v1.symm)
          obtain ⟨n1, n2⟩ := worst_verdict_ack (h6 ▸ hsack)
          have hvno : v ∉ s.verdicts := by
            rcases hv3 with v1 | v1 | v1
            · exact absurd (Or.inl v1) hret
            · rw [v1]; exact n1
            · rw [v1]; exact n2
          rw [h7 hsack, records_with_not_mem _ _ _ hvno]
          rfl
  · -- the records handled so far frame the first options of the request
    have hlne : pkt.drop s.p ≠ [] := by
      intro e
      have := congrArg List.length e
      rw [List.length_drop] at this
      simp at this
      omega
    have hll : (pkt.drop s.p).length = s.len := by rw [List.length_drop]; omega
    have hstep : request_options (pkt.drop s.p)
        = (pkt.drop s.p).take clen :: request_options (pkt.drop (s.p + clen)) := by
      rw [request_options_step _ hlne, hll]
      rw [h3] at hparse
      rcases hparse with ⟨hb, e, -⟩ | ⟨hg, e⟩
      · rw [if_pos hb, e]
        have h0 : pkt.drop (s.p + s.len) = [] :=
          List.drop_eq_nil_of_le (by omega)
        rw [h0, List.take_of_length_le (by rw [List.length_drop]; omega)]
        rfl
      · rw [if_neg hg, ← e, drop_add_eq]
    refine ⟨origs ++ [(pkt.drop s.p).take clen], ?_, ?_⟩
    · rw [h9, hstep, g4, List.append_assoc]
      rfl
    · rw [g2]
      refine List.rel_append h10 (List.Forall₂.cons ?_ List.Forall₂.nil)
      rw [← h3]
      exact record_same_frame _ _ _ _ hfr

theorem reqci_loop_inv (H : CcpHeader) (K : MppeCrypto) (oob : Nat → Option Nat)
    (ccp_test : List Nat → Bool → Int) (dont_nak : Bool) (pkt : List Nat) :
    ∀ (fuel : Nat) (s t : ReqciState), reqci_inv pkt s →
      reqci_loop H K oob ccp_test dont_nak fuel s = some t → reqci_inv pkt t ∧ t.len = 0 := by
  intro fuel
  induction fuel with
  | zero =>
    intro s t hs h
    unfold reqci_loop at h
    split at h
    · rename_i h0; cases h; exact ⟨hs, h0⟩
    · cases h
  | succ n ih =>
    intro s t hs h
    unfold reqci_loop at h
    split at h
    · rename_i h0; cases h; exact ⟨hs, h0⟩
    · rename_i h0
      rw [Option.bind_eq_some] at h
      obtain ⟨r, hr, h⟩ := h
      exact ih _ _ (reqci_step_inv H K oob ccp_test dont_nak pkt s r hs h0 hr) h

/-- C11: what `ccp_proc_config_req` returns as the response.  Every option of
the request gets one verdict and leaves one record, the record having the
option's length and its type and length bytes.  When the verdict is CONFREJ
the response bytes (the first `*lenp` bytes of the buffer) are exactly the
records of the options whose verdict is reject, in request order; when it is
CONFNAK they are exactly the records of the nak'd options, in request order. -/
theorem proc_config_req_response (H : CcpHeader) (K : MppeCrypto) (oob : Nat → Option Nat)
    (ccp_test : List Nat → Bool → Int) (pcb : PppPcb) (pkt : List Nat) (dont_nak : Bool)
    (r : ReqciResult)
    (h : ccp_proc_config_req H K oob ccp_test pcb pkt dont_nak = some r) :
    r.records.length = r.verdicts.length
    ∧ List.Forall₂ same_frame r.records (request_options pkt)
    ∧ (r.ret = CONFREJ →
        r.buf.take r.lenp = (records_with CONFREJ r.verdicts r.records).flatten)
    ∧ (r.ret = CONFNAK →
        r.buf.take r.lenp = (records_with CONFNAK r.verdicts r.records).flatten) := by
  unfold ccp_proc_config_req at h
  simp only [Option.bind_eq_some] at h
  obtain ⟨method, -, s, hs, h⟩ := h
  have hinv0 : reqci_inv pkt
      { pcb := with_ho pcb { method := method }, buf := pkt, p := 0, len := pkt.length,
        retp := 0, ret := CONFACK, rej_for_ci_mppe := true, verdicts := [], records := [] } :=
    ⟨by simp, rfl, rfl, le_refl _, rfl, rfl, fun _ => rfl, fun hn => absurd rfl hn,
      [], rfl, List.Forall₂.nil⟩
  obtain ⟨⟨h1, h2, h3, h4, h5, h6, h7, h8, origs, h9, h10⟩, hlen⟩ :=
    reqci_loop_inv H K oob ccp_test dont_nak pkt _ _ _ hinv0 hs
  have hend : pkt.drop s.p = [] := List.drop_eq_nil_of_le (by omega)
  rw [hend, show request_options [] = [] from rfl, List.append_nil] at h9
  cases h
  refine ⟨h5, h9 ▸ h10, ?_, ?_⟩
  · intro hr
    have hr2 : s.ret = CONFREJ := hr
    have hl : (if (s.ret ≠ CONFACK && !(s.ret = CONFREJ && pkt.length = s.retp)) then s.retp
        else pkt.length) = s.retp := by
      by_cases e : pkt.length = s.retp <;> simp [hr2, e]
    show s.buf.take (if (s.ret ≠ CONFACK && !(s.ret = CONFREJ && pkt.length = s.retp))
        then s.retp else pkt.length) = (records_with CONFREJ s.verdicts s.records).flatten
    rw [hl, ← hr2]
    exact h8 (by rw [hr2]; decide)
  · intro hr
    have hr2 : s.ret = CONFNAK := hr
    have hl : (if (s.ret ≠ CONFACK && !(s.ret = CONFREJ && pkt.length = s.retp)) then s.retp
        else pkt.length) = s.retp := by
      simp [hr2]
    show s.buf.take (if (s.ret ≠ CONFACK && !(s.ret = CONFREJ && pkt.length = s.retp))
        then s.retp else pkt.length) = (records_with CONFNAK s.verdicts s.records).flatten
    rw [hl, ← hr2]
    exact h8 (by rw [hr2]; decide)

theorem proc_config_req_response_witness :
    ccp_proc_config_req pppd_header plain_crypto (fun _ => none) (fun _ _ => 1)
        pcb_allow_deflate_p1 req_p1_deflate_bsd false = some res_p1_deflate_bsd
    ∧ res_p1_deflate_bsd.ret = CONFREJ
    ∧ res_p1_deflate_bsd.buf.take res_p1_deflate_bsd.lenp
        = (records_with CONFREJ res_p1_deflate_bsd.verdicts res_p1_deflate_bsd.records).flatten
    ∧ (records_with CONFREJ res_p1_deflate_bsd.verdicts res_p1_deflate_bsd.records)
        = [[17, 3, 47]] :=
  ⟨by decide, by decide,
   (proc_config_req_response pppd_header plain_crypto (fun _ => none) (fun _ _ => 1)
      pcb_allow_deflate_p1 req_p1_deflate_bsd false res_p1_deflate_bsd (by decide)).2.2.1
      (by decide),
   by decide⟩

/-- The record of a rejected option is the record as its `case` left it, which
need not be the request's bytes: under `dont_nak` the MPPE option
18, 6, 1, 0, 0, 0xC0 (56-bit and 128-bit) is rewritten to 128-bit only for a
nak, the nak is turned into a reject, and the response carries the rewritten
record. -/
theorem reject_record_rewritten_example :
    (ccp_proc_config_req pppd_header plain_crypto (fun _ => none) (fun _ _ => 1)
        pcb_allow_mppe128 [18, 6, 1, 0, 0, 0xC0] true).map
      (fun r => (r.ret, r.buf.take r.lenp, r.verdicts, r.records))
      = some (CONFREJ, [18, 6, 1, 0, 0, 0x40], [CONFREJ], [[18, 6, 1, 0, 0, 0x40]])
    ∧ request_options [18, 6, 1, 0, 0, 0xC0] = [[18, 6, 1, 0, 0, 0xC0]] := by
  decide

/-! ## ccp_resetci returns -/

/-- The bit-counting loop of `ccp_resetci` ends: with the fuel `ccp_resetci`
gives it, it always yields a count. -/
theorem resetci_numbits_some : ∀ (fuel bits numbits : Nat), bits < fuel →
    ∃ k, resetci_numbits fuel bits numbits = some k := by
  intro fuel
  induction fuel with
  | zero => intro bits numbits h; omega
  | succ n ih =>
    intro bits numbits h
    unfold resetci_numbits
    by_cases hz : bits >>> 1 ≠ 0
    · rw [if_pos hz]
      have hlt : bits >>> 1 < n := by
        rw [Nat.shiftRight_eq_div_pow] at hz ⊢
        simp only [pow_one] at hz ⊢
        omega
      exact ih _ _ hlt
    · rw [if_neg hz]
      exact ⟨_, rfl⟩

/-- With MPPE options in the copied option set, `ccp_resetci` returns: every
path of the MPPE block ends in a `return` or switches the other compressors
off, so that none of the probes on the empty `opt_buf` is reached. -/
theorem resetci_mppe_returns (H : CcpHeader) (lcp_close_ret : PppPcb → String → Bool)
    (ccp_test : List Nat → Bool → Int) (pcb : PppPcb)
    (hm : H.mppe_has_options (resetci_force pcb).ccp_gotoptions.mppe = true) :
    ∃ r, ccp_resetci H lcp_close_ret ccp_test pcb = some r := by
  have htail : ∀ p : PppPcb, ∃ r, resetci_tail H ccp_test [] (resetci_mppe_sync H p) = some r := by
    intro p
    unfold resetci_mppe_sync
    dsimp only
    split
    · exact ⟨_, rfl⟩
    · unfold resetci_tail resetci_bsd resetci_deflate resetci_predictor
      simp
  unfold ccp_resetci resetci_mppe
  rw [if_pos hm]
  obtain ⟨k, hk⟩ := resetci_numbits_some
    ((((resetci_force pcb).auth_done &&& mschap_mask H) >>> H.CHAP_MS_SHIFT) + 1)
    (((resetci_force pcb).auth_done &&& mschap_mask H) >>> H.CHAP_MS_SHIFT) 0
    (Nat.lt_succ_self _)
  rw [hk]
  simp only [Option.some_bind]
  split_ifs
  · exact ⟨_, rfl⟩
  · exact ⟨_, rfl⟩
  · exact ⟨_, rfl⟩
  · exact ⟨_, rfl⟩
  · exact htail _

/-! ## mppe_init and mppe_rekey -/

theorem mppe_rekey_frame (K : MppeCrypto) (state : PppMppeState) (initial_key : Bool) :
    (mppe_rekey K state initial_key).master_key = state.master_key
    ∧ (mppe_rekey K state initial_key).keylen = state.keylen
    ∧ (mppe_rekey K state initial_key).ccount = state.ccount
    ∧ (mppe_rekey K state initial_key).bits = state.bits
    ∧ (mppe_rekey K state initial_key).stateful = state.stateful
    ∧ (mppe_rekey K state initial_key).discard = state.discard
    ∧ (mppe_rekey K state initial_key).sanity_errors = state.sanity_errors := by
  unfold mppe_rekey
  dsimp only
  split_ifs <;> simp

/-- The key material `mppe_rekey` computes depends on the keys and the key
length only. -/
theorem mppe_rekey_keys_congr (K : MppeCrypto) (s t : PppMppeState) (initial_key : Bool)
    (hm : s.master_key = t.master_key) (hs : s.session_key = t.session_key)
    (hk : s.keylen = t.keylen) :
    (mppe_rekey K s initial_key).session_key = (mppe_rekey K t initial_key).session_key
    ∧ (mppe_rekey K s initial_key).arc4 = (mppe_rekey K t initial_key).arc4 := by
  unfold mppe_rekey
  dsimp only
  rw [hm, hs, hk]
  split_ifs <;> simp

theorem memcpy_into_take (dst src : List Nat) (n : Nat) (h : n ≤ src.length) :
    (memcpy_into dst src n).take n = src.take n := by
  unfold memcpy_into
  rw [List.take_append_of_le_length (by simp [h])]
  simp

theorem memcpy_into_drop (dst src : List Nat) (n : Nat) (h : n ≤ src.length) :
    (memcpy_into dst src n).drop n = dst.drop n := by
  unfold memcpy_into
  have hl : (src.take n).length = n := by simp [h]
  rw [List.drop_append_eq_append_drop, hl]
  simp [List.drop_eq_nil_of_le, hl]

theorem memcpy_into_length (dst src : List Nat) (n : Nat) (h : n ≤ src.length)
    (hd : n ≤ dst.length) : (memcpy_into dst src n).length = dst.length := by
  unfold memcpy_into
  simp [h]; omega

theorem set3_eq (l : List Nat) (a b c : Nat) (h : 3 ≤ l.length) :
    ((l.set 0 a).set 1 b).set 2 c = [a, b, c] ++ l.drop 3 := by
  match l, h with
  | x :: y :: z :: t, _ => simp

/-- C23: `mppe_rekey` with `n = keylen`, for a digest and a session-key array of
at least `n` bytes and a cipher that keeps the length of what it crypts: with
`D` the SHA-1 of `master_key[0..n) ++ pad1 ++ session_key[0..n) ++ pad2`, the
new `session_key[0..n)` is `D[0..n)` when initial and the cipher keyed with
`D[0..n)` applied to `D[0..n)` otherwise, with bytes 0..2 replaced by
`0xd1 0x26 0x9e` exactly when `n = 8`; the rest of the array is untouched; the
cipher context is set up from the new `session_key[0..n)`; the other fields are
unchanged. -/
theorem mppe_rekey_spec (K : MppeCrypto) (state : PppMppeState) (initial_key : Bool)
    (hlen : ∀ ctx b, (K.arc4_crypt ctx b).2.length = b.length)
    (hkey : state.keylen ≤ state.session_key.length)
    (hdig : state.keylen ≤ (K.sha1 (state.master_key.take state.keylen ++ K.MPPE_SHA1_PAD1
      ++ state.session_key.take state.keylen ++ K.MPPE_SHA1_PAD2)).length) :
    let n := state.keylen
    let D := K.sha1 (state.master_key.take n ++ K.MPPE_SHA1_PAD1
      ++ state.session_key.take n ++ K.MPPE_SHA1_PAD2)
    let base := if initial_key then D.take n
      else (K.arc4_crypt (K.arc4_setup (D.take n)) (D.take n)).2
    let key := if n = 8 then [0xd1, 0x26, 0x9e] ++ base.drop 3 else base
    (mppe_rekey K state initial_key).session_key.take n = key
    ∧ (mppe_rekey K state initial_key).session_key.drop n = state.session_key.drop n
    ∧ (mppe_rekey K state initial_key).arc4 = K.arc4_setup key
    ∧ (mppe_rekey K state initial_key).master_key = state.master_key
    ∧ (mppe_rekey K state initial_key).keylen = state.keylen
    ∧ (mppe_rekey K state initial_key).ccount = state.ccount
    ∧ (mppe_rekey K state initial_key).bits = state.bits
    ∧ (mppe_rekey K state initial_key).stateful = state.stateful
    ∧ (mppe_rekey K state initial_key).discard = state.discard
    ∧ (mppe_rekey K state initial_key).sanity_errors = state.sanity_errors := by
  dsimp only
  obtain ⟨f1, f2, f3, f4, f5, f6, f7⟩ := mppe_rekey_frame K state initial_key
  obtain ⟨D, hDdef⟩ : ∃ D : List Nat, D = K.sha1 (state.master_key.take state.keylen
      ++ K.MPPE_SHA1_PAD1 ++ state.session_key.take state.keylen ++ K.MPPE_SHA1_PAD2) := ⟨_, rfl⟩
  rw [← hDdef] at hdig ⊢
  obtain ⟨n, hn⟩ : ∃ n : Nat, n = state.keylen := ⟨_, rfl⟩
  rw [← hn] at hdig hkey ⊢
  have hD : (memcpy_into state.session_key D n).take n = D.take n :=
    memcpy_into_take _ _ _ hdig
  have hDd : (memcpy_into state.session_key D n).drop n = state.session_key.drop n :=
    memcpy_into_drop _ _ _ hdig
  have hDl : (memcpy_into state.session_key D n).length = state.session_key.length :=
    memcpy_into_length _ _ _ hdig hkey
  have hDn : (D.take n).length = n := by simp; exact hdig
  have hcl : (K.arc4_crypt (K.arc4_setup (D.take n)) (D.take n)).2.length = n := by
    rw [hlen, hDn]
  obtain ⟨base, hbase⟩ : ∃ base : List Nat, base = (if initial_key = true then D.take n
      else (K.arc4_crypt (K.arc4_setup (D.take n)) (D.take n)).2) := ⟨_, rfl⟩
  rw [← hbase]
  -- the array after the digest copy and, when not initial, the cipher pass
  obtain ⟨mid, hmid⟩ : ∃ mid : List Nat, mid = (if initial_key = true
      then memcpy_into state.session_key D n
      else memcpy_into (memcpy_into state.session_key D n)
        (K.arc4_crypt (K.arc4_setup (D.take n)) (D.take n)).2 n) := ⟨_, rfl⟩
  have hmt : mid.take n = base := by
    rw [hmid, hbase]
    cases initial_key
    · simp only [Bool.false_eq_true, if_false]
      rw [memcpy_into_take _ _ _ (by omega), List.take_of_length_le (by omega)]
    · simp only [if_true]
      exact hD
  have hmd : mid.drop n = state.session_key.drop n := by
    rw [hmid]
    cases initial_key
    · simp only [Bool.false_eq_true, if_false]
      rw [memcpy_into_drop _ _ _ (by omega), hDd]
    · simp only [if_true]
      exact hDd
  have hml : mid.length = state.session_key.length := by
    rw [hmid]
    cases initial_key
    · simp only [Bool.false_eq_true, if_false]
      rw [memcpy_into_length _ _ _ (by omega) (by omega), hDl]
    · simp only [if_true]
      exact hDl
  have hsk : (mppe_rekey K state initial_key).session_key
      = if n = 8 then ((mid.set 0 0xd1).set 1 0x26).set 2 0x9e else mid := by
    rw [hmid]
    unfold mppe_rekey
    dsimp only
    rw [← hDdef, ← hn]
    cases initial_key
    · simp only [if_true, if_false, Bool.not_false, Bool.false_eq_true, hD]
      split_ifs <;> rfl
    · simp only [if_true, if_false, Bool.not_true, Bool.false_eq_true]
      split_ifs <;> rfl
  have ha : (mppe_rekey K state initial_key).arc4
      = K.arc4_setup ((mppe_rekey K state initial_key).session_key.take n) := by
    unfold mppe_rekey
    dsimp only
    rw [← hn]
    cases initial_key
    · simp only [if_true, if_false, Bool.not_false, Bool.false_eq_true]
      split_ifs <;> rfl
    · simp only [if_true, if_false, Bool.not_true, Bool.false_eq_true]
      split_ifs <;> rfl
  have hkt : (mppe_rekey K state initial_key).session_key.take n
      = if n = 8 then [0xd1, 0x26, 0x9e] ++ base.drop 3 else base := by
    rw [hsk]
    by_cases h8 : n = 8
    · rw [if_pos h8, if_pos h8, set3_eq _ _ _ _ (by omega), ← hmt]
      subst h8
      rw [List.take_append_eq_append_take]
      simp [List.drop_take]
    · rw [if_neg h8, if_neg h8]
      exact hmt
  refine ⟨hkt, ?_, ?_, f1, f2.trans hn.symm, f3, f4, f5, f6, f7⟩
  · rw [hsk]
    by_cases h8 : n = 8
    · rw [if_pos h8, set3_eq _ _ _ _ (by omega), ← hmd]
      subst h8
      rw [List.drop_append_eq_append_drop]
      simp
    · rw [if_neg h8]
      exact hmd
  · rw [ha, hkt]

theorem mppe_rekey_spec_witness :
    (mppe_rekey plain_crypto mppe_example_state false).session_key.take 8
      = [0xd1, 0x26, 0x9e, 4, 5, 6, 7, 8]
    ∧ (mppe_rekey plain_crypto mppe_example_state false).session_key.drop 8
      = [29, 30, 31, 32, 33, 34, 35, 36]
    ∧ (mppe_rekey plain_crypto mppe_example_state false).arc4
      = plain_crypto.arc4_setup [0xd1, 0x26, 0x9e, 4, 5, 6, 7, 8] :=
  ⟨(mppe_rekey_spec plain_crypto mppe_example_state false (fun _ _ => rfl) (by decide)
      (by decide)).1,
   (mppe_rekey_spec plain_crypto mppe_example_state false (fun _ _ => rfl) (by decide)
      (by decide)).2.1,
   (mppe_rekey_spec plain_crypto mppe_example_state false (fun _ _ => rfl) (by decide)
      (by decide)).2.2.1⟩

/-- C21: `mppe_init`.  With the 128-bit bit in the options `keylen` becomes 16
(whatever the 40-bit bit), otherwise with the 40-bit bit it becomes 8; in both
cases the call succeeds without closing the link, the session key and the
cipher context are those of one `mppe_rekey` in initial mode on the state whose
`session_key` is a copy of `master_key`, `ccount` is 4095 and `bits` is the
ENCRYPTED flag alone, FLUSHED clear.  With neither bit the call fails: the
link is closed once with the reason "MPPE required but peer negotiation
failed", and `ccount`, `bits` and `keylen` are as before. -/
theorem mppe_init_cases (K : MppeCrypto) (closed : List String) (state : PppMppeState)
    (options : MppeOptions) :
    (options.opt_128 = true ∨ options.opt_40 = true →
      (mppe_init K closed state options).1 = true
      ∧ (mppe_init K closed state options).2.1 = closed
      ∧ (mppe_init K closed state options).2.2.keylen = (if options.opt_128 then 16 else 8)
      ∧ (mppe_init K closed state options).2.2.session_key
          = (mppe_rekey K { state with
              session_key := memcpy_into state.session_key state.master_key
                state.master_key.length
              keylen := if options.opt_128 then 16 else 8 } true).session_key
      ∧ (mppe_init K closed state options).2.2.arc4
          = (mppe_rekey K { state with
              session_key := memcpy_into state.session_key state.master_key
                state.master_key.length
              keylen := if options.opt_128 then 16 else 8 } true).arc4
      ∧ (mppe_init K closed state options).2.2.master_key = state.master_key
      ∧ (mppe_init K closed state options).2.2.ccount = 4095
      ∧ (mppe_init K closed state options).2.2.bits = MPPE_BIT_ENCRYPTED
      ∧ flag_set (mppe_init K closed state options).2.2.bits MPPE_BIT_FLUSHED = false)
    ∧ (options.opt_128 = false → options.opt_40 = false →
      (mppe_init K closed state options).1 = false
      ∧ (mppe_init K closed state options).2.1
          = closed ++ ["MPPE required but peer negotiation failed"]
      ∧ (mppe_init K closed state options).2.2.ccount = state.ccount
      ∧ (mppe_init K closed state options).2.2.bits = state.bits
      ∧ (mppe_init K closed state options).2.2.keylen = state.keylen
      ∧ (mppe_init K closed state options).2.2.arc4 = state.arc4) := by
  constructor
  · intro h
    have hc : (options.opt_128 || options.opt_40) = true := by
      rcases h with h | h <;> simp [h]
    unfold mppe_init
    dsimp only
    rw [if_pos hc]
    dsimp only
    obtain ⟨g1, g2, g3, g4, g5, g6, g7⟩ := mppe_rekey_frame K
      (if options.stateful = true then
        { (if options.opt_128 = true then
            { state with
              session_key := memcpy_into state.session_key state.master_key
                state.master_key.length
              keylen := 16 }
          else
            { state with
              session_key := memcpy_into state.session_key state.master_key
                state.master_key.length
              keylen := 8 } : PppMppeState) with stateful := true }
      else
        (if options.opt_128 = true then
            { state with
              session_key := memcpy_into state.session_key state.master_key
                state.master_key.length
              keylen := 16 }
          else
            { state with
              session_key := memcpy_into state.session_key state.master_key
                state.master_key.length
              keylen := 8 } : PppMppeState)) true
    refine ⟨rfl, rfl, ?_, ?_, ?_, ?_, rfl, rfl, by decide⟩
    · rw [g2]; split_ifs <;> rfl
    · refine (mppe_rekey_keys_congr K _ _ true ?_ ?_ ?_).1 <;> split_ifs <;> rfl
    · refine (mppe_rekey_keys_congr K _ _ true ?_ ?_ ?_).2 <;> split_ifs <;> rfl
    · rw [g1]; split_ifs <;> rfl
  · intro h1 h2
    unfold mppe_init
    simp [h1, h2]

/-- What `mppe_init` does with the `stateful` flag, for every cipher, state and
options: after a successful call the state is stateful exactly when the
options have the stateful bit or the state was stateful before the call; a
state that was stateless before the call is stateful exactly when the options
have the bit. -/
theorem mppe_init_stateful (K : MppeCrypto) (closed : List String) (state : PppMppeState)
    (options : MppeOptions) (hok : (mppe_init K closed state options).1 = true) :
    (mppe_init K closed state options).2.2.stateful = (options.stateful || state.stateful)
    ∧ (state.stateful = false →
        (mppe_init K closed state options).2.2.stateful = options.stateful) := by
  have hc : (options.opt_128 || options.opt_40) = true := by
    by_contra hc
    unfold mppe_init at hok
    simp [hc] at hok
  have h : (mppe_init K closed state options).2.2.stateful
      = (options.stateful || state.stateful) := by
    unfold mppe_init
    dsimp only
    rw [if_pos hc]
    dsimp only
    rw [(mppe_rekey_frame K _ true).2.2.2.2.1]
    cases options.stateful <;> cases options.opt_128 <;> simp
  refine ⟨h, fun hs => ?_⟩
  rw [h, hs, Bool.or_false]

theorem mppe_init_stateful_witness :
    (mppe_init plain_crypto [] mppe_example_state { opt_128 := true }).1 = true
    ∧ (mppe_init plain_crypto [] mppe_example_state { opt_128 := true }).2.2.stateful
        = (false || true)
    ∧ (mppe_init plain_crypto [] { mppe_example_state with stateful := false }
        { opt_40 := true, stateful := true }).2.2.stateful = true :=
  ⟨by decide,
   (mppe_init_stateful plain_crypto [] mppe_example_state { opt_128 := true } (by decide)).1,
   (mppe_init_stateful plain_crypto [] { mppe_example_state with stateful := false }
      { opt_40 := true, stateful := true } (by decide)).2 rfl⟩

/-- C22, where the code departs from it: `mppe_init` sets `stateful` when the
options have the stateful bit and has no branch that clears it (mppe.cpp
144-147), while `keylen` is assigned on every path.  A stateless state
initialised with 40-bit stateful options becomes stateful; initialising that
state again with 128-bit options whose stateful bit is clear succeeds and sets
the key length to 16, but the state is still stateful. -/
theorem mppe_init_reinit_stays_stateful :
    ({ opt_128 := true } : MppeOptions).stateful = false
    ∧ ({ mppe_example_state with stateful := false } : PppMppeState).stateful = false
    ∧ (mppe_init plain_crypto [] { mppe_example_state with stateful := false }
        { opt_40 := true, stateful := true }).1 = true
    ∧ (mppe_init plain_crypto [] { mppe_example_state with stateful := false }
        { opt_40 := true, stateful := true }).2.2.stateful = true
    ∧ (mppe_init plain_crypto []
        (mppe_init plain_crypto [] { mppe_example_state with stateful := false }
          { opt_40 := true, stateful := true }).2.2 { opt_128 := true }).1 = true
    ∧ (mppe_init plain_crypto []
        (mppe_init plain_crypto [] { mppe_example_state with stateful := false }
          { opt_40 := true, stateful := true }).2.2 { opt_128 := true }).2.2.keylen = 16
    ∧ (mppe_init plain_crypto []
        (mppe_init plain_crypto [] { mppe_example_state with stateful := false }
          { opt_40 := true, stateful := true }).2.2 { opt_128 := true }).2.2.stateful = true
    ∧ (mppe_init plain_crypto [] mppe_example_state { opt_128 := true }).1 = true
    ∧ (mppe_init plain_crypto [] mppe_example_state { opt_128 := true }).2.2.stateful = true := by
  decide

/-! ## mppe_compress -/

/-- The state `mppe_compress` reaches after the rekey decision, from the state
`s1` with the count already advanced. -/
theorem mppe_compress_flags_some (K : MppeCrypto) (s1 : PppMppeState) (np : List Nat)
    (h : 1 ≤ np.length) :
    ∃ s2 : PppMppeState,
      s2 = (if mppe_compress_rekeys s1 = true then
          { mppe_rekey K s1 false with bits := (mppe_rekey K s1 false).bits ||| MPPE_BIT_FLUSHED }
        else s1)
      ∧ mppe_compress_flags K s1 np
        = some ({ s2 with bits := flag_clear s2.bits MPPE_BIT_FLUSHED },
            np.set 0 ((np.getD 0 0 ||| s2.bits) % 256),
            if mppe_compress_rekeys s1 = true then 1 else 0) := by
  refine ⟨_, rfl, ?_⟩
  unfold mppe_compress_flags wr
  match np, h with
  | x :: t, _ => simp

theorem mppe_compress_count_some (state : PppMppeState) (np : List Nat) (h : 2 ≤ np.length) :
    mppe_compress_count state np
      = some ({ state with ccount := (state.ccount + 1) % MPPE_CCOUNT_SPACE },
          (np.set 0 ((((state.ccount + 1) % MPPE_CCOUNT_SPACE) >>> 8) % 256)).set 1
            (((state.ccount + 1) % MPPE_CCOUNT_SPACE) % 256)) := by
  unfold mppe_compress_count wr
  match np, h with
  | x :: y :: t, _ => simp

theorem mppe_compress_protocol_some (np : List Nat) (protocol : Nat) (h : 4 ≤ np.length) :
    mppe_compress_protocol np protocol
      = some ((np.set 2 ((protocol >>> 8) % 256)).set 3 (protocol % 256)) := by
  unfold mppe_compress_protocol wr MPPE_OVHD
  match np, h with
  | x :: y :: z :: w :: t, _ => simp

/-- A call of `mppe_compress` whose buffer is there, whose copy succeeds and
holds at least four bytes returns `STATUS_SUCCESS`; state, frame and packet
are as follows. -/
theorem mppe_compress_some (K : MppeCrypto) (copy_pkt_buf : List Nat → LwipStatus × List Nat)
    (state : PppMppeState) (pb : List Nat) (protocol : Nat)
    (hc : (copy_pkt_buf pb).1 = STATUS_SUCCESS) (hl : 4 ≤ (copy_pkt_buf pb).2.length) :
    ∃ (s2 : PppMppeState) (frame : List Nat),
      s2 = (if mppe_compress_rekeys { state with
            ccount := (state.ccount + 1) % MPPE_CCOUNT_SPACE } = true then
          { mppe_rekey K { state with ccount := (state.ccount + 1) % MPPE_CCOUNT_SPACE } false with
            bits := (mppe_rekey K { state with
              ccount := (state.ccount + 1) % MPPE_CCOUNT_SPACE } false).bits ||| MPPE_BIT_FLUSHED }
        else { state with ccount := (state.ccount + 1) % MPPE_CCOUNT_SPACE })
      ∧ frame.length = (copy_pkt_buf pb).2.length
      ∧ frame.getD 0 0
          = (((((state.ccount + 1) % MPPE_CCOUNT_SPACE) >>> 8) % 256) ||| s2.bits) % 256
      ∧ frame.getD 1 0 = ((state.ccount + 1) % MPPE_CCOUNT_SPACE) % 256
      ∧ frame.getD 2 0 = (protocol >>> 8) % 256
      ∧ frame.getD 3 0 = protocol % 256
      ∧ frame.drop 4 = (copy_pkt_buf pb).2.drop 4
      ∧ mppe_compress K false copy_pkt_buf state pb protocol
        = some ⟨STATUS_SUCCESS,
            { s2 with bits := flag_clear s2.bits MPPE_BIT_FLUSHED
                      arc4 := (K.arc4_crypt s2.arc4 frame).1 },
            (K.arc4_crypt s2.arc4 frame).2, frame,
            if mppe_compress_rekeys { state with
              ccount := (state.ccount + 1) % MPPE_CCOUNT_SPACE } = true then 1 else 0⟩ := by
  obtain ⟨c, hcdef⟩ : ∃ c : Nat, c = (state.ccount + 1) % MPPE_CCOUNT_SPACE := ⟨_, rfl⟩
  rw [← hcdef]
  obtain ⟨l, hl2⟩ : ∃ l, l = (copy_pkt_buf pb).2 := ⟨_, rfl⟩
  rw [← hl2] at hl ⊢
  obtain ⟨s2, hs2, hf⟩ := mppe_compress_flags_some K { state with ccount := c }
    ((l.set 0 ((c >>> 8) % 256)).set 1 (c % 256)) (by simp; omega)
  refine ⟨s2, ((((l.set 0 ((c >>> 8) % 256)).set 1 (c % 256)).set 0
    (((((l.set 0 ((c >>> 8) % 256)).set 1 (c % 256)).getD 0 0) ||| s2.bits) % 256)).set 2
      ((protocol >>> 8) % 256)).set 3 (protocol % 256), hs2, ?_, ?_, ?_, ?_, ?_, ?_, ?_⟩
  case refine_7 =>
    unfold mppe_compress
    rw [if_neg (by simp), if_neg (by simp [hc]), ← hl2, mppe_compress_count_some _ _ (by omega),
      ← hcdef]
    simp only [Option.some_bind]
    rw [hf]
    simp only [Option.some_bind]
    rw [mppe_compress_protocol_some _ _ (by simp; omega)]
    simp only [Option.map_some', hc]
  all_goals
    match l, hl with
    | x :: y :: z :: w :: t, _ => simp

/-- A state `mppe_init` has set up tracks the count 4095 and has the ENCRYPTED
flag alone in its flag byte. -/
theorem mppe_init_fresh (K : MppeCrypto) (closed : List String) (state : PppMppeState)
    (options : MppeOptions) (hok : (mppe_init K closed state options).1 = true) :
    (mppe_init K closed state options).2.2.ccount = 4095
    ∧ (mppe_init K closed state options).2.2.bits = MPPE_BIT_ENCRYPTED := by
  have hc : (options.opt_128 || options.opt_40) = true := by
    by_contra hc
    unfold mppe_init at hok
    simp [hc] at hok
  unfold mppe_init
  dsimp only
  rw [if_pos hc]
  exact ⟨rfl, rfl⟩

theorem flag_set_bit (x k : Nat) : flag_set x (2 ^ k) = x.testBit k := by
  cases hx : x.testBit k
  · rw [flag_set_eq_false_iff]
    intro i hi
    rw [Nat.testBit_two_pow]
    by_contra hk
    have hk : k = i := by simpa using hk
    subst hk
    rw [hx] at hi
    cases hi
  · rw [flag_set_iff]
    exact ⟨k, hx, by rw [Nat.testBit_two_pow]; simp⟩

theorem and_255 (c : Nat) : c &&& 0xff = c % 256 := by
  have h : (0xff : Nat) = 2 ^ 8 - 1 := by norm_num
  rw [h, Nat.and_pow_two_sub_one_eq_mod]

/-- The rekey rule of `mppe_compress` (lines 237-248) for a call that goes
through: with `c` the advanced count, a rekey is due when the state is
stateless, or `c` has low byte `0xFF`, or FLUSHED is pending in `bits`.  The
call rekeys once when a rekey is due and not at all otherwise; the header byte
stored in the frame has FLUSHED exactly when the rekey happened; afterwards
FLUSHED is clear in `bits` and ENCRYPTED is as before; the packet handed back
is the cipher applied to the whole frame, header included. -/
theorem compress_rekey_rule (K : MppeCrypto) (copy_pkt_buf : List Nat → LwipStatus × List Nat)
    (state : PppMppeState) (pb : List Nat) (protocol : Nat)
    (hc : (copy_pkt_buf pb).1 = STATUS_SUCCESS) (hl : 4 ≤ (copy_pkt_buf pb).2.length) :
    ∃ r, mppe_compress K false copy_pkt_buf state pb protocol = some r
      ∧ r.status = STATUS_SUCCESS
      ∧ ((state.stateful = false ∨ ((state.ccount + 1) % MPPE_CCOUNT_SPACE) % 256 = 0xff
            ∨ flag_set state.bits MPPE_BIT_FLUSHED = true) →
          r.rekeys = 1
          ∧ r.state.session_key = (mppe_rekey K { state with
              ccount := (state.ccount + 1) % MPPE_CCOUNT_SPACE } false).session_key
          ∧ flag_set (r.frame.getD 0 0) MPPE_BIT_FLUSHED = true)
      ∧ (¬ (state.stateful = false ∨ ((state.ccount + 1) % MPPE_CCOUNT_SPACE) % 256 = 0xff
            ∨ flag_set state.bits MPPE_BIT_FLUSHED = true) →
          r.rekeys = 0
          ∧ r.state.session_key = state.session_key
          ∧ flag_set (r.frame.getD 0 0) MPPE_BIT_FLUSHED = false)
      ∧ flag_set r.state.bits MPPE_BIT_FLUSHED = false
      ∧ flag_set r.state.bits MPPE_BIT_ENCRYPTED = flag_set state.bits MPPE_BIT_ENCRYPTED
      ∧ ∃ ctx, r.pb = (K.arc4_crypt ctx r.frame).2
          ∧ r.state.arc4 = (K.arc4_crypt ctx r.frame).1 := by
  obtain ⟨s2, frame, hs2, -, h0, -, -, -, -, hr⟩ :=
    mppe_compress_some K copy_pkt_buf state pb protocol hc hl
  obtain ⟨c, hcdef⟩ : ∃ c : Nat, c = (state.ccount + 1) % MPPE_CCOUNT_SPACE := ⟨_, rfl⟩
  have hlt : c < 4096 := by rw [hcdef]; unfold MPPE_CCOUNT_SPACE; omega
  rw [← hcdef] at hs2 h0 hr ⊢
  have hdue : mppe_compress_rekeys { state with ccount := c } = true ↔
      (state.stateful = false ∨ c % 256 = 0xff ∨ flag_set state.bits MPPE_BIT_FLUSHED = true) := by
    unfold mppe_compress_rekeys
    simp only [Bool.or_eq_true, Bool.not_eq_true', beq_iff_eq, and_255, or_assoc]
  have h80 : MPPE_BIT_FLUSHED = 2 ^ 7 := rfl
  have h10 : MPPE_BIT_ENCRYPTED = 2 ^ 4 := rfl
  have h256 : (256 : Nat) = 2 ^ 8 := by norm_num
  have hsh : (c >>> 8 % 256).testBit 7 = false := by
    apply Nat.testBit_lt_two_pow
    have : c >>> 8 < 16 := by rw [Nat.shiftRight_eq_div_pow]; omega
    omega
  refine ⟨_, hr, rfl, ?_, ?_, ?_, ?_, s2.arc4, rfl, rfl⟩
  · intro hd
    have hd2 := hdue.2 hd
    rw [if_pos hd2] at hr hs2
    rw [if_pos hd2]
    refine ⟨rfl, ?_, ?_⟩
    · show s2.session_key = _
      rw [hs2]
    · rw [h0, hs2]
      show flag_set ((c >>> 8 % 256 ||| ((mppe_rekey K _ false).bits ||| MPPE_BIT_FLUSHED)) % 256)
        MPPE_BIT_FLUSHED = true
      rw [h80, flag_set_bit, h256, Nat.testBit_mod_two_pow, Nat.testBit_or, Nat.testBit_or,
        Nat.testBit_two_pow]
      simp
  · intro hd
    have hd2 : ¬ mppe_compress_rekeys { state with ccount := c } = true := fun h => hd (hdue.1 h)
    rw [if_neg hd2] at hr hs2
    rw [if_neg hd2]
    refine ⟨rfl, ?_, ?_⟩
    · show s2.session_key = _
      rw [hs2]
    · rw [h0, hs2]
      show flag_set ((c >>> 8 % 256 ||| state.bits) % 256) MPPE_BIT_FLUSHED = false
      have hf : flag_set state.bits MPPE_BIT_FLUSHED = false := by
        by_contra hf
        exact hd (Or.inr (Or.inr (by simpa using hf)))
      rw [h80, flag_set_bit] at hf
      rw [h80, flag_set_bit, h256, Nat.testBit_mod_two_pow, Nat.testBit_or, ← h256, hsh, hf]
      simp
  · show flag_set (flag_clear s2.bits MPPE_BIT_FLUSHED) MPPE_BIT_FLUSHED = false
    exact flag_clear_self _ _
  · show flag_set (flag_clear s2.bits MPPE_BIT_FLUSHED) MPPE_BIT_ENCRYPTED = _
    rw [h10, flag_set_bit, flag_set_bit, flag_clear_testBit, h80, Nat.testBit_two_pow, hs2]
    split_ifs
    · show (((mppe_rekey K _ false).bits ||| 2 ^ 7).testBit 4 && _ && _) = _
      rw [Nat.testBit_or, Nat.testBit_two_pow, (mppe_rekey_keeps K _ false).2.2.2]
      simp
    · simp

/-- C25, where the code departs from it: the header `mppe_compress` hands
back has gone through the cipher with the rest of the packet.  On a fresh
stateless state the call rekeys and stores FLUSHED in the header of the
frame, and with a cipher that complements every byte the header handed back
has FLUSHED clear. -/
theorem compress_header_encrypted :
    (mppe_compress flip_crypto false plain_copy mppe_fresh_stateless [1, 2, 3, 4, 5, 6] 0x21).map
        (fun r => (r.status, r.rekeys, r.frame.take 2, r.pb.take 2))
      = some (STATUS_SUCCESS, 1, [0x90, 0x00], [0x6f, 0xff])
    ∧ flag_set 0x90 MPPE_BIT_FLUSHED = true
    ∧ flag_set 0x6f MPPE_BIT_FLUSHED = false := by
  decide

/-- What `mppe_compress` hands back (for a call that goes through): the cipher
applied to the whole of the copy, after the header went over its bytes 0 and
1 and the protocol over its bytes 2 and 3; with a cipher that keeps lengths,
the packet has the length of the copy. -/
theorem mppe_compress_emits (K : MppeCrypto) (copy_pkt_buf : List Nat → LwipStatus × List Nat)
    (state : PppMppeState) (pb : List Nat) (protocol : Nat)
    (hlen : ∀ ctx b, (K.arc4_crypt ctx b).2.length = b.length)
    (hc : (copy_pkt_buf pb).1 = STATUS_SUCCESS) (hl : 4 ≤ (copy_pkt_buf pb).2.length) :
    ∃ r, mppe_compress K false copy_pkt_buf state pb protocol = some r
      ∧ r.status = STATUS_SUCCESS
      ∧ r.pb.length = (copy_pkt_buf pb).2.length
      ∧ r.frame.drop 4 = (copy_pkt_buf pb).2.drop 4
      ∧ r.frame.getD 2 0 = (protocol >>> 8) % 256
      ∧ r.frame.getD 3 0 = protocol % 256
      ∧ ∃ ctx, r.pb = (K.arc4_crypt ctx r.frame).2 := by
  obtain ⟨s2, frame, -, h1, -, -, h2, h3, h4, hr⟩ :=
    mppe_compress_some K copy_pkt_buf state pb protocol hc hl
  exact ⟨_, hr, rfl, by rw [hlen]; exact h1, h4, h2, h3, s2.arc4, rfl⟩

/-- C26, where the code departs from it: with a plain copy and a cipher that
leaves the bytes as they are, a six-byte packet comes back six bytes long
(not ten), with the header over its bytes 0 and 1 and the protocol over its
bytes 2 and 3; a packet of fewer than four bytes has the stores run past its
end. -/
theorem compress_overwrites_payload :
    (mppe_compress plain_crypto false plain_copy mppe_fresh_stateless
        [0xa1, 0xa2, 0xa3, 0xa4, 0xa5, 0xa6] 0x21).map (fun r => (r.status, r.pb))
      = some (STATUS_SUCCESS, [0x90, 0x00, 0x00, 0x21, 0xa5, 0xa6])
    ∧ mppe_compress plain_crypto false plain_copy mppe_fresh_stateless [0xa1, 0xa2, 0xa3] 0x21
      = none := by
  decide

/-! ## The header decoders -/

/-- `MPPE_CCOUNT` hands back the low byte of the twelve-bit count only: the
second header byte, reduced modulo 256. -/
theorem MPPE_CCOUNT_low_byte (p : List Nat) : MPPE_CCOUNT p = p.getD 1 0 % 256 := by
  unfold MPPE_CCOUNT
  rw [Nat.shiftLeft_eq]
  omega

theorem header_bits (h k : Nat) (hh : h < 16) (hk : k < 16) :
    (h ||| 16 * k) &&& 0x0f = h ∧ (h ||| 16 * k) &&& 0xf0 = 16 * k := by
  revert k
  revert h
  decide

/-- The header `mppe_compress` writes for the count `c` and the flag nibble
`b`, `[(c >> 8) | b, c & 0xFF]`: `MPPE_BITS` gives back `b`, the twelve count
bits hold `c`, and `MPPE_CCOUNT` gives back `c mod 256`. -/
theorem header_roundtrip (c b : Nat) (hc : c < 4096) (hb : b < 256) (hb2 : b % 16 = 0) :
    MPPE_BITS [(c >>> 8) ||| b, c &&& 0xff] = b
    ∧ header_count [(c >>> 8) ||| b, c &&& 0xff] = c
    ∧ MPPE_CCOUNT [(c >>> 8) ||| b, c &&& 0xff] = c % 256 := by
  have hsh : c >>> 8 < 16 := by rw [Nat.shiftRight_eq_div_pow]; omega
  have hbk : b = 16 * (b / 16) := by omega
  obtain ⟨h1, h2⟩ := header_bits (c >>> 8) (b / 16) hsh (by omega)
  rw [← hbk] at h1 h2
  refine ⟨h2, ?_, ?_⟩
  · unfold header_count
    show (((c >>> 8 ||| b) &&& 0x0f) <<< 8) + (c &&& 0xff) = c
    rw [h1, and_255, Nat.shiftLeft_eq, Nat.shiftRight_eq_div_pow]
    omega
  · rw [MPPE_CCOUNT_low_byte]
    show (c &&& 0xff) % 256 = c % 256
    rw [and_255]
    omega

/-- C27, where the code departs from it: for the count 256 `mppe_compress`
writes the header `0x91 0x00` (twelve count bits 256, flags `0x90`);
`MPPE_BITS` gives back `0x90`, `MPPE_CCOUNT` gives back 0. -/
theorem ccount_decode_truncates :
    (mppe_compress plain_crypto false plain_copy { mppe_fresh_stateless with ccount := 255 }
        [1, 2, 3, 4, 5, 6] 0x21).map
        (fun r => (r.state.ccount, r.frame.take 2, header_count r.frame, MPPE_BITS r.frame,
          MPPE_CCOUNT r.frame))
      = some (256, [0x91, 0x00], 256, 0x90, 0) := by
  decide

/-! ## mppe_decompress -/

theorem bits_flag (x : Nat) (rest : List Nat) (k : Nat) (hk : 4 ≤ k) (hk8 : k < 8) :
    (MPPE_BITS (x :: rest) &&& 2 ^ k == 0) = !flag_set x (2 ^ k) := by
  have h : (MPPE_BITS (x :: rest) &&& 2 ^ k).testBit k = x.testBit k := by
    unfold MPPE_BITS
    have hf0 : (0xf0 : Nat).testBit k = true := by
      interval_cases k <;> decide
    simp [Nat.testBit_and, Nat.testBit_two_pow, hf0]
  rw [flag_set_bit]
  cases hx : x.testBit k
  · rw [hx] at h
    have h0 : MPPE_BITS (x :: rest) &&& 2 ^ k = 0 := by
      apply Nat.eq_of_testBit_eq
      intro i
      by_cases hi : i = k
      · subst hi; rw [h]; simp
      · rw [Nat.testBit_and, Nat.testBit_two_pow]
        simp [Ne.symm hi]
    simp [h0]
  · rw [hx] at h
    have hne : MPPE_BITS (x :: rest) &&& 2 ^ k ≠ 0 := by
      intro h0
      rw [h0] at h
      simp at h
    simp [hne]

theorem bits_encrypted (x : Nat) (rest : List Nat) :
    (MPPE_BITS (x :: rest) &&& MPPE_BIT_ENCRYPTED == 0) = !flag_set x MPPE_BIT_ENCRYPTED :=
  bits_flag x rest 4 (by decide) (by decide)

theorem bits_flushed (x : Nat) (rest : List Nat) :
    (MPPE_BITS (x :: rest) &&& MPPE_BIT_FLUSHED == 0) = !flag_set x MPPE_BIT_FLUSHED :=
  bits_flag x rest 7 (by decide) (by decide)

theorem ccount_flag_packet (p : List Nat) :
    (MPPE_CCOUNT p &&& 0xff == 0xff) = decide (p.getD 1 0 % 256 = 0xff) := by
  rw [MPPE_CCOUNT_low_byte, and_255, Bool.eq_iff_iff]
  simp

/-- C28: the four sanity checks of `mppe_decompress`.  When the packet is
shorter than the two header bytes, or its header lacks ENCRYPTED, or the state
is stateless and the header lacks FLUSHED, or the state is stateful, the low
count byte of the header is `0xFF` and the header lacks FLUSHED, the call
returns `ERR_BUF`; the state is the one handed in with `sanity_errors` raised
by 100 (so count, discard flag and keys are untouched), no rekey and no reset
request is made, and the packet is as it was. -/
theorem decompress_sanity_100 (K : MppeCrypto) (ccount_unsigned : Bool) (closed : List String)
    (state : PppMppeState) (pkt : List Nat)
    (h : pkt.length < 2
      ∨ flag_set (pkt.getD 0 0) MPPE_BIT_ENCRYPTED = false
      ∨ (state.stateful = false ∧ flag_set (pkt.getD 0 0) MPPE_BIT_FLUSHED = false)
      ∨ (state.stateful = true ∧ pkt.getD 1 0 % 256 = 0xff
          ∧ flag_set (pkt.getD 0 0) MPPE_BIT_FLUSHED = false)) :
    ∃ r, mppe_decompress K ccount_unsigned closed state pkt = some r
      ∧ r.status = ERR_BUF
      ∧ r.state = { state with sanity_errors := state.sanity_errors + 100 }
      ∧ r.rekeys = 0
      ∧ r.reset_requests = 0
      ∧ r.pkt = pkt
      ∧ r.closed = (if state.sanity_errors + 100 ≥ SANITY_MAX
          then closed ++ ["Too many MPPE errors"] else closed) := by
  have hs : ∀ s : PppMppeState, (mppe_sanity_error closed s pkt).status = ERR_BUF
      ∧ (mppe_sanity_error closed s pkt).state = s
      ∧ (mppe_sanity_error closed s pkt).rekeys = 0
      ∧ (mppe_sanity_error closed s pkt).reset_requests = 0
      ∧ (mppe_sanity_error closed s pkt).pkt = pkt
      ∧ (mppe_sanity_error closed s pkt).closed = (if s.sanity_errors ≥ SANITY_MAX
          then closed ++ ["Too many MPPE errors"] else closed) := by
    intro s
    unfold mppe_sanity_error
    split_ifs <;> exact ⟨rfl, rfl, rfl, rfl, rfl, rfl⟩
  unfold mppe_decompress
  by_cases h1 : pkt.length < MPPE_OVHD
  · rw [if_pos h1]
    exact ⟨_, rfl, hs _⟩
  · rw [if_neg h1]
    dsimp only
    have h2 : ¬ pkt.length < 2 := h1
    rcases pkt with _ | ⟨x, _ | ⟨y, t⟩⟩
    · simp at h2
    · simp at h2
    · rw [bits_encrypted, bits_flushed, ccount_flag_packet]
      simp only [List.getD_cons_zero, List.getD_cons_succ] at h ⊢
      by_cases c1 : flag_set x MPPE_BIT_ENCRYPTED = false
      · rw [if_pos (by simp [c1])]
        exact ⟨_, rfl, hs _⟩
      · rw [if_neg (by simp [c1])]
        by_cases c2 : (!state.stateful && !flag_set x MPPE_BIT_FLUSHED) = true
        · rw [if_pos c2]
          exact ⟨_, rfl, hs _⟩
        · rw [if_neg c2]
          by_cases c3 : (state.stateful && decide (y % 256 = 0xff)
              && !flag_set x MPPE_BIT_FLUSHED) = true
          · rw [if_pos c3]
            exact ⟨_, rfl, hs _⟩
          · exfalso
            rcases h with h | h | h | h
            · simp at h; omega
            · exact c1 h
            · exact c2 (by simp [h.1, h.2])
            · exact c3 (by simp [h.1, h.2.1, h.2.2])

theorem decompress_sanity_100_witness :
    ∃ r, mppe_decompress plain_crypto false [] mppe_example_state [0x10, 0xff, 1, 2] = some r
      ∧ r.status = ERR_BUF
      ∧ r.state = { mppe_example_state with sanity_errors := 0 + 100 }
      ∧ r.rekeys = 0
      ∧ r.reset_requests = 0
      ∧ r.pkt = [0x10, 0xff, 1, 2]
      ∧ r.closed = [] :=
  decompress_sanity_100 plain_crypto false [] mppe_example_state [0x10, 0xff, 1, 2]
    (Or.inr (Or.inr (Or.inr (by decide))))

/-! ## The stateless branch -/

/-- The catch-up loop of the stateless branch ends: from a count below the
count space it reaches any target below the count space with one rekey for
each step of the modular distance, and touches nothing but the keys and the
count. -/
theorem mppe_catchup_spec (K : MppeCrypto) :
    ∀ (fuel : Nat) (state : PppMppeState) (ccount rekeys : Nat),
      ccount < 4096 → state.ccount < 4096 →
      (ccount + 4096 - state.ccount) % 4096 < fuel →
      ∃ s, mppe_catchup K fuel state ccount rekeys
          = some (s, rekeys + (ccount + 4096 - state.ccount) % 4096)
        ∧ s.ccount = ccount
        ∧ s.stateful = state.stateful
        ∧ s.discard = state.discard
        ∧ s.sanity_errors = state.sanity_errors
        ∧ s.bits = state.bits
        ∧ s.keylen = state.keylen
        ∧ s.master_key = state.master_key := by
  intro fuel
  induction fuel with
  | zero => intro state ccount rekeys _ _ h; omega
  | succ n ih =>
    intro state ccount rekeys hc hs hf
    rw [mppe_catchup]
    obtain ⟨g1, g2, g3, g4, g5, g6, g7⟩ := mppe_rekey_frame K state false
    by_cases he : state.ccount = ccount
    · rw [if_neg (by simp [he])]
      refine ⟨state, ?_, he, rfl, rfl, rfl, rfl, rfl, rfl⟩
      rw [he]
      have : (ccount + 4096 - ccount) % 4096 = 0 := by omega
      rw [this]; rfl
    · rw [if_pos (by simp [he])]
      obtain ⟨s, h1, h2, h3, h4, h5, h6, h7, h8⟩ := ih
        { mppe_rekey K state false with
          ccount := ((mppe_rekey K state false).ccount + 1) % MPPE_CCOUNT_SPACE }
        ccount (rekeys + 1) hc
        (by show ((mppe_rekey K state false).ccount + 1) % MPPE_CCOUNT_SPACE < 4096
            unfold MPPE_CCOUNT_SPACE; omega)
        (by show (ccount + 4096 - ((mppe_rekey K state false).ccount + 1) % MPPE_CCOUNT_SPACE)
              % 4096 < n
            rw [g3]; unfold MPPE_CCOUNT_SPACE; omega)
      refine ⟨s, ?_, h2, h3.trans g5, h4.trans g6, h5.trans g7, h6.trans g4, h7.trans g2,
        h8.trans g1⟩
      rw [h1]
      have : (ccount + 4096 - ((mppe_rekey K state false).ccount + 1) % MPPE_CCOUNT_SPACE) % 4096
          + 1 = (ccount + 4096 - state.ccount) % 4096 := by
        rw [g3]; unfold MPPE_CCOUNT_SPACE; omega
      show some (s, rekeys + 1 + (ccount + 4096
        - ((mppe_rekey K state false).ccount + 1) % MPPE_CCOUNT_SPACE) % 4096) = _
      rw [← this]
      congr 2
      omega

/-- The late-packet test in `int` arithmetic holds exactly when the packet
count is not below the tracked count and exceeds it by more than half the
count space (modulo the count space): a packet count below the tracked count
gives a negative remainder, which is not above the bound. -/
theorem ccount_late_signed (ccount c : Nat) :
    ccount_late false ccount c = decide (c ≤ ccount ∧ (ccount - c) % 4096 > 2048) := by
  unfold ccount_late
  simp only [Bool.false_eq_true, if_false]
  rw [Bool.eq_iff_iff]
  simp only [decide_eq_true_eq]
  by_cases h : c ≤ ccount
  · have e : ((ccount : Int) - (c : Int)) = ((ccount - c : Nat) : Int) := by omega
    rw [e, ← Int.ofNat_tmod]
    unfold MPPE_CCOUNT_SPACE
    constructor
    · intro h2; exact ⟨h, by omega⟩
    · intro h2; omega
  · have hneg : (ccount : Int) - (c : Int) < 0 := by omega
    obtain ⟨m, hm⟩ := Int.eq_negSucc_of_lt_zero hneg
    rw [hm]
    have : Int.tmod (Int.negSucc m) ((MPPE_CCOUNT_SPACE : Nat) : Int)
        = -((Nat.succ m % MPPE_CCOUNT_SPACE : Nat) : Int) := rfl
    rw [this]
    unfold MPPE_CCOUNT_SPACE
    constructor
    · intro h2; omega
    · intro h2; exact absurd h2.1 h

/-- The late-packet test in `unsigned int` arithmetic, for counts that fit the
type: the modular distance from the tracked count to the packet count exceeds
half the count space. -/
theorem ccount_late_unsigned (ccount c : Nat) (hc : c < 2 ^ 32) (hp : ccount < 2 ^ 32) :
    ccount_late true ccount c = decide ((ccount + 4096 - c % 4096) % 4096 > 2048) := by
  unfold ccount_late MPPE_CCOUNT_SPACE
  simp only [if_true]
  rw [Bool.eq_iff_iff]
  simp only [decide_eq_true_eq]
  norm_num at hc hp ⊢
  omega

/-- A stateless call of `mppe_decompress` on a packet with ENCRYPTED and
FLUSHED whose decoded count passes the late-packet test: the call returns
`STATUS_SUCCESS`, the tracked count becomes the decoded count (the second
header byte), one rekey is made for each step of the modular distance, and the
error counter is halved. -/
theorem decompress_stateless_accept (K : MppeCrypto) (ccount_unsigned : Bool)
    (closed : List String) (state : PppMppeState) (x y : Nat) (t : List Nat)
    (hs : state.stateful = false) (hE : flag_set x MPPE_BIT_ENCRYPTED = true)
    (hF : flag_set x MPPE_BIT_FLUSHED = true) (hc : state.ccount < 4096)
    (hlate : ccount_late ccount_unsigned (y % 256) state.ccount = false) :
    ∃ r, mppe_decompress K ccount_unsigned closed state (x :: y :: t) = some r
      ∧ r.status = STATUS_SUCCESS
      ∧ r.state.ccount = y % 256
      ∧ r.rekeys = (y % 256 + 4096 - state.ccount) % 4096
      ∧ r.state.sanity_errors = state.sanity_errors >>> 1
      ∧ r.state.stateful = false
      ∧ r.closed = closed
      ∧ r.reset_requests = 0 := by
  obtain ⟨s, h1, h2, h3, h4, h5, h6, h7, h8⟩ := mppe_catchup_spec K (MPPE_CCOUNT_SPACE + 1) state
    (y % 256) 0 (by omega) hc (by unfold MPPE_CCOUNT_SPACE; omega)
  refine ⟨mppe_decompress_finish K closed s (x :: y :: t) (0 + (y % 256 + 4096 - state.ccount) % 4096),
    ?_, rfl, h2, by simp [mppe_decompress_finish], ?_, ?_, rfl, rfl⟩
  · unfold mppe_decompress
    rw [if_neg (by simp [MPPE_OVHD])]
    dsimp only
    rw [bits_encrypted, bits_flushed, ccount_flag_packet, MPPE_CCOUNT_low_byte]
    simp only [List.getD_cons_zero, List.getD_cons_succ]
    rw [if_neg (by simp [hE]), if_neg (by simp [hF]), if_neg (by simp [hs])]
    unfold mppe_decompress_count
    rw [if_pos (by simp [hs])]
    unfold mppe_decompress_stateless
    rw [if_neg (by simp [hlate]), h1]
    rfl
  · show s.sanity_errors >>> 1 = _
    rw [h5]
  · show s.stateful = false
    rw [h3, hs]

/-- A stateless call of `mppe_decompress` on a packet with ENCRYPTED and
FLUSHED whose decoded count fails the late-packet test: the packet is dropped
with `ERR_BUF`, `sanity_errors` goes up by one, no rekey is made and the state
is otherwise as it was. -/
theorem decompress_stateless_late (K : MppeCrypto) (ccount_unsigned : Bool)
    (closed : List String) (state : PppMppeState) (x y : Nat) (t : List Nat)
    (hs : state.stateful = false) (hE : flag_set x MPPE_BIT_ENCRYPTED = true)
    (hF : flag_set x MPPE_BIT_FLUSHED = true)
    (hlate : ccount_late ccount_unsigned (y % 256) state.ccount = true) :
    ∃ r, mppe_decompress K ccount_unsigned closed state (x :: y :: t) = some r
      ∧ r.status = ERR_BUF
      ∧ r.state = { state with sanity_errors := state.sanity_errors + 1 }
      ∧ r.rekeys = 0
      ∧ r.reset_requests = 0 := by
  have hm : mppe_decompress K ccount_unsigned closed state (x :: y :: t)
      = some (mppe_sanity_error closed
          { state with sanity_errors := state.sanity_errors + 1 } (x :: y :: t)) := by
    unfold mppe_decompress
    rw [if_neg (by simp [MPPE_OVHD])]
    dsimp only
    rw [bits_encrypted, bits_flushed, ccount_flag_packet, MPPE_CCOUNT_low_byte]
    simp only [List.getD_cons_zero, List.getD_cons_succ]
    rw [if_neg (by simp [hE]), if_neg (by simp [hF]), if_neg (by simp [hs])]
    unfold mppe_decompress_count
    rw [if_pos (by simp [hs])]
    unfold mppe_decompress_stateless
    rw [if_pos hlate]
    rfl
  refine ⟨_, hm, ?_⟩
  unfold mppe_sanity_error
  split_ifs <;> exact ⟨rfl, rfl, rfl, rfl⟩

theorem mppe_packet_flags (c : Nat) :
    flag_set ((c >>> 8) ||| (MPPE_BIT_FLUSHED ||| MPPE_BIT_ENCRYPTED)) MPPE_BIT_ENCRYPTED = true
    ∧ flag_set ((c >>> 8) ||| (MPPE_BIT_FLUSHED ||| MPPE_BIT_ENCRYPTED)) MPPE_BIT_FLUSHED = true := by
  have h80 : MPPE_BIT_FLUSHED = 2 ^ 7 := rfl
  have h10 : MPPE_BIT_ENCRYPTED = 2 ^ 4 := rfl
  rw [h80, h10, flag_set_bit, flag_set_bit]
  simp only [Nat.testBit_or, Nat.testBit_two_pow]
  simp

/-- C29, where the code departs from it: tracked count 10, packet count 4000
(4086 ahead modulo 4096, so in the past half), ENCRYPTED and FLUSHED set.
`MPPE_CCOUNT` decodes the count as 160; the packet is accepted, 150 rekeys are
made and the tracked count becomes 160, whichever arithmetic the late-packet
test uses. -/
theorem late_packet_accepted :
    (4000 + 4096 - 10) % 4096 > 2048
    ∧ ∀ u, ∃ r, mppe_decompress plain_crypto u [] { mppe_fresh_stateless with ccount := 10 }
        (mppe_packet 4000 [0xa1, 0xa2]) = some r
      ∧ r.status = STATUS_SUCCESS
      ∧ r.rekeys = 150
      ∧ r.state.ccount = 160
      ∧ r.state.sanity_errors = 0 := by
  refine ⟨by decide, fun u => ?_⟩
  obtain ⟨r, h1, h2, h3, h4, h5, -, -, -⟩ := decompress_stateless_accept plain_crypto u []
    { mppe_fresh_stateless with ccount := 10 }
    ((4000 >>> 8) ||| (MPPE_BIT_FLUSHED ||| MPPE_BIT_ENCRYPTED)) (4000 &&& 0xff) [0xa1, 0xa2]
    (by decide) (by decide) (by decide) (by decide) (by cases u <;> decide)
  exact ⟨r, h1, h2, h4, h3, h5⟩

/-- With the late-packet test in `int` arithmetic, a stateless state accepts
every well-flagged packet whose decoded count is below the tracked count: the
difference is negative, so is the remainder, and the catch-up loop runs the
count round the count space to the packet's. -/
theorem earlier_count_accepted (K : MppeCrypto) (closed : List String) (state : PppMppeState)
    (x y : Nat) (t : List Nat)
    (hs : state.stateful = false) (hE : flag_set x MPPE_BIT_ENCRYPTED = true)
    (hF : flag_set x MPPE_BIT_FLUSHED = true) (hc : state.ccount < 4096)
    (hy : y % 256 < state.ccount) :
    ∃ r, mppe_decompress K false closed state (x :: y :: t) = some r
      ∧ r.status = STATUS_SUCCESS
      ∧ r.rekeys = 4096 - (state.ccount - y % 256)
      ∧ r.state.ccount = y % 256 := by
  obtain ⟨r, h1, h2, h3, h4, -, -, -, -⟩ := decompress_stateless_accept K false closed state x y t
    hs hE hF hc (by rw [ccount_late_signed]; simp; omega)
  exact ⟨r, h1, h2, by rw [h4]; omega, h3⟩

theorem decompress_feed_append (K : MppeCrypto) (ccount_unsigned : Bool) :
    ∀ (l1 l2 : List (List Nat)) (closed : List String) (state : PppMppeState)
      (r1 : List MppeDecompressed),
      decompress_feed K ccount_unsigned closed state l1 = some r1 →
      decompress_feed K ccount_unsigned closed state (l1 ++ l2)
        = (decompress_feed K ccount_unsigned (feed_end closed state r1).1
            (feed_end closed state r1).2 l2).map (fun r2 => r1 ++ r2) := by
  intro l1
  induction l1 with
  | nil =>
    intro l2 closed state r1 h1
    rw [decompress_feed] at h1
    simp only [Option.some.injEq] at h1
    subst h1
    simp [feed_end]
  | cons p rest ih =>
    intro l2 closed state r1 h1
    rw [decompress_feed] at h1
    simp only [Option.bind_eq_some, Option.map_eq_some'] at h1
    obtain ⟨r, hr, rs, hrs, hr1⟩ := h1
    subst hr1
    rw [List.cons_append, decompress_feed, hr]
    simp only [Option.some_bind]
    rw [ih l2 r.closed r.state rs hrs, feed_end]
    cases decompress_feed K ccount_unsigned (feed_end r.closed r.state rs).1
      (feed_end r.closed r.state rs).2 l2 <;> simp

/-- Well-formed packets with the counts `start`, `start + 1`, ... fed in order
to a stateless state that tracks the count just before `start`, as long as
the counts stay below 256: every call succeeds with exactly one rekey, raises
no sanity error, and leaves the tracked count at the packet's count. -/
theorem decompress_feed_in_order (K : MppeCrypto) (ccount_unsigned : Bool)
    (payload : Nat → List Nat) :
    ∀ (n start : Nat) (closed : List String) (state : PppMppeState),
      state.stateful = false → state.sanity_errors = 0 →
      state.ccount = (start + 4095) % 4096 → start + n ≤ 256 →
      ∃ results,
        decompress_feed K ccount_unsigned closed state
          ((List.range' start n).map (fun i => mppe_packet i (payload i))) = some results
        ∧ results.length = n
        ∧ (∀ j r, results[j]? = some r →
            r.status = STATUS_SUCCESS ∧ r.state.ccount = start + j
            ∧ r.state.sanity_errors = 0 ∧ r.state.stateful = false
            ∧ r.closed = closed ∧ r.rekeys = 1)
        ∧ (feed_end closed state results).1 = closed
        ∧ (feed_end closed state results).2.stateful = false
        ∧ (feed_end closed state results).2.sanity_errors = 0
        ∧ (feed_end closed state results).2.ccount = (start + n + 4095) % 4096 := by
  intro n
  induction n with
  | zero =>
    intro start closed state hs he hc _
    exact ⟨[], rfl, rfl, fun j r h => by simp at h, rfl, hs, he, hc⟩
  | succ m ih =>
    intro start closed state hs he hc hn
    have hy : (start &&& 0xff) % 256 = start := by rw [and_255]; omega
    have hlate : ccount_late ccount_unsigned ((start &&& 0xff) % 256) state.ccount = false := by
      rw [hy, hc]
      cases ccount_unsigned
      · rw [ccount_late_signed]
        simp only [decide_eq_false_iff_not]
        omega
      · rw [ccount_late_unsigned _ _ (by norm_num; omega) (by norm_num; omega)]
        simp only [decide_eq_false_iff_not]
        omega
    obtain ⟨r0, a1, a2, a3, a4, a5, a6, a7, -⟩ := decompress_stateless_accept K ccount_unsigned
      closed state ((start >>> 8) ||| (MPPE_BIT_FLUSHED ||| MPPE_BIT_ENCRYPTED)) (start &&& 0xff)
      (payload start) hs (mppe_packet_flags start).1 (mppe_packet_flags start).2
      (by rw [hc]; omega) hlate
    rw [hy] at a3 a4
    have a5b : r0.state.sanity_errors = 0 := by rw [a5, he]; rfl
    have a4b : r0.rekeys = 1 := by rw [a4, hc]; omega
    obtain ⟨rs, b1, b2, b3, e1, e2, e3, e4⟩ := ih (start + 1) r0.closed r0.state a6 a5b
      (by rw [a3]; omega) (by omega)
    refine ⟨r0 :: rs, ?_, by simp [b2], ?_, e1.trans a7, e2, e3,
      by rw [feed_end, e4]; omega⟩
    · rw [List.range'_succ, List.map_cons, decompress_feed]
      show (mppe_decompress K ccount_unsigned closed state
        (((start >>> 8) ||| (MPPE_BIT_FLUSHED ||| MPPE_BIT_ENCRYPTED)) :: (start &&& 0xff)
          :: payload start)).bind _ = _
      rw [a1]
      simp only [Option.some_bind]
      rw [b1]
      rfl
    · intro j r hj
      cases j with
      | zero =>
        simp only [List.getElem?_cons_zero, Option.some.injEq] at hj
        subst hj
        exact ⟨a2, a3, a5b, a6, a7, a4b⟩
      | succ i =>
        simp only [List.getElem?_cons_succ] at hj
        obtain ⟨c1, c2, c3, c4, c5, c6⟩ := b3 i r hj
        exact ⟨c1, by rw [c2]; omega, c3, c4, c5.trans a7, c6⟩

/-- Packets with the counts 0 to 256 fed in order to a stateless state that
tracks 4095 with no sanity errors: the calls for the counts 0 to 255 succeed
and track the packet's count; the packet with the count 256 decodes as count
0.  With the late-packet test in `int` arithmetic it is accepted after 3841
rekeys and the tracked count is 0; with the test in `unsigned int` arithmetic
it is dropped with a sanity error. -/
theorem decompress_feed_256 (K : MppeCrypto) (payload : Nat → List Nat) (closed : List String)
    (state : PppMppeState) (hs : state.stateful = false) (he : state.sanity_errors = 0)
    (hc : state.ccount = 4095) :
    (∃ rs, decompress_feed K false closed state
        ((List.range 257).map (fun i => mppe_packet i (payload i))) = some rs
      ∧ (∀ j r, j < 256 → rs[j]? = some r → r.status = STATUS_SUCCESS ∧ r.state.ccount = j)
      ∧ ∃ r, rs[256]? = some r ∧ r.status = STATUS_SUCCESS ∧ r.state.ccount = 0
          ∧ r.rekeys = 3841 ∧ r.state.sanity_errors = 0)
    ∧ (∃ rs, decompress_feed K true closed state
        ((List.range 257).map (fun i => mppe_packet i (payload i))) = some rs
      ∧ (∀ j r, j < 256 → rs[j]? = some r → r.status = STATUS_SUCCESS ∧ r.state.ccount = j)
      ∧ ∃ r, rs[256]? = some r ∧ r.status = ERR_BUF ∧ r.state.ccount = 255
          ∧ r.rekeys = 0 ∧ r.state.sanity_errors = 1) := by
  have hsplit : (List.range 257).map (fun i => mppe_packet i (payload i))
      = (List.range' 0 256).map (fun i => mppe_packet i (payload i))
        ++ [mppe_packet 256 (payload 256)] := by
    rw [List.range_eq_range', show (257 : Nat) = 256 + 1 from rfl, List.range'_concat]
    simp
  have hy : ((256 : Nat) &&& 0xff) % 256 = 0 := by decide
  constructor
  · obtain ⟨r1, b1, b2, b3, e1, e2, e3, e4⟩ := decompress_feed_in_order K false payload 256 0 closed
      state hs he (by rw [hc]) (by omega)
    obtain ⟨r, a1, a2, a3, a4, a5, -, -, -⟩ := decompress_stateless_accept K false
      (feed_end closed state r1).1 (feed_end closed state r1).2
      ((256 >>> 8) ||| (MPPE_BIT_FLUSHED ||| MPPE_BIT_ENCRYPTED)) (256 &&& 0xff) (payload 256)
      e2 (mppe_packet_flags 256).1 (mppe_packet_flags 256).2 (by rw [e4]; omega)
      (by rw [hy, e4, ccount_late_signed]; decide)
    refine ⟨r1 ++ [r], ?_, ?_, r, ?_, a2, by rw [a3, hy], by rw [a4, hy, e4], by rw [a5, e3]; rfl⟩
    · rw [hsplit, decompress_feed_append K false _ _ closed state r1 b1, decompress_feed]
      show ((mppe_decompress K false _ _ (((256 >>> 8) ||| (MPPE_BIT_FLUSHED ||| MPPE_BIT_ENCRYPTED))
        :: (256 &&& 0xff) :: payload 256)).bind _).map _ = _
      rw [a1]
      rfl
    · intro j r' hj hr'
      rw [List.getElem?_append_left (by omega)] at hr'
      obtain ⟨c1, c2, -⟩ := b3 j r' hr'
      exact ⟨c1, by rw [c2]; omega⟩
    · rw [List.getElem?_append_right (by omega), b2]
      rfl
  · obtain ⟨r1, b1, b2, b3, e1, e2, e3, e4⟩ := decompress_feed_in_order K true payload 256 0 closed
      state hs he (by rw [hc]) (by omega)
    obtain ⟨r, a1, a2, a3, a4, -⟩ := decompress_stateless_late K true
      (feed_end closed state r1).1 (feed_end closed state r1).2
      ((256 >>> 8) ||| (MPPE_BIT_FLUSHED ||| MPPE_BIT_ENCRYPTED)) (256 &&& 0xff) (payload 256)
      e2 (mppe_packet_flags 256).1 (mppe_packet_flags 256).2
      (by rw [hy, e4]; decide)
    refine ⟨r1 ++ [r], ?_, ?_, r, ?_, a2, by rw [a3]; exact e4, a4, by rw [a3]; show _ + 1 = 1; rw [e3]⟩
    · rw [hsplit, decompress_feed_append K true _ _ closed state r1 b1, decompress_feed]
      show ((mppe_decompress K true _ _ (((256 >>> 8) ||| (MPPE_BIT_FLUSHED ||| MPPE_BIT_ENCRYPTED))
        :: (256 &&& 0xff) :: payload 256)).bind _).map _ = _
      rw [a1]
      rfl
    · intro j r' hj hr'
      rw [List.getElem?_append_left (by omega)] at hr'
      obtain ⟨c1, c2, -⟩ := b3 j r' hr'
      exact ⟨c1, by rw [c2]; omega⟩
    · rw [List.getElem?_append_right (by omega), b2]
      rfl

/-- C30, where the code departs from it: packets with the counts 0 to 256 fed
in order to a freshly initialized stateless state.  The first 256 calls
succeed and track the packet's count.  The packet with the count 256 is
decoded as count 0: the call succeeds after 3841 rekeys and the tracked count
is 0, not 256 (with the late-packet test in `unsigned int` arithmetic the
packet is dropped with a sanity error instead). -/
theorem feed_wraps_at_256 :
    mppe_fresh_stateless.ccount = 4095 ∧ mppe_fresh_stateless.sanity_errors = 0
    ∧ mppe_fresh_stateless.stateful = false
    ∧ (∃ rs, decompress_feed plain_crypto false [] mppe_fresh_stateless
        ((List.range 257).map (fun i => mppe_packet i [])) = some rs
      ∧ (∀ j r, j < 256 → rs[j]? = some r → r.status = STATUS_SUCCESS ∧ r.state.ccount = j)
      ∧ ∃ r, rs[256]? = some r ∧ r.status = STATUS_SUCCESS ∧ r.state.ccount = 0
          ∧ r.rekeys = 3841 ∧ r.state.sanity_errors = 0)
    ∧ (∃ rs, decompress_feed plain_crypto true [] mppe_fresh_stateless
        ((List.range 257).map (fun i => mppe_packet i [])) = some rs
      ∧ (∀ j r, j < 256 → rs[j]? = some r → r.status = STATUS_SUCCESS ∧ r.state.ccount = j)
      ∧ ∃ r, rs[256]? = some r ∧ r.status = ERR_BUF ∧ r.state.ccount = 255
          ∧ r.rekeys = 0 ∧ r.state.sanity_errors = 1) :=
  ⟨by decide, by decide, by decide,
    decompress_feed_256 plain_crypto (fun _ => []) [] mppe_fresh_stateless (by decide) (by decide)
      (by decide)⟩

/-! ## The catch-up loops of mppe_decompress -/

/-- What one turn of either catch-up loop leaves untouched. -/
theorem catchup_turn_frame (K : MppeCrypto) (state : PppMppeState) (c : Nat) :
    ({ mppe_rekey K state false with ccount := c } : PppMppeState).stateful = state.stateful
    ∧ ({ mppe_rekey K state false with ccount := c } : PppMppeState).discard = state.discard
    ∧ ({ mppe_rekey K state false with ccount := c } : PppMppeState).sanity_errors
        = state.sanity_errors
    ∧ ({ mppe_rekey K state false with ccount := c } : PppMppeState).bits = state.bits
    ∧ ({ mppe_rekey K state false with ccount := c } : PppMppeState).keylen = state.keylen
    ∧ ({ mppe_rekey K state false with ccount := c } : PppMppeState).master_key
        = state.master_key := by
  obtain ⟨g1, g2, g3, g4, g5, g6, g7⟩ := mppe_rekey_frame K state false
  exact ⟨g5, g6, g7, g4, g2, g1⟩

/-- The stateless catch-up loop, run on the fuel `mppe_decompress` gives it,
ends for every tracked count and every target below the count space, also
from a tracked count outside the count space. -/
theorem mppe_catchup_total (K : MppeCrypto) (state : PppMppeState) (ccount rekeys : Nat)
    (hc : ccount < 4096) :
    ∃ s n, mppe_catchup K (MPPE_CCOUNT_SPACE + 1) state ccount rekeys = some (s, n)
      ∧ s.ccount = ccount
      ∧ s.stateful = state.stateful
      ∧ s.discard = state.discard
      ∧ s.sanity_errors = state.sanity_errors
      ∧ (state.ccount < 4096 → n = rekeys + (ccount + 4096 - state.ccount) % 4096) := by
  by_cases hs : state.ccount < 4096
  · obtain ⟨s, h1, h2, h3, h4, h5, -⟩ := mppe_catchup_spec K (MPPE_CCOUNT_SPACE + 1) state ccount
      rekeys hc hs (by unfold MPPE_CCOUNT_SPACE; omega)
    exact ⟨s, _, h1, h2, h3, h4, h5, fun _ => rfl⟩
  · have hne : state.ccount ≠ ccount := by omega
    obtain ⟨f1, f2, f3, -, -, -⟩ := catchup_turn_frame K state
      (((mppe_rekey K state false).ccount + 1) % MPPE_CCOUNT_SPACE)
    obtain ⟨s, h1, h2, h3, h4, h5, -⟩ := mppe_catchup_spec K MPPE_CCOUNT_SPACE
      { mppe_rekey K state false with
        ccount := ((mppe_rekey K state false).ccount + 1) % MPPE_CCOUNT_SPACE }
      ccount (rekeys + 1) hc
      (by show ((mppe_rekey K state false).ccount + 1) % MPPE_CCOUNT_SPACE < 4096
          unfold MPPE_CCOUNT_SPACE; omega)
      (by unfold MPPE_CCOUNT_SPACE; omega)
    have hfirst := h1
    rw [← if_pos (show (state.ccount != ccount) = true by simp [hne])
      (t := mppe_catchup K MPPE_CCOUNT_SPACE
        { mppe_rekey K state false with
          ccount := ((mppe_rekey K state false).ccount + 1) % MPPE_CCOUNT_SPACE }
        ccount (rekeys + 1)) (e := some (state, rekeys)), ← mppe_catchup] at hfirst
    exact ⟨s, _, hfirst, h2, h3.trans f1, h4.trans f2, h5.trans f3, fun h => absurd h hs⟩

theorem clear_low8_eq (x : Nat) : clear_low8 x = x / 256 * 256 := by
  unfold clear_low8
  rw [Nat.shiftLeft_eq, Nat.shiftRight_eq_div_pow]

/-- The discard-exit loop ends: from a tracked count below the count space it
reaches the 256-block of any target below the count space with one rekey for
each block of the modular distance; the low byte of the tracked count is as it
was. -/
theorem mppe_catchup_flag_spec (K : MppeCrypto) :
    ∀ (fuel : Nat) (state : PppMppeState) (ccount rekeys : Nat),
      ccount < 4096 → state.ccount < 4096 →
      (ccount / 256 + 16 - state.ccount / 256) % 16 < fuel →
      ∃ s, mppe_catchup_flag K fuel state ccount rekeys
          = some (s, rekeys + (ccount / 256 + 16 - state.ccount / 256) % 16)
        ∧ clear_low8 s.ccount = clear_low8 ccount
        ∧ s.ccount < 4096
        ∧ s.stateful = state.stateful
        ∧ s.discard = state.discard
        ∧ s.sanity_errors = state.sanity_errors := by
  intro fuel
  induction fuel with
  | zero => intro state ccount rekeys _ _ h; omega
  | succ n ih =>
    intro state ccount rekeys hc hs hf
    rw [mppe_catchup_flag]
    obtain ⟨g1, g2, g3, g4, g5, g6, g7⟩ := mppe_rekey_frame K state false
    by_cases he : clear_low8 ccount = clear_low8 state.ccount
    · rw [if_neg (by simp [he])]
      refine ⟨state, ?_, he.symm, hs, rfl, rfl, rfl⟩
      rw [clear_low8_eq, clear_low8_eq] at he
      have : (ccount / 256 + 16 - state.ccount / 256) % 16 = 0 := by omega
      rw [this]; rfl
    · rw [if_pos (by simp [he])]
      rw [clear_low8_eq, clear_low8_eq] at he
      obtain ⟨s, h1, h2, h3, h4, h5, h6⟩ := ih
        { mppe_rekey K state false with
          ccount := ((mppe_rekey K state false).ccount + 256) % MPPE_CCOUNT_SPACE }
        ccount (rekeys + 1) hc
        (by show ((mppe_rekey K state false).ccount + 256) % MPPE_CCOUNT_SPACE < 4096
            unfold MPPE_CCOUNT_SPACE; omega)
        (by show (ccount / 256 + 16
              - (((mppe_rekey K state false).ccount + 256) % MPPE_CCOUNT_SPACE) / 256) % 16 < n
            rw [g3]; unfold MPPE_CCOUNT_SPACE; omega)
      refine ⟨s, ?_, h2, h3, h4.trans g5, h5.trans g6, h6.trans g7⟩
      rw [h1]
      have : (ccount / 256 + 16
          - (((mppe_rekey K state false).ccount + 256) % MPPE_CCOUNT_SPACE) / 256) % 16 + 1
          = (ccount / 256 + 16 - state.ccount / 256) % 16 := by
        rw [g3]; unfold MPPE_CCOUNT_SPACE; omega
      show some (s, rekeys + 1 + (ccount / 256 + 16
        - (((mppe_rekey K state false).ccount + 256) % MPPE_CCOUNT_SPACE) / 256) % 16) = _
      rw [← this]
      congr 2
      omega

/-- The discard-exit loop, run on the fuel `mppe_decompress` gives it, ends for
every tracked count and every target below the count space. -/
theorem mppe_catchup_flag_total (K : MppeCrypto) (state : PppMppeState) (ccount rekeys : Nat)
    (hc : ccount < 4096) :
    ∃ s n, mppe_catchup_flag K 18 state ccount rekeys = some (s, n)
      ∧ s.stateful = state.stateful
      ∧ s.discard = state.discard
      ∧ s.sanity_errors = state.sanity_errors
      ∧ (state.ccount < 4096 → n = rekeys + (ccount / 256 + 16 - state.ccount / 256) % 16) := by
  by_cases hs : state.ccount < 4096
  · obtain ⟨s, h1, -, -, h4, h5, h6⟩ := mppe_catchup_flag_spec K 18 state ccount rekeys hc hs
      (by omega)
    exact ⟨s, _, h1, h4, h5, h6, fun _ => rfl⟩
  · have hne : clear_low8 ccount ≠ clear_low8 state.ccount := by
      rw [clear_low8_eq, clear_low8_eq]; omega
    obtain ⟨f1, f2, f3, -, -, -⟩ := catchup_turn_frame K state
      (((mppe_rekey K state false).ccount + 256) % MPPE_CCOUNT_SPACE)
    obtain ⟨s, h1, -, -, h4, h5, h6⟩ := mppe_catchup_flag_spec K 17
      { mppe_rekey K state false with
        ccount := ((mppe_rekey K state false).ccount + 256) % MPPE_CCOUNT_SPACE }
      ccount (rekeys + 1) hc
      (by show ((mppe_rekey K state false).ccount + 256) % MPPE_CCOUNT_SPACE < 4096
          unfold MPPE_CCOUNT_SPACE; omega)
      (by omega)
    have hfirst := h1
    rw [← if_pos (show (clear_low8 ccount != clear_low8 state.ccount) = true by simp [hne])
      (t := mppe_catchup_flag K 17
        { mppe_rekey K state false with
          ccount := ((mppe_rekey K state false).ccount + 256) % MPPE_CCOUNT_SPACE }
        ccount (rekeys + 1)) (e := some (state, rekeys)), ← mppe_catchup_flag] at hfirst
    exact ⟨s, _, hfirst, h4.trans f1, h5.trans f2, h6.trans f3, fun h => absurd h hs⟩

theorem MPPE_CCOUNT_lt (pkt : List Nat) : MPPE_CCOUNT pkt < 256 := by
  rw [MPPE_CCOUNT_low_byte]; omega

/-- C40: both catch-up loops of `mppe_decompress`, on the fuel the function
gives them, end for every tracked count and every target count in 0..4095:
the stateless loop with the tracked count at the target after at most 4095
rekeys (one for each step of the modular distance), the discard-exit loop
with the tracked count in the target's 256-block after at most 15 rekeys.
The count `MPPE_CCOUNT` hands to the loops is always in that range. -/
theorem catchup_loops_terminate (K : MppeCrypto) (state : PppMppeState) (p : Nat)
    (hc : state.ccount ≤ 4095) (hp : p ≤ 4095) :
    (∃ s n, mppe_catchup K (MPPE_CCOUNT_SPACE + 1) state p 0 = some (s, n)
      ∧ n = (p + 4096 - state.ccount) % 4096 ∧ n ≤ 4095 ∧ s.ccount = p)
    ∧ (∃ s n, mppe_catchup_flag K 18 state p 0 = some (s, n)
      ∧ n = (p / 256 + 16 - state.ccount / 256) % 16 ∧ n ≤ 15
      ∧ s.ccount / 256 = p / 256)
    ∧ ∀ pkt, MPPE_CCOUNT pkt ≤ 4095 := by
  refine ⟨?_, ?_, fun pkt => by have := MPPE_CCOUNT_lt pkt; omega⟩
  · obtain ⟨s, h1, h2, -⟩ := mppe_catchup_spec K (MPPE_CCOUNT_SPACE + 1) state p 0 (by omega)
      (by omega) (by unfold MPPE_CCOUNT_SPACE; omega)
    exact ⟨s, _, h1, by omega, by omega, h2⟩
  · obtain ⟨s, h1, h2, -⟩ := mppe_catchup_flag_spec K 18 state p 0 (by omega) (by omega)
      (by omega)
    rw [clear_low8_eq, clear_low8_eq] at h2
    exact ⟨s, _, h1, by omega, by omega, by omega⟩

theorem catchup_loops_terminate_witness :
    (∃ s n, mppe_catchup plain_crypto (MPPE_CCOUNT_SPACE + 1)
        { mppe_fresh_stateless with ccount := 7 } 3 0 = some (s, n)
      ∧ n = (3 + 4096 - 7) % 4096 ∧ n ≤ 4095 ∧ s.ccount = 3)
    ∧ (∃ s n, mppe_catchup_flag plain_crypto 18
        { mppe_fresh_stateless with ccount := 7 } 3 0 = some (s, n)
      ∧ n = (3 / 256 + 16 - 7 / 256) % 16 ∧ n ≤ 15 ∧ s.ccount / 256 = 3 / 256) :=
  ⟨(catchup_loops_terminate plain_crypto { mppe_fresh_stateless with ccount := 7 } 3
      (by decide) (by decide)).1,
   (catchup_loops_terminate plain_crypto { mppe_fresh_stateless with ccount := 7 } 3
      (by decide) (by decide)).2.1⟩

/-! ## Every way out of mppe_decompress -/

/-- The stateless branch ends either at `sanity_error` with one more error and
the state otherwise as it was, or it goes on to the cipher pass with the
tracked count at the decoded count. -/
theorem decompress_stateless_outcome (K : MppeCrypto) (ccount_unsigned : Bool)
    (state : PppMppeState) (d : Nat) (hd : d < 4096) :
    ∃ step, mppe_decompress_stateless K ccount_unsigned state d = some step
      ∧ (step = CountStep.sanity { state with sanity_errors := state.sanity_errors + 1 }
        ∨ ∃ s n, step = CountStep.go s n ∧ s.ccount = d
            ∧ s.sanity_errors = state.sanity_errors ∧ s.stateful = state.stateful
            ∧ s.discard = state.discard
            ∧ (state.ccount < 4096 → n = (d + 4096 - state.ccount) % 4096)) := by
  unfold mppe_decompress_stateless
  by_cases hl : ccount_late ccount_unsigned d state.ccount = true
  · rw [if_pos hl]
    exact ⟨_, rfl, Or.inl rfl⟩
  · rw [if_neg hl]
    obtain ⟨s, n, h1, h2, h3, h4, h5, h6⟩ := mppe_catchup_total K state d 0 hd
    rw [h1]
    exact ⟨_, rfl, Or.inr ⟨s, n, rfl, h2, h5, h3, h4, fun h => by rw [h6 h]; omega⟩⟩

/-- The stateful branch up to the final rekey ends either with a soft drop
(entering the discard state with one reset request and the count advanced, or
staying in it with nothing changed), or it goes on with the tracked count at
the decoded count. -/
theorem decompress_sync_outcome (K : MppeCrypto) (state : PppMppeState) (flushed d : Nat)
    (hd : d < 4096) :
    ∃ step, mppe_decompress_sync K state flushed d = some step
      ∧ ((state.discard = false ∧ d ≠ (state.ccount + 1) % MPPE_CCOUNT_SPACE
            ∧ step = CountStep.ret { state with
                ccount := (state.ccount + 1) % MPPE_CCOUNT_SPACE, discard := true } 1)
        ∨ (state.discard = true ∧ flushed = 0 ∧ step = CountStep.ret state 0)
        ∨ ∃ s n, step = CountStep.go s n ∧ s.ccount = d
            ∧ s.sanity_errors = state.sanity_errors ∧ s.stateful = state.stateful
            ∧ s.discard = false
            ∧ (state.discard = false → n = 0)
            ∧ (state.ccount < 4096 → state.discard = true →
                n = (d / 256 + 16 - state.ccount / 256) % 16)) := by
  unfold mppe_decompress_sync
  by_cases hdis : state.discard = true
  · rw [if_neg (by simp [hdis])]
    by_cases hf : flushed = 0
    · rw [if_pos (by simp [hf])]
      exact ⟨_, rfl, Or.inr (Or.inl ⟨hdis, hf, rfl⟩)⟩
    · rw [if_neg (by simp [hf])]
      obtain ⟨s, n, h1, h2, h3, h4, h5⟩ := mppe_catchup_flag_total K state d 0 hd
      rw [h1]
      refine ⟨_, rfl, Or.inr (Or.inr ⟨_, n, rfl, rfl, h4, h2, rfl, ?_, ?_⟩)⟩
      · intro h; rw [hdis] at h; cases h
      · intro h _; rw [h5 h]; omega
  · have hdis2 : state.discard = false := by simpa using hdis
    rw [if_pos (by simp [hdis2])]
    dsimp only
    by_cases he : d = (state.ccount + 1) % MPPE_CCOUNT_SPACE
    · rw [if_neg (by simp [he])]
      refine ⟨_, rfl, Or.inr (Or.inr ⟨_, 0, rfl, he.symm, rfl, rfl, hdis2, fun _ => rfl, ?_⟩)⟩
      intro _ h; rw [hdis2] at h; cases h
    · rw [if_pos (by simp [he])]
      exact ⟨_, rfl, Or.inl ⟨hdis2, he, rfl⟩⟩

theorem decompress_flushed_go (K : MppeCrypto) (flushed : Nat) (s : PppMppeState) (n : Nat) :
    ∃ s2 n2, mppe_decompress_flushed K flushed (CountStep.go s n) = CountStep.go s2 n2
      ∧ s2.ccount = s.ccount ∧ s2.sanity_errors = s.sanity_errors
      ∧ s2.stateful = s.stateful ∧ s2.discard = s.discard
      ∧ n2 = n + (if flushed != 0 then 1 else 0) := by
  unfold mppe_decompress_flushed
  obtain ⟨g1, g2, g3, g4, g5, g6, g7⟩ := mppe_rekey_frame K s false
  dsimp only
  by_cases hf : (flushed != 0) = true
  · rw [if_pos hf, if_pos hf]
    exact ⟨_, _, rfl, g3, g7, g5, g6, rfl⟩
  · rw [if_neg hf, if_neg hf]
    exact ⟨_, _, rfl, rfl, rfl, rfl, rfl, rfl⟩

/-- How the four sanity checks read the header: the packet fails one of them
exactly when the function takes one of the first four exits. -/
theorem decompress_sanity_exit (K : MppeCrypto) (ccount_unsigned : Bool) (closed : List String)
    (state : PppMppeState) (pkt : List Nat) (h : fails_sanity state.stateful pkt) :
    mppe_decompress K ccount_unsigned closed state pkt
      = some (mppe_sanity_error closed
          { state with sanity_errors := state.sanity_errors + 100 } pkt) := by
  unfold mppe_decompress
  by_cases h1 : pkt.length < MPPE_OVHD
  · rw [if_pos h1]
  · rw [if_neg h1]
    dsimp only
    have h2 : ¬ pkt.length < 2 := h1
    rcases pkt with _ | ⟨x, _ | ⟨y, t⟩⟩
    · simp at h2
    · simp at h2
    · rw [bits_encrypted, bits_flushed, ccount_flag_packet]
      unfold fails_sanity at h
      simp only [List.getD_cons_zero, List.getD_cons_succ] at h ⊢
      by_cases c1 : flag_set x MPPE_BIT_ENCRYPTED = false
      · rw [if_pos (by simp [c1])]
      · rw [if_neg (by simp [c1])]
        by_cases c2 : (!state.stateful && !flag_set x MPPE_BIT_FLUSHED) = true
        · rw [if_pos c2]
        · rw [if_neg c2]
          by_cases c3 : (state.stateful && decide (y % 256 = 0xff)
              && !flag_set x MPPE_BIT_FLUSHED) = true
          · rw [if_pos c3]
          · exfalso
            rcases h with h | h | h | h
            · simp at h; omega
            · exact c1 h
            · exact c2 (by simp [h.1, h.2])
            · exact c3 (by simp [h.1, h.2.1, h.2.2])

/-- A packet that fails none of the four sanity checks reaches the coherency
check with the decoded count and the FLUSHED bit of its header. -/
theorem decompress_past_sanity (K : MppeCrypto) (ccount_unsigned : Bool) (closed : List String)
    (state : PppMppeState) (pkt : List Nat) (h : ¬ fails_sanity state.stateful pkt) :
    mppe_decompress K ccount_unsigned closed state pkt
      = (mppe_decompress_count K ccount_unsigned state (MPPE_BITS pkt &&& MPPE_BIT_FLUSHED)
          (MPPE_CCOUNT pkt)).map (mppe_decompress_end K closed pkt) := by
  unfold mppe_decompress
  unfold fails_sanity at h
  push_neg at h
  obtain ⟨h1, h2, h3, h4⟩ := h
  rw [if_neg (by unfold MPPE_OVHD; omega)]
  dsimp only
  rcases pkt with _ | ⟨x, _ | ⟨y, t⟩⟩
  · simp at h1
  · simp at h1
  · rw [bits_encrypted, bits_flushed, ccount_flag_packet]
    simp only [List.getD_cons_zero, List.getD_cons_succ] at h2 h3 h4 ⊢
    have e : flag_set x MPPE_BIT_ENCRYPTED = true := by simpa using h2
    rw [if_neg (by simp [e])]
    have c2 : ¬ (!state.stateful && !flag_set x MPPE_BIT_FLUSHED) = true := by
      intro c
      simp only [Bool.and_eq_true, Bool.not_eq_true'] at c
      exact h3 c.1 c.2
    rw [if_neg c2]
    have c3 : ¬ (state.stateful && decide (y % 256 = 0xff)
        && !flag_set x MPPE_BIT_FLUSHED) = true := by
      intro c
      simp only [Bool.and_eq_true, Bool.not_eq_true', decide_eq_true_eq] at c
      exact h4 c.1.1 c.1.2 c.2
    rw [if_neg c3]

theorem sanity_error_fields (closed : List String) (s : PppMppeState) (pkt : List Nat) :
    (mppe_sanity_error closed s pkt).status = ERR_BUF
    ∧ (mppe_sanity_error closed s pkt).state = s
    ∧ (mppe_sanity_error closed s pkt).rekeys = 0
    ∧ (mppe_sanity_error closed s pkt).reset_requests = 0
    ∧ (mppe_sanity_error closed s pkt).pkt = pkt
    ∧ (mppe_sanity_error closed s pkt).closed = (if s.sanity_errors ≥ SANITY_MAX
        then closed ++ ["Too many MPPE errors"] else closed) := by
  unfold mppe_sanity_error
  split_ifs <;> exact ⟨rfl, rfl, rfl, rfl, rfl, rfl⟩

/-- Every call of `mppe_decompress` returns, in one of four ways: through the
label `sanity_error` with `sanity_errors` raised by 100 or by 1; with a soft
drop that enters the discard state; with a soft drop inside the discard state;
or through the cipher pass with the tracked count at the decoded count. -/
theorem decompress_outcome (K : MppeCrypto) (ccount_unsigned : Bool) (closed : List String)
    (state : PppMppeState) (pkt : List Nat) :
    ∃ r, mppe_decompress K ccount_unsigned closed state pkt = some r
      ∧ ((∃ k, (k = 100 ∨ k = 1)
            ∧ r = mppe_sanity_error closed
                { state with sanity_errors := state.sanity_errors + k } pkt)
        ∨ (state.stateful = true ∧ state.discard = false
            ∧ MPPE_CCOUNT pkt ≠ (state.ccount + 1) % MPPE_CCOUNT_SPACE
            ∧ r = ⟨ERR_BUF, { state with
                ccount := (state.ccount + 1) % MPPE_CCOUNT_SPACE, discard := true },
                closed, pkt, 0, 1⟩)
        ∨ (state.stateful = true ∧ state.discard = true
            ∧ r = ⟨ERR_BUF, state, closed, pkt, 0, 0⟩)
        ∨ ∃ s n, r = mppe_decompress_finish K closed s pkt n
            ∧ s.ccount = MPPE_CCOUNT pkt
            ∧ s.sanity_errors = state.sanity_errors
            ∧ s.stateful = state.stateful) := by
  by_cases hs : fails_sanity state.stateful pkt
  · exact ⟨_, decompress_sanity_exit K ccount_unsigned closed state pkt hs,
      Or.inl ⟨100, Or.inl rfl, rfl⟩⟩
  · rw [decompress_past_sanity K ccount_unsigned closed state pkt hs]
    have hd : MPPE_CCOUNT pkt < 4096 := by have := MPPE_CCOUNT_lt pkt; omega
    unfold mppe_decompress_count
    by_cases hst : state.stateful = true
    · rw [if_neg (by simp [hst])]
      obtain ⟨step, h1, h2⟩ := decompress_sync_outcome K state
        (MPPE_BITS pkt &&& MPPE_BIT_FLUSHED) (MPPE_CCOUNT pkt) hd
      rw [h1]
      rcases h2 with ⟨a1, a2, a3⟩ | ⟨a1, a2, a3⟩ | ⟨s, n, a1, a2, a3, a4, a5, -⟩
      · subst a3
        exact ⟨_, rfl, Or.inr (Or.inl ⟨hst, a1, a2, rfl⟩)⟩
      · subst a3
        exact ⟨_, rfl, Or.inr (Or.inr (Or.inl ⟨hst, a1, rfl⟩))⟩
      · subst a1
        obtain ⟨s2, n2, b1, b2, b3, b4, -, -⟩ := decompress_flushed_go K
          (MPPE_BITS pkt &&& MPPE_BIT_FLUSHED) s n
        refine ⟨_, rfl, Or.inr (Or.inr (Or.inr ⟨s2, n2, ?_, b2.trans a2, b3.trans a3,
          b4.trans a4⟩))⟩
        show mppe_decompress_end K closed pkt (mppe_decompress_flushed K
          (MPPE_BITS pkt &&& MPPE_BIT_FLUSHED) (CountStep.go s n)) = _
        rw [b1]
        rfl
    · have hst2 : state.stateful = false := by simpa using hst
      rw [if_pos (by simp [hst2])]
      obtain ⟨step, h1, h2⟩ := decompress_stateless_outcome K ccount_unsigned state
        (MPPE_CCOUNT pkt) hd
      rw [h1]
      rcases h2 with a | ⟨s, n, a1, a2, a3, a4, -, -⟩
      · subst a
        exact ⟨_, rfl, Or.inl ⟨1, Or.inr rfl, rfl⟩⟩
      · subst a1
        exact ⟨_, rfl, Or.inr (Or.inr (Or.inr ⟨s, n, rfl, a2, a3, a4⟩))⟩

/-- C37: every call of `mppe_decompress` returns, and one that returns anything
but `STATUS_SUCCESS` (a sanity error, the stale-count drop, entering the
discard state, a drop inside it) has made no rekey and has not run the cipher:
`session_key`, the cipher context, `master_key` and the packet are as they
were before the call. -/
theorem decompress_failure_keeps_keys (K : MppeCrypto) (ccount_unsigned : Bool)
    (closed : List String) (state : PppMppeState) (pkt : List Nat) :
    ∃ r, mppe_decompress K ccount_unsigned closed state pkt = some r
      ∧ (r.status ≠ STATUS_SUCCESS →
          r.status = ERR_BUF
          ∧ r.rekeys = 0
          ∧ r.state.session_key = state.session_key
          ∧ r.state.arc4 = state.arc4
          ∧ r.state.master_key = state.master_key
          ∧ r.state.keylen = state.keylen
          ∧ r.pkt = pkt) := by
  obtain ⟨r, h1, h2⟩ := decompress_outcome K ccount_unsigned closed state pkt
  refine ⟨r, h1, fun hne => ?_⟩
  rcases h2 with ⟨k, -, a⟩ | ⟨-, -, -, a⟩ | ⟨-, -, a⟩ | ⟨s, n, a, -⟩
  · obtain ⟨b1, b2, b3, -, b5, -⟩ := sanity_error_fields closed
      { state with sanity_errors := state.sanity_errors + k } pkt
    rw [a]
    exact ⟨b1, b3, by rw [b2], by rw [b2], by rw [b2], by rw [b2], b5⟩
  · rw [a]
    exact ⟨rfl, rfl, rfl, rfl, rfl, rfl, rfl⟩
  · rw [a]
    exact ⟨rfl, rfl, rfl, rfl, rfl, rfl, rfl⟩
  · exfalso
    apply hne
    rw [a]
    rfl

theorem compress_count_ccount (state : PppMppeState) (np : List Nat)
    (a : PppMppeState × List Nat) (h : mppe_compress_count state np = some a) :
    a.1.ccount = (state.ccount + 1) % MPPE_CCOUNT_SPACE := by
  unfold mppe_compress_count at h
  simp only [Option.bind_eq_some, Option.map_eq_some'] at h
  obtain ⟨_, _, _, _, h⟩ := h
  rw [← h]

theorem compress_flags_ccount (K : MppeCrypto) (state : PppMppeState) (np : List Nat)
    (b : PppMppeState × List Nat × Nat) (h : mppe_compress_flags K state np = some b) :
    b.1.ccount = state.ccount := by
  unfold mppe_compress_flags at h
  simp only [Option.bind_eq_some, Option.map_eq_some'] at h
  obtain ⟨_, _, _, _, h⟩ := h
  rw [← h]
  dsimp only
  split_ifs
  · exact (mppe_rekey_frame K state false).2.2.1
  · rfl

/-- C33: the tracked count stays in 0..4095.  `mppe_init` sets it to 4095; a
call of `mppe_compress` that returns leaves it below 4096; every call of
`mppe_decompress` returns and leaves it in range when it was in range;
`mppe_rekey`, `mppe_comp_reset` and `mppe_decomp_reset` do not touch it. -/
theorem ccount_in_range :
    (∀ (K : MppeCrypto) (closed : List String) (st : PppMppeState) (options : MppeOptions),
      (mppe_init K closed st options).1 = true →
      (mppe_init K closed st options).2.2.ccount ≤ 4095)
    ∧ (∀ (K : MppeCrypto) (np_null : Bool) (copy_pkt_buf : List Nat → LwipStatus × List Nat)
        (state : PppMppeState) (pb : List Nat) (protocol : Nat) (r : MppeCompressed),
      state.ccount ≤ 4095 →
      mppe_compress K np_null copy_pkt_buf state pb protocol = some r →
      r.state.ccount ≤ 4095)
    ∧ (∀ (K : MppeCrypto) (ccount_unsigned : Bool) (closed : List String)
        (state : PppMppeState) (pkt : List Nat),
      state.ccount ≤ 4095 →
      ∃ r, mppe_decompress K ccount_unsigned closed state pkt = some r
        ∧ r.state.ccount ≤ 4095)
    ∧ (∀ (K : MppeCrypto) (state : PppMppeState) (initial_key : Bool),
      state.ccount ≤ 4095 → (mppe_rekey K state initial_key).ccount ≤ 4095)
    ∧ (∀ state : PppMppeState,
      state.ccount ≤ 4095 → (mppe_comp_reset state).ccount ≤ 4095)
    ∧ (∀ state : PppMppeState,
      state.ccount ≤ 4095 → (mppe_decomp_reset state).ccount ≤ 4095) := by
  refine ⟨?_, ?_, ?_, ?_, fun state h => h, fun state h => h⟩
  · intro K closed st options hok
    rw [(mppe_init_fresh K closed st options hok).1]
  · intro K np_null copy_pkt_buf state pb protocol r hc hr
    unfold mppe_compress at hr
    by_cases hn : np_null = true
    · rw [if_pos hn] at hr
      simp only [Option.some.injEq] at hr
      rw [← hr]; exact hc
    · rw [if_neg hn] at hr
      by_cases hcp : (copy_pkt_buf pb).1 ≠ STATUS_SUCCESS
      · rw [if_pos hcp] at hr
        simp only [Option.some.injEq] at hr
        rw [← hr]; exact hc
      · rw [if_neg hcp] at hr
        simp only [Option.bind_eq_some, Option.map_eq_some'] at hr
        obtain ⟨a, ha, b, hb, np, -, hr⟩ := hr
        rw [← hr]
        show b.1.ccount ≤ 4095
        rw [compress_flags_ccount K a.1 a.2 b hb, compress_count_ccount state _ a ha]
        unfold MPPE_CCOUNT_SPACE; omega
  · intro K ccount_unsigned closed state pkt hc
    obtain ⟨r, h1, h2⟩ := decompress_outcome K ccount_unsigned closed state pkt
    refine ⟨r, h1, ?_⟩
    rcases h2 with ⟨k, -, a⟩ | ⟨-, -, -, a⟩ | ⟨-, -, a⟩ | ⟨s, n, a, b, -⟩
    · rw [a, (sanity_error_fields closed _ pkt).2.1]
      exact hc
    · rw [a]
      show (state.ccount + 1) % MPPE_CCOUNT_SPACE ≤ 4095
      unfold MPPE_CCOUNT_SPACE; omega
    · rw [a]; exact hc
    · rw [a]
      show s.ccount ≤ 4095
      rw [b]
      have := MPPE_CCOUNT_lt pkt
      omega
  · intro K state initial_key hc
    rw [(mppe_rekey_frame K state initial_key).2.2.1]
    exact hc

/-! ## The error ceiling -/

theorem sanity_run (K : MppeCrypto) (ccount_unsigned : Bool) :
    ∀ (pkts : List (List Nat)) (k : Nat) (closed : List String) (state : PppMppeState),
      (∀ p ∈ pkts, fails_sanity state.stateful p) →
      state.sanity_errors = 100 * k → k + pkts.length ≤ 16 →
      ∃ rs, decompress_feed K ccount_unsigned closed state pkts = some rs
        ∧ rs.length = pkts.length
        ∧ ∀ j r, rs[j]? = some r →
            r.status = ERR_BUF
            ∧ r.state.sanity_errors = 100 * (k + j + 1)
            ∧ r.closed = (if k + j + 1 = 16 then closed ++ ["Too many MPPE errors"]
                else closed) := by
  intro pkts
  induction pkts with
  | nil =>
    intro k closed state _ _ _
    exact ⟨[], rfl, rfl, fun j r h => by simp at h⟩
  | cons p rest ih =>
    intro k closed state hf he hk
    have h0 := decompress_sanity_exit K ccount_unsigned closed state p
      (hf p (List.mem_cons_self _ _))
    obtain ⟨b1, b2, -, -, -, b6⟩ := sanity_error_fields closed
      { state with sanity_errors := state.sanity_errors + 100 } p
    simp only [List.length_cons] at hk
    have hcl : (mppe_sanity_error closed
        { state with sanity_errors := state.sanity_errors + 100 } p).closed
        = (if k + 0 + 1 = 16 then closed ++ ["Too many MPPE errors"] else closed) := by
      rw [b6]
      show (if state.sanity_errors + 100 ≥ SANITY_MAX then _ else _) = _
      rw [he]
      unfold SANITY_MAX
      by_cases h16 : k + 0 + 1 = 16
      · rw [if_pos h16, if_pos (by omega)]
      · rw [if_neg h16, if_neg (by omega)]
    obtain ⟨rs, c1, c2, c3⟩ := ih (k + 1)
      (mppe_sanity_error closed { state with sanity_errors := state.sanity_errors + 100 } p).closed
      (mppe_sanity_error closed { state with sanity_errors := state.sanity_errors + 100 } p).state
      (by rw [b2]; exact fun q hq => hf q (List.mem_cons_of_mem _ hq))
      (by rw [b2]; show state.sanity_errors + 100 = _; rw [he]; omega)
      (by omega)
    refine ⟨mppe_sanity_error closed
      { state with sanity_errors := state.sanity_errors + 100 } p :: rs, ?_, by simp [c2], ?_⟩
    · rw [decompress_feed, h0]
      simp only [Option.some_bind]
      rw [c1]
      rfl
    · intro j r hj
      cases j with
      | zero =>
        simp only [List.getElem?_cons_zero, Option.some.injEq] at hj
        subst hj
        refine ⟨b1, ?_, hcl⟩
        rw [b2]
        show state.sanity_errors + 100 = _
        rw [he]; omega
      | succ i =>
        simp only [List.getElem?_cons_succ] at hj
        obtain ⟨d1, d2, d3⟩ := c3 i r hj
        have hi : i < rest.length := by
          have := List.getElem?_eq_some_iff.1 hj
          obtain ⟨hlt, -⟩ := this
          omega
        refine ⟨d1, by rw [d2]; congr 1; omega, ?_⟩
        have hk0 : ¬ (k + 0 + 1 = 16) := by omega
        rw [d3, hcl]
        simp only [hk0, if_false]
        by_cases h16 : k + 1 + i + 1 = 16
        · rw [if_pos h16, if_pos (by omega)]
        · rw [if_neg h16, if_neg (by omega)]

/-- C32: every call of `mppe_decompress` returns, and it closes the link (with
the reason "Too many MPPE errors") exactly when it fails with `sanity_errors`
raised and the raised value is at least `SANITY_MAX` = 1600; a call that
succeeds, and a soft drop of the stateful branch (which leaves the counter
alone), do not close the link.  In particular, of sixteen calls in a row
that each fail one of the sanity checks that cost 100, starting from
`sanity_errors` = 0, the first fifteen leave the log as it is and the
sixteenth closes the link. -/
theorem sanity_ceiling (K : MppeCrypto) (ccount_unsigned : Bool) (closed : List String)
    (state : PppMppeState) :
    (∀ pkt, ∃ r, mppe_decompress K ccount_unsigned closed state pkt = some r
      ∧ r.closed = (if r.status ≠ STATUS_SUCCESS ∧ state.sanity_errors < r.state.sanity_errors
            ∧ SANITY_MAX ≤ r.state.sanity_errors
          then closed ++ ["Too many MPPE errors"] else closed))
    ∧ (∀ pkts : List (List Nat),
        pkts.length = 16 → (∀ p ∈ pkts, fails_sanity state.stateful p) →
        state.sanity_errors = 0 →
        ∃ rs, decompress_feed K ccount_unsigned closed state pkts = some rs
          ∧ rs.length = 16
          ∧ ∀ j r, rs[j]? = some r →
              r.status = ERR_BUF
              ∧ r.state.sanity_errors = 100 * (j + 1)
              ∧ r.closed = (if j = 15 then closed ++ ["Too many MPPE errors"] else closed)) := by
  constructor
  · intro pkt
    obtain ⟨r, h1, h2⟩ := decompress_outcome K ccount_unsigned closed state pkt
    refine ⟨r, h1, ?_⟩
    rcases h2 with ⟨k, hk, a⟩ | ⟨-, -, -, a⟩ | ⟨-, -, a⟩ | ⟨s, n, a, -⟩
    · obtain ⟨b1, b2, -, -, -, b6⟩ := sanity_error_fields closed
        { state with sanity_errors := state.sanity_errors + k } pkt
      rw [a, b6, b1, b2]
      have hlt : state.sanity_errors < state.sanity_errors + k := by
        rcases hk with hk | hk <;> omega
      by_cases hm : state.sanity_errors + k ≥ SANITY_MAX
      · rw [if_pos hm, if_pos ⟨by decide, hlt, hm⟩]
      · rw [if_neg hm, if_neg (fun h => hm h.2.2)]
    · rw [a]
      rw [if_neg (fun h => by have := h.2.1; simp at this)]
    · rw [a]
      rw [if_neg (fun h => by have := h.2.1; simp at this)]
    · rw [a]
      rw [if_neg (fun h => h.1 rfl)]
      rfl
  · intro pkts hl hf he
    obtain ⟨rs, c1, c2, c3⟩ := sanity_run K ccount_unsigned pkts 0 closed state hf
      (by rw [he]) (by omega)
    refine ⟨rs, c1, by rw [c2, hl], fun j r hj => ?_⟩
    obtain ⟨d1, d2, d3⟩ := c3 j r hj
    refine ⟨d1, by rw [d2]; congr 1; omega, ?_⟩
    rw [d3]
    by_cases h15 : j = 15
    · rw [if_pos h15, if_pos (by omega)]
    · rw [if_neg h15, if_neg (by omega)]

/-! ## The stateful branch -/

/-- A stateful state outside the discard state, on a packet that passes the
sanity checks and whose decoded count is not the tracked count plus one:
the packet is dropped with `ERR_BUF`, the discard state is entered, one reset
request is made, the tracked count has been advanced by one, and nothing else
is touched: no rekey, no cipher pass, no sanity error. -/
theorem stateful_enter_discard (K : MppeCrypto) (ccount_unsigned : Bool) (closed : List String)
    (state : PppMppeState) (pkt : List Nat)
    (hs : state.stateful = true) (hd : state.discard = false)
    (hp : ¬ fails_sanity state.stateful pkt)
    (hc : MPPE_CCOUNT pkt ≠ (state.ccount + 1) % MPPE_CCOUNT_SPACE) :
    mppe_decompress K ccount_unsigned closed state pkt
      = some ⟨ERR_BUF, { state with
          ccount := (state.ccount + 1) % MPPE_CCOUNT_SPACE, discard := true },
          closed, pkt, 0, 1⟩ := by
  rw [decompress_past_sanity K ccount_unsigned closed state pkt hp]
  unfold mppe_decompress_count
  rw [if_neg (by simp [hs])]
  unfold mppe_decompress_sync
  rw [if_pos (by simp [hd])]
  dsimp only
  rw [if_pos (by simp [hc])]
  rfl

/-- A stateful state inside the discard state, on a packet that passes the
sanity checks and has FLUSHED: the call returns `STATUS_SUCCESS`, the discard
state is left, the tracked count is the decoded count, and the packet has
gone through the cipher. -/
theorem stateful_leave_discard (K : MppeCrypto) (ccount_unsigned : Bool) (closed : List String)
    (state : PppMppeState) (pkt : List Nat)
    (hs : state.stateful = true) (hd : state.discard = true)
    (hp : ¬ fails_sanity state.stateful pkt)
    (hf : flag_set (pkt.getD 0 0) MPPE_BIT_FLUSHED = true) :
    ∃ r, mppe_decompress K ccount_unsigned closed state pkt = some r
      ∧ r.status = STATUS_SUCCESS
      ∧ r.state.discard = false
      ∧ r.state.ccount = MPPE_CCOUNT pkt
      ∧ r.reset_requests = 0
      ∧ r.closed = closed
      ∧ ∃ ctx, r.pkt = (K.arc4_crypt ctx pkt).2 := by
  have hfl : (MPPE_BITS pkt &&& MPPE_BIT_FLUSHED == 0) = false := by
    rcases pkt with _ | ⟨x, t⟩
    · simp [flag_set] at hf
    · rw [bits_flushed]
      simp only [List.getD_cons_zero] at hf
      simp [hf]
  have hfl2 : MPPE_BITS pkt &&& MPPE_BIT_FLUSHED ≠ 0 := by simpa using hfl
  have hdec : MPPE_CCOUNT pkt < 4096 := by have := MPPE_CCOUNT_lt pkt; omega
  rw [decompress_past_sanity K ccount_unsigned closed state pkt hp]
  unfold mppe_decompress_count
  rw [if_neg (by simp [hs])]
  obtain ⟨step, h1, h2⟩ := decompress_sync_outcome K state (MPPE_BITS pkt &&& MPPE_BIT_FLUSHED)
    (MPPE_CCOUNT pkt) hdec
  rw [h1]
  rcases h2 with ⟨a1, -, -⟩ | ⟨-, a2, -⟩ | ⟨s, n, a1, a2, a3, a4, a5, -, -⟩
  · rw [hd] at a1; cases a1
  · exact absurd a2 hfl2
  · subst a1
    obtain ⟨s2, n2, b1, b2, b3, b4, b5, -⟩ := decompress_flushed_go K
      (MPPE_BITS pkt &&& MPPE_BIT_FLUSHED) s n
    refine ⟨mppe_decompress_finish K closed s2 pkt n2, ?_, rfl, b5.trans a5, b2.trans a2,
      rfl, rfl, s2.arc4, rfl⟩
    show some (mppe_decompress_end K closed pkt (mppe_decompress_flushed K
      (MPPE_BITS pkt &&& MPPE_BIT_FLUSHED) (CountStep.go s n))) = _
    rw [b1]
    rfl

/-- C31, where the code departs from it.  Stateful, outside the discard state,
tracked count 4: the packet with count 261 (header `0x11 0x05`, ENCRYPTED
set) is decoded as count 5, so it is accepted: `STATUS_SUCCESS`, no reset
request, discard still clear.  Inside the discard state, the FLUSHED packet
with count 300 (header `0x91 0x2c`) leaves the tracked count at 44. -/
theorem stateful_gap_accepted :
    (mppe_decompress plain_crypto false [] { mppe_example_state with ccount := 4 }
        [0x11, 0x05, 0xa1, 0xa2]).map
        (fun r => (r.status, r.state.discard, r.reset_requests, r.state.ccount))
      = some (STATUS_SUCCESS, false, 0, 5)
    ∧ header_count [0x11, 0x05] = 261
    ∧ (mppe_decompress plain_crypto false []
        { mppe_example_state with ccount := 7, discard := true }
        [0x91, 0x2c, 0xa1, 0xa2]).map
        (fun r => (r.status, r.state.discard, r.state.ccount))
      = some (STATUS_SUCCESS, false, 44)
    ∧ header_count [0x91, 0x2c] = 300 := by
  decide

/-- C35, where the code departs from it: tracked count 5, accepted packet with
count 266 (ENCRYPTED and FLUSHED set).  `MPPE_CCOUNT` decodes the count as 10:
5 rekeys are made, not (266 - 5) mod 4096 = 261, and the tracked count is 10
afterwards, not 266, whichever arithmetic the late-packet test uses. -/
theorem catchup_counts_low_byte :
    (266 + 4096 - 5) % 4096 = 261
    ∧ ∀ u, ∃ r, mppe_decompress plain_crypto u [] { mppe_fresh_stateless with ccount := 5 }
        (mppe_packet 266 [0xa1, 0xa2]) = some r
      ∧ r.status = STATUS_SUCCESS
      ∧ r.rekeys = 5
      ∧ r.state.ccount = 10 := by
  refine ⟨by decide, fun u => ?_⟩
  obtain ⟨r, h1, h2, h3, h4, -, -, -, -⟩ := decompress_stateless_accept plain_crypto u []
    { mppe_fresh_stateless with ccount := 5 }
    ((266 >>> 8) ||| (MPPE_BIT_FLUSHED ||| MPPE_BIT_ENCRYPTED)) (266 &&& 0xff) [0xa1, 0xa2]
    (by decide) (by decide) (by decide) (by decide) (by cases u <;> decide)
  exact ⟨r, h1, h2, h4, h3⟩

/-! ## method after ccp_addci, and the reads of ccp_proc_config_ack -/

/-- C34, where the code departs from it: `got` = Deflate-RFC, window 15.  On
a zeroed buffer of five bytes `ccp_addci` writes the record `26 4 120 0` and
sets `method` to 0, although a record was written: the test at ccp.cpp 692
compares the bytes `pkt[ptr]` and `pkt[0]` (0 and 26), not the offsets.  With
200 in the byte after the record `method` is 26; on a buffer of exactly four
bytes the byte `pkt[4]` read by the test lies past the end. -/
theorem addci_method_from_bytes :
    (ccp_addci pppd_header plain_crypto (fun _ => none)
        { ccp_gotoptions := { deflate := true, deflate_correct := true, deflate_size := 15 } }
        [0, 0, 0, 0, 0]).map (fun r => (r.ok, r.pkt, r.len, r.pcb.ccp_gotoptions.method))
      = some (true, [26, 4, 120, 0, 0], 4, 0)
    ∧ (ccp_addci pppd_header plain_crypto (fun _ => none)
        { ccp_gotoptions := { deflate := true, deflate_correct := true, deflate_size := 15 } }
        [0, 0, 0, 0, 200]).map (fun r => (r.ok, r.pkt, r.len, r.pcb.ccp_gotoptions.method))
      = some (true, [26, 4, 120, 0, 200], 4, 26)
    ∧ ccp_addci pppd_header plain_crypto (fun _ => none)
        { ccp_gotoptions := { deflate := true, deflate_correct := true, deflate_size := 15 } }
        [0, 0, 0, 0] = none := by
  decide

/-- What `ccp_addci` stores in `method` when it returns true: with `a` the
byte at the final offset and `b` the byte at offset 0 of the buffer it leaves,
`b` when `a > b` and 0 otherwise. -/
theorem addci_method_rule (oob : Nat → Option Nat) (pcb : PppPcb) (pkt : List Nat) (ptr : Nat)
    (r : AddciResult) (h : addci_method oob pcb pkt ptr = some r) :
    ∃ a b, rd oob pkt ptr = some a ∧ rd oob pkt 0 = some b
      ∧ r.pcb.ccp_gotoptions.method = (if a > b then b else 0) := by
  unfold addci_method at h
  cases ha : rd oob pkt ptr with
  | none => simp [ha] at h
  | some a =>
    cases hb : rd oob pkt 0 with
    | none => simp [ha, hb] at h
    | some b =>
      simp only [ha, hb, Option.bind] at h
      cases h
      exact ⟨a, b, rfl, rfl, rfl⟩

/-- C38, where the code departs from it.  `got` = BSD-Compress, packet
`17 3 47` (the well-formed ack, three bytes): with reads past the end
trapped the handler has no result, because the test at ccp.cpp 747 reads
`pkt[3]`; when that one read is let through, the handler returns true.
`got` = both Deflate variants, packet `26 4 120 0 21` (five bytes): the
size test of the second record (ccp.cpp 732, `ptr + pkt.size()`) lets the
reads of `pkt[5]`, `pkt[6]`, `pkt[7]` through. -/
theorem ack_reads_past_end :
    ccp_proc_config_ack pppd_header (fun _ => none)
        { bsd_compress := true, bsd_bits := 15 } [17, 3, 47] = none
    ∧ ccp_proc_config_ack pppd_header (fun i => if i = 3 then some 0 else none)
        { bsd_compress := true, bsd_bits := 15 } [17, 3, 47] = some true
    ∧ ccp_proc_config_ack pppd_header (fun _ => none)
        { deflate := true, deflate_correct := true, deflate_draft := true, deflate_size := 15 }
        [26, 4, 120, 0, 21] = none
    ∧ ccp_proc_config_ack pppd_header
        (fun i => if i = 5 then some 4 else if i = 6 then some 120 else none)
        { deflate := true, deflate_correct := true, deflate_draft := true, deflate_size := 15 }
        [26, 4, 120, 0, 21] = none
    ∧ ccp_proc_config_ack pppd_header
        (fun i => if i = 5 then some 4 else if i = 6 then some 120
          else if i = 7 then some 0 else none)
        { deflate := true, deflate_correct := true, deflate_draft := true, deflate_size := 15 }
        [26, 4, 120, 0, 21] = some false := by
  decide

/-! ## The reset handshake as a whole -/

theorem flag_clear_mono (x m a : Nat) (h : flag_set (flag_clear x m) a = true) :
    flag_set x a = true := by
  rw [flag_set_iff] at h ⊢
  obtain ⟨i, h1, h2⟩ := h
  rw [flag_clear_testBit] at h1
  simp only [Bool.and_eq_true] at h1
  exact ⟨i, h1.1.1, h2⟩

/-- Setting the flag `p` on a flag byte that has neither `p` nor, `p` being
clear, any other obligation: every flag `r` set afterwards that was not set
before shares a bit with `p`, so `p` is set too. -/
theorem flag_or_new (x p r : Nat) (hr : flag_set x r = false)
    (h : flag_set (flag_or x p) r = true) : flag_set (flag_or x p) p = true := by
  rw [flag_set_iff] at h ⊢
  obtain ⟨i, h1, h2⟩ := h
  rw [flag_or_testBit] at h1
  simp only [Bool.and_eq_true, Bool.or_eq_true, decide_eq_true_eq] at h1
  rcases h1 with ⟨h8, hx | hp⟩
  · exfalso
    have : flag_set x r = true := (flag_set_iff x r).2 ⟨i, hx, h2⟩
    rw [hr] at this
    cases this
  · exact ⟨i, by rw [flag_or_testBit]; simp [h8, hp], hp⟩

theorem reset_decomp_localstate (pcb : PppPcb) :
    (ccp_reset_decomp pcb).2.ccp_localstate = pcb.ccp_localstate := by
  unfold ccp_reset_decomp
  split_ifs <;> rfl

/-- One step of the reset handshake keeps the flag byte a byte and keeps
"`REPEAT_RESET_REQ` only with `RESET_ACK_PENDING`", unless the step is
`ccp_rack_timeout` on an FSM that is not OPENED. -/
theorem reset_event_inv (H : CcpHeader) (send_ok : Int → Int → List Nat → Bool) (pcb : PppPcb)
    (e : ResetEvent) (hb : pcb.ccp_localstate < 256) (hi : reset_inv H pcb.ccp_localstate)
    (ht : ∀ f, e = ResetEvent.timeout f → f.state = PPP_FSM_OPENED) :
    (reset_event H send_ok pcb e).ccp_localstate < 256
    ∧ reset_inv H (reset_event H send_ok pcb e).ccp_localstate := by
  cases e with
  | request f =>
    show (ccp_reset_request H send_ok pcb.ccp_localstate f pcb).2.1 < 256
      ∧ reset_inv H (ccp_reset_request H send_ok pcb.ccp_localstate f pcb).2.1
    unfold ccp_reset_request
    by_cases hf : f.state ≠ PPP_FSM_OPENED
    · rw [if_pos hf]; exact ⟨hb, hi⟩
    · rw [if_neg hf]
      by_cases hp : flag_set pcb.ccp_localstate H.RESET_ACK_PENDING = true
      · rw [if_neg (by simp [hp])]
        exact ⟨flag_or_lt _ _, fun _ => flag_or_keeps _ _ _ hb hp⟩
      · rw [if_pos (by simpa using hp)]
        dsimp only
        by_cases hsend : send_ok H.CCP_RESETREQ ((f.id + 1) % 256) [] = true
        · rw [if_neg (by simp [hsend])]
          refine ⟨flag_or_lt _ _, fun h => ?_⟩
          have hr : flag_set pcb.ccp_localstate H.REPEAT_RESET_REQ = false := by
            by_contra hr
            exact hp (hi (by simpa using hr))
          exact flag_or_new _ _ _ hr h
        · rw [if_pos (by simpa using hsend)]
          exact ⟨hb, hi⟩
  | timeout f =>
    have hf := ht f rfl
    show (ccp_rack_timeout H f pcb).ccp_localstate < 256
      ∧ reset_inv H (ccp_rack_timeout H f pcb).ccp_localstate
    unfold ccp_rack_timeout
    by_cases hr : flag_set pcb.ccp_localstate H.REPEAT_RESET_REQ = true
    · rw [if_pos (by simp [hf, hr])]
      refine ⟨flag_clear_lt _ _, fun h => ?_⟩
      have : flag_set (flag_clear (fsm_send_data2 pcb H.CCP_RESETREQ f.reqid []).ccp_localstate
          H.REPEAT_RESET_REQ) H.REPEAT_RESET_REQ = false := flag_clear_self _ _
      rw [this] at h
      cases h
    · rw [if_neg (by simp [hr])]
      refine ⟨flag_clear_lt _ _, fun h => ?_⟩
      exact absurd (flag_clear_mono _ _ _ h) hr
  | extcode f code id data =>
    show (ccp_extcode H pcb f code id data).2.ccp_localstate < 256
      ∧ reset_inv H (ccp_extcode H pcb f code id data).2.ccp_localstate
    unfold ccp_extcode
    by_cases h1 : code = H.CCP_RESETREQ
    · rw [if_pos h1]
      by_cases h2 : f.state ≠ PPP_FSM_OPENED
      · rw [if_pos h2]; exact ⟨hb, hi⟩
      · rw [if_neg h2]
        have e : (fsm_send_data2 (ccp_reset_comp pcb).2 H.CCP_RESETACK id data).ccp_localstate
            = pcb.ccp_localstate := by
          unfold fsm_send_data2 ccp_reset_comp
          split_ifs <;> rfl
        show (fsm_send_data2 (ccp_reset_comp pcb).2 H.CCP_RESETACK id data).ccp_localstate < 256
          ∧ reset_inv H (fsm_send_data2 (ccp_reset_comp pcb).2 H.CCP_RESETACK id data).ccp_localstate
        rw [e]; exact ⟨hb, hi⟩
    · rw [if_neg h1]
      by_cases h3 : code = H.CCP_RESETACK
      · rw [if_pos h3]
        by_cases h4 : (flag_set pcb.ccp_localstate H.RESET_ACK_PENDING
            && decide (id = (f.reqid : Int))) = true
        · rw [if_pos h4]
          dsimp only
          rw [reset_decomp_localstate]
          refine ⟨flag_clear_lt _ _, fun h => ?_⟩
          rw [flag_clear_or_right] at h
          cases h
        · rw [if_neg h4]; exact ⟨hb, hi⟩
      · rw [if_neg h3]; exact ⟨hb, hi⟩
  | down lcp_fsm =>
    have e : (ccp_down lcp_fsm pcb).ccp_localstate = 0 := by
      unfold ccp_down ccp_set lcp_close
      dsimp only
      split_ifs <;> rfl
    show (ccp_down lcp_fsm pcb).ccp_localstate < 256
      ∧ reset_inv H (ccp_down lcp_fsm pcb).ccp_localstate
    rw [e]
    refine ⟨by decide, fun h => ?_⟩
    simp [flag_set] at h

theorem reset_events_inv (H : CcpHeader) (send_ok : Int → Int → List Nat → Bool) :
    ∀ (es : List ResetEvent) (pcb : PppPcb),
      pcb.ccp_localstate < 256 → reset_inv H pcb.ccp_localstate →
      (∀ f, ResetEvent.timeout f ∈ es → f.state = PPP_FSM_OPENED) →
      (reset_events H send_ok pcb es).ccp_localstate < 256
      ∧ reset_inv H (reset_events H send_ok pcb es).ccp_localstate := by
  intro es
  induction es with
  | nil => intro pcb hb hi _; exact ⟨hb, hi⟩
  | cons e rest ih =>
    intro pcb hb hi ht
    obtain ⟨a, b⟩ := reset_event_inv H send_ok pcb e hb hi
      (fun f hf => ht f (by rw [hf]; exact List.mem_cons_self _ _))
    exact ih (reset_event H send_ok pcb e) a b (fun f hf => ht f (List.mem_cons_of_mem _ hf))

/-- C39, what the code keeps: in every state reached from `ccp_localstate` = 0
by calls of `ccp_reset_request`, `ccp_extcode` (any code, any id) and
`ccp_down` on arbitrary FSM states, and of `ccp_rack_timeout` on an OPENED
FSM, `REPEAT_RESET_REQ` is set only if `RESET_ACK_PENDING` is set. -/
theorem reset_handshake_invariant (H : CcpHeader) (send_ok : Int → Int → List Nat → Bool)
    (pcb : PppPcb) (es : List ResetEvent) (h0 : pcb.ccp_localstate = 0)
    (ht : ∀ f, ResetEvent.timeout f ∈ es → f.state = PPP_FSM_OPENED) :
    reset_inv H (reset_events H send_ok pcb es).ccp_localstate :=
  (reset_events_inv H send_ok es pcb (by rw [h0]; decide)
    (fun h => by rw [h0] at h; simp [flag_set] at h) ht).2

theorem reset_handshake_invariant_witness :
    reset_inv pppd_header (reset_events pppd_header (fun _ _ _ => true) {}
      [ResetEvent.request fsm_opened, ResetEvent.request fsm_opened,
        ResetEvent.timeout fsm_opened, ResetEvent.extcode fsm_reqsent 15 5 [],
        ResetEvent.down fsm_reqsent]).ccp_localstate :=
  reset_handshake_invariant pppd_header (fun _ _ _ => true) {}
    [ResetEvent.request fsm_opened, ResetEvent.request fsm_opened,
      ResetEvent.timeout fsm_opened, ResetEvent.extcode fsm_reqsent 15 5 [],
      ResetEvent.down fsm_reqsent] rfl (by intro f hf; simp at hf; rw [hf]; rfl)

/-- C39 as stated fails: two calls of `ccp_reset_request` on an OPENED FSM set
`RESET_ACK_PENDING` and then `REPEAT_RESET_REQ`; `ccp_rack_timeout` on an FSM
that is not OPENED then clears `RESET_ACK_PENDING` only, and
`REPEAT_RESET_REQ` is left set alone. -/
theorem reset_handshake_counterexample :
    (reset_events pppd_header (fun _ _ _ => true) {}
      [ResetEvent.request fsm_opened, ResetEvent.request fsm_opened,
        ResetEvent.timeout fsm_reqsent]).ccp_localstate = 2
    ∧ flag_set 2 pppd_header.REPEAT_RESET_REQ = true
    ∧ flag_set 2 pppd_header.RESET_ACK_PENDING = false
    ∧ ¬ reset_inv pppd_header (reset_events pppd_header (fun _ _ _ => true) {}
      [ResetEvent.request fsm_opened, ResetEvent.request fsm_opened,
        ResetEvent.timeout fsm_reqsent]).ccp_localstate := by
  decide

/-! ## The probe loops of ccp_resetci -/

theorem toNat_fuel (a b : Int) : (a - b + 1).toNat + 1 ≤ (a - b).toNat + 2 := by
  by_cases h : 0 ≤ a - b
  · have e1 := Int.toNat_of_nonneg h
    have e2 : ((a - b + 1).toNat : Int) = a - b + 1 := Int.toNat_of_nonneg (by omega)
    omega
  · have e2 : (a - b + 1).toNat = 0 := Int.toNat_eq_zero.2 (by omega)
    omega

/-- The BSD-Compress probe loop on a scratch buffer of at least three bytes
ends; it only lowers `bsd_bits` and may switch `bsd_compress` off, and it
leaves `bsd_compress` on only after a probe that succeeded at a width not
below `BSD_MIN_BITS`. -/
theorem resetci_bsd_loop_spec (H : CcpHeader) (ccp_test : List Nat → Bool → Int) :
    ∀ (fuel : Nat) (go : CcpOptions) (opt_buf : List Nat),
      3 ≤ opt_buf.length → (go.bsd_bits - H.BSD_MIN_BITS + 1).toNat + 1 ≤ fuel →
      ∃ go2 buf2, resetci_bsd_loop H ccp_test fuel go opt_buf = some (go2, buf2)
        ∧ buf2.length = opt_buf.length
        ∧ go2 = { go with bsd_compress := go2.bsd_compress, bsd_bits := go2.bsd_bits }
        ∧ go2.bsd_bits ≤ go.bsd_bits
        ∧ (go2.bsd_compress = true →
            go.bsd_compress = true ∧ H.BSD_MIN_BITS ≤ go2.bsd_bits) := by
  intro fuel
  induction fuel with
  | zero => intro go opt_buf _ h; omega
  | succ n ih =>
    intro go opt_buf hb hf
    rw [resetci_bsd_loop]
    by_cases hmin : go.bsd_bits < H.BSD_MIN_BITS
    · rw [if_pos hmin]
      exact ⟨_, _, rfl, rfl, rfl, le_refl _, fun h => by cases h⟩
    · rw [if_neg hmin, wr_some _ (by omega)]
      simp only [Option.some_bind]
      by_cases h1 : ccp_test ((opt_buf.set 2 (to_u8 (Int.lor 32 go.bsd_bits))).take 3) false > 0
      · rw [if_pos h1]
        exact ⟨_, _, rfl, by simp, rfl, le_refl _, fun h => ⟨h, by omega⟩⟩
      · rw [if_neg h1]
        by_cases h2 : ccp_test ((opt_buf.set 2 (to_u8 (Int.lor 32 go.bsd_bits))).take 3) false < 0
        · rw [if_pos h2]
          exact ⟨_, _, rfl, by simp, rfl, le_refl _, fun h => by cases h⟩
        · rw [if_neg h2]
          have hfuel : (go.bsd_bits - 1 - H.BSD_MIN_BITS + 1).toNat + 1 ≤ n := by
            have e1 : ((go.bsd_bits - H.BSD_MIN_BITS + 1).toNat : Int) = go.bsd_bits - H.BSD_MIN_BITS + 1 :=
              Int.toNat_of_nonneg (by omega)
            have e2 : ((go.bsd_bits - 1 - H.BSD_MIN_BITS + 1).toNat : Int)
                = go.bsd_bits - 1 - H.BSD_MIN_BITS + 1 := Int.toNat_of_nonneg (by omega)
            omega
          obtain ⟨go2, buf2, a1, a2, a3, a4, a5⟩ := ih { go with bsd_bits := go.bsd_bits - 1 }
            (opt_buf.set 2 (to_u8 (Int.lor 32 go.bsd_bits)))
            (by rw [List.length_set]; exact hb) hfuel
          refine ⟨go2, buf2, a1, by rw [a2]; simp, ?_, ?_, a5⟩
          · rw [a3]
          · have : go2.bsd_bits ≤ go.bsd_bits - 1 := a4
            omega

theorem resetci_bsd_spec (H : CcpHeader) (ccp_test : List Nat → Bool → Int) (go : CcpOptions)
    (opt_buf : List Nat) (hb : 3 ≤ opt_buf.length) :
    ∃ go2 buf2, resetci_bsd H ccp_test go opt_buf = some (go2, buf2)
      ∧ buf2.length = opt_buf.length
      ∧ go2 = { go with bsd_compress := go2.bsd_compress, bsd_bits := go2.bsd_bits }
      ∧ go2.bsd_bits ≤ go.bsd_bits
      ∧ (go2.bsd_compress = true → H.BSD_MIN_BITS ≤ go2.bsd_bits) := by
  unfold resetci_bsd
  by_cases hc : go.bsd_compress = true
  · rw [if_pos hc, wr_some _ (by omega)]
    simp only [Option.some_bind]
    rw [wr_some _ (by simp; omega)]
    simp only [Option.some_bind]
    obtain ⟨go2, buf2, a1, a2, a3, a4, a5⟩ := resetci_bsd_loop_spec H ccp_test
      ((go.bsd_bits - H.BSD_MIN_BITS).toNat + 2) go
      ((opt_buf.set 0 CI_BSD_COMPRESS).set 1 CILEN_BSD_COMPRESS) (by simp; omega)
      (toNat_fuel _ _)
    exact ⟨go2, buf2, a1, by rw [a2]; simp, a3, a4, fun h => (a5 h).2⟩
  · rw [if_neg hc]
    exact ⟨go, opt_buf, rfl, rfl, rfl, le_refl _, fun h => absurd h hc⟩

/-- The Deflate probe loop for the RFC code on a scratch buffer of at least
three bytes ends; it only lowers `deflate_size`, by steps of one and not below
`DEFLATE_MIN_WORKS - 1`, and may switch `deflate_correct` off; it leaves
`deflate_correct` on only after a probe that succeeded at a size not below
`DEFLATE_MIN_WORKS`. -/
theorem resetci_correct_loop_spec (H : CcpHeader) (ccp_test : List Nat → Bool → Int) :
    ∀ (fuel : Nat) (go : CcpOptions) (opt_buf : List Nat),
      3 ≤ opt_buf.length → (go.deflate_size - H.DEFLATE_MIN_WORKS + 1).toNat + 1 ≤ fuel →
      ∃ go2 buf2, resetci_deflate_loop H ccp_test false fuel go opt_buf = some (go2, buf2)
        ∧ buf2.length = opt_buf.length
        ∧ go2 = { go with deflate_size := go2.deflate_size, deflate_correct := go2.deflate_correct }
        ∧ go2.deflate_size ≤ go.deflate_size
        ∧ (H.DEFLATE_MIN_WORKS ≤ go.deflate_size → H.DEFLATE_MIN_WORKS - 1 ≤ go2.deflate_size)
        ∧ (go.deflate_size < H.DEFLATE_MIN_WORKS → go2.deflate_size = go.deflate_size)
        ∧ (go2.deflate_correct = true →
            go.deflate_correct = true ∧ H.DEFLATE_MIN_WORKS ≤ go2.deflate_size) := by
  intro fuel
  induction fuel with
  | zero => intro go opt_buf _ h; omega
  | succ n ih =>
    intro go opt_buf hb hf
    rw [resetci_deflate_loop]
    by_cases hmin : go.deflate_size < H.DEFLATE_MIN_WORKS
    · rw [if_pos hmin]
      refine ⟨_, _, rfl, rfl, rfl, le_refl _, fun h => ?_, fun _ => rfl, fun h => by cases h⟩
      omega
    · rw [if_neg hmin, wr_some _ (by omega)]
      simp only [Option.some_bind]
      by_cases h1 : ccp_test ((opt_buf.set 2
          (to_u8 (H.DEFLATE_MAKE_OPT go.deflate_size))).take CILEN_DEFLATE) false > 0
      · rw [if_pos h1]
        exact ⟨_, _, rfl, by simp, rfl, le_refl _, fun _ => by omega, fun _ => rfl,
          fun h => ⟨h, by omega⟩⟩
      · rw [if_neg h1]
        by_cases h2 : ccp_test ((opt_buf.set 2
            (to_u8 (H.DEFLATE_MAKE_OPT go.deflate_size))).take CILEN_DEFLATE) false < 0
        · rw [if_pos h2]
          refine ⟨_, _, rfl, by simp, rfl, le_refl _, fun h => ?_, fun _ => rfl,
            fun h => by cases h⟩
          show H.DEFLATE_MIN_WORKS - 1 ≤ go.deflate_size
          omega
        · rw [if_neg h2]
          have hfuel : (go.deflate_size - 1 - H.DEFLATE_MIN_WORKS + 1).toNat + 1 ≤ n := by
            have e1 : ((go.deflate_size - H.DEFLATE_MIN_WORKS + 1).toNat : Int) = go.deflate_size - H.DEFLATE_MIN_WORKS + 1 :=
              Int.toNat_of_nonneg (by omega)
            have e2 : ((go.deflate_size - 1 - H.DEFLATE_MIN_WORKS + 1).toNat : Int)
                = go.deflate_size - 1 - H.DEFLATE_MIN_WORKS + 1 := Int.toNat_of_nonneg (by omega)
            omega
          obtain ⟨go2, buf2, a1, a2, a3, a4, a5, a6, a7⟩ := ih
            { go with deflate_size := go.deflate_size - 1 }
            (opt_buf.set 2 (to_u8 (H.DEFLATE_MAKE_OPT go.deflate_size)))
            (by rw [List.length_set]; exact hb) hfuel
          have a4b : go2.deflate_size ≤ go.deflate_size - 1 := a4
          refine ⟨go2, buf2, a1, by rw [a2]; simp, by rw [a3], by omega, fun _ => ?_,
            fun h => absurd h hmin, fun h => ⟨(a7 h).1, (a7 h).2⟩⟩
          by_cases hm : H.DEFLATE_MIN_WORKS ≤ go.deflate_size - 1
          · exact a5 hm
          · have := a6 (by show go.deflate_size - 1 < H.DEFLATE_MIN_WORKS; omega)
            rw [this]
            show H.DEFLATE_MIN_WORKS - 1 ≤ go.deflate_size - 1
            omega

/-- The Deflate probe loop for the draft code on a scratch buffer of at least
three bytes ends; it only lowers `deflate_size`, by steps of one and not below
`DEFLATE_MIN_WORKS - 1`, and may switch `deflate_draft` off; it leaves
`deflate_draft` on only after a probe that succeeded at a size not below
`DEFLATE_MIN_WORKS`. -/
theorem resetci_draft_loop_spec (H : CcpHeader) (ccp_test : List Nat → Bool → Int) :
    ∀ (fuel : Nat) (go : CcpOptions) (opt_buf : List Nat),
      3 ≤ opt_buf.length → (go.deflate_size - H.DEFLATE_MIN_WORKS + 1).toNat + 1 ≤ fuel →
      ∃ go2 buf2, resetci_deflate_loop H ccp_test true fuel go opt_buf = some (go2, buf2)
        ∧ buf2.length = opt_buf.length
        ∧ go2 = { go with deflate_size := go2.deflate_size, deflate_draft := go2.deflate_draft }
        ∧ go2.deflate_size ≤ go.deflate_size
        ∧ (H.DEFLATE_MIN_WORKS ≤ go.deflate_size → H.DEFLATE_MIN_WORKS - 1 ≤ go2.deflate_size)
        ∧ (go.deflate_size < H.DEFLATE_MIN_WORKS → go2.deflate_size = go.deflate_size)
        ∧ (go2.deflate_draft = true →
            go.deflate_draft = true ∧ H.DEFLATE_MIN_WORKS ≤ go2.deflate_size) := by
  intro fuel
  induction fuel with
  | zero => intro go opt_buf _ h; omega
  | succ n ih =>
    intro go opt_buf hb hf
    rw [resetci_deflate_loop]
    by_cases hmin : go.deflate_size < H.DEFLATE_MIN_WORKS
    · rw [if_pos hmin]
      refine ⟨_, _, rfl, rfl, rfl, le_refl _, fun h => ?_, fun _ => rfl, fun h => by cases h⟩
      omega
    · rw [if_neg hmin, wr_some _ (by omega)]
      simp only [Option.some_bind]
      by_cases h1 : ccp_test ((opt_buf.set 2
          (to_u8 (H.DEFLATE_MAKE_OPT go.deflate_size))).take CILEN_DEFLATE) false > 0
      · rw [if_pos h1]
        exact ⟨_, _, rfl, by simp, rfl, le_refl _, fun _ => by omega, fun _ => rfl,
          fun h => ⟨h, by omega⟩⟩
      · rw [if_neg h1]
        by_cases h2 : ccp_test ((opt_buf.set 2
            (to_u8 (H.DEFLATE_MAKE_OPT go.deflate_size))).take CILEN_DEFLATE) false < 0
        · rw [if_pos h2]
          refine ⟨_, _, rfl, by simp, rfl, le_refl _, fun h => ?_, fun _ => rfl,
            fun h => by cases h⟩
          show H.DEFLATE_MIN_WORKS - 1 ≤ go.deflate_size
          omega
        · rw [if_neg h2]
          have hfuel : (go.deflate_size - 1 - H.DEFLATE_MIN_WORKS + 1).toNat + 1 ≤ n := by
            have e1 : ((go.deflate_size - H.DEFLATE_MIN_WORKS + 1).toNat : Int) = go.deflate_size - H.DEFLATE_MIN_WORKS + 1 :=
              Int.toNat_of_nonneg (by omega)
            have e2 : ((go.deflate_size - 1 - H.DEFLATE_MIN_WORKS + 1).toNat : Int)
                = go.deflate_size - 1 - H.DEFLATE_MIN_WORKS + 1 := Int.toNat_of_nonneg (by omega)
            omega
          obtain ⟨go2, buf2, a1, a2, a3, a4, a5, a6, a7⟩ := ih
            { go with deflate_size := go.deflate_size - 1 }
            (opt_buf.set 2 (to_u8 (H.DEFLATE_MAKE_OPT go.deflate_size)))
            (by rw [List.length_set]; exact hb) hfuel
          have a4b : go2.deflate_size ≤ go.deflate_size - 1 := a4
          refine ⟨go2, buf2, a1, by rw [a2]; simp, by rw [a3], by omega, fun _ => ?_,
            fun h => absurd h hmin, fun h => ⟨(a7 h).1, (a7 h).2⟩⟩
          by_cases hm : H.DEFLATE_MIN_WORKS ≤ go.deflate_size - 1
          · exact a5 hm
          · have := a6 (by show go.deflate_size - 1 < H.DEFLATE_MIN_WORKS; omega)
            rw [this]
            show H.DEFLATE_MIN_WORKS - 1 ≤ go.deflate_size - 1
            omega

theorem resetci_correct_probe_spec (H : CcpHeader) (ccp_test : List Nat → Bool → Int)
    (go : CcpOptions) (opt_buf : List Nat) (hb : 4 ≤ opt_buf.length) :
    ∃ go2 buf2, resetci_deflate_probe H ccp_test false go opt_buf = some (go2, buf2)
      ∧ buf2.length = opt_buf.length
      ∧ go2 = { go with deflate_size := go2.deflate_size, deflate_correct := go2.deflate_correct }
      ∧ go2.deflate_size ≤ go.deflate_size
      ∧ (go2.deflate_correct = true → H.DEFLATE_MIN_WORKS ≤ go2.deflate_size) := by
  unfold resetci_deflate_probe
  rw [wr_some _ (by omega)]
  simp only [Option.some_bind]
  rw [wr_some _ (by simp; omega)]
  simp only [Option.some_bind]
  rw [wr_some _ (by simp; omega)]
  simp only [Option.some_bind]
  obtain ⟨go2, buf2, a1, a2, a3, a4, -, -, a7⟩ := resetci_correct_loop_spec H ccp_test
    ((go.deflate_size - H.DEFLATE_MIN_WORKS).toNat + 2) go
    (((opt_buf.set 0 (if false = true then CI_DEFLATE_DRAFT else CI_DEFLATE)).set 1
      CILEN_DEFLATE).set 3 (to_u8 H.DEFLATE_CHK_SEQUENCE)) (by simp; omega) (toNat_fuel _ _)
  exact ⟨go2, buf2, a1, by rw [a2]; simp, a3, a4, fun h => (a7 h).2⟩

theorem resetci_draft_probe_spec (H : CcpHeader) (ccp_test : List Nat → Bool → Int)
    (go : CcpOptions) (opt_buf : List Nat) (hb : 4 ≤ opt_buf.length) :
    ∃ go2 buf2, resetci_deflate_probe H ccp_test true go opt_buf = some (go2, buf2)
      ∧ buf2.length = opt_buf.length
      ∧ go2 = { go with deflate_size := go2.deflate_size, deflate_draft := go2.deflate_draft }
      ∧ go2.deflate_size ≤ go.deflate_size
      ∧ (H.DEFLATE_MIN_WORKS ≤ go.deflate_size → H.DEFLATE_MIN_WORKS - 1 ≤ go2.deflate_size)
      ∧ (go2.deflate_draft = true → H.DEFLATE_MIN_WORKS ≤ go2.deflate_size) := by
  unfold resetci_deflate_probe
  rw [wr_some _ (by omega)]
  simp only [Option.some_bind]
  rw [wr_some _ (by simp; omega)]
  simp only [Option.some_bind]
  rw [wr_some _ (by simp; omega)]
  simp only [Option.some_bind]
  obtain ⟨go2, buf2, a1, a2, a3, a4, a5, -, a7⟩ := resetci_draft_loop_spec H ccp_test
    ((go.deflate_size - H.DEFLATE_MIN_WORKS).toNat + 2) go
    (((opt_buf.set 0 (if true = true then CI_DEFLATE_DRAFT else CI_DEFLATE)).set 1
      CILEN_DEFLATE).set 3 (to_u8 H.DEFLATE_CHK_SEQUENCE)) (by simp; omega) (toNat_fuel _ _)
  exact ⟨go2, buf2, a1, by rw [a2]; simp, a3, a4, a5, fun h => (a7 h).2⟩

/-- The Deflate block of `ccp_resetci` on a scratch buffer of at least four
bytes ends; it leaves the BSD-Compress and Predictor fields alone and never
raises `deflate_size`.  When Deflate is still on afterwards, `deflate_size` is
at least `DEFLATE_MIN_WORKS - 1`, and at least `DEFLATE_MIN_WORKS` when the
draft variant is still on or was not asked for. -/
theorem resetci_deflate_spec (H : CcpHeader) (ccp_test : List Nat → Bool → Int)
    (go : CcpOptions) (opt_buf : List Nat) (hb : 4 ≤ opt_buf.length) :
    ∃ go2 buf2, resetci_deflate H ccp_test go opt_buf = some (go2, buf2)
      ∧ buf2.length = opt_buf.length
      ∧ go2.bsd_compress = go.bsd_compress ∧ go2.bsd_bits = go.bsd_bits
      ∧ go2.predictor_1 = go.predictor_1 ∧ go2.predictor_2 = go.predictor_2
      ∧ go2.deflate_size ≤ go.deflate_size
      ∧ (go2.deflate = true → H.DEFLATE_MIN_WORKS - 1 ≤ go2.deflate_size)
      ∧ (go2.deflate = true → (go2.deflate_draft = true ∨ go.deflate_draft = false) →
          H.DEFLATE_MIN_WORKS ≤ go2.deflate_size) := by
  unfold resetci_deflate
  by_cases hd : go.deflate = true
  swap
  · rw [if_neg hd]
    exact ⟨go, opt_buf, rfl, rfl, rfl, rfl, rfl, rfl, le_refl _, fun h => absurd h hd,
      fun h => absurd h hd⟩
  rw [if_pos hd]
  -- the RFC probe
  obtain ⟨g1, b1, e1, l1, s1, le1, c1, d1⟩ : ∃ g1 b1,
      (if go.deflate_correct = true then resetci_deflate_probe H ccp_test false go opt_buf
        else some (go, opt_buf)) = some (g1, b1)
      ∧ b1.length = opt_buf.length
      ∧ g1 = { go with deflate_size := g1.deflate_size, deflate_correct := g1.deflate_correct }
      ∧ g1.deflate_size ≤ go.deflate_size
      ∧ (g1.deflate_correct = true → H.DEFLATE_MIN_WORKS ≤ g1.deflate_size)
      ∧ g1.deflate_draft = go.deflate_draft := by
    by_cases hc : go.deflate_correct = true
    · rw [if_pos hc]
      obtain ⟨g1, b1, a1, a2, a3, a4, a5⟩ := resetci_correct_probe_spec H ccp_test go opt_buf hb
      exact ⟨g1, b1, a1, a2, a3, a4, a5, by rw [a3]⟩
    · rw [if_neg hc]
      exact ⟨go, opt_buf, rfl, rfl, rfl, le_refl _, fun h => absurd h hc, rfl⟩
  rw [e1]
  simp only [Option.some_bind]
  -- the draft probe
  obtain ⟨g2, b2, e2, l2, s2, le2, c2, d2, k2⟩ : ∃ g2 b2,
      (if g1.deflate_draft = true then resetci_deflate_probe H ccp_test true g1 b1
        else some (g1, b1)) = some (g2, b2)
      ∧ b2.length = opt_buf.length
      ∧ g2 = { g1 with deflate_size := g2.deflate_size, deflate_draft := g2.deflate_draft }
      ∧ g2.deflate_size ≤ g1.deflate_size
      ∧ (H.DEFLATE_MIN_WORKS ≤ g1.deflate_size → H.DEFLATE_MIN_WORKS - 1 ≤ g2.deflate_size)
      ∧ (g2.deflate_draft = true → H.DEFLATE_MIN_WORKS ≤ g2.deflate_size)
      ∧ (g1.deflate_draft = false → g2.deflate_size = g1.deflate_size) := by
    by_cases hc : g1.deflate_draft = true
    · rw [if_pos hc]
      obtain ⟨g2, b2, a1, a2, a3, a4, a5, a6⟩ := resetci_draft_probe_spec H ccp_test g1 b1
        (by omega)
      exact ⟨g2, b2, a1, by rw [a2, l1], a3, a4, a5, a6, fun h => by rw [hc] at h; cases h⟩
    · rw [if_neg hc]
      exact ⟨g1, b1, rfl, l1, rfl, le_refl _, fun h => by omega, fun h => absurd h hc,
        fun _ => rfl⟩
  rw [e2]
  simp only [Option.some_bind]
  have hcor : g2.deflate_correct = g1.deflate_correct := by rw [s2]
  have hfields : g2.bsd_compress = go.bsd_compress ∧ g2.bsd_bits = go.bsd_bits
      ∧ g2.predictor_1 = go.predictor_1 ∧ g2.predictor_2 = go.predictor_2 := by
    rw [s2, s1]; exact ⟨rfl, rfl, rfl, rfl⟩
  have hlow : (g2.deflate_correct = true ∨ g2.deflate_draft = true) →
      H.DEFLATE_MIN_WORKS - 1 ≤ g2.deflate_size := by
    rintro (h | h)
    · exact c2 (c1 (by rw [← hcor]; exact h))
    · have := d2 h; omega
  have hmin : (g2.deflate_correct = true ∨ g2.deflate_draft = true) →
      (g2.deflate_draft = true ∨ go.deflate_draft = false) →
      H.DEFLATE_MIN_WORKS ≤ g2.deflate_size := by
    rintro h (h2 | h2)
    · exact d2 h2
    · have hg1 : g1.deflate_draft = false := by rw [d1]; exact h2
      rw [k2 hg1]
      rcases h with h | h
      · exact c1 (by rw [← hcor]; exact h)
      · have : g2.deflate_draft = g1.deflate_draft := by
          have := d2 h
          by_contra hne
          -- the draft flag can only be on after the draft probe, which did not run
          rw [hg1] at hne
          exact absurd h (by
            intro hh
            have e : (if g1.deflate_draft = true then resetci_deflate_probe H ccp_test true g1 b1
                else some (g1, b1)) = some (g1, b1) := by rw [if_neg (by simp [hg1])]
            rw [e] at e2
            simp only [Option.some.injEq, Prod.mk.injEq] at e2
            rw [← e2.1, hg1] at hh
            cases hh)
        rw [this, hg1] at h
        cases h
  by_cases hoff : (!g2.deflate_correct && !g2.deflate_draft) = true
  · rw [if_pos hoff]
    refine ⟨_, _, rfl, l2, hfields.1, hfields.2.1, hfields.2.2.1, hfields.2.2.2,
      le_trans le2 le1, ?_, ?_⟩
    · intro h; cases h
    · intro h; cases h
  · rw [if_neg hoff]
    have hon : g2.deflate_correct = true ∨ g2.deflate_draft = true := by
      by_contra hn
      push_neg at hn
      apply hoff
      simp only [Bool.and_eq_true, Bool.not_eq_true']
      exact ⟨by simpa using hn.1, by simpa using hn.2⟩
    exact ⟨_, _, rfl, l2, hfields.1, hfields.2.1, hfields.2.2.1, hfields.2.2.2,
      le_trans le2 le1, fun _ => hlow hon, fun _ h => hmin hon h⟩

theorem resetci_predictor_spec (ccp_test : List Nat → Bool → Int) (go : CcpOptions)
    (opt_buf : List Nat) (hb : 2 ≤ opt_buf.length) :
    ∃ go2 buf2, resetci_predictor ccp_test go opt_buf = some (go2, buf2)
      ∧ go2 = { go with predictor_1 := go2.predictor_1, predictor_2 := go2.predictor_2 } := by
  unfold resetci_predictor
  obtain ⟨g1, b1, e1, l1, s1⟩ : ∃ g1 b1,
      (if go.predictor_1 = true then
        (wr opt_buf 0 CI_PREDICTOR_1).bind fun opt_buf =>
        (wr opt_buf 1 CILEN_PREDICTOR_1).bind fun opt_buf =>
        if ccp_test (opt_buf.take CILEN_PREDICTOR_1) false ≤ 0 then
          some ({ go with predictor_1 := false }, opt_buf)
        else some (go, opt_buf)
      else some (go, opt_buf)) = some (g1, b1)
      ∧ b1.length = opt_buf.length
      ∧ g1 = { go with predictor_1 := g1.predictor_1 } := by
    by_cases hp : go.predictor_1 = true
    · rw [if_pos hp, wr_some _ (by omega)]
      simp only [Option.some_bind]
      rw [wr_some _ (by simp; omega)]
      simp only [Option.some_bind]
      split_ifs
      · exact ⟨_, _, rfl, by simp, rfl⟩
      · exact ⟨_, _, rfl, by simp, rfl⟩
    · rw [if_neg hp]
      exact ⟨_, _, rfl, rfl, rfl⟩
  rw [e1]
  simp only [Option.some_bind]
  by_cases hp : g1.predictor_2 = true
  · rw [if_pos hp, wr_some _ (by omega)]
    simp only [Option.some_bind]
    rw [wr_some _ (by simp; omega)]
    simp only [Option.some_bind]
    split_ifs
    · exact ⟨_, _, rfl, by rw [s1]⟩
    · exact ⟨_, _, rfl, by rw [s1]⟩
  · rw [if_neg hp]
    exact ⟨_, _, rfl, by rw [s1]⟩

theorem resetci_force_sizes (pcb : PppPcb) :
    (resetci_force pcb).ccp_gotoptions.deflate_size = pcb.ccp_wantoptions.deflate_size
    ∧ (resetci_force pcb).ccp_gotoptions.bsd_bits = pcb.ccp_wantoptions.bsd_bits
    ∧ (resetci_force pcb).ccp_gotoptions.deflate_draft = pcb.ccp_wantoptions.deflate_draft := by
  unfold resetci_force
  dsimp only
  split_ifs <;> exact ⟨rfl, rfl, rfl⟩

/-- The probe blocks of `ccp_resetci` taken by themselves, on a scratch buffer
`opt_buf` of at least four bytes given as a parameter (`ccp_resetci` itself
runs them on the empty vector, see `ccp_resetci_empty_scratch`).  For every
probe and every `want` without MPPE they return true; if BSD-Compress is
still on in `got`, `BSD_MIN_BITS <= got.bsd_bits <= want.bsd_bits`; if Deflate
is still on, `DEFLATE_MIN_WORKS - 1 <= got.deflate_size <= want.deflate_size`,
and `DEFLATE_MIN_WORKS <= got.deflate_size` when the draft variant is still on
or was not asked for. -/
theorem resetci_probe_bounds (H : CcpHeader) (lcp_close_ret : PppPcb → String → Bool)
    (ccp_test : List Nat → Bool → Int) (pcb : PppPcb) (opt_buf : List Nat)
    (hb : 4 ≤ opt_buf.length)
    (hm : H.mppe_has_options (resetci_force pcb).ccp_gotoptions.mppe = false) :
    ∃ r, (resetci_mppe H lcp_close_ret (resetci_force pcb)).bind
        (resetci_tail H ccp_test opt_buf) = some (true, r)
      ∧ (r.ccp_gotoptions.bsd_compress = true →
          H.BSD_MIN_BITS ≤ r.ccp_gotoptions.bsd_bits
          ∧ r.ccp_gotoptions.bsd_bits ≤ pcb.ccp_wantoptions.bsd_bits)
      ∧ (r.ccp_gotoptions.deflate = true →
          H.DEFLATE_MIN_WORKS - 1 ≤ r.ccp_gotoptions.deflate_size
          ∧ r.ccp_gotoptions.deflate_size ≤ pcb.ccp_wantoptions.deflate_size)
      ∧ (r.ccp_gotoptions.deflate = true →
          (r.ccp_gotoptions.deflate_draft = true ∨ pcb.ccp_wantoptions.deflate_draft = false) →
          H.DEFLATE_MIN_WORKS ≤ r.ccp_gotoptions.deflate_size) := by
  obtain ⟨f1, f2, f3⟩ := resetci_force_sizes pcb
  have hmp : resetci_mppe H lcp_close_ret (resetci_force pcb)
      = some (ResetStep.next (resetci_force pcb)) := by
    unfold resetci_mppe
    rw [if_neg (by simp [hm])]
  rw [hmp]
  simp only [Option.some_bind]
  rw [resetci_tail]
  obtain ⟨g1, b1, a1, a2, a3, a4, a5⟩ := resetci_bsd_spec H ccp_test
    (resetci_force pcb).ccp_gotoptions opt_buf (by omega)
  rw [a1]
  simp only [Option.some_bind]
  obtain ⟨g2, b2, c1, c2, c3, c4, c5, c6, c7, c8, c9⟩ := resetci_deflate_spec H ccp_test g1 b1
    (by omega)
  rw [c1]
  simp only [Option.some_bind]
  obtain ⟨g3, b3, d1, d2⟩ := resetci_predictor_spec ccp_test g2 b2 (by omega)
  rw [d1]
  simp only [Option.some_bind]
  have hg1size : g1.deflate_size = (resetci_force pcb).ccp_gotoptions.deflate_size := by rw [a3]
  have hg1draft : g1.deflate_draft = (resetci_force pcb).ccp_gotoptions.deflate_draft := by
    rw [a3]
  have e1 : g3.bsd_compress = g1.bsd_compress := by rw [d2]; exact c3
  have e2 : g3.bsd_bits = g1.bsd_bits := by rw [d2]; exact c4
  have e3 : g3.deflate = g2.deflate := by rw [d2]
  have e4 : g3.deflate_size = g2.deflate_size := by rw [d2]
  have e5 : g3.deflate_draft = g2.deflate_draft := by rw [d2]
  refine ⟨_, rfl, ?_, ?_, ?_⟩
  · intro h
    show H.BSD_MIN_BITS ≤ g3.bsd_bits ∧ g3.bsd_bits ≤ pcb.ccp_wantoptions.bsd_bits
    have h1 : g1.bsd_compress = true := by rw [← e1]; exact h
    rw [e2, ← f2]
    exact ⟨a5 h1, a4⟩
  · intro h
    show H.DEFLATE_MIN_WORKS - 1 ≤ g3.deflate_size
      ∧ g3.deflate_size ≤ pcb.ccp_wantoptions.deflate_size
    have h1 : g2.deflate = true := by rw [← e3]; exact h
    rw [e4, ← f1, ← hg1size]
    exact ⟨c8 h1, c7⟩
  · intro h hdr
    show H.DEFLATE_MIN_WORKS ≤ g3.deflate_size
    have h1 : g2.deflate = true := by rw [← e3]; exact h
    rw [e4]
    refine c9 h1 ?_
    rcases hdr with hdr | hdr
    · left
      have : g3.deflate_draft = true := hdr
      rw [← e5]; exact this
    · right
      rw [hg1draft, f3]; exact hdr

theorem resetci_probe_bounds_witness :
    ∃ r, (resetci_mppe pppd_header (fun _ _ => true)
          (resetci_force pcb_want_bsd_deflate)).bind
        (resetci_tail pppd_header probe_rfc_only [0, 0, 0, 0]) = some (true, r)
      ∧ (r.ccp_gotoptions.deflate = true →
          pppd_header.DEFLATE_MIN_WORKS - 1 ≤ r.ccp_gotoptions.deflate_size
          ∧ r.ccp_gotoptions.deflate_size ≤ 11) := by
  obtain ⟨r, h1, -, h3, -⟩ := resetci_probe_bounds pppd_header (fun _ _ => true) probe_rfc_only
    pcb_want_bsd_deflate [0, 0, 0, 0] (by decide) (by decide)
  exact ⟨r, h1, h3⟩

/-- The probe blocks by themselves on a scratch buffer of four bytes, `want` =
both Deflate variants at size 10 and a probe that supports the RFC code at
every size and answers 0 for the draft code: the RFC probe succeeds at size
10, the draft probe then counts `deflate_size` down to 8 and switches
`deflate_draft` off. -/
theorem resetci_tail_deflate_example :
    ((resetci_mppe pppd_header (fun _ _ => true)
          (resetci_force pcb_want_deflate_both)).bind
        (resetci_tail pppd_header probe_rfc_only [0, 0, 0, 0])).map
        (fun r => (r.1, r.2.ccp_gotoptions.deflate, r.2.ccp_gotoptions.deflate_correct,
          r.2.ccp_gotoptions.deflate_draft, r.2.ccp_gotoptions.deflate_size))
      = some (true, true, true, false, 8)
    ∧ pppd_header.DEFLATE_MIN_WORKS = 9 := by
  decide

/-! ## ccp_resetci: the scratch vector -/

theorem resetci_force_wants (pcb : PppPcb) :
    (resetci_force pcb).ccp_gotoptions.bsd_compress = pcb.ccp_wantoptions.bsd_compress
    ∧ (resetci_force pcb).ccp_gotoptions.deflate = pcb.ccp_wantoptions.deflate
    ∧ (resetci_force pcb).ccp_gotoptions.deflate_correct = pcb.ccp_wantoptions.deflate_correct
    ∧ (resetci_force pcb).ccp_gotoptions.deflate_draft = pcb.ccp_wantoptions.deflate_draft
    ∧ (resetci_force pcb).ccp_gotoptions.predictor_1 = pcb.ccp_wantoptions.predictor_1
    ∧ (resetci_force pcb).ccp_gotoptions.predictor_2 = pcb.ccp_wantoptions.predictor_2 := by
  unfold resetci_force
  dsimp only
  split_ifs <;> exact ⟨rfl, rfl, rfl, rfl, rfl, rfl⟩

theorem resetci_deflate_nil_off (H : CcpHeader) (ccp_test : List Nat → Bool → Int)
    (go : CcpOptions) (r : CcpOptions × List Nat)
    (h : resetci_deflate H ccp_test go [] = some r) :
    go.deflate = false ∨ (go.deflate_correct = false ∧ go.deflate_draft = false) := by
  unfold resetci_deflate at h
  by_cases hd : go.deflate = true
  · rw [if_pos hd] at h
    by_cases hc : go.deflate_correct = true
    · rw [if_pos hc] at h
      unfold resetci_deflate_probe at h
      rw [wr_nil] at h; cases h
    · rw [if_neg hc] at h
      simp only [Option.some_bind] at h
      by_cases hdr : go.deflate_draft = true
      · rw [if_pos hdr] at h
        unfold resetci_deflate_probe at h
        rw [wr_nil] at h; cases h
      · exact Or.inr ⟨by simpa using hc, by simpa using hdr⟩
  · exact Or.inl (by simpa using hd)

/-- What `ccp_resetci` does, as written, for a `want` without MPPE: the scratch
vector is empty, so the first store of a probe record has no place to go.  The
call has no defined result as soon as BSD-Compress, a Deflate variant or a
Predictor is wanted, whatever the probe answers; otherwise no probe runs, the
call returns true and `got` is `want` with Deflate off. -/
theorem ccp_resetci_empty_scratch (H : CcpHeader) (lcp_close_ret : PppPcb → String → Bool)
    (ccp_test : List Nat → Bool → Int) (pcb : PppPcb)
    (hm : H.mppe_has_options (resetci_force pcb).ccp_gotoptions.mppe = false) :
    ((pcb.ccp_wantoptions.bsd_compress = true
        ∨ (pcb.ccp_wantoptions.deflate = true
            ∧ (pcb.ccp_wantoptions.deflate_correct = true
                ∨ pcb.ccp_wantoptions.deflate_draft = true))
        ∨ pcb.ccp_wantoptions.predictor_1 = true
        ∨ pcb.ccp_wantoptions.predictor_2 = true) →
      ccp_resetci H lcp_close_ret ccp_test pcb = none)
    ∧ ∀ r, ccp_resetci H lcp_close_ret ccp_test pcb = some r →
        r.1 = true ∧ r.2.ccp_gotoptions.deflate = false
        ∧ r.2.ccp_gotoptions.bsd_compress = false
        ∧ r.2.ccp_gotoptions.predictor_1 = false
        ∧ r.2.ccp_gotoptions.predictor_2 = false := by
  obtain ⟨f1, f2, f3, f4, f5, f6⟩ := resetci_force_wants pcb
  have hstep : resetci_mppe H lcp_close_ret (resetci_force pcb)
      = some (.next (resetci_force pcb)) := by
    unfold resetci_mppe
    rw [if_neg (by rw [hm]; simp)]
  have key : ∀ r, ccp_resetci H lcp_close_ret ccp_test pcb = some r →
      r = (true, { resetci_force pcb with
            ccp_gotoptions := { (resetci_force pcb).ccp_gotoptions with deflate := false } })
      ∧ (resetci_force pcb).ccp_gotoptions.bsd_compress = false
      ∧ (resetci_force pcb).ccp_gotoptions.predictor_1 = false
      ∧ (resetci_force pcb).ccp_gotoptions.predictor_2 = false
      ∧ ((resetci_force pcb).ccp_gotoptions.deflate = false
          ∨ ((resetci_force pcb).ccp_gotoptions.deflate_correct = false
              ∧ (resetci_force pcb).ccp_gotoptions.deflate_draft = false)) := by
    intro r h
    unfold ccp_resetci at h
    rw [hstep, Option.some_bind] at h
    obtain ⟨e, hb, hp1, hp2⟩ := resetci_tail_nil H ccp_test _ _ h
    refine ⟨e, hb, hp1, hp2, ?_⟩
    unfold resetci_tail at h
    simp only [Option.bind_eq_some] at h
    obtain ⟨r1, h1, r2, h2, -⟩ := h
    obtain ⟨e1, -⟩ := resetci_bsd_nil H ccp_test _ _ h1
    subst e1
    exact resetci_deflate_nil_off H ccp_test _ _ h2
  refine ⟨fun hw => ?_, fun r h => ?_⟩
  · cases h : ccp_resetci H lcp_close_ret ccp_test pcb with
    | none => rfl
    | some r =>
      obtain ⟨-, hb, hp1, hp2, hd⟩ := key r h
      rw [f1] at hb
      rw [f5] at hp1
      rw [f6] at hp2
      rw [f2, f3, f4] at hd
      rcases hw with hw | ⟨hw, hv⟩ | hw | hw
      · rw [hw] at hb; cases hb
      · rcases hd with hd | ⟨hc, hdr⟩
        · rw [hw] at hd; cases hd
        · rcases hv with hv | hv
          · rw [hv] at hc; cases hc
          · rw [hv] at hdr; cases hdr
      · rw [hw] at hp1; cases hp1
      · rw [hw] at hp2; cases hp2
  · obtain ⟨e, hb, hp1, hp2, -⟩ := key r h
    subst e
    exact ⟨rfl, rfl, hb, hp1, hp2⟩

/-- C36, where the code departs from it: `ccp_resetci` declares its scratch
vector `opt_buf` empty (ccp.cpp 229) and stores the probe record into
`opt_buf[0]` before the first probe (ccp.cpp 326 for BSD-Compress, 357 and 383
for Deflate).  With a `want` without MPPE that has both Deflate variants at
window size 10, or BSD-Compress at 12 bits and Deflate at size 11, the call has
no defined result, whether the probe supports only the RFC Deflate code or
supports everything: there is no `got` after the call for the bounds of the
claim to hold in. -/
theorem resetci_probe_no_result :
    pppd_header.mppe_has_options pcb_want_deflate_both.ccp_wantoptions.mppe = false
    ∧ pppd_header.mppe_has_options pcb_want_bsd_deflate.ccp_wantoptions.mppe = false
    ∧ ccp_resetci pppd_header (fun _ _ => true) probe_rfc_only pcb_want_deflate_both = none
    ∧ ccp_resetci pppd_header (fun _ _ => true) (fun _ _ => 1) pcb_want_deflate_both = none
    ∧ ccp_resetci pppd_header (fun _ _ => true) probe_rfc_only pcb_want_bsd_deflate = none
    ∧ ccp_resetci pppd_header (fun _ _ => true) (fun _ _ => 1) pcb_want_bsd_deflate = none := by
  decide
